import Mathlib

/-!
# rsyslog KSI signature reader (`runtime/librsksi_read.c`): TLV codec and object decoders

A shallow embedding of the TLV codec of `librsksi_read.c` and proofs about it.

Modelling conventions

* An octet is `Byte = Fin 256`.  C `int` values that hold an octet or a small
  non-negative quantity are `Nat`; a store into a `uint8_t`/`uint16_t`/`uint64_t`
  object is an explicit `% 2^w`.
* A `FILE*` opened for reading is `FILE`: the octets of the file, the file
  position and the end-of-file indicator.  The file is a finite octet sequence;
  device read errors are outside the model, so `fgetc` yields `EOF` only at the
  end of the data (and then sets the end-of-file indicator).  Reads go by the
  position; in every stream state reached by reads and seeks the indicator is
  set only at the end of the data, where this agrees with ISO C.  `fread` of a
  zero-size item transfers no item and returns 0, as ISO C specifies.
* A `FILE*` opened for writing is `OFILE`: the octets written so far and the
  room left on the device; `fputc`/`fwrite` fail once the room is used up.
* Memory buffers (`rec->data`, `imp->data`) are lists of octets; reading an
  octet beyond the list yields 0 (the C value is indeterminate there).
  `malloc`/`calloc` always succeed.
* Out-parameters and in/out parameters are returned next to the return code.
* Debug output (`printf`) is not modelled.
* The heap is not modelled: a call of `free` or `rsksi_objfree` on the object
  that was allocated for it has no effect here.  Where the code frees a pointer
  that it must not free, the call does not return and the outcome is
  `rsgte.aborted` (`rsksi_tlvDecodeHASH_STEP`, `verifyBLOCK_SIGKSI`).  A failed
  `assert` and the dereference of a `NULL` pointer are the result `none` of the
  functions that return an `Option`.
-/

namespace Rsksi

/-- One octet. -/
abbrev Byte := Fin 256

/-- Conversion of a C integer to `unsigned char` / `uint8_t`. -/
def toByte (n : Nat) : Byte := ⟨n % 256, Nat.mod_lt n (by decide)⟩

/-- Modelled from the spec: the return codes `RSGTE_*` are macros of a header
(`librsgt_common.h`) that is not among the sources; section 7 of the spec lists
them as distinct error kinds.  `success` is the value 0 (`RSGTE_SUCCESS`),
`io` is `RSGTE_IO`, `eof` is `RSGTE_EOF` and so on.  `literal1` is the literal
value 1 with which the decoders initialise `int r = 1`; it is not 0, and which
macro (if any) has the value 1 is not visible in the sources.  `aborted` is no
return code: it marks a call that does not return, because the function hands
`free` a pointer that no allocation returned, or reads and frees an object
through a pointer to another structure type (undefined behaviour in C; the C
library ends the process when it detects it).  No caller in this file turns a
code other than 0 and `RSGTE_EOF` into another code, so the mark is handed up
to the outermost call; what is returned next to it has no meaning. -/
inductive rsgte where
  | success
  | io
  | fmt
  | invltyp
  | oom
  | len
  | eof
  | invlhdr
  | miss_rec_hash
  | miss_tree_hash
  | miss_blocksig
  | invld_reccnt
  | invld_rec_hash
  | invld_rec_hashid
  | invld_tree_hash
  | invld_tree_hashid
  | invld_signature
  | sig_extend
  | ts_createhash
  | ts_derencode
  | extract_hash
  | literal1
  | aborted
  deriving DecidableEq, Repr

/-- Modelled from the spec: `RSGT_TYPE_MASK` is a macro of the absent header
`librsgt_common.h`; the type field is the low 5 bits of the first header
octet. -/
def RSGT_TYPE_MASK : Nat := 0x1f

/-- The value the runtime variable `RSKSI_FLAG_TLV16_RUNTIME` has for the current
file format (it is declared outside this file; the functions below take its
current value as the argument `flag16`). -/
def FLAG_TLV16 : Nat := 0x80

/-! ## stdio -/

/-- A stream opened for reading. -/
structure FILE where
  content : List Byte
  pos : Nat
  eof : Bool
  deriving DecidableEq, Repr

/-- A stream opened for writing: octets written and room left. -/
structure OFILE where
  content : List Byte
  room : Nat
  deriving DecidableEq, Repr

/-- Reads `n` octets from a memory buffer; octets beyond the list read as 0. -/
def bufRead (buf : List Byte) (n : Nat) : List Byte :=
  (List.range n).map (fun i => buf.getD i 0)

/-- Stores `src` at the start of the buffer `buf` (`memcpy(buf, src, len)`). -/
def bufStore (buf src : List Byte) : List Byte :=
  src ++ buf.drop src.length

/-- Result of `fgetc`: `none` is `EOF`. -/
def fgetc (fp : FILE) : Option Nat × FILE :=
  match fp.content.get? fp.pos with
  | some b => (some b.val, { fp with pos := fp.pos + 1 })
  | none => (none, { fp with eof := true })

/-- End-of-file indicator. -/
def feof (fp : FILE) : Bool := fp.eof

/-- Models `fread(buf, size, 1, fp)`: the number of items read (0 or 1), the
octets transferred and the stream afterwards. -/
def fread1 (size : Nat) (fp : FILE) : Nat × List Byte × FILE :=
  if size = 0 then (0, [], fp)
  else
    let got := (fp.content.drop fp.pos).take size
    if got.length = size then (1, got, { fp with pos := fp.pos + size })
    else (0, got, { fp with pos := fp.pos + got.length, eof := true })

/-- Models `ftello`. -/
def ftello (fp : FILE) : Nat := fp.pos

/-- Models `fseeko(fp, p, SEEK_SET)`: sets the position, clears the
end-of-file indicator. -/
def fseeko (fp : FILE) (p : Nat) : FILE := { fp with pos := p, eof := false }

/-- Models `fputc`: `false` is `EOF`. -/
def fputc (c : Nat) (fp : OFILE) : Bool × OFILE :=
  if fp.room = 0 then (false, fp)
  else (true, { content := fp.content ++ [toByte c], room := fp.room - 1 })

/-- Models `fwrite(buf, size, 1, fp)`: the number of items written (0 or 1) and
the stream afterwards. -/
def fwrite1 (buf : List Byte) (size : Nat) (fp : OFILE) : Nat × OFILE :=
  if size = 0 then (0, fp)
  else if size ≤ fp.room then
    (1, { content := fp.content ++ bufRead buf size, room := fp.room - size })
  else (0, { content := fp.content ++ bufRead buf fp.room, room := 0 })

/-! ## Records -/

/-- The record type `tlvrecord_t` (declared in the absent header): type, length,
the four raw header octets, the length of the raw header and the data buffer. -/
structure tlvrecord_t where
  tlvtype : Nat
  tlvlen : Nat
  hdr0 : Byte
  hdr1 : Byte
  hdr2 : Byte
  hdr3 : Byte
  lenHdr : Nat
  data : List Byte
  deriving DecidableEq, Repr

/-- The raw header array `hdr[4]`. -/
def tlvrecord_t.hdr (rec : tlvrecord_t) : List Byte :=
  [rec.hdr0, rec.hdr1, rec.hdr2, rec.hdr3]

/-- A zero-initialised record. -/
def tlvrecord_t.zero : tlvrecord_t :=
  { tlvtype := 0, tlvlen := 0, hdr0 := 0, hdr1 := 0, hdr2 := 0, hdr3 := 0, lenHdr := 0, data := [] }

/-! ## Integer and header writers -/

/-- Source: `rsksi_tlvGetInt64OctetSize` (lines 212-229). -/
def rsksi_tlvGetInt64OctetSize (val0 : Nat) : Nat :=
  let val := val0 % 2 ^ 64
  if val >>> 56 ≠ 0 then 8
  else if (val >>> 48) &&& 0xff ≠ 0 then 7
  else if (val >>> 40) &&& 0xff ≠ 0 then 6
  else if (val >>> 32) &&& 0xff ≠ 0 then 5
  else if (val >>> 24) &&& 0xff ≠ 0 then 4
  else if (val >>> 16) &&& 0xff ≠ 0 then 3
  else if (val >>> 8) &&& 0xff ≠ 0 then 2
  else 1

/-- Source: `rsksi_tlvfileAddOctet` (lines 231-238).  The `int8_t` argument is
converted to `unsigned char` by `fputc`, which keeps the low 8 bits. -/
def rsksi_tlvfileAddOctet (newsigfp : OFILE) (octet : Nat) : rsgte × OFILE :=
  match fputc octet newsigfp with
  | (false, fp) => (rsgte.io, fp)
  | (true, fp) => (rsgte.success, fp)

/-- Source: `rsksi_tlvfileAddOctetString` (lines 239-247); `octet` is the
remaining part of the string, `size` the number of octets still to write. -/
def rsksi_tlvfileAddOctetString (newsigfp : OFILE) (octet : List Byte) : Nat → rsgte × OFILE
  | 0 => (rsgte.success, newsigfp)
  | size + 1 =>
    match rsksi_tlvfileAddOctet newsigfp (octet.getD 0 0).val with
    | (rsgte.success, fp) => rsksi_tlvfileAddOctetString fp (octet.drop 1) size
    | (r, fp) => (r, fp)

/-- One guarded write of `rsksi_tlvfileAddInt64`:
`if(doWrite || ((val >> sh) & 0xff)) { r = AddOctet((val >> sh) & 0xff), doWrite = 1; ... }`. -/
def addInt64Step (val sh : Nat) (doWrite : Bool) (fp : OFILE) : rsgte × Bool × OFILE :=
  if doWrite ∨ (val >>> sh) &&& 0xff ≠ 0 then
    let w := rsksi_tlvfileAddOctet fp ((val >>> sh) &&& 0xff)
    (w.1, true, w.2)
  else (rsgte.success, doWrite, fp)

/-- Source: `rsksi_tlvfileAddInt64` (lines 248-282). -/
def rsksi_tlvfileAddInt64 (newsigfp : OFILE) (val0 : Nat) : rsgte × OFILE :=
  let val := val0 % 2 ^ 64
  let s56 : rsgte × Bool × OFILE :=
    if val >>> 56 ≠ 0 then
      let w := rsksi_tlvfileAddOctet newsigfp ((val >>> 56) &&& 0xff)
      (w.1, true, w.2)
    else (rsgte.success, false, newsigfp)
  if s56.1 ≠ rsgte.success then (s56.1, s56.2.2) else
  let s48 := addInt64Step val 48 s56.2.1 s56.2.2
  if s48.1 ≠ rsgte.success then (s48.1, s48.2.2) else
  let s40 := addInt64Step val 40 s48.2.1 s48.2.2
  if s40.1 ≠ rsgte.success then (s40.1, s40.2.2) else
  let s32 := addInt64Step val 32 s40.2.1 s40.2.2
  if s32.1 ≠ rsgte.success then (s32.1, s32.2.2) else
  let s24 := addInt64Step val 24 s32.2.1 s32.2.2
  if s24.1 ≠ rsgte.success then (s24.1, s24.2.2) else
  let s16 := addInt64Step val 16 s24.2.1 s24.2.2
  if s16.1 ≠ rsgte.success then (s16.1, s16.2.2) else
  let s8 := addInt64Step val 8 s16.2.1 s16.2.2
  if s8.1 ≠ rsgte.success then (s8.1, s8.2.2) else
  rsksi_tlvfileAddOctet s8.2.2 (val &&& 0xff)

/-- The C expression `a & ~b` on non-negative `int`s. -/
def andNot (a b : Nat) : Nat := a - (a &&& b)

/-- Source: `rsksi_tlv8Write` (lines 284-294).  `none` is a failed `assert`. -/
def rsksi_tlv8Write (flag16 : Nat) (newsigfp : OFILE) (flags tlvtype len : Nat) :
    Option (rsgte × OFILE) :=
  if flags &&& RSGT_TYPE_MASK ≠ 0 then none
  else if tlvtype &&& RSGT_TYPE_MASK ≠ tlvtype then none
  else
    match rsksi_tlvfileAddOctet newsigfp (andNot flags flag16 ||| tlvtype) with
    | (rsgte.success, fp) => some (rsksi_tlvfileAddOctet fp (len &&& 0xff))
    | (r, fp) => some (r, fp)

/-- Source: `rsksi_tlv16Write` (lines 296-312).  `none` is a failed `assert`;
`len` is a `uint16_t` parameter, `typ` a `uint16_t` local. -/
def rsksi_tlv16Write (flag16 : Nat) (newsigfp : OFILE) (flags tlvtype len0 : Nat) :
    Option (rsgte × OFILE) :=
  let len := len0 % 2 ^ 16
  if flags &&& RSGT_TYPE_MASK ≠ 0 then none
  else if (tlvtype >>> 8) &&& RSGT_TYPE_MASK ≠ tlvtype >>> 8 then none
  else
    let typ := (((flags ||| flag16) <<< 8) ||| tlvtype) % 2 ^ 16
    match rsksi_tlvfileAddOctet newsigfp (typ >>> 8) with
    | (rsgte.success, fp) =>
      match rsksi_tlvfileAddOctet fp (typ &&& 0xff) with
      | (rsgte.success, fp) =>
        match rsksi_tlvfileAddOctet fp ((len >>> 8) &&& 0xff) with
        | (rsgte.success, fp) => some (rsksi_tlvfileAddOctet fp (len &&& 0xff))
        | (r, fp) => some (r, fp)
      | (r, fp) => some (r, fp)
    | (r, fp) => some (r, fp)

/-- Source: `rsksi_tlvwrite` (lines 322-330). -/
def rsksi_tlvwrite (fp : OFILE) (rec : tlvrecord_t) : rsgte × OFILE :=
  match fwrite1 rec.hdr rec.lenHdr fp with
  | (1, fp) =>
    match fwrite1 rec.data rec.tlvlen fp with
    | (1, fp) => (rsgte.success, fp)
    | (_, fp) => (rsgte.io, fp)
  | (_, fp) => (rsgte.io, fp)

/-- The way the callers in this file emit a short-form record (lines 2010-2011,
2013-2015): the header by `rsksi_tlv8Write` with flags 0 and the payload length,
then the payload by `rsksi_tlvfileAddOctetString`. -/
def tlv8WriteRecord (flag16 : Nat) (fp : OFILE) (tlvtype : Nat) (payload : List Byte) :
    Option (rsgte × OFILE) :=
  match rsksi_tlv8Write flag16 fp 0x00 tlvtype payload.length with
  | some (rsgte.success, fp1) => some (rsksi_tlvfileAddOctetString fp1 payload payload.length)
  | res => res

/-- The way the callers in this file emit a long-form record (lines 2028-2029):
the header by `rsksi_tlv16Write` with flags 0 and the payload length, then the
payload by `rsksi_tlvfileAddOctetString`. -/
def tlv16WriteRecord (flag16 : Nat) (fp : OFILE) (tlvtype : Nat) (payload : List Byte) :
    Option (rsgte × OFILE) :=
  match rsksi_tlv16Write flag16 fp 0x00 tlvtype payload.length with
  | some (rsgte.success, fp1) => some (rsksi_tlvfileAddOctetString fp1 payload payload.length)
  | res => res

/-! ## Record reader -/

/-- The macro `NEXTC` on `EOF`: `r = feof(fp) ? RSGTE_EOF : RSGTE_IO`. -/
def eofOrIo (fp : FILE) : rsgte := if feof fp then rsgte.eof else rsgte.io

/-- Source: `rsksi_tlvrdHeader` (lines 361-372): the return code, the 9-octet
buffer `hdr` and the stream. -/
def rsksi_tlvrdHeader (fp : FILE) (hdr : List Byte) : rsgte × List Byte × FILE :=
  match fread1 8 fp with
  | (1, got, fp) => (rsgte.success, (bufStore hdr got).take 8 ++ [0], fp)
  | (_, got, fp) => (rsgte.io, bufStore hdr got, fp)

/-- Source: `rsksi_tlvRecRead` (lines 376-413): the return code, the stream and
the record `rec` as far as it has been filled in. -/
def rsksi_tlvRecRead (flag16 : Nat) (fp : FILE) (rec : tlvrecord_t) :
    rsgte × FILE × tlvrecord_t :=
  match fgetc fp with
  | (none, fp) => (eofOrIo fp, fp, rec)
  | (some c, fp) =>
    let rec0 := { rec with hdr0 := toByte c, tlvtype := c &&& 0x1f }
    if c &&& flag16 ≠ 0 then
      let rec1 := { rec0 with lenHdr := 4 }
      match fgetc fp with
      | (none, fp) => (eofOrIo fp, fp, rec1)
      | (some c, fp) =>
        let rec2 := { rec1 with hdr1 := toByte c, tlvtype := ((rec1.tlvtype <<< 8) ||| c) % 2 ^ 16 }
        match fgetc fp with
        | (none, fp) => (eofOrIo fp, fp, rec2)
        | (some c, fp) =>
          let rec3 := { rec2 with hdr2 := toByte c, tlvlen := (c <<< 8) % 2 ^ 16 }
          match fgetc fp with
          | (none, fp) => (eofOrIo fp, fp, rec3)
          | (some c, fp) =>
            let rec4 := { rec3 with hdr3 := toByte c, tlvlen := (rec3.tlvlen ||| c) % 2 ^ 16 }
            match fread1 rec4.tlvlen fp with
            | (1, got, fp) => (rsgte.success, fp, { rec4 with data := bufStore rec4.data got })
            | (_, got, fp) => (eofOrIo fp, fp, { rec4 with data := bufStore rec4.data got })
    else
      match fgetc fp with
      | (none, fp) => (eofOrIo fp, fp, rec0)
      | (some c, fp) =>
        let rec1 := { rec0 with lenHdr := 2, hdr1 := toByte c, tlvlen := c }
        match fread1 rec1.tlvlen fp with
        | (1, got, fp) => (rsgte.success, fp, { rec1 with data := bufStore rec1.data got })
        | (_, got, fp) => (eofOrIo fp, fp, { rec1 with data := bufStore rec1.data got })

/-! ## Sub-record decoder and child decoders

`subrec0` (and `stack k` in the composite decoders) stands for the indeterminate
initial contents of the uninitialised local `tlvrecord_t subrec`.  The macro
`CHKr(code)` of the absent header is `if((r = code) != 0) goto done`.
`hashOutputLengthOctetsKSI` is defined outside this file and is an argument. -/

/-- The tail of `rsksi_tlvDecodeSUBREC` (lines 448-456): length check, `memcpy`
of the payload and advance of the cursor. -/
def subrecCopy (rec : tlvrecord_t) (stridx : Nat) (newrec : tlvrecord_t) :
    rsgte × Nat × tlvrecord_t :=
  if rec.tlvlen < stridx + newrec.tlvlen then (rsgte.len, stridx, newrec)
  else
    (rsgte.success, (stridx + newrec.tlvlen) % 2 ^ 16,
      { newrec with data := bufStore newrec.data (bufRead (rec.data.drop stridx) newrec.tlvlen) })

/-- Source: `rsksi_tlvDecodeSUBREC` (lines 417-461): the return code, the cursor
`*stridx` and the record `newrec` as far as it has been filled in. -/
def rsksi_tlvDecodeSUBREC (flag16 : Nat) (rec : tlvrecord_t) (stridx : Nat)
    (newrec : tlvrecord_t) : rsgte × Nat × tlvrecord_t :=
  if rec.tlvlen = stridx then (rsgte.len, stridx, newrec) else
  let c0 := (rec.data.getD stridx 0).val
  let i1 := (stridx + 1) % 2 ^ 16
  let n0 := { newrec with hdr0 := toByte c0, tlvtype := c0 &&& 0x1f }
  if c0 &&& flag16 ≠ 0 then
    let n1 := { n0 with lenHdr := 4 }
    if rec.tlvlen = i1 then (rsgte.len, i1, n1) else
    let c1 := (rec.data.getD i1 0).val
    let i2 := (i1 + 1) % 2 ^ 16
    let n2 := { n1 with hdr1 := toByte c1, tlvtype := ((n1.tlvtype <<< 8) ||| c1) % 2 ^ 16 }
    if rec.tlvlen = i2 then (rsgte.len, i2, n2) else
    let c2 := (rec.data.getD i2 0).val
    let i3 := (i2 + 1) % 2 ^ 16
    let n3 := { n2 with hdr2 := toByte c2, tlvlen := (c2 <<< 8) % 2 ^ 16 }
    if rec.tlvlen = i3 then (rsgte.len, i3, n3) else
    let c3 := (rec.data.getD i3 0).val
    let i4 := (i3 + 1) % 2 ^ 16
    let n4 := { n3 with hdr3 := toByte c3, tlvlen := (n3.tlvlen ||| c3) % 2 ^ 16 }
    subrecCopy rec i4 n4
  else
    if rec.tlvlen = i1 then (rsgte.len, i1, n0) else
    let c1 := (rec.data.getD i1 0).val
    let i2 := (i1 + 1) % 2 ^ 16
    let n1 := { n0 with lenHdr := 2, hdr1 := toByte c1, tlvlen := c1 }
    subrecCopy rec i2 n1

/-- The object type `imprint_t` (absent header): algorithm id, length and the
digest buffer (`none` is a `NULL` pointer). -/
structure imprint_t where
  hashID : Byte
  len : Nat
  data : Option (List Byte)
  deriving DecidableEq, Repr

/-- The object type `block_hdr_t` (absent header). -/
structure block_hdr_t where
  hashID : Byte
  iv : Option (List Byte)
  lastHash : imprint_t
  deriving DecidableEq, Repr

/-- A `calloc`ed imprint. -/
def imprint_t.zero : imprint_t := { hashID := 0, len := 0, data := none }

/-- A `calloc`ed block header. -/
def block_hdr_t.zero : block_hdr_t := { hashID := 0, iv := none, lastHash := imprint_t.zero }

/-- Source: `rsksi_tlvDecodeIMPRINT` (lines 463-495): the return code and
`*imprint`, which is set on success only (the object is freed on failure). -/
def rsksi_tlvDecodeIMPRINT (hashOutputLengthOctetsKSI : Byte → Nat) (rec : tlvrecord_t) :
    rsgte × Option imprint_t :=
  let imp0 := { imprint_t.zero with hashID := rec.data.getD 0 0 }
  if rec.tlvlen ≠ 1 + hashOutputLengthOctetsKSI imp0.hashID then (rsgte.len, none)
  else
    let imp1 := { imp0 with len := rec.tlvlen - 1 }
    (rsgte.success, some { imp1 with data := some (bufRead (rec.data.drop 1) imp1.len) })

/-- The common body of the imprint child decoders after the type check
(lines 504-512, 522-532, 677-685). -/
def childImprint (hashOutputLengthOctetsKSI : Byte → Nat) (subrec : tlvrecord_t) (strtidx : Nat)
    (imp : imprint_t) : rsgte × Nat × imprint_t :=
  let imp0 := { imp with hashID := subrec.data.getD 0 0 }
  if subrec.tlvlen ≠ 1 + hashOutputLengthOctetsKSI imp0.hashID then (rsgte.len, strtidx, imp0)
  else
    let imp1 := { imp0 with len := subrec.tlvlen - 1 }
    (rsgte.success, strtidx,
      { imp1 with data := some (bufRead (subrec.data.drop 1) (subrec.tlvlen - 1)) })

/-- Source: `rsksi_tlvDecodeSIB_HASH` (lines 496-514). -/
def rsksi_tlvDecodeSIB_HASH (flag16 : Nat) (hashOutputLengthOctetsKSI : Byte → Nat)
    (rec : tlvrecord_t) (strtidx : Nat) (imp : imprint_t) (subrec0 : tlvrecord_t) :
    rsgte × Nat × imprint_t :=
  match rsksi_tlvDecodeSUBREC flag16 rec strtidx subrec0 with
  | (rsgte.success, strtidx, subrec) =>
    if ¬ (subrec.tlvtype = 0x02) then (rsgte.invltyp, strtidx, imp)
    else childImprint hashOutputLengthOctetsKSI subrec strtidx imp
  | (r, strtidx, _) => (r, strtidx, imp)

/-- Source: `rsksi_tlvDecodeREC_HASH` (lines 515-540). -/
def rsksi_tlvDecodeREC_HASH (flag16 : Nat) (hashOutputLengthOctetsKSI : Byte → Nat)
    (rec : tlvrecord_t) (strtidx : Nat) (imp : imprint_t) (subrec0 : tlvrecord_t) :
    rsgte × Nat × imprint_t :=
  match rsksi_tlvDecodeSUBREC flag16 rec strtidx subrec0 with
  | (rsgte.success, strtidx, subrec) =>
    if ¬ (subrec.tlvtype = 0x01) then (rsgte.invltyp, strtidx, imp)
    else childImprint hashOutputLengthOctetsKSI subrec strtidx imp
  | (r, strtidx, _) => (r, strtidx, imp)

/-- Source: `rsksi_tlvDecodeHASH_ALGO` (lines 638-652). -/
def rsksi_tlvDecodeHASH_ALGO (flag16 : Nat) (rec : tlvrecord_t) (strtidx : Nat) (hashAlg : Byte)
    (subrec0 : tlvrecord_t) : rsgte × Nat × Byte :=
  match rsksi_tlvDecodeSUBREC flag16 rec strtidx subrec0 with
  | (rsgte.success, strtidx, subrec) =>
    if ¬ (subrec.tlvtype = 0x01 ∧ subrec.tlvlen = 1) then (rsgte.fmt, strtidx, hashAlg)
    else (rsgte.success, strtidx, subrec.data.getD 0 0)
  | (r, strtidx, _) => (r, strtidx, hashAlg)

/-- Source: `rsksi_tlvDecodeBLOCK_IV` (lines 653-668). -/
def rsksi_tlvDecodeBLOCK_IV (flag16 : Nat) (rec : tlvrecord_t) (strtidx : Nat)
    (iv : Option (List Byte)) (subrec0 : tlvrecord_t) : rsgte × Nat × Option (List Byte) :=
  match rsksi_tlvDecodeSUBREC flag16 rec strtidx subrec0 with
  | (rsgte.success, strtidx, subrec) =>
    if ¬ (subrec.tlvtype = 0x02) then (rsgte.invltyp, strtidx, iv)
    else (rsgte.success, strtidx, some (bufRead subrec.data subrec.tlvlen))
  | (r, strtidx, _) => (r, strtidx, iv)

/-- Source: `rsksi_tlvDecodeLAST_HASH` (lines 669-687). -/
def rsksi_tlvDecodeLAST_HASH (flag16 : Nat) (hashOutputLengthOctetsKSI : Byte → Nat)
    (rec : tlvrecord_t) (strtidx : Nat) (imp : imprint_t) (subrec0 : tlvrecord_t) :
    rsgte × Nat × imprint_t :=
  match rsksi_tlvDecodeSUBREC flag16 rec strtidx subrec0 with
  | (rsgte.success, strtidx, subrec) =>
    if ¬ (subrec.tlvtype = 0x03) then (rsgte.invltyp, strtidx, imp)
    else childImprint hashOutputLengthOctetsKSI subrec strtidx imp
  | (r, strtidx, _) => (r, strtidx, imp)

/-- The loop of `rsksi_tlvDecodeREC_COUNT` (lines 698-701):
`val = (val << 8) + data[i]` in `uint64_t` arithmetic for `i < n`. -/
def recCountLoop (data : List Byte) (n : Nat) : Nat :=
  (List.range n).foldl (fun val i => ((val <<< 8) + (data.getD i 0).val) % 2 ^ 64) 0

/-- Source: `rsksi_tlvDecodeREC_COUNT` (lines 688-705). -/
def rsksi_tlvDecodeREC_COUNT (flag16 : Nat) (rec : tlvrecord_t) (strtidx : Nat) (cnt : Nat)
    (subrec0 : tlvrecord_t) : rsgte × Nat × Nat :=
  match rsksi_tlvDecodeSUBREC flag16 rec strtidx subrec0 with
  | (rsgte.success, strtidx, subrec) =>
    if ¬ (subrec.tlvtype = 0x01 ∧ subrec.tlvlen ≤ 8) then (rsgte.invltyp, strtidx, cnt)
    else (rsgte.success, strtidx, recCountLoop subrec.data subrec.tlvlen)
  | (r, strtidx, _) => (r, strtidx, cnt)

/-- Source: `rsksi_tlvDecodeBLOCK_HDR` (lines 724-752): the return code and
`*blockhdr`, which is set on success only (the object is freed on failure). -/
def rsksi_tlvDecodeBLOCK_HDR (flag16 : Nat) (hashOutputLengthOctetsKSI : Byte → Nat)
    (rec : tlvrecord_t) (stack : Nat → tlvrecord_t) : rsgte × Option block_hdr_t :=
  let bh := block_hdr_t.zero
  match rsksi_tlvDecodeHASH_ALGO flag16 rec 0 bh.hashID (stack 0) with
  | (rsgte.success, strtidx, hashID) =>
    match rsksi_tlvDecodeBLOCK_IV flag16 rec strtidx bh.iv (stack 1) with
    | (rsgte.success, strtidx, iv) =>
      match rsksi_tlvDecodeLAST_HASH flag16 hashOutputLengthOctetsKSI rec strtidx bh.lastHash
          (stack 2) with
      | (rsgte.success, strtidx, lastHash) =>
        if strtidx ≠ rec.tlvlen then (rsgte.len, none)
        else (rsgte.success, some { hashID := hashID, iv := iv, lastHash := lastHash })
      | (r, _, _) => (r, none)
    | (r, _, _) => (r, none)
  | (r, _, _) => (r, none)

/-! ## File header -/

/-- The C string held in a character buffer: the octets before the first NUL. -/
def cstr (buf : List Byte) : List Byte := buf.takeWhile (fun b => b ≠ 0)

/-- Models `strcmp`: 0 iff the two C strings are equal (the sign of a non-zero
result is not modelled). -/
def strcmp (a b : List Byte) : Nat := if cstr a = cstr b then 0 else 1

/-- Source: `rsksi_chkFileHdr` (lines 1286-1304); `hdr0` is the indeterminate
initial content of the local buffer `hdr[9]`. -/
def rsksi_chkFileHdr (fp : FILE) (expect : List Byte) (hdr0 : List Byte) : rsgte × FILE :=
  let rewindPos := ftello fp
  match rsksi_tlvrdHeader fp hdr0 with
  | (rsgte.success, hdr, fp1) =>
    if strcmp hdr expect ≠ 0 then (rsgte.invlhdr, fseeko fp1 rewindPos)
    else (rsgte.success, fp1)
  | (r, _, fp1) => (r, fp1)

/-! ## Block signature, hash chain, record dispatch and the block pre-scan

`stack k` is the indeterminate initial content of the `k`-th uninitialised local
`tlvrecord_t subrec` that a composite decoder reaches.  The `free` calls on the
failure paths are memory management and are not modelled. -/

/-- Modelled from the spec: `SIGID_RFC3161` is a macro of the absent header; the
signature id is an enumeration with the single value RFC3161.  No property
depends on its numeric value. -/
def SIGID_RFC3161 : Nat := 0

/-- The object type `block_sig_t` (absent header): signature id, record count
and the DER blob `sig.der` (`none` is a `NULL` pointer). -/
structure block_sig_t where
  sigID : Nat
  recCount : Nat
  der_len : Nat
  der_data : Option (List Byte)
  deriving DecidableEq, Repr

/-- A `calloc`ed block signature. -/
def block_sig_t.zero : block_sig_t := { sigID := 0, recCount := 0, der_len := 0, der_data := none }

/-- The object type `block_hashstep_t` (absent header). -/
structure block_hashstep_t where
  level_corr : Byte
  sib_hash : imprint_t
  deriving DecidableEq, Repr

/-- The object type `block_hashchain_t` (absent header). -/
structure block_hashchain_t where
  rec_hash : imprint_t
  left_link : block_hashstep_t
  right_link : block_hashstep_t
  deriving DecidableEq, Repr

/-- A `calloc`ed hash step. -/
def block_hashstep_t.zero : block_hashstep_t := { level_corr := 0, sib_hash := imprint_t.zero }

/-- A `calloc`ed hash chain. -/
def block_hashchain_t.zero : block_hashchain_t :=
  { rec_hash := imprint_t.zero, left_link := block_hashstep_t.zero,
    right_link := block_hashstep_t.zero }

/-- Source: `rsksi_tlvDecodeLEVEL_CORR` (lines 541-561). -/
def rsksi_tlvDecodeLEVEL_CORR (flag16 : Nat) (rec : tlvrecord_t) (strtidx : Nat) (levelcorr : Byte)
    (subrec0 : tlvrecord_t) : rsgte × Nat × Byte :=
  match rsksi_tlvDecodeSUBREC flag16 rec strtidx subrec0 with
  | (rsgte.success, strtidx, subrec) =>
    if ¬ (subrec.tlvtype = 0x01 ∧ subrec.tlvlen = 1) then (rsgte.fmt, strtidx, levelcorr)
    else (rsgte.success, strtidx, subrec.data.getD 0 0)
  | (r, strtidx, _) => (r, strtidx, levelcorr)

/-- The failure path of `rsksi_tlvDecodeHASH_STEP` (lines 590-601): with
`r != 0` the function calls `free(blhashstep)`.  Its only caller,
`rsksi_tlvDecodeHASH_CHAIN`, passes `&(hashchain->left_link)` and
`&(hashchain->right_link)`, the addresses of two members of the chain object
that it has allocated and that it frees itself at its own `done` label; so
`free` gets a pointer that no allocation returned, or the chain is freed twice.
The call does not return the code `r`. -/
def hashStepFail (_r : rsgte) : rsgte := rsgte.aborted

/-- Source: `rsksi_tlvDecodeHASH_STEP` (lines 563-604): the return code, the
outer cursor `*pstrtidx` and the step as far as it has been filled in.  The
type of the step record itself (`subrec.tlvtype`) is not looked at.  Every
failure ends in `hashStepFail`. -/
def rsksi_tlvDecodeHASH_STEP (flag16 : Nat) (hashOutputLengthOctetsKSI : Byte → Nat)
    (rec : tlvrecord_t) (pstrtidx : Nat) (blhashstep : block_hashstep_t)
    (stack : Nat → tlvrecord_t) : rsgte × Nat × block_hashstep_t :=
  let st0 := { blhashstep with sib_hash := { blhashstep.sib_hash with data := none } }
  match rsksi_tlvDecodeSUBREC flag16 rec pstrtidx (stack 0) with
  | (rsgte.success, pstrtidx, subrec) =>
    match rsksi_tlvDecodeLEVEL_CORR flag16 subrec 0 st0.level_corr (stack 1) with
    | (rsgte.success, strtidx, level_corr) =>
      let st1 := { st0 with level_corr := level_corr }
      match rsksi_tlvDecodeSIB_HASH flag16 hashOutputLengthOctetsKSI subrec strtidx st1.sib_hash
          (stack 2) with
      | (rsgte.success, strtidx, sib_hash) =>
        if strtidx ≠ subrec.tlvlen then
          (hashStepFail rsgte.len, pstrtidx, { st1 with sib_hash := sib_hash })
        else (rsgte.success, pstrtidx, { st1 with sib_hash := sib_hash })
      | (r, _, sib_hash) => (hashStepFail r, pstrtidx, { st1 with sib_hash := sib_hash })
    | (r, _, _) => (hashStepFail r, pstrtidx, st0)
  | (r, pstrtidx, _) => (hashStepFail r, pstrtidx, st0)

/-- Source: `rsksi_tlvDecodeHASH_CHAIN` (lines 605-636): the return code and
`*blhashchain`, which is set on success only.  A failure of the record hash is
returned as it is (the chain is freed with the record's own type); a failure
inside a step is the outcome `rsgte.aborted` of `rsksi_tlvDecodeHASH_STEP`. -/
def rsksi_tlvDecodeHASH_CHAIN (flag16 : Nat) (hashOutputLengthOctetsKSI : Byte → Nat)
    (rec : tlvrecord_t) (stack : Nat → tlvrecord_t) : rsgte × Option block_hashchain_t :=
  let hashchain := block_hashchain_t.zero
  match rsksi_tlvDecodeREC_HASH flag16 hashOutputLengthOctetsKSI rec 0 hashchain.rec_hash
      (stack 0) with
  | (rsgte.success, strtidx, rec_hash) =>
    match rsksi_tlvDecodeHASH_STEP flag16 hashOutputLengthOctetsKSI rec strtidx
        hashchain.left_link (fun k => stack (k + 1)) with
    | (rsgte.success, strtidx, left_link) =>
      match rsksi_tlvDecodeHASH_STEP flag16 hashOutputLengthOctetsKSI rec strtidx
          hashchain.right_link (fun k => stack (k + 4)) with
      | (rsgte.success, _, right_link) =>
        (rsgte.success,
          some { rec_hash := rec_hash, left_link := left_link, right_link := right_link })
      | (r, _, _) => (r, none)
    | (r, _, _) => (r, none)
  | (r, _, _) => (r, none)

/-- Source: `rsksi_tlvDecodeSIG` (lines 706-722). -/
def rsksi_tlvDecodeSIG (flag16 : Nat) (rec : tlvrecord_t) (strtidx : Nat) (bs : block_sig_t)
    (subrec0 : tlvrecord_t) : rsgte × Nat × block_sig_t :=
  match rsksi_tlvDecodeSUBREC flag16 rec strtidx subrec0 with
  | (rsgte.success, strtidx, subrec) =>
    if ¬ (subrec.tlvtype = 0x0905) then (rsgte.invltyp, strtidx, bs)
    else
      let bs1 := { bs with der_len := subrec.tlvlen, sigID := SIGID_RFC3161 }
      (rsgte.success, strtidx, { bs1 with der_data := some (bufRead subrec.data bs1.der_len) })
  | (r, strtidx, _) => (r, strtidx, bs)

/-- Source: `rsksi_tlvDecodeEXCERPT_SIG` (lines 754-783). -/
def rsksi_tlvDecodeEXCERPT_SIG (rec : tlvrecord_t) : rsgte × Option block_sig_t :=
  let bs := block_sig_t.zero
  if ¬ (rec.tlvtype = 0x0905) then (rsgte.invltyp, none)
  else
    let bs1 := { bs with recCount := 0, der_len := rec.tlvlen, sigID := SIGID_RFC3161 }
    (rsgte.success, some { bs1 with der_data := some (bufRead rec.data bs1.der_len) })

/-- Source: `rsksi_tlvDecodeBLOCK_SIG` (lines 784-811): the return code and
`*blocksig`, which is set on success only. -/
def rsksi_tlvDecodeBLOCK_SIG (flag16 : Nat) (rec : tlvrecord_t) (stack : Nat → tlvrecord_t) :
    rsgte × Option block_sig_t :=
  let bs := block_sig_t.zero
  match rsksi_tlvDecodeREC_COUNT flag16 rec 0 bs.recCount (stack 0) with
  | (rsgte.success, strtidx, recCount) =>
    match rsksi_tlvDecodeSIG flag16 rec strtidx { bs with recCount := recCount } (stack 1) with
    | (rsgte.success, strtidx, bs2) =>
      if strtidx ≠ rec.tlvlen then (rsgte.len, none)
      else (rsgte.success, some bs2)
    | (r, _, _) => (r, none)
  | (r, _, _) => (r, none)

/-- What the `void *obj` of `rsksi_tlvRecDecode` points to after a successful
decode, by record type. -/
inductive tlvobj where
  | blockHdr (bh : block_hdr_t)
  | imprint (imp : imprint_t)
  | blockSig (bs : block_sig_t)
  | hashChain (hc : block_hashchain_t)
  deriving DecidableEq, Repr

/-- The cast `(block_hdr_t*) obj`. -/
def tlvobj.toBlockHdr : Option tlvobj → Option block_hdr_t
  | some (tlvobj.blockHdr bh) => some bh
  | _ => none

/-- The cast `(block_sig_t*) obj`. -/
def tlvobj.toBlockSig : Option tlvobj → Option block_sig_t
  | some (tlvobj.blockSig bs) => some bs
  | _ => none

/-- The cast `(imprint_t*) obj`. -/
def tlvobj.toImprint : Option tlvobj → Option imprint_t
  | some (tlvobj.imprint imp) => some imp
  | _ => none

/-- Stores a decoder result through `obj`: the pointer is written on success
only. -/
def storeObj {α : Type} (mk : α → tlvobj) (res : rsgte × Option α) (obj : Option tlvobj) :
    rsgte × Option tlvobj :=
  match res with
  | (r, some a) => (r, some (mk a))
  | (r, none) => (r, obj)

/-- Source: `rsksi_tlvRecDecode` (lines 812-842).  `r` starts as 1 and the
`switch` has no `default` label. -/
def rsksi_tlvRecDecode (flag16 : Nat) (hashOutputLengthOctetsKSI : Byte → Nat) (rec : tlvrecord_t)
    (obj : Option tlvobj) (stack : Nat → tlvrecord_t) : rsgte × Option tlvobj :=
  if rec.tlvtype = 0x0901 then
    storeObj tlvobj.blockHdr
      (rsksi_tlvDecodeBLOCK_HDR flag16 hashOutputLengthOctetsKSI rec stack) obj
  else if rec.tlvtype = 0x0902 ∨ rec.tlvtype = 0x0903 then
    storeObj tlvobj.imprint (rsksi_tlvDecodeIMPRINT hashOutputLengthOctetsKSI rec) obj
  else if rec.tlvtype = 0x0904 then
    storeObj tlvobj.blockSig (rsksi_tlvDecodeBLOCK_SIG flag16 rec stack) obj
  else if rec.tlvtype = 0x0905 then
    storeObj tlvobj.blockSig (rsksi_tlvDecodeEXCERPT_SIG rec) obj
  else if rec.tlvtype = 0x0907 then
    storeObj tlvobj.hashChain
      (rsksi_tlvDecodeHASH_CHAIN flag16 hashOutputLengthOctetsKSI rec stack) obj
  else (rsgte.literal1, obj)

/-- Source: `rsksi_tlvrd` (lines 926-933). -/
def rsksi_tlvrd (flag16 : Nat) (hashOutputLengthOctetsKSI : Byte → Nat) (fp : FILE)
    (rec : tlvrecord_t) (obj : Option tlvobj) (stack : Nat → tlvrecord_t) :
    rsgte × FILE × tlvrecord_t × Option tlvobj :=
  match rsksi_tlvRecRead flag16 fp rec with
  | (rsgte.success, fp1, rec1) =>
    let d := rsksi_tlvRecDecode flag16 hashOutputLengthOctetsKSI rec1 obj stack
    (d.1, fp1, rec1, d.2)
  | (r, fp1, rec1) => (r, fp1, rec1, obj)

/-- Modelled from the spec: `KSI_DataHash` is an opaque type of the KSI library,
which is not among the sources.  A data hash is an imprint (section 3 of the
spec): the hash algorithm and the digest octets, the two items that
`KSI_DataHash_extract` yields.  A `KSI_DataHash *` is an `Option KSI_DataHash`,
`none` being `NULL`. -/
structure KSI_DataHash where
  algo : Nat
  digest : List Byte
  deriving DecidableEq, Repr

/-- The part of the verifier state `struct ksifile_s` (absent header) that the
functions of this file read or write: the copy of the last tree hash
(pre-scan), the hash algorithm, the two presence flags, the IV, the three
extractor imprints, the forest (`nRoots`, `roots_valid[MAX_ROOTS]`,
`roots_hash[MAX_ROOTS]`), the record counter and the in-block flag.  The
integer fields are kept as natural numbers; the arrays are lists of
`MAX_ROOTS` entries. -/
structure ksifile where
  x_roothash : Option imprint_t
  hashAlg : Nat
  bKeepRecordHashes : Nat
  bKeepTreeHashes : Nat
  IV : Option (List Byte)
  x_prev : Option imprint_t
  x_prevleft : Option imprint_t
  x_prevright : Option imprint_t
  nRoots : Nat
  nRecords : Nat
  roots_valid : List Nat
  roots_hash : List (Option KSI_DataHash)
  bInBlk : Nat
  deriving DecidableEq, Repr

/-- The copy of a tree hash into `ksi->x_roothash` (lines 1150-1162). -/
def copyRootHash (ksi : Option ksifile) (obj : Option tlvobj) : Option ksifile :=
  match ksi with
  | none => none
  | some k =>
    let imp := (tlvobj.toImprint obj).getD imprint_t.zero
    let copy : imprint_t :=
      { hashID := imp.hashID, len := imp.len, data := some (bufRead (imp.data.getD []) imp.len) }
    some { k with x_roothash := some copy }

/-- The locals and out-parameters of `rsksi_getBlockParams` that live across
the iterations of its loop. -/
structure scanState where
  fp : FILE
  tlvrec : tlvrecord_t
  obj : Option tlvobj
  nRecs : Nat
  bHasRecHashes : Nat
  bHasIntermedHashes : Nat
  bs : Option block_sig_t
  bh : Option block_hdr_t
  ksi : Option ksifile
  deriving DecidableEq, Repr

/-- The `while(!bDone)` loop of `rsksi_getBlockParams` (lines 1135-1173).  The C
loop needs no bound: every iteration that does not return consumes input; here
`fuel` bounds the number of iterations and `none` means the bound was too
small.  `stack fuel` is the garbage of the locals in that iteration.  In the
`default` branch the `fprintf` goes to the stream that is open for reading; it
fails and leaves content and position as they are. -/
def getBlockParamsLoop (flag16 : Nat) (hashOutputLengthOctetsKSI : Byte → Nat)
    (stack : Nat → Nat → tlvrecord_t) : Nat → scanState → Option (rsgte × scanState)
  | 0, _ => none
  | fuel + 1, st =>
    match rsksi_tlvrd flag16 hashOutputLengthOctetsKSI st.fp st.tlvrec st.obj (stack fuel) with
    | (rsgte.success, fp, rec, obj) =>
      let st1 := { st with fp := fp, tlvrec := rec, obj := obj }
      if rec.tlvtype = 0x0901 then
        getBlockParamsLoop flag16 hashOutputLengthOctetsKSI stack fuel
          { st1 with bh := tlvobj.toBlockHdr obj }
      else if rec.tlvtype = 0x0902 then
        getBlockParamsLoop flag16 hashOutputLengthOctetsKSI stack fuel
          { st1 with nRecs := (st1.nRecs + 1) % 2 ^ 64, bHasRecHashes := 1 }
      else if rec.tlvtype = 0x0903 then
        getBlockParamsLoop flag16 hashOutputLengthOctetsKSI stack fuel
          { st1 with bHasIntermedHashes := 1, ksi := copyRootHash st1.ksi obj }
      else if rec.tlvtype = 0x0904 then
        some (rsgte.success, { st1 with bs := tlvobj.toBlockSig obj })
      else
        getBlockParamsLoop flag16 hashOutputLengthOctetsKSI stack fuel st1
    | (r, fp, rec, obj) => some (r, { st with fp := fp, tlvrec := rec, obj := obj })

/-- Source: `rsksi_getBlockParams` (lines 1116-1189): the return code and the
state at `done:` (stream, out-parameters, `ksi`).  `rec0` and `obj0` are the
indeterminate initial contents of the locals `rec` and `obj`; `bs0`, `bh0` and
the two flags are overwritten at entry.  `none` does not occur (the loop is
given more iterations than the stream has octets left). -/
def rsksi_getBlockParams (flag16 : Nat) (hashOutputLengthOctetsKSI : Byte → Nat)
    (stack : Nat → Nat → tlvrecord_t) (ksi : Option ksifile) (fp : FILE) (bRewind : Nat)
    (rec0 : tlvrecord_t) (obj0 : Option tlvobj) : Option (rsgte × scanState) :=
  let rewindPos := if bRewind ≠ 0 then ftello fp else 0
  let st0 : scanState :=
    { fp := fp, tlvrec := rec0, obj := obj0, nRecs := 0, bHasRecHashes := 0,
      bHasIntermedHashes := 0, bs := none, bh := none, ksi := ksi }
  match getBlockParamsLoop flag16 hashOutputLengthOctetsKSI stack
      (fp.content.length - fp.pos + 1) st0 with
  | none => none
  | some (rsgte.success, st) =>
    if st.bHasRecHashes ≠ 0 ∧ st.nRecs ≠ (st.bs.getD block_sig_t.zero).recCount then
      some (rsgte.invld_reccnt, st)
    else if bRewind ≠ 0 then some (rsgte.success, { st with fp := fseeko st.fp rewindPos })
    else some (rsgte.success, st)
  | some (r, st) => some (r, st)

/-! ## Verification: library interface, error context, hash checks, forest

The verifier calls functions of `librsksi.c` and of the KSI library that are not
among the sources; they are the fields of `ksiapi`.  The hash functions are
taken to deliver a hash (they assign the out-parameter); what they compute is
left open.  Output to `stdout` (debug and success messages) is not modelled.
Of the memory management (`free`, `KSI_DataHash_free`, `rsksi_objfree`) only
the call `rsksi_objfree(0x0904, file_bs)` of `verifyBLOCK_SIGKSI` is modelled:
it frees as a block signature whatever record was decoded.  The other calls
of `rsksi_objfree` name the record's own type `rec->tlvtype`, or a constant for
a pointer that is `NULL` unless a record of that type was decoded. -/

/-- Modelled from the spec: `KSI_Signature` is an opaque type of the KSI
library; a parsed signature is represented by the octets it stands for. -/
structure KSI_Signature where
  der : List Byte
  deriving DecidableEq, Repr

/-- Modelled from the spec: the return state `KSI_OK` of the KSI library (a
macro of an absent header) is the value 0. -/
def KSI_OK : Nat := 0

/-- The functions defined outside this file (section 4.5 of the spec, "signature
engine adapter"): `hash_m_ksi(ksi, &m)`, `hash_r_ksi(ksi, &r, rec, len)`,
`hash_node_ksi(ksi, &node, left, right, level)`, `hashIdentifierKSI(alg)`,
`hashOutputLengthOctetsKSI(id)`, `rsksiImprintFromKSI_DataHash(ksi, hash)`,
`KSI_Signature_parse(ctx, data, len, &sig)`,
`KSI_Signature_verifyDataHash(sig, ctx, hash)`, `KSI_extendSignature(ctx, sig,
&ext)` and `KSI_Signature_serialize(sig, &der, &len)`.  The library context
`ksi->ctx->ksi_ctx` is fixed and left out. -/
structure ksiapi where
  hash_m_ksi : ksifile → KSI_DataHash
  hash_r_ksi : ksifile → List Byte → KSI_DataHash
  hash_node_ksi : ksifile → Option KSI_DataHash → Option KSI_DataHash → Nat → KSI_DataHash
  hashIdentifierKSI : Nat → Byte
  hashOutputLengthOctetsKSI : Byte → Nat
  rsksiImprintFromKSI_DataHash : ksifile → Option KSI_DataHash → Option imprint_t
  KSI_Signature_parse : List Byte → Nat → Nat × Option KSI_Signature
  KSI_Signature_verifyDataHash : Option KSI_Signature → Option KSI_DataHash → Nat
  KSI_extendSignature : Option KSI_Signature → Nat × Option KSI_Signature
  KSI_Signature_serialize : Option KSI_Signature → Nat × List Byte

/-- Modelled from the spec: `KSI_DataHash_extract(hash, NULL, &digest, NULL)` of
the KSI library yields the digest octets of the hash.  For a `NULL` hash the
call fails and leaves `digest` as it is; the verifier passes computed hashes
only. -/
def KSI_DataHash_extract (hash : Option KSI_DataHash) : List Byte :=
  match hash with
  | some h => h.digest
  | none => []

/-- Models `memcmp(a, b, n)` as used in a condition: 0 when the first `n`
octets agree, 1 otherwise. -/
def memcmp (a b : List Byte) (n : Nat) : Nat :=
  if bufRead a n = bufRead b n then 0 else 1

/-- The items of one message of `reportError` (lines 145-190): the error code
and the numbers and hashes of the error context that the message is built from.
The text items (file name, first record of the block, record in question) are
left out. -/
structure errReport where
  errcode : rsgte
  blkNum : Nat
  recNum : Nat
  recNumInFile : Nat
  computedHash : Option KSI_DataHash
  fileHash : Option imprint_t
  treeLevel : Nat
  lefthash : Option KSI_DataHash
  righthash : Option KSI_DataHash
  ksistate : Nat
  deriving DecidableEq, Repr

/-- The error context `ksierrctx_t` (absent header), without its text items.
`fp` is the stream that `reportError` writes to: `none` is `NULL`, otherwise the
messages written so far. -/
structure ksierrctx_t where
  fp : Option (List errReport)
  recNum : Nat
  ksistate : Nat
  recNumInFile : Nat
  blkNum : Nat
  verbose : Nat
  treeLevel : Nat
  computedHash : Option KSI_DataHash
  fileHash : Option imprint_t
  lefthash : Option KSI_DataHash
  righthash : Option KSI_DataHash
  deriving DecidableEq, Repr

/-- Source: `reportError` (lines 145-190). -/
def reportError (errcode : rsgte) (ectx : ksierrctx_t) : ksierrctx_t :=
  match ectx.fp with
  | none => ectx
  | some log =>
    { ectx with
      fp := some (log ++ [{ errcode := errcode, blkNum := ectx.blkNum, recNum := ectx.recNum,
                            recNumInFile := ectx.recNumInFile,
                            computedHash := ectx.computedHash, fileHash := ectx.fileHash,
                            treeLevel := ectx.treeLevel, lefthash := ectx.lefthash,
                            righthash := ectx.righthash, ksistate := ectx.ksistate }]) }

/-- Source: `rsksi_errctxInit` (lines 103-117).  The field `treeLevel` is not
among the fields that the function sets. -/
def rsksi_errctxInit (ectx : ksierrctx_t) : ksierrctx_t :=
  { ectx with fp := none, recNum := 0, ksistate := 0, recNumInFile := 0, blkNum := 0,
              verbose := 0, fileHash := none, lefthash := none, righthash := none,
              computedHash := none }

/-- An error context with every field zero and every pointer `NULL`. -/
def ksierrctx_t.zero : ksierrctx_t :=
  { fp := none, recNum := 0, ksistate := 0, recNumInFile := 0, blkNum := 0, verbose := 0,
    treeLevel := 0, computedHash := none, fileHash := none, lefthash := none, righthash := none }

/-- The verifier state as `rsksi_vrfyConstruct_gf` allocates it (lines 1310-1314,
`calloc`): every field zero, every pointer `NULL`, a forest of `MAX_ROOTS` empty
slots. -/
def ksifile.zero (MAX_ROOTS : Nat) : ksifile :=
  { x_roothash := none, hashAlg := 0, bKeepRecordHashes := 0, bKeepTreeHashes := 0, IV := none,
    x_prev := none, x_prevleft := none, x_prevright := none, nRoots := 0, nRecords := 0,
    roots_valid := List.replicate MAX_ROOTS 0, roots_hash := List.replicate MAX_ROOTS none,
    bInBlk := 0 }

/-- Source: `rsksi_tlvrdRecHash` (lines 844-866): the return code, the two
streams and `*imp`.  `rec0` is the indeterminate local `rec`. -/
def rsksi_tlvrdRecHash (flag16 : Nat) (hashOutputLengthOctetsKSI : Byte → Nat) (fp : FILE)
    (outfp : Option OFILE) (imp : Option tlvobj) (rec0 : tlvrecord_t)
    (stack : Nat → tlvrecord_t) : rsgte × FILE × Option OFILE × Option tlvobj :=
  match rsksi_tlvrd flag16 hashOutputLengthOctetsKSI fp rec0 imp stack with
  | (rsgte.success, fp1, rec, imp1) =>
    if rec.tlvtype ≠ 0x0902 then (rsgte.miss_rec_hash, fp1, outfp, none)
    else
      match outfp with
      | some o =>
        match rsksi_tlvwrite o rec with
        | (rsgte.success, o1) => (rsgte.success, fp1, some o1, imp1)
        | (r, o1) => (r, fp1, some o1, imp1)
      | none => (rsgte.success, fp1, none, imp1)
  | (r, fp1, _, imp1) => (r, fp1, outfp, imp1)

/-- Source: `rsksi_tlvrdTreeHash` (lines 868-889). -/
def rsksi_tlvrdTreeHash (flag16 : Nat) (hashOutputLengthOctetsKSI : Byte → Nat) (fp : FILE)
    (outfp : Option OFILE) (imp : Option tlvobj) (rec0 : tlvrecord_t)
    (stack : Nat → tlvrecord_t) : rsgte × FILE × Option OFILE × Option tlvobj :=
  match rsksi_tlvrd flag16 hashOutputLengthOctetsKSI fp rec0 imp stack with
  | (rsgte.success, fp1, rec, imp1) =>
    if rec.tlvtype ≠ 0x0903 then (rsgte.miss_tree_hash, fp1, outfp, none)
    else
      match outfp with
      | some o =>
        match rsksi_tlvwrite o rec with
        | (rsgte.success, o1) => (rsgte.success, fp1, some o1, imp1)
        | (r, o1) => (r, fp1, some o1, imp1)
      | none => (rsgte.success, fp1, none, imp1)
  | (r, fp1, _, imp1) => (r, fp1, outfp, imp1)

/-- Source: `rsksi_vrfy_chkRecHash` (lines 1370-1402): the return code, the two
streams and the error context.  In lines 1380-1382 the `if` has no braces, so
only `reportError` depends on the condition and `goto done` is executed in
every case; the comparisons of lines 1383-1397 are never reached.  The
arguments `ksi` and `hash` are therefore not used. -/
def rsksi_vrfy_chkRecHash (api : ksiapi) (flag16 : Nat) (_ksi : ksifile) (sigfp : FILE)
    (nsigfp : Option OFILE) (_hash : Option KSI_DataHash) (ectx : ksierrctx_t)
    (rec0 : tlvrecord_t) (stack : Nat → tlvrecord_t) :
    rsgte × FILE × Option OFILE × ksierrctx_t :=
  match rsksi_tlvrdRecHash flag16 api.hashOutputLengthOctetsKSI sigfp nsigfp none rec0 stack with
  | (r, sigfp1, nsigfp1, _) =>
    if r ≠ rsgte.success then (r, sigfp1, nsigfp1, reportError r ectx)
    else (r, sigfp1, nsigfp1, ectx)

/-- Source: `rsksi_vrfy_chkTreeHash` (lines 1404-1453).  `debug` is the global
`rsksi_read_debug`. -/
def rsksi_vrfy_chkTreeHash (api : ksiapi) (flag16 debug : Nat) (ksi : ksifile) (sigfp : FILE)
    (nsigfp : Option OFILE) (hash : Option KSI_DataHash) (ectx : ksierrctx_t)
    (rec0 : tlvrecord_t) (stack : Nat → tlvrecord_t) :
    rsgte × FILE × Option OFILE × ksierrctx_t :=
  let digest := KSI_DataHash_extract hash
  match rsksi_tlvrdTreeHash flag16 api.hashOutputLengthOctetsKSI sigfp nsigfp none rec0 stack with
  | (rsgte.success, sigfp1, nsigfp1, obj) =>
    let imp := (tlvobj.toImprint obj).getD imprint_t.zero
    if imp.hashID ≠ api.hashIdentifierKSI ksi.hashAlg then
      (rsgte.invld_tree_hashid, sigfp1, nsigfp1, reportError rsgte.success ectx)
    else if memcmp (imp.data.getD []) digest (api.hashOutputLengthOctetsKSI imp.hashID) ≠ 0 then
      let ectx1 := { ectx with computedHash := hash, fileHash := some imp }
      let ectx2 := reportError rsgte.invld_tree_hash ectx1
      (rsgte.invld_tree_hash, sigfp1, nsigfp1,
        { ectx2 with computedHash := none, fileHash := none })
    else if debug ≠ 0 then
      (rsgte.success, sigfp1, nsigfp1, { ectx with computedHash := none, fileHash := none })
    else (rsgte.success, sigfp1, nsigfp1, ectx)
  | (r, sigfp1, nsigfp1, _) => (r, sigfp1, nsigfp1, reportError r ectx)

/-- The state that `rsksi_vrfy_nextRec` and `verifyBLOCK_SIGKSI` work on: the
verifier state `ksi`, the signature stream `sigfp`, the output stream `nsigfp`
(`none` is `NULL`) and the error context. -/
structure vrfyState where
  ksi : ksifile
  sigfp : FILE
  nsigfp : Option OFILE
  ectx : ksierrctx_t
  deriving DecidableEq, Repr

/-- The loop `for(j = 0 ; j < ksi->nRoots ; ++j)` of `rsksi_vrfy_nextRec`
(lines 1502-1532), from index `j` with `fuel = nRoots - j` iterations left: the
return code (not success when a tree-hash check made the function leave), the
carry `t` and the state.  `stack (j + 2)` holds the indeterminate locals of the
tree-hash check of iteration `j`. -/
def nextRecLoop (api : ksiapi) (flag16 debug storehashchain : Nat)
    (stack : Nat → Nat → tlvrecord_t) :
    Nat → Nat → Option KSI_DataHash → vrfyState → rsgte × Option KSI_DataHash × vrfyState
  | 0, _, t, st => (rsgte.success, t, st)
  | fuel + 1, j, t, st =>
    if st.ksi.roots_valid.getD j 0 = 0 then
      (rsgte.success, none,
        { st with ksi := { st.ksi with roots_hash := st.ksi.roots_hash.set j t,
                                       roots_valid := st.ksi.roots_valid.set j 1 } })
    else if t ≠ none then
      let ksi1 :=
        if storehashchain = 1 then
          { st.ksi with
            x_prevright := api.rsksiImprintFromKSI_DataHash st.ksi (st.ksi.roots_hash.getD j none) }
        else st.ksi
      let ectx1 := { st.ectx with treeLevel := j + 1, righthash := t }
      let t1 := some (api.hash_node_ksi ksi1 (ksi1.roots_hash.getD j none) t (j + 2))
      let ksi2 := { ksi1 with roots_valid := ksi1.roots_valid.set j 0 }
      if ksi2.bKeepTreeHashes ≠ 0 then
        let ectx2 := { ectx1 with lefthash := ksi2.roots_hash.getD j none }
        match rsksi_vrfy_chkTreeHash api flag16 debug ksi2 st.sigfp st.nsigfp t1 ectx2
            (stack (j + 2) 0) (fun k => stack (j + 2) (k + 1)) with
        | (rsgte.success, sigfp1, nsigfp1, ectx3) =>
          nextRecLoop api flag16 debug storehashchain stack fuel (j + 1) t1
            { ksi := ksi2, sigfp := sigfp1, nsigfp := nsigfp1, ectx := ectx3 }
        | (r, sigfp1, nsigfp1, ectx3) =>
          (r, t1, { ksi := ksi2, sigfp := sigfp1, nsigfp := nsigfp1, ectx := ectx3 })
      else
        nextRecLoop api flag16 debug storehashchain stack fuel (j + 1) t1
          { st with ksi := ksi2, ectx := ectx1 }
    else
      nextRecLoop api flag16 debug storehashchain stack fuel (j + 1) t st

/-- Source: `rsksi_vrfy_nextRec` (lines 1455-1554).  `none` is a failed
`assert(ksi->nRoots < MAX_ROOTS)`; `MAX_ROOTS` is a macro of the absent
header.  `record` is the log record (`rec`, `len`).  `stack 0` and `stack 1`
hold the indeterminate locals of the record-hash check and of the tree-hash
check of the leaf.  `nRecords` is counted as a `uint64_t`. -/
def rsksi_vrfy_nextRec (api : ksiapi) (flag16 debug MAX_ROOTS : Nat) (st : vrfyState)
    (record : List Byte) (storehashchain : Nat) (stack : Nat → Nat → tlvrecord_t) :
    Option (rsgte × vrfyState) :=
  let m := some (api.hash_m_ksi st.ksi)
  let recHash := some (api.hash_r_ksi st.ksi record)
  let r1 :=
    if st.ksi.bKeepRecordHashes ≠ 0 then
      rsksi_vrfy_chkRecHash api flag16 st.ksi st.sigfp st.nsigfp recHash st.ectx
        (stack 0 0) (fun k => stack 0 (k + 1))
    else (rsgte.success, st.sigfp, st.nsigfp, st.ectx)
  match r1 with
  | (rsgte.success, sigfp1, nsigfp1, ectx1) =>
    let x := some (api.hash_node_ksi st.ksi m recHash 1)
    let r2 :=
      if st.ksi.bKeepTreeHashes ≠ 0 then
        rsksi_vrfy_chkTreeHash api flag16 debug st.ksi sigfp1 nsigfp1 x
          { ectx1 with treeLevel := 0, lefthash := m, righthash := recHash }
          (stack 1 0) (fun k => stack 1 (k + 1))
      else (rsgte.success, sigfp1, nsigfp1, ectx1)
    match r2 with
    | (rsgte.success, sigfp2, nsigfp2, ectx2) =>
      let ksi1 :=
        if storehashchain = 1 then
          { st.ksi with x_prevleft := api.rsksiImprintFromKSI_DataHash st.ksi m }
        else st.ksi
      let ksi2 := { ksi1 with x_prev := api.rsksiImprintFromKSI_DataHash ksi1 x }
      match nextRecLoop api flag16 debug storehashchain stack ksi2.nRoots 0 x
          { ksi := ksi2, sigfp := sigfp2, nsigfp := nsigfp2, ectx := ectx2 } with
      | (rsgte.success, t, st3) =>
        if t ≠ none then
          let ksi4 :=
            { st3.ksi with roots_hash := st3.ksi.roots_hash.set st3.ksi.nRoots t,
                           roots_valid := st3.ksi.roots_valid.set st3.ksi.nRoots 1,
                           nRoots := st3.ksi.nRoots + 1 }
          if ksi4.nRoots < MAX_ROOTS then
            some (rsgte.success,
              { st3 with ksi := { ksi4 with nRecords := (ksi4.nRecords + 1) % 2 ^ 64 } })
          else none
        else
          some (rsgte.success,
            { st3 with ksi := { st3.ksi with nRecords := (st3.ksi.nRecords + 1) % 2 ^ 64 } })
      | (r, _, st3) => some (r, st3)
    | (r, sigfp2, nsigfp2, ectx2) =>
      some (r, { st with sigfp := sigfp2, nsigfp := nsigfp2, ectx := ectx2 })
  | (r, sigfp1, nsigfp1, ectx1) =>
    some (r, { st with sigfp := sigfp1, nsigfp := nsigfp1, ectx := ectx1 })

/-- The loop of `verifySigblkFinish` (lines 1685-1695), from index `j` with
`fuel = nRoots - j` iterations left: the root so far and the verifier state. -/
def sigblkFinishLoop (api : ksiapi) :
    Nat → Nat → Option KSI_DataHash → ksifile → Option KSI_DataHash × ksifile
  | 0, _, root, ksi => (root, ksi)
  | fuel + 1, j, root, ksi =>
    if root = none then
      let root1 := if ksi.roots_valid.getD j 0 ≠ 0 then ksi.roots_hash.getD j none else none
      sigblkFinishLoop api fuel (j + 1) root1
        { ksi with roots_valid := ksi.roots_valid.set j 0 }
    else if ksi.roots_valid.getD j 0 ≠ 0 then
      let root1 := some (api.hash_node_ksi ksi (ksi.roots_hash.getD j none) root (j + 2))
      sigblkFinishLoop api fuel (j + 1) root1
        { ksi with roots_valid := ksi.roots_valid.set j 0 }
    else sigblkFinishLoop api fuel (j + 1) root ksi

/-- Source: `verifySigblkFinish` (lines 1672-1703): the return code, `*pRoot`
and the verifier state.  The local `r` is not initialised; `r0` is its
indeterminate value, which is returned when `nRecords` is 0. -/
def verifySigblkFinish (api : ksiapi) (ksi : ksifile) (pRoot : Option KSI_DataHash)
    (r0 : rsgte) : rsgte × Option KSI_DataHash × ksifile :=
  if ksi.nRecords = 0 then (r0, pRoot, { ksi with bInBlk := 0 })
  else
    match sigblkFinishLoop api ksi.nRoots 0 none ksi with
    | (root, ksi1) => (rsgte.success, root, { ksi1 with bInBlk := 0 })

/-- Stores `src` at offset `off` of the buffer `buf`
(`memcpy(buf + off, src, len)`); octets of `buf` that the list does not hold
read as 0. -/
def bufStoreAt (buf : List Byte) (off : Nat) (src : List Byte) : List Byte :=
  bufRead buf off ++ src ++ buf.drop (off + src.length)

/-- The macro `COPY_SUBREC_TO_NEWREC` (lines 1705-1709): the raw header and the
payload of `subrec` are appended to `newrec.data` at the `uint16_t` cursor
`iWr`. -/
def copySubrecToNewrec (newrec subrec : tlvrecord_t) (iWr : Nat) : tlvrecord_t × Nat :=
  let d1 := bufStoreAt newrec.data iWr (bufRead subrec.hdr subrec.lenHdr)
  let iWr1 := (iWr + subrec.lenHdr) % 2 ^ 16
  let d2 := bufStoreAt d1 iWr1 (bufRead subrec.data subrec.tlvlen)
  ({ newrec with data := d2 }, (iWr1 + subrec.tlvlen) % 2 ^ 16)

/-- The end of `rsksi_extendSig` (lines 1757-1773) once the five sub-records
have been read: the header of the 0x0906 child, the new length and header of
the record, the serialized signature, and the copy of `newrec` over `*rec`
(the fields before `data` and the first `tlvlen + 4` octets of `data`). -/
def extendSigFinish (flag16 : Nat) (rec newrec : tlvrecord_t) (iWr : Nat) (der : List Byte) :
    tlvrecord_t :=
  let lenDer := der.length
  let d1 := bufStoreAt newrec.data iWr [toByte (0x09 ||| flag16)]
  let d2 := bufStoreAt d1 ((iWr + 1) % 2 ^ 16) [toByte 0x06]
  let d3 := bufStoreAt d2 ((iWr + 2) % 2 ^ 16) [toByte ((lenDer >>> 8) &&& 0xff)]
  let d4 := bufStoreAt d3 ((iWr + 3) % 2 ^ 16) [toByte (lenDer &&& 0xff)]
  let iWr4 := (iWr + 4) % 2 ^ 16
  let tlvlen := (iWr4 + lenDer) % 2 ^ 16
  let d5 := bufStoreAt d4 iWr4 der
  { tlvtype := rec.tlvtype, tlvlen := tlvlen, hdr0 := rec.hdr0, hdr1 := rec.hdr1,
    hdr2 := toByte ((tlvlen >>> 8) &&& 0xff), hdr3 := toByte (tlvlen &&& 0xff), lenHdr := 4,
    data := bufStore rec.data (bufRead d5 (tlvlen + 4)) }

/-- Source: `rsksi_extendSig` (lines 1711-1780): the return code, the record
`*rec` and the error context.  `newrec0` and `subrec0` are the indeterminate
locals `newrec` and `subrec`. -/
def rsksi_extendSig (api : ksiapi) (flag16 : Nat) (sig : Option KSI_Signature)
    (rec : tlvrecord_t) (ectx : ksierrctx_t) (newrec0 subrec0 : tlvrecord_t) :
    rsgte × tlvrecord_t × ksierrctx_t :=
  match api.KSI_extendSignature sig with
  | (rgt, extended) =>
    if rgt ≠ KSI_OK then (rsgte.sig_extend, rec, { ectx with ksistate := rgt })
    else
      match api.KSI_Signature_serialize extended with
      | (rgt1, der) =>
        if rgt1 ≠ KSI_OK then (rsgte.sig_extend, rec, { ectx with ksistate := rgt1 })
        else
          match rsksi_tlvDecodeSUBREC flag16 rec 0 subrec0 with
          | (rsgte.success, iRd1, sub1) =>
            match copySubrecToNewrec newrec0 sub1 0 with
            | (new1, iWr1) =>
              match rsksi_tlvDecodeSUBREC flag16 rec iRd1 sub1 with
              | (rsgte.success, iRd2, sub2) =>
                match copySubrecToNewrec new1 sub2 iWr1 with
                | (new2, iWr2) =>
                  match rsksi_tlvDecodeSUBREC flag16 rec iRd2 sub2 with
                  | (rsgte.success, iRd3, sub3) =>
                    match copySubrecToNewrec new2 sub3 iWr2 with
                    | (new3, iWr3) =>
                      match rsksi_tlvDecodeSUBREC flag16 rec iRd3 sub3 with
                      | (rsgte.success, iRd4, sub4) =>
                        match copySubrecToNewrec new3 sub4 iWr3 with
                        | (new4, iWr4) =>
                          match rsksi_tlvDecodeSUBREC flag16 rec iRd4 sub4 with
                          | (rsgte.success, _, _) =>
                            (rsgte.success, extendSigFinish flag16 rec new4 iWr4 der, ectx)
                          | (r, _, _) => (r, rec, ectx)
                      | (r, _, _) => (r, rec, ectx)
                  | (r, _, _) => (r, rec, ectx)
              | (r, _, _) => (r, rec, ectx)
          | (r, _, _) => (r, rec, ectx)

/-- The locals and out-parameters of `rsksi_getExcerptBlockParams` that live
across the iterations of its loop. -/
structure excerptState where
  fp : FILE
  tlvrec : tlvrecord_t
  obj : Option tlvobj
  nRecs : Nat
  bSig : Nat
  rewindPos : Nat
  bs : Option block_sig_t
  bh : Option block_hdr_t
  deriving DecidableEq, Repr

/-- The loop `while(r == RSGTE_SUCCESS && bSig == 0)` of
`rsksi_getExcerptBlockParams` (lines 1226-1254).  `fuel` bounds the number of
iterations and `none` means that the bound was too small; a code other than
success is the code with which `rsksi_tlvrd` made the function jump to `done`.
In `case 0x0907` the test `bs != NULL` is on the address of the out-parameter
and is always true.  In the `default` branch the `fprintf` goes to the stream
that is open for reading; it fails and leaves content and position as they
are. -/
def getExcerptLoop (flag16 : Nat) (hashOutputLengthOctetsKSI : Byte → Nat) (bRewind : Nat)
    (stack : Nat → Nat → tlvrecord_t) : Nat → excerptState → Option (rsgte × excerptState)
  | 0, _ => none
  | fuel + 1, st =>
    if st.bSig ≠ 0 then some (rsgte.success, st)
    else
      match rsksi_tlvrd flag16 hashOutputLengthOctetsKSI st.fp st.tlvrec st.obj (stack fuel) with
      | (rsgte.success, fp, rec, obj) =>
        let st1 := { st with fp := fp, tlvrec := rec, obj := obj }
        if rec.tlvtype = 0x0905 then
          if st1.bs = none then
            getExcerptLoop flag16 hashOutputLengthOctetsKSI bRewind stack fuel
              { st1 with bs := tlvobj.toBlockSig obj,
                         rewindPos := if bRewind ≠ 0 then ftello fp else st1.rewindPos }
          else
            getExcerptLoop flag16 hashOutputLengthOctetsKSI bRewind stack fuel
              { st1 with bSig := 1 }
        else if rec.tlvtype = 0x0907 then
          let bh1 :=
            if st1.nRecs = 0 then
              match obj with
              | some (tlvobj.hashChain hc) =>
                st1.bh.map (fun b => { b with hashID := hc.rec_hash.hashID })
              | _ => st1.bh
            else st1.bh
          getExcerptLoop flag16 hashOutputLengthOctetsKSI bRewind stack fuel
            { st1 with bh := bh1, nRecs := (st1.nRecs + 1) % 2 ^ 64 }
        else
          getExcerptLoop flag16 hashOutputLengthOctetsKSI bRewind stack fuel st1
      | (r, fp, rec, obj) => some (r, { st with fp := fp, tlvrec := rec, obj := obj })

/-- Source: `rsksi_getExcerptBlockParams` (lines 1206-1277): the return code
and the state on return (stream, `*bs`, `*bh`).  `rec0` and `obj0` are the
indeterminate initial contents of the locals `rec` and `obj`; the argument
`ksi` is not used.  The loop is given more iterations than the stream has
octets left, plus one for the test of `bSig`. -/
def rsksi_getExcerptBlockParams (flag16 : Nat) (hashOutputLengthOctetsKSI : Byte → Nat)
    (stack : Nat → Nat → tlvrecord_t) (fp : FILE) (bRewind : Nat) (rec0 : tlvrecord_t)
    (obj0 : Option tlvobj) : Option (rsgte × excerptState) :=
  let st0 : excerptState :=
    { fp := fp, tlvrec := rec0, obj := obj0, nRecs := 0, bSig := 0,
      rewindPos := if bRewind ≠ 0 then ftello fp else 0, bs := none,
      bh := some block_hdr_t.zero }
  match getExcerptLoop flag16 hashOutputLengthOctetsKSI bRewind stack
      (fp.content.length - fp.pos + 2) st0 with
  | none => none
  | some (r, st) =>
    if st.bs ≠ none ∧ r = rsgte.eof then
      let st1 := { st with bs := st.bs.map (fun b => { b with recCount := st.nRecs }) }
      if bRewind ≠ 0 then some (rsgte.success, { st1 with fp := fseeko st1.fp st1.rewindPos })
      else some (rsgte.success, st1)
    else some (r, st)

/-! ## Excerpt verification, conversion of old files, hash-chain writers

Three more functions of the KSI library are called by the excerpt verifier
only; they are the fields of `ksilib`.  The global `RSKSI_FLAG_TLV16_RUNTIME`
is written by `rsksi_ConvertSigFile`; there it is part of the state. -/

/-- The functions of the KSI library that only `rsksi_vrfy_nextHashChain`
calls: `KSI_DataHash_fromDigest(ctx, id, digest, len, &hash)` (the hash that it
assigns; `none` when it leaves the `NULL` pointer), `KSI_DataHash_equals(a, b)`
and `KSI_Signature_verify(sig, ctx)`. -/
structure ksilib where
  KSI_DataHash_fromDigest : Byte → Option (List Byte) → Nat → Option KSI_DataHash
  KSI_DataHash_equals : Option KSI_DataHash → Option KSI_DataHash → Nat
  KSI_Signature_verify : Option KSI_Signature → Nat

/-- The cast `(block_hashchain_t*) obj`. -/
def tlvobj.toHashChain : Option tlvobj → Option block_hashchain_t
  | some (tlvobj.hashChain hc) => some hc
  | _ => none

/-- Source: `rsksi_vrfy_nextHashChain` (lines 1556-1667): the return code, the
stream and the error context.  `record` is the log record (`rec`, `len`);
`rec0` and `obj0` are the indeterminate locals `tlvrec` and `obj`.  The level
passed to `hash_node_ksi` for the left link is the `int` value
`level_corr + 1`. -/
def rsksi_vrfy_nextHashChain (api : ksiapi) (lib : ksilib) (flag16 : Nat)
    (bs : Option block_sig_t) (ksi : ksifile) (sigfp : FILE) (record : List Byte)
    (ectx : ksierrctx_t) (rec0 : tlvrecord_t) (obj0 : Option tlvobj)
    (stack : Nat → tlvrecord_t) : rsgte × FILE × ksierrctx_t :=
  match rsksi_tlvrd flag16 api.hashOutputLengthOctetsKSI sigfp rec0 obj0 stack with
  | (rsgte.success, fp1, tlvrec, obj) =>
    if tlvrec.tlvtype ≠ 0x0907 then (rsgte.invltyp, fp1, ectx)
    else
      let blhashchain := (tlvobj.toHashChain obj).getD block_hashchain_t.zero
      if blhashchain.rec_hash.hashID ≠ api.hashIdentifierKSI ksi.hashAlg then
        (rsgte.invld_rec_hashid, fp1, reportError rsgte.success ectx)
      else
        let rec_hash := lib.KSI_DataHash_fromDigest blhashchain.rec_hash.hashID
          blhashchain.rec_hash.data blhashchain.rec_hash.len
        let left_hash := lib.KSI_DataHash_fromDigest blhashchain.left_link.sib_hash.hashID
          blhashchain.left_link.sib_hash.data blhashchain.left_link.sib_hash.len
        let right_hash := lib.KSI_DataHash_fromDigest blhashchain.right_link.sib_hash.hashID
          blhashchain.right_link.sib_hash.data blhashchain.right_link.sib_hash.len
        let line_hash := some (api.hash_r_ksi ksi record)
        let root_hash := some (api.hash_node_ksi ksi left_hash line_hash
          (blhashchain.left_link.level_corr.val + 1))
        if lib.KSI_DataHash_equals root_hash rec_hash ≠ 1 then
          let ectx1 := { ectx with computedHash := root_hash,
                                   fileHash := some blhashchain.rec_hash }
          let ectx2 := reportError rsgte.invld_rec_hash ectx1
          (rsgte.invld_rec_hash, fp1, { ectx2 with computedHash := none, fileHash := none })
        else
          let root_tmp := root_hash
          let root_hash2 := some (api.hash_node_ksi ksi right_hash root_tmp
            blhashchain.right_link.level_corr.val)
          let b := bs.getD block_sig_t.zero
          match api.KSI_Signature_parse (b.der_data.getD []) b.der_len with
          | (ksistate, sig) =>
            if ksistate ≠ KSI_OK then
              (rsgte.invld_signature, fp1, { ectx with ksistate := ksistate })
            else
              let ksistate1 := lib.KSI_Signature_verify sig
              if ksistate1 ≠ KSI_OK then
                (rsgte.invld_signature, fp1, { ectx with ksistate := ksistate1 })
              else
                let ksistate2 := api.KSI_Signature_verifyDataHash sig root_hash2
                if ksistate2 ≠ KSI_OK then
                  (rsgte.invld_signature, fp1, { ectx with ksistate := ksistate2 })
                else (rsgte.success, fp1, ectx)
  | (r, fp1, _, _) => (r, fp1, ectx)

/-- The macro `CHKrDecode(code)` of the absent header, used as
`if((r = code) != 0) goto donedecode`: the writes that follow are done only
after a success.  `none` is a failed `assert` of a header writer. -/
def CHKrDecode (res : Option (rsgte × OFILE)) (next : OFILE → Option (rsgte × OFILE)) :
    Option (rsgte × OFILE) :=
  match res with
  | some (rsgte.success, fp) => next fp
  | other => other

/-- The three writes of an imprint child (lines 2101-2103, 2112-2114,
2145-2147): a short-form header of the given type with length `1 + len`, the
algorithm octet and the digest. -/
def writeImprintChild (flag16 : Nat) (newsigfp : OFILE) (tlvtype : Nat) (imp : imprint_t)
    (next : OFILE → Option (rsgte × OFILE)) : Option (rsgte × OFILE) :=
  CHKrDecode (rsksi_tlv8Write flag16 newsigfp 0x00 tlvtype (1 + imp.len)) fun fp1 =>
  CHKrDecode (some (rsksi_tlvfileAddOctet fp1 imp.hashID.val)) fun fp2 =>
  CHKrDecode (some (rsksi_tlvfileAddOctetString fp2 (imp.data.getD []) imp.len)) next

/-- Source: `rsksi_StartHashChain` (lines 2076-2122): the return code and the
output stream.  `none` is a failed `assert` of a header writer, or the
dereference of `ksi->x_prevright` (line 2095) when that pointer is `NULL`: the
error check of lines 2085-2088 covers `x_prevleft` and `x_prev` only.
`tlvlenLevelCorr` is a `uint8_t`, `tlvlen` an `unsigned`. -/
def rsksi_StartHashChain (flag16 : Nat) (newsigfp : OFILE) (ksi : ksifile)
    (iRightLinkRecords : Nat) : Option (rsgte × OFILE) :=
  match ksi.x_prevleft, ksi.x_prev with
  | some x_prevleft, some x_prev =>
    match ksi.x_prevright with
    | none => none
    | some x_prevright =>
      let tlvlenLevelCorr := rsksi_tlvGetInt64OctetSize ksi.nRoots % 2 ^ 8
      let tlvlen := (4 + 2 + 1 + x_prev.len + 2 + tlvlenLevelCorr + 2 + 1 + x_prevleft.len
        + ((2 + tlvlenLevelCorr + 2 + 1 + x_prevright.len) * iRightLinkRecords)) % 2 ^ 32
      CHKrDecode (rsksi_tlv16Write flag16 newsigfp 0x00 0x0907 tlvlen) fun fp1 =>
      writeImprintChild flag16 fp1 0x01 x_prev fun fp2 =>
      CHKrDecode (rsksi_tlv8Write flag16 fp2 0x00 0x02
        (2 + tlvlenLevelCorr + 2 + 1 + x_prevleft.len)) fun fp3 =>
      CHKrDecode (rsksi_tlv8Write flag16 fp3 0x00 0x01 tlvlenLevelCorr) fun fp4 =>
      CHKrDecode (some (rsksi_tlvfileAddInt64 fp4 0)) fun fp5 =>
      writeImprintChild flag16 fp5 0x02 x_prevleft fun fp6 => some (rsgte.success, fp6)
  | _, _ => some (rsgte.extract_hash, newsigfp)

/-- Source: `rsksi_AddRightToHashChain` (lines 2125-2155): the return code and
the output stream.  `none` is a failed `assert` of a header writer. -/
def rsksi_AddRightToHashChain (flag16 : Nat) (newsigfp : OFILE) (ksi : ksifile)
    (uiLevelCorrectionValue : Nat) : Option (rsgte × OFILE) :=
  match ksi.x_prevright with
  | none => some (rsgte.extract_hash, newsigfp)
  | some x_prevright =>
    let tlvlenLevelCorr := rsksi_tlvGetInt64OctetSize uiLevelCorrectionValue % 2 ^ 8
    CHKrDecode (rsksi_tlv8Write flag16 newsigfp 0x00 0x03
      (2 + tlvlenLevelCorr + 2 + 1 + x_prevright.len)) fun fp1 =>
    CHKrDecode (rsksi_tlv8Write flag16 fp1 0x00 0x01 tlvlenLevelCorr) fun fp2 =>
    CHKrDecode (some (rsksi_tlvfileAddInt64 fp2 uiLevelCorrectionValue)) fun fp3 =>
    writeImprintChild flag16 fp3 0x02 x_prevright fun fp4 => some (rsgte.success, fp4)

/-- The part of `case 0x0902` of `rsksi_ConvertSigFile` that reads the five
children of an old block-signature record (lines 1925-1994): the return code,
the local `subrec`, and the header and signature objects as far as they have
been filled in.  `flag16` is the value of `RSKSI_FLAG_TLV16_RUNTIME` at that
point. -/
def convertDecode (flag16 : Nat) (hashOutputLengthOctetsKSI : Byte → Nat) (rec subrec : tlvrecord_t) :
    rsgte × tlvrecord_t × block_hdr_t × block_sig_t :=
  let bh := block_hdr_t.zero
  let bs := block_sig_t.zero
  match rsksi_tlvDecodeSUBREC flag16 rec 0 subrec with
  | (rsgte.success, strtidx, subrec) =>
    if ¬ (subrec.tlvtype = 0x00 ∧ subrec.tlvlen = 1) then (rsgte.fmt, subrec, bh, bs) else
    let bh := { bh with hashID := subrec.data.getD 0 0 }
    match rsksi_tlvDecodeSUBREC flag16 rec strtidx subrec with
    | (rsgte.success, strtidx, subrec) =>
      if ¬ (subrec.tlvtype = 0x01) then (rsgte.invltyp, subrec, bh, bs) else
      let bh := { bh with iv := some (bufRead subrec.data subrec.tlvlen) }
      match rsksi_tlvDecodeSUBREC flag16 rec strtidx subrec with
      | (rsgte.success, strtidx, subrec) =>
        if ¬ (subrec.tlvtype = 0x02) then (rsgte.invltyp, subrec, bh, bs) else
        let bh := { bh with lastHash := { bh.lastHash with hashID := subrec.data.getD 0 0 } }
        if subrec.tlvlen ≠ 1 + hashOutputLengthOctetsKSI bh.lastHash.hashID then
          (rsgte.len, subrec, bh, bs)
        else
        let bh := { bh with lastHash := { bh.lastHash with len := subrec.tlvlen - 1 } }
        let bh := { bh with
                    lastHash := { bh.lastHash with
                                  data := some (bufRead (subrec.data.drop 1) (subrec.tlvlen - 1)) } }
        match rsksi_tlvDecodeSUBREC flag16 rec strtidx subrec with
        | (rsgte.success, strtidx, subrec) =>
          if ¬ (subrec.tlvtype = 0x03 ∧ subrec.tlvlen ≤ 8) then (rsgte.invltyp, subrec, bh, bs)
          else
          let bs := { bs with recCount := recCountLoop subrec.data subrec.tlvlen }
          match rsksi_tlvDecodeSUBREC flag16 rec strtidx subrec with
          | (rsgte.success, strtidx, subrec) =>
            if ¬ (subrec.tlvtype = 0x0905) then (rsgte.invltyp, subrec, bh, bs) else
            let bs := { bs with der_len := subrec.tlvlen, sigID := SIGID_RFC3161 }
            let bs := { bs with der_data := some (bufRead subrec.data bs.der_len) }
            if strtidx ≠ rec.tlvlen then (rsgte.len, subrec, bh, bs)
            else (rsgte.success, subrec, bh, bs)
          | (r, _, subrec) => (r, subrec, bh, bs)
        | (r, _, subrec) => (r, subrec, bh, bs)
      | (r, _, subrec) => (r, subrec, bh, bs)
    | (r, _, subrec) => (r, subrec, bh, bs)
  | (r, _, subrec) => (r, subrec, bh, bs)

/-- The part of `case 0x0902` of `rsksi_ConvertSigFile` that writes the block
header and the block signature in the new format (lines 1999-2029).  `flag16` is
the value of `RSKSI_FLAG_TLV16_RUNTIME` at that point; `tlvlen` is an
`unsigned`, `tlvlenRecords` a `uint8_t`. -/
def convertWrite (api : ksiapi) (flag16 : Nat) (newsigfp : OFILE) (bh : block_hdr_t)
    (bs : block_sig_t) : Option (rsgte × OFILE) :=
  let tlvlen := (2 + 1 + 2 + api.hashOutputLengthOctetsKSI bh.hashID + 2 + 1 + bh.lastHash.len)
    % 2 ^ 32
  CHKrDecode (rsksi_tlv16Write flag16 newsigfp 0x00 0x0901 tlvlen) fun fp1 =>
  CHKrDecode (rsksi_tlv8Write flag16 fp1 0x00 0x01 1) fun fp2 =>
  CHKrDecode (some (rsksi_tlvfileAddOctet fp2 (api.hashIdentifierKSI bh.hashID.val).val)) fun fp3 =>
  CHKrDecode (rsksi_tlv8Write flag16 fp3 0x00 0x02 (api.hashOutputLengthOctetsKSI bh.hashID))
    fun fp4 =>
  CHKrDecode (some (rsksi_tlvfileAddOctetString fp4 (bh.iv.getD [])
    (api.hashOutputLengthOctetsKSI bh.hashID))) fun fp5 =>
  CHKrDecode (rsksi_tlv8Write flag16 fp5 0x00 0x03 (bh.lastHash.len + 1)) fun fp6 =>
  CHKrDecode (some (rsksi_tlvfileAddOctet fp6 bh.lastHash.hashID.val)) fun fp7 =>
  CHKrDecode (some (rsksi_tlvfileAddOctetString fp7 (bh.lastHash.data.getD []) bh.lastHash.len))
    fun fp8 =>
  let tlvlenRecords := rsksi_tlvGetInt64OctetSize bs.recCount % 2 ^ 8
  let tlvlen2 := (2 + tlvlenRecords + 4 + bs.der_len) % 2 ^ 32
  CHKrDecode (rsksi_tlv16Write flag16 fp8 0x00 0x0904 tlvlen2) fun fp9 =>
  CHKrDecode (rsksi_tlv8Write flag16 fp9 0x00 0x01 tlvlenRecords) fun fp10 =>
  CHKrDecode (some (rsksi_tlvfileAddInt64 fp10 bs.recCount)) fun fp11 =>
  CHKrDecode (rsksi_tlv16Write flag16 fp11 0x00 0x905 bs.der_len) fun fp12 =>
  some (rsksi_tlvfileAddOctetString fp12 (bs.der_data.getD []) bs.der_len)

/-- The global `RSKSI_FLAG_TLV16_RUNTIME` and the locals and streams of
`rsksi_ConvertSigFile` that live across the iterations of its loop. -/
structure convState where
  flag : Nat
  oldsigfp : FILE
  newsigfp : OFILE
  tlvrec : tlvrecord_t
  subrec : tlvrecord_t
  deriving DecidableEq, Repr

/-- The loop `while(1)` of `rsksi_ConvertSigFile` (lines 1896-2067) up to the
label `done`: the return code and the state there.  The C loop needs no bound
(every iteration that does not leave reads a record); `fuel` bounds the number
of iterations and `none` means that the bound was too small or that an `assert`
of a header writer failed.  The record readers and header writers use the value
that the flag has when they are called. -/
def convertLoop (api : ksiapi) : Nat → convState → Option (rsgte × convState)
  | 0, _ => none
  | fuel + 1, st =>
    match rsksi_tlvRecRead st.flag st.oldsigfp st.tlvrec with
    | (rsgte.success, fp, rec) =>
      if rec.tlvtype = 0x0900 ∨ rec.tlvtype = 0x0901 then
        let typconv :=
          if rec.tlvtype = 0x0900 then (((0x00 ||| 0x80) <<< 8) ||| 0x0902) % 2 ^ 16
          else (((0x00 ||| 0x80) <<< 8) ||| 0x0903) % 2 ^ 16
        let rec1 := { rec with hdr0 := toByte (typconv >>> 8), hdr1 := toByte (typconv &&& 0xff) }
        match rsksi_tlvDecodeIMPRINT api.hashOutputLengthOctetsKSI rec1 with
        | (rsgte.success, _) =>
          match rsksi_tlvwrite st.newsigfp rec1 with
          | (rsgte.success, o) =>
            convertLoop api fuel { st with oldsigfp := fp, newsigfp := o, tlvrec := rec1 }
          | (r, o) => some (r, { st with oldsigfp := fp, newsigfp := o, tlvrec := rec1 })
        | (r, _) => some (r, { st with flag := 0x20, oldsigfp := fp, tlvrec := rec1 })
      else if rec.tlvtype = 0x0902 then
        match convertDecode st.flag api.hashOutputLengthOctetsKSI rec st.subrec with
        | (rsgte.success, subrec, bh, bs) =>
          let st1 := { st with flag := 0x80, oldsigfp := fp, tlvrec := rec, subrec := subrec }
          match convertWrite api st1.flag st1.newsigfp bh bs with
          | none => none
          | some (rsgte.success, o) =>
            convertLoop api fuel { st1 with flag := 0x20, newsigfp := o }
          | some (r, o) => some (r, { st1 with flag := 0x20, newsigfp := o })
        | (r, subrec, _, _) =>
          some (r, { st with flag := 0x20, oldsigfp := fp, tlvrec := rec, subrec := subrec })
      else convertLoop api fuel { st with oldsigfp := fp, tlvrec := rec }
    | (rRead, fp, rec) =>
      some (if rRead = rsgte.eof then rsgte.success else rRead,
        { st with oldsigfp := fp, tlvrec := rec })

/-- Source: `rsksi_ConvertSigFile` (lines 1875-2073): the return code and the
state on return; `flag` in the argument is the value of
`RSKSI_FLAG_TLV16_RUNTIME` on entry, `flag` in the result its value on return.
`rec0` and `subrec0` are the indeterminate locals `rec` and `subrec`.  The loop
is given more iterations than the stream has octets left. -/
def rsksi_ConvertSigFile (api : ksiapi) (flag : Nat) (oldsigfp : FILE) (newsigfp : OFILE)
    (rec0 subrec0 : tlvrecord_t) : Option (rsgte × convState) :=
  let st0 : convState :=
    { flag := flag, oldsigfp := oldsigfp, newsigfp := newsigfp, tlvrec := rec0, subrec := subrec0 }
  let st1 := { st0 with flag := 0x20 }
  convertLoop api (oldsigfp.content.length - oldsigfp.pos + 1) st1

/-! ## Definitions used to state the properties -/

/-- The `k` low-order octets of `val`, most significant first. -/
def beBytes (val : Nat) : Nat → List Byte
  | 0 => []
  | k + 1 => toByte (val >>> (8 * k)) :: beBytes val k

/-- The record-count child as the converter writes it (lines 2018, 2025-2026):
a short-form header of type 0x01 with length `rsksi_tlvGetInt64OctetSize`, then
the integer by `rsksi_tlvfileAddInt64`. -/
def writeRecCount (flag16 : Nat) (fp : OFILE) (recCount : Nat) : Option (rsgte × OFILE) :=
  let tlvlenRecords := rsksi_tlvGetInt64OctetSize recCount % 2 ^ 8
  match rsksi_tlv8Write flag16 fp 0x00 0x01 tlvlenRecords with
  | some (rsgte.success, fp1) => some (rsksi_tlvfileAddInt64 fp1 recCount)
  | res => res

/-- Modelled from the spec: the wire format of section 4.1.  `isTlv enc t p` holds
when the octets `enc` are one TLV of type `t` with payload `p`: short form
(top bit of the first octet clear, type in its low 5 bits, one length octet) or
long form (top bit set, 13-bit type `(byte0 & 0x1F) << 8 | byte1`, two length
octets, big-endian). -/
def isTlv (enc : List Byte) (tlvtype : Nat) (payload : List Byte) : Bool :=
  match enc with
  | b0 :: b1 :: rest =>
    if b0.val &&& 0x80 = 0 then
      decide (b0.val &&& 0x1f = tlvtype ∧ b1.val = payload.length ∧ rest = payload)
    else
      match rest with
      | b2 :: b3 :: rest2 =>
        decide ((((b0.val &&& 0x1f) <<< 8) ||| b1.val) = tlvtype ∧
          256 * b2.val + b3.val = payload.length ∧ rest2 = payload)
      | _ => false
  | _ => false

/-- Modelled from the spec: `hashOutputLengthOctetsKSI` is defined outside this
file.  The scenarios of section 8 use SHA-256 (algorithm octet 0x01), whose
digest has 32 octets; this sample digest-length function is used for concrete
instances only. -/
def sha256DigestLen : Byte → Nat := fun _ => 32

/-- The value of an octet string read as a big-endian integer. -/
def beValue (l : List Byte) : Nat := l.foldl (fun v b => 256 * v + b.val) 0

/-- A record of a block before its signature, given with the octets that encode
it: a block header (type 0x0901: the whole record `enc`, its three children
`e1`, `e2`, `e3` and what they hold), a record hash (type 0x0902) or a tree hash
(type 0x0903), each holding the imprint `alg || digest`. -/
inductive blockRec where
  | hdr (enc e1 e2 e3 : List Byte) (h : Byte) (iv : List Byte) (alg : Byte) (digest : List Byte)
  | recHash (enc : List Byte) (alg : Byte) (digest : List Byte)
  | treeHash (enc : List Byte) (alg : Byte) (digest : List Byte)
  deriving DecidableEq, Repr

/-- The octets of a record. -/
def blockRec.enc : blockRec → List Byte
  | blockRec.hdr enc _ _ _ _ _ _ _ => enc
  | blockRec.recHash enc _ _ => enc
  | blockRec.treeHash enc _ _ => enc

/-- Well-formedness of a record in the wire format: the octets are one TLV of
the record's type whose payload is made of the children (header) or is the
imprint, and every imprint has the digest length of its algorithm. -/
def blockRec.wf (dl : Byte → Nat) : blockRec → Bool
  | blockRec.hdr enc e1 e2 e3 h iv alg digest =>
    isTlv enc 0x0901 (e1 ++ (e2 ++ e3)) && isTlv e1 0x01 [h] && isTlv e2 0x02 iv &&
      isTlv e3 0x03 (alg :: digest) && decide (digest.length = dl alg)
  | blockRec.recHash enc alg digest =>
    isTlv enc 0x0902 (alg :: digest) && decide (digest.length = dl alg)
  | blockRec.treeHash enc alg digest =>
    isTlv enc 0x0903 (alg :: digest) && decide (digest.length = dl alg)

/-- Whether the record is a record hash (type 0x0902). -/
def blockRec.isRecHash : blockRec → Bool
  | blockRec.recHash _ _ _ => true
  | _ => false

/-- Whether the record is a tree hash (type 0x0903). -/
def blockRec.isTreeHash : blockRec → Bool
  | blockRec.treeHash _ _ _ => true
  | _ => false

/-- The octets of a sequence of records. -/
def encodeAll : List blockRec → List Byte
  | [] => []
  | it :: rest => it.enc ++ encodeAll rest

/-- The block header that the last 0x0901 record of the sequence holds; `bh` if
there is none. -/
def lastHdr : List blockRec → Option block_hdr_t → Option block_hdr_t
  | [], bh => bh
  | blockRec.hdr _ _ _ _ h iv alg digest :: rest, _ =>
    lastHdr rest
      (some { hashID := h, iv := some iv,
              lastHash := { hashID := alg, len := digest.length, data := some digest } })
  | _ :: rest, bh => lastHdr rest bh

/-- A sample of the library interface, used for concrete instances only: every
hash has algorithm 1 and 32 digest octets; the mask hash depends on the record
counter, the record hash is the record padded to 32 octets, the node hash is
the level followed by 15 octets of the left and 16 octets of the right digest;
the signature engine accepts everything. -/
def sampleApi : ksiapi where
  hash_m_ksi := fun ksi => { algo := 1, digest := List.replicate 32 (toByte (0x40 + ksi.nRecords)) }
  hash_r_ksi := fun _ record => { algo := 1, digest := bufRead record 32 }
  hash_node_ksi := fun _ l r level =>
    { algo := 1,
      digest := bufRead (toByte level :: ((KSI_DataHash_extract l).take 15
        ++ (KSI_DataHash_extract r).take 16)) 32 }
  hashIdentifierKSI := fun a => toByte a
  hashOutputLengthOctetsKSI := sha256DigestLen
  rsksiImprintFromKSI_DataHash := fun _ h =>
    h.map (fun d => { hashID := toByte d.algo, len := d.digest.length, data := some d.digest })
  KSI_Signature_parse := fun data len => (0, some { der := bufRead data len })
  KSI_Signature_verifyDataHash := fun _ _ => 0
  KSI_extendSignature := fun s => (0, s)
  KSI_Signature_serialize := fun s => (0, (s.map (fun x => x.der)).getD [])

/-- The type of a record of a block. -/
def blockRec.tlvtype : blockRec → Nat
  | blockRec.hdr _ _ _ _ _ _ _ _ => 0x0901
  | blockRec.recHash _ _ _ => 0x0902
  | blockRec.treeHash _ _ _ => 0x0903

/-- A record of one of the known types, given with the octets that encode it: a
record of a block (types 0x0901, 0x0902, 0x0903), a block signature (type
0x0904: the record-count child `e1` holding `cnt`, the signature child `e2`
holding `sig`), an excerpt signature (type 0x0905, payload `sig`) or a hash
chain (type 0x0907: the record hash `e1` holding `a1 || d1` and the two steps
`e2`, `e3`, each made of a level correction `l` holding `lc` and a sibling hash
`s` holding `a || d`). -/
inductive sigRec where
  | block (r : blockRec)
  | blockSig (enc e1 e2 cnt sig : List Byte)
  | excerptSig (enc sig : List Byte)
  | hashChain (enc e1 e2 e3 : List Byte) (a1 : Byte) (d1 : List Byte)
      (l2 s2 : List Byte) (lc2 a2 : Byte) (d2 : List Byte)
      (l3 s3 : List Byte) (lc3 a3 : Byte) (d3 : List Byte)
  deriving DecidableEq, Repr

/-- The octets of a record. -/
def sigRec.enc : sigRec → List Byte
  | sigRec.block r => r.enc
  | sigRec.blockSig enc _ _ _ _ => enc
  | sigRec.excerptSig enc _ => enc
  | sigRec.hashChain enc _ _ _ _ _ _ _ _ _ _ _ _ _ _ _ => enc

/-- The type of a record. -/
def sigRec.tlvtype : sigRec → Nat
  | sigRec.block r => r.tlvtype
  | sigRec.blockSig _ _ _ _ _ => 0x0904
  | sigRec.excerptSig _ _ => 0x0905
  | sigRec.hashChain _ _ _ _ _ _ _ _ _ _ _ _ _ _ _ _ => 0x0907

/-- Well-formedness of a record of a known type in the wire format. -/
def sigRec.wf (dl : Byte → Nat) : sigRec → Bool
  | sigRec.block r => r.wf dl
  | sigRec.blockSig enc e1 e2 cnt sig =>
    isTlv enc 0x0904 (e1 ++ e2) && isTlv e1 0x01 cnt && decide (cnt.length ≤ 8) &&
      isTlv e2 0x0905 sig
  | sigRec.excerptSig enc sig => isTlv enc 0x0905 sig && decide (sig ≠ [])
  | sigRec.hashChain enc e1 e2 e3 a1 d1 l2 s2 lc2 a2 d2 l3 s3 lc3 a3 d3 =>
    isTlv enc 0x0907 (e1 ++ (e2 ++ e3)) &&
      isTlv e1 0x01 (a1 :: d1) && decide (d1.length = dl a1) &&
      isTlv e2 0x02 (l2 ++ s2) && isTlv l2 0x01 [lc2] && isTlv s2 0x02 (a2 :: d2) &&
      decide (d2.length = dl a2) &&
      isTlv e3 0x03 (l3 ++ s3) && isTlv l3 0x01 [lc3] && isTlv s3 0x02 (a3 :: d3) &&
      decide (d3.length = dl a3)

/-- The outcomes of the record decoders: success, `RSGTE_LEN`, `RSGTE_FMT`,
`RSGTE_INVLTYP`, and `rsgte.aborted` for a failure inside a hash step. -/
def rsgte.isDecodeCode : rsgte → Bool
  | rsgte.success => true
  | rsgte.len => true
  | rsgte.fmt => true
  | rsgte.invltyp => true
  | rsgte.aborted => true
  | _ => false

/-- The return codes that `rsksi_tlvrd` produces: those of the decoders, the
initial value 1 of `rsksi_tlvRecDecode`, and `RSGTE_IO`, `RSGTE_EOF` of the
record reader. -/
def rsgte.isReadCode : rsgte → Bool
  | rsgte.io => true
  | rsgte.eof => true
  | rsgte.literal1 => true
  | r => r.isDecodeCode

/-- The leaf hash `x` that `rsksi_vrfy_nextRec` computes for a record (lines
1464-1471): `hash_node_ksi(ksi, &x, m, recHash, 1)` with the mask hash `m` and
the record hash `recHash`. -/
def leafHash (api : ksiapi) (ksi : ksifile) (record : List Byte) : KSI_DataHash :=
  api.hash_node_ksi ksi (some (api.hash_m_ksi ksi)) (some (api.hash_r_ksi ksi record)) 1

/-- A sample excerpt signature record (type 0x0905) with a one-octet payload. -/
def sampleExcerptSig : List Byte := [0x89, 0x05, 0x00, 0x01, 0xAA]

/-- A sample hash-chain record (type 0x0907): a record hash and two steps with
SHA-256-sized imprints. -/
def sampleHashChain : List Byte :=
  [0x89, 0x07, 0x00, 0x73] ++ ((0x01 :: 0x21 :: 0x01 :: List.replicate 32 0x22)
    ++ ((0x02 :: 0x26 :: ([0x01, 0x01, 0x00]
          ++ (0x02 :: 0x21 :: 0x01 :: List.replicate 32 0x33)))
    ++ (0x03 :: 0x26 :: ([0x01, 0x01, 0x00]
          ++ (0x02 :: 0x21 :: 0x01 :: List.replicate 32 0x44)))))

/-- A sample verifier state: the state after construction with algorithm 1,
tree hashes kept, a forest of 4 slots, messages collected from an empty log,
reading the signature stream `content` from its start, no output stream. -/
def sampleState (content : List Byte) : vrfyState :=
  { ksi := { ksifile.zero 4 with hashAlg := 1, bKeepTreeHashes := 1 },
    sigfp := { content := content, pos := 0, eof := false },
    nsigfp := none,
    ectx := { rsksi_errctxInit ksierrctx_t.zero with fp := some [] } }

/-- The long-form record of type 0x0903 that holds the imprint of a hash of 32
digest octets. -/
def treeHashRec (h : KSI_DataHash) : List Byte :=
  [0x89, 0x03, 0x00, 0x21, toByte h.algo] ++ h.digest

/-- The leaf hash of the sample record `"a"`, the first record of a block. -/
def sampleLeafA : KSI_DataHash := leafHash sampleApi (sampleState []).ksi [0x61]

/-- The leaf hash of the sample record `"b"`, the second record of a block. -/
def sampleLeafB : KSI_DataHash :=
  leafHash sampleApi { (sampleState []).ksi with nRecords := 1 } [0x62]

/-- The node hash over the two sample leaves at level 2. -/
def sampleNodeAB : KSI_DataHash :=
  sampleApi.hash_node_ksi (sampleState []).ksi (some sampleLeafA) (some sampleLeafB) 2

/-- The tree-hash records that the verifier reads for the two-record sample
block: the leaf of `"a"`, the leaf of `"b"`, and the node over both. -/
def sampleTwoRecordStream : List Byte :=
  treeHashRec sampleLeafA ++ treeHashRec sampleLeafB ++ treeHashRec sampleNodeAB

/-- The stream `fp1` is reached from `fp` by reading, one after the other,
records of the types `types` with `rsksi_tlvRecRead`. -/
def readsRecords (flag16 : Nat) : List Nat → FILE → FILE → Prop
  | [], fp, fp1 => fp1 = fp
  | t :: ts, fp, fp1 =>
    ∃ (rec0 rec : tlvrecord_t) (fp2 : FILE),
      rsksi_tlvRecRead flag16 fp rec0 = (rsgte.success, fp2, rec) ∧ rec.tlvtype = t ∧
      readsRecords flag16 ts fp2 fp1

/-- The number of slots `j, j + 1, ...` (at most `fuel` of them) that are valid
without a gap: the number of combinations ("carries") that the loop of
`rsksi_vrfy_nextRec` performs from slot `j`. -/
def carriesFrom (valid : List Nat) : Nat → Nat → Nat
  | _, 0 => 0
  | j, fuel + 1 => if valid.getD j 0 = 0 then 0 else carriesFrom valid (j + 1) fuel + 1

/-- The number of carries that appending a record to the forest of `ksi`
performs. -/
def carries (ksi : ksifile) : Nat := carriesFrom ksi.roots_valid 0 ksi.nRoots

/-- The hash of the perfect binary tree of height `h` over the `2 ^ h` leaves
`l`: two subtrees of height `h` are combined as `H older newer (h + 2)`. -/
def treeHash (H : KSI_DataHash → KSI_DataHash → Nat → KSI_DataHash) :
    Nat → List KSI_DataHash → KSI_DataHash
  | 0, l => l.headD { algo := 0, digest := [] }
  | h + 1, l => H (treeHash H h (l.take (2 ^ h))) (treeHash H h (l.drop (2 ^ h))) (h + 2)

/-- The slots `j, j + 1, ..., j + fuel - 1` of the forest partition the leaves
`l`, higher slots covering earlier leaves: every valid slot `i` holds the hash
of the perfect tree over its `2 ^ i` leaves, and the slots below it cover the
leaves after them. -/
def coversUp (H : KSI_DataHash → KSI_DataHash → Nat → KSI_DataHash) (valid : List Nat)
    (hash : List (Option KSI_DataHash)) : Nat → Nat → List KSI_DataHash → Bool
  | 0, _, l => decide (l = [])
  | fuel + 1, j, l =>
    if valid.getD j 0 ≠ 0 then
      decide (2 ^ j ≤ l.length) &&
      decide (hash.getD j none = some (treeHash H j (l.drop (l.length - 2 ^ j)))) &&
      coversUp H valid hash fuel (j + 1) (l.take (l.length - 2 ^ j))
    else coversUp H valid hash fuel (j + 1) l

/-- Successive calls of `rsksi_vrfy_nextRec`, one for each record, as long as
they return success: the final state and the leaf hashes of the records, in
order.  `stack n` holds the indeterminate locals of the call that has `n`
records after it. -/
def vrfyRecords (api : ksiapi) (flag16 debug MAX_ROOTS storehashchain : Nat)
    (stack : Nat → Nat → Nat → tlvrecord_t) :
    List (List Byte) → vrfyState → Option (vrfyState × List KSI_DataHash)
  | [], st => some (st, [])
  | record :: rest, st =>
    match rsksi_vrfy_nextRec api flag16 debug MAX_ROOTS st record storehashchain
        (stack rest.length) with
    | some (rsgte.success, st1) =>
      match vrfyRecords api flag16 debug MAX_ROOTS storehashchain stack rest st1 with
      | some (st2, leaves) => some (st2, leafHash api st.ksi record :: leaves)
      | none => none
    | _ => none

/-- The verification of the two sample records `"a"`, `"b"` against
`sampleTwoRecordStream`: the final state and the leaf hashes. -/
def sampleTwoRecordRun : vrfyState × List KSI_DataHash :=
  (vrfyRecords sampleApi FLAG_TLV16 0 4 0 (fun _ _ _ => tlvrecord_t.zero) [[0x61], [0x62]]
    (sampleState sampleTwoRecordStream)).getD (sampleState [], [])

/-- The fold of finalization as the spec words it: the root is the lowest valid
slot; every higher valid slot `j` is combined as `H roots[j] root (j + 2)`. -/
def finishRoot (H : Option KSI_DataHash → Option KSI_DataHash → Nat → KSI_DataHash)
    (ksi : ksifile) : Option KSI_DataHash :=
  match (List.range ksi.nRoots).filter (fun j => ksi.roots_valid.getD j 0 ≠ 0) with
  | [] => none
  | j0 :: js =>
    js.foldl (fun root j => some (H (ksi.roots_hash.getD j none) root (j + 2)))
      (ksi.roots_hash.getD j0 none)

/-- The verifier state with which `rsksi_vrfy_nextRec` enters its loop (lines
1486-1498): in extraction mode `x_prevleft` is the imprint of the mask hash, and
in every mode `x_prev` is the imprint of the leaf hash. -/
def loopEntry (api : ksiapi) (ksi : ksifile) (record : List Byte) (storehashchain : Nat) :
    ksifile :=
  let ksi1 :=
    if storehashchain = 1 then
      { ksi with x_prevleft := api.rsksiImprintFromKSI_DataHash ksi (some (api.hash_m_ksi ksi)) }
    else ksi
  { ksi1 with x_prev := api.rsksiImprintFromKSI_DataHash ksi1 (some (leafHash api ksi record)) }

/-- Modelled from the spec: an imprint child of section 4.1, a short-form TLV of
type `t` whose payload is the algorithm octet followed by the digest. -/
def imprintChild (t : Nat) (a : Byte) (d : List Byte) : List Byte :=
  toByte t :: toByte ((a :: d).length &&& 0xff) :: (a :: d)

/-- Modelled from the spec: a hash-chain step of section 4.1, a short-form TLV of
type `t` (0x02 left, 0x03 right) with the children 0x01 level correction (one
octet) and 0x02 sibling imprint. -/
def hashStep (t : Nat) (lc : Byte) (a : Byte) (d : List Byte) : List Byte :=
  toByte t :: toByte (([0x01, 0x01, lc] ++ imprintChild 0x02 a d).length &&& 0xff)
    :: ([0x01, 0x01, lc] ++ imprintChild 0x02 a d)

/-- Modelled from the spec: the payload of a hash-chain record of section 4.1:
the record hash (child 0x01), the left step and the right step. -/
def chainPayload (a1 : Byte) (d1 : List Byte) (a2 : Byte) (d2 : List Byte) (lc3 a3 : Byte)
    (d3 : List Byte) : List Byte :=
  imprintChild 0x01 a1 d1 ++ (hashStep 0x02 0 a2 d2 ++ hashStep 0x03 lc3 a3 d3)

/-- Modelled from the spec: a long-form record of type 0x0907 with the given
payload. -/
def chainRecord (payload : List Byte) : List Byte :=
  0x89 :: 0x07 :: toByte (payload.length >>> 8) :: toByte (payload.length &&& 0xff) :: payload

/-- A sample of the three library functions of the excerpt verifier, used for
concrete instances only: the hash made from a digest has the algorithm and the
digest octets given, two hashes are equal when both exist and agree, and every
signature verifies. -/
def sampleLib : ksilib where
  KSI_DataHash_fromDigest := fun a d n => d.map (fun x => { algo := a.val, digest := bufRead x n })
  KSI_DataHash_equals := fun a b => if a ≠ none ∧ a = b then 1 else 0
  KSI_Signature_verify := fun _ => 0

/-- The node hash of `sampleApi` as a function of left hash, right hash and
level. -/
def sampleH (l r : KSI_DataHash) (level : Nat) : KSI_DataHash :=
  sampleApi.hash_node_ksi (ksifile.zero 0) (some l) (some r) level

/-- The record hash of `sampleApi` as a function of the record. -/
def sampleR (record : List Byte) : KSI_DataHash :=
  sampleApi.hash_r_ksi (ksifile.zero 0) record

/-- The library converts the hash `h` to an imprint and back: in every verifier
state `rsksiImprintFromKSI_DataHash` makes an imprint of `h` that has a digest
of the length of its algorithm, shorter than 250 octets, and from which
`KSI_DataHash_fromDigest` restores `h`. -/
def restoresHash (api : ksiapi) (lib : ksilib) (h : KSI_DataHash) : Prop :=
  ∀ k : ksifile, ∃ (a : Byte) (d : List Byte),
    api.rsksiImprintFromKSI_DataHash k (some h)
      = some { hashID := a, len := d.length, data := some d } ∧
    d.length = api.hashOutputLengthOctetsKSI a ∧ d.length < 250 ∧
    lib.KSI_DataHash_fromDigest a (some d) d.length = some h

/-- A sample verifier state that keeps no hashes: algorithm 1, a forest of 4
slots, empty streams. -/
def sampleExtractStart : vrfyState :=
  { ksi := { ksifile.zero 4 with hashAlg := 1 },
    sigfp := { content := [], pos := 0, eof := false },
    nsigfp := none,
    ectx := rsksi_errctxInit ksierrctx_t.zero }

/-- The sample state after the record `"a"` has been appended outside
extraction mode. -/
def sampleExtractFirst : vrfyState :=
  ((rsksi_vrfy_nextRec sampleApi FLAG_TLV16 0 4 sampleExtractStart [0x61] 0
    (fun _ _ => tlvrecord_t.zero)).getD (rsgte.io, sampleExtractStart)).2

/-- The sample state after the record `"b"` has then been appended in extraction
mode. -/
def sampleExtractSecond : vrfyState :=
  ((rsksi_vrfy_nextRec sampleApi FLAG_TLV16 0 4 sampleExtractFirst [0x62] 1
    (fun _ _ => tlvrecord_t.zero)).getD (rsgte.io, sampleExtractFirst)).2

/-- A sample verifier state with a forest of 2 slots that keeps no hashes. -/
def sampleSmallForest : vrfyState :=
  { ksi := ksifile.zero 2,
    sigfp := { content := [], pos := 0, eof := false },
    nsigfp := none,
    ectx := rsksi_errctxInit ksierrctx_t.zero }

/-- The verification of the record `"a"` from `sampleSmallForest`: the final
state and the leaf hash. -/
def sampleSmallRun : vrfyState × List KSI_DataHash :=
  (vrfyRecords sampleApi FLAG_TLV16 0 2 0 (fun _ _ _ => tlvrecord_t.zero) [[0x61]]
    sampleSmallForest).getD (sampleSmallForest, [])

/-- A sample record of type 0x0904 whose payload is made of five short-form
sub-records. -/
def sampleFiveSubrecs : tlvrecord_t :=
  { tlvtype := 0x0904, tlvlen := 16, hdr0 := 0x89, hdr1 := 0x04, hdr2 := 0x00, hdr3 := 0x10,
    lenHdr := 4,
    data := [0x01, 0x01, 0x01, 0x02, 0x01, 0xAA, 0x03, 0x02, 0x01, 0xBB, 0x04, 0x01, 0x05,
             0x05, 0x01, 0xCC] }

/-- A sample record of type 0x0904 in the current format: a record-count child
and a signature child. -/
def sampleBlockSigRec : tlvrecord_t :=
  { tlvtype := 0x0904, tlvlen := 8, hdr0 := 0x89, hdr1 := 0x04, hdr2 := 0x00, hdr3 := 0x08,
    lenHdr := 4, data := [0x01, 0x01, 0x02, 0x89, 0x05, 0x00, 0x01, 0xAA] }

/-- A sample extractor state: the three extractor imprints hold SHA-256-sized
digests. -/
def sampleChainKsi : ksifile :=
  { ksifile.zero 4 with
    hashAlg := 1, nRoots := 2,
    x_prev := some { hashID := 1, len := 32, data := some (List.replicate 32 0x22) },
    x_prevleft := some { hashID := 1, len := 32, data := some (List.replicate 32 0x33) },
    x_prevright := some { hashID := 1, len := 32, data := some (List.replicate 32 0x44) } }

/-- A sample record of the old format (flag 0x20): type 0x0902 with the five
children hash algorithm (0x00), IV (0x01), last hash (0x02), record count
(0x03) and signature (0x0905). -/
def sampleOldBlockSig : List Byte :=
  [0x29, 0x02, 0x00, 0x50] ++ ([0x00, 0x01, 0x01] ++ (0x01 :: 0x20 :: List.replicate 32 0x11)
    ++ (0x02 :: 0x21 :: 0x01 :: List.replicate 32 0x22) ++ [0x03, 0x01, 0x02]
    ++ [0x29, 0x05, 0x00, 0x01, 0xAA])

/-- Modelled from the spec (section 4.6, appending a record): the hash that the
verifier has computed when it makes the tree-hash check number `lvl` for a
record, `H` being the node hash, `roots` the hashes of the forest slots and
`leaf` the leaf hash of the record.  Check 0 is on the leaf; check `j + 1` is on
the node that combines slot `j` (left) with the hash of check `j` (right) at
level `j + 2`. -/
def carryHash (H : Option KSI_DataHash → Option KSI_DataHash → Nat → KSI_DataHash)
    (roots : List (Option KSI_DataHash)) (leaf : KSI_DataHash) : Nat → KSI_DataHash
  | 0 => leaf
  | j + 1 => H (roots.getD j none) (some (carryHash H roots leaf j)) (j + 2)

/-- A sample hash-chain record whose step children have the types 0x03 and 0x02
(in this order) instead of 0x02 and 0x03; everything else is well formed. -/
def sampleSwappedSteps : tlvrecord_t :=
  { tlvtype := 0x0907, tlvlen := 115, hdr0 := 0x89, hdr1 := 0x07, hdr2 := 0x00, hdr3 := 0x73,
    lenHdr := 4,
    data := (0x01 :: 0x21 :: 0x01 :: List.replicate 32 0x22)
      ++ ((0x03 :: 0x26 :: ([0x01, 0x01, 0x00]
            ++ ((0x02 :: 0x21 :: 0x01 :: List.replicate 32 0x33) ++ [])))
      ++ ((0x02 :: 0x26 :: ([0x01, 0x01, 0x00]
            ++ ((0x02 :: 0x21 :: 0x01 :: List.replicate 32 0x44) ++ [])))
      ++ [])) }

/-- A sample hash-chain record in which the second child of the right step has
the type 0x04 instead of 0x02; everything else is well formed. -/
def sampleBadSibling : tlvrecord_t :=
  { tlvtype := 0x0907, tlvlen := 115, hdr0 := 0x89, hdr1 := 0x07, hdr2 := 0x00, hdr3 := 0x73,
    lenHdr := 4,
    data := (0x01 :: 0x21 :: 0x01 :: List.replicate 32 0x22)
      ++ ((0x02 :: 0x26 :: ([0x01, 0x01, 0x00]
            ++ ((0x02 :: 0x21 :: 0x01 :: List.replicate 32 0x33) ++ [])))
      ++ ((0x03 :: 0x26 :: ([0x01, 0x01, 0x00]
            ++ ((0x04 :: 0x21 :: 0x01 :: List.replicate 32 0x44) ++ [])))
      ++ [])) }

/-- A sample signature file positioned after its magic: one record hash and the
block signature with the record count 1. -/
def samplePrescanFile : FILE :=
  { content := [0x4c, 0x4f, 0x47, 0x53]
      ++ (0x89 :: 0x02 :: 0x00 :: 0x21 :: 0x01 :: List.replicate 32 0x11)
      ++ [0x89, 0x04, 0x00, 0x08, 0x01, 0x01, 0x01, 0x89, 0x05, 0x00, 0x01, 0xAA],
    pos := 4, eof := false }

/-- The state in which the pre-scan of `samplePrescanFile` ends. -/
def samplePrescanState (bRewind : Nat) : scanState :=
  ((rsksi_getBlockParams FLAG_TLV16 sha256DigestLen (fun _ _ => tlvrecord_t.zero) none
    samplePrescanFile bRewind tlvrecord_t.zero none).getD
      (rsgte.io,
        { fp := samplePrescanFile, tlvrec := tlvrecord_t.zero, obj := none, nRecs := 0,
          bHasRecHashes := 0, bHasIntermedHashes := 0, bs := none, bh := none, ksi := none })).2

/-- The tree-hash records of the two-record sample block with the last digest
octet of the third one (the node over both leaves) replaced by 0xFF. -/
def sampleFlippedStream : List Byte :=
  treeHashRec sampleLeafA ++ treeHashRec sampleLeafB
    ++ ([0x89, 0x03, 0x00, 0x21, 0x01] ++ (sampleNodeAB.digest.take 31 ++ [0xFF]))

/-- The sample state after the record `"a"` has been verified against
`sampleFlippedStream`. -/
def sampleMismatchFirst : vrfyState :=
  ((rsksi_vrfy_nextRec sampleApi FLAG_TLV16 0 4 (sampleState sampleFlippedStream) [0x61] 0
    (fun _ _ => tlvrecord_t.zero)).getD (rsgte.io, sampleState [])).2

/-- The sample state in which the verification of the record `"b"` then
ends. -/
def sampleMismatchSecond : vrfyState :=
  ((rsksi_vrfy_nextRec sampleApi FLAG_TLV16 0 4 sampleMismatchFirst [0x62] 0
    (fun _ _ => tlvrecord_t.zero)).getD (rsgte.io, sampleState [])).2

/-- The sample state after the record `"a"` has been appended in extraction
mode by a verifier that has appended nothing before. -/
def sampleExtractFirstChain : vrfyState :=
  ((rsksi_vrfy_nextRec sampleApi FLAG_TLV16 0 4 sampleExtractStart [0x61] 1
    (fun _ _ => tlvrecord_t.zero)).getD (rsgte.io, sampleExtractStart)).2

/-! ## Auxiliary lemmas -/

theorem toByte_val (b : Byte) : toByte b.val = b := by
  apply Fin.ext; simp [toByte]

theorem eofOrIo_ne_success (fp : FILE) : eofOrIo fp ≠ rsgte.success := by
  unfold eofOrIo; split <;> simp

theorem fgetc_some {fp fp1 : FILE} {c : Nat} (h : fgetc fp = (some c, fp1)) :
    ∃ b : Byte, fp.content.drop fp.pos = b :: fp.content.drop (fp.pos + 1) ∧ c = b.val ∧
      fp1 = { fp with pos := fp.pos + 1 } := by
  unfold fgetc at h
  split at h
  · rename_i b hb
    simp only [Prod.mk.injEq, Option.some.injEq] at h
    refine ⟨b, ?_, h.1.symm, h.2.symm⟩
    rw [List.get?_eq_some] at hb
    obtain ⟨hlt, hb⟩ := hb
    rw [List.drop_eq_getElem_cons hlt]
    simp at hb
    rw [hb]
  · simp at h

theorem bufRead_length (buf : List Byte) (n : Nat) : (bufRead buf n).length = n := by
  simp [bufRead]

theorem bufRead_append (src rest : List Byte) : bufRead (src ++ rest) src.length = src := by
  apply List.ext_getElem
  · simp [bufRead]
  · intro i h1 h2
    simp [bufRead] at h1 ⊢
    rw [List.getElem?_append_left h1]
    simp [List.getElem?_eq_getElem h1]

theorem bufRead_bufStore (buf src : List Byte) : bufRead (bufStore buf src) src.length = src :=
  bufRead_append src _

theorem fread1_ok {n : Nat} {fp fp1 : FILE} {got : List Byte} (h : fread1 n fp = (1, got, fp1)) :
    n ≠ 0 ∧ got = (fp.content.drop fp.pos).take n ∧ got.length = n ∧
      fp1 = { fp with pos := fp.pos + n } := by
  unfold fread1 at h
  split at h
  · simp at h
  · rename_i hn
    simp only at h
    split at h
    · rename_i hl
      simp only [Prod.mk.injEq, true_and] at h
      exact ⟨hn, h.1.symm, by rw [← h.1]; exact hl, h.2.symm⟩
    · simp at h

theorem addOctet_ok (fp : OFILE) (c : Nat) (h : 0 < fp.room) :
    rsksi_tlvfileAddOctet fp c
      = (rsgte.success, { content := fp.content ++ [toByte c], room := fp.room - 1 }) := by
  have h0 : fp.room ≠ 0 := by omega
  simp [rsksi_tlvfileAddOctet, fputc, h0]

theorem addOctetString_ok (payload : List Byte) :
    ∀ (fp : OFILE), payload.length ≤ fp.room →
      rsksi_tlvfileAddOctetString fp payload payload.length
        = (rsgte.success, { content := fp.content ++ payload, room := fp.room - payload.length }) := by
  induction payload with
  | nil => intro fp _; simp [rsksi_tlvfileAddOctetString]
  | cons b bs ih =>
    intro fp h
    simp only [List.length_cons] at h
    have h1 : 0 < fp.room := by omega
    have hb : toByte b.val = b := by
      apply Fin.ext; simp [toByte]
    simp only [List.length_cons, rsksi_tlvfileAddOctetString, List.getD_cons_zero, addOctet_ok fp _ h1,
      List.drop_succ_cons, List.drop_zero, hb]
    rw [ih _ (by simp; omega)]
    simp
    omega

theorem and_ff (x : Nat) : x &&& 0xff = x % 256 := by
  show x &&& (2 ^ 8 - 1) = x % 2 ^ 8
  exact Nat.and_pow_two_sub_one_eq_mod x 8

theorem and_1f (x : Nat) : x &&& 0x1f = x % 32 := by
  show x &&& (2 ^ 5 - 1) = x % 2 ^ 5
  exact Nat.and_pow_two_sub_one_eq_mod x 5

theorem or_8000 (t : Nat) (h : t < 2 ^ 15) : 0x8000 ||| t = 0x8000 + t := by
  have := Nat.mul_add_lt_is_or (i := 15) h 1
  simpa using this.symm

theorem or_80 (t : Nat) (h : t < 2 ^ 7) : 0x80 ||| t = 0x80 + t := by
  have := Nat.mul_add_lt_is_or (i := 7) h 1
  simpa using this.symm

theorem shl8_or (a c : Nat) (h : c < 256) : (a <<< 8) ||| c = 256 * a + c := by
  have := Nat.mul_add_lt_is_or (i := 8) (b := c) (by simpa using h) a
  rw [Nat.shiftLeft_eq, Nat.mul_comm a (2 ^ 8), ← this]

theorem toByte_eq_iff (a b : Nat) : toByte a = toByte b ↔ a % 256 = b % 256 := by
  simp [toByte, Fin.ext_iff]

theorem tlv16Write_ok (fp : OFILE) (tlvtype len : Nat) (ht : tlvtype < 2 ^ 13) (hl : len < 2 ^ 16)
    (hr : 4 ≤ fp.room) :
    rsksi_tlv16Write FLAG_TLV16 fp 0 tlvtype len
      = some (rsgte.success,
          { content := fp.content ++ [toByte (0x80 ||| (tlvtype >>> 8)), toByte (tlvtype &&& 0xff),
              toByte (len >>> 8), toByte (len &&& 0xff)],
            room := fp.room - 4 }) := by
  have hm : (tlvtype >>> 8) &&& RSGT_TYPE_MASK = tlvtype >>> 8 := by
    rw [RSGT_TYPE_MASK, and_1f, Nat.shiftRight_eq_div_pow]; omega
  have hlen : len % 2 ^ 16 = len := Nat.mod_eq_of_lt hl
  have e1 : toByte (((((0 ||| FLAG_TLV16) <<< 8) ||| tlvtype) % 2 ^ 16) >>> 8)
      = toByte (0x80 ||| (tlvtype >>> 8)) := by
    rw [toByte_eq_iff]
    have : (0 ||| FLAG_TLV16) <<< 8 = 0x8000 := by decide
    rw [this, or_8000 _ (by omega), or_80 _ (by rw [Nat.shiftRight_eq_div_pow]; omega)]
    simp only [Nat.shiftRight_eq_div_pow]
    omega
  have e2 : toByte (((((0 ||| FLAG_TLV16) <<< 8) ||| tlvtype) % 2 ^ 16) &&& 0xff)
      = toByte (tlvtype &&& 0xff) := by
    rw [toByte_eq_iff]
    have : (0 ||| FLAG_TLV16) <<< 8 = 0x8000 := by decide
    rw [this, or_8000 _ (by omega), and_ff, and_ff]
    omega
  have e3 : toByte ((len >>> 8) &&& 0xff) = toByte (len >>> 8) := by
    rw [toByte_eq_iff, and_ff]; omega
  simp only [rsksi_tlv16Write, hm, hlen, Nat.zero_and, ne_eq, not_true_eq_false, if_false]
  rw [addOctet_ok fp _ (by omega)]
  simp only []
  rw [addOctet_ok _ _ (by simp; omega)]
  simp only []
  rw [addOctet_ok _ _ (by simp; omega)]
  simp only []
  rw [addOctet_ok _ _ (by simp; omega)]
  simp only [e1, e2, e3, List.append_assoc, List.cons_append, List.nil_append]
  have hroom : fp.room - 1 - 1 - 1 - 1 = fp.room - 4 := by omega
  rw [hroom]

theorem tlv8Write_ok (fp : OFILE) (tlvtype len : Nat) (ht : tlvtype < 32) (hr : 2 ≤ fp.room) :
    rsksi_tlv8Write FLAG_TLV16 fp 0 tlvtype len
      = some (rsgte.success,
          { content := fp.content ++ [toByte tlvtype, toByte (len &&& 0xff)], room := fp.room - 2 }) := by
  have hm : tlvtype &&& RSGT_TYPE_MASK = tlvtype := by
    show tlvtype &&& (2 ^ 5 - 1) = tlvtype
    rw [Nat.and_pow_two_sub_one_eq_mod]; omega
  have h1 : 0 < fp.room := by omega
  simp only [rsksi_tlv8Write, hm, andNot, Nat.zero_and, Nat.zero_or, Nat.sub_zero, addOctet_ok fp _ h1]
  simp
  rw [addOctet_ok _ _ (by simp; omega)]
  simp
  omega

theorem fwrite1_ok (buf : List Byte) (n : Nat) (fp : OFILE) (hn : n ≠ 0) (hr : n ≤ fp.room) :
    fwrite1 buf n fp = (1, { content := fp.content ++ bufRead buf n, room := fp.room - n }) := by
  simp [fwrite1, hn, hr]

theorem take_cons2 (a b : Byte) (t : List Byte) (n : Nat) :
    (a :: b :: t).take (2 + n) = a :: b :: t.take n := by
  rw [show 2 + n = n + 1 + 1 by omega]; rfl

theorem take_cons4 (a b c d : Byte) (t : List Byte) (n : Nat) :
    (a :: b :: c :: d :: t).take (4 + n) = a :: b :: c :: d :: t.take n := by
  rw [show 4 + n = n + 1 + 1 + 1 + 1 by omega]; rfl

/-- What a successful `rsksi_tlvRecRead` has done: the octets at the entry
position are the raw header followed by the payload, and the record holds
them. -/
theorem tlvRecRead_success {flag16 : Nat} {fp fp1 : FILE} {rec0 rec : tlvrecord_t}
    (h : rsksi_tlvRecRead flag16 fp rec0 = (rsgte.success, fp1, rec)) :
    (rec.lenHdr = 2 ∨ rec.lenHdr = 4) ∧ rec.tlvlen ≠ 0 ∧
    (fp.content.drop fp.pos).take (rec.lenHdr + rec.tlvlen)
      = bufRead rec.hdr rec.lenHdr ++ bufRead rec.data rec.tlvlen ∧
    fp1 = { fp with pos := fp.pos + rec.lenHdr + rec.tlvlen } := by
  unfold rsksi_tlvRecRead at h
  split at h
  · simp [eofOrIo_ne_success] at h
  · rename_i c0 fpa h0
    obtain ⟨b0, hd0, hc0, hfa⟩ := fgetc_some h0
    split at h
    · -- long form
      split at h
      · simp [eofOrIo_ne_success] at h
      · rename_i c1 fpb h1
        obtain ⟨b1, hd1, hc1, hfb⟩ := fgetc_some h1
        split at h
        · simp [eofOrIo_ne_success] at h
        · rename_i c2 fpc h2
          obtain ⟨b2, hd2, hc2, hfc⟩ := fgetc_some h2
          split at h
          · simp [eofOrIo_ne_success] at h
          · rename_i c3 fpd h3
            obtain ⟨b3, hd3, hc3, hfd⟩ := fgetc_some h3
            simp only [] at h
            split at h
            · rename_i got fpe h4
              obtain ⟨hn, hgot, hlen, hfe⟩ := fread1_ok h4
              simp only [Prod.mk.injEq, true_and] at h
              obtain ⟨hf, hr⟩ := h
              subst hr hf hfe hfd hfc hfb hfa
              simp only at hd1 hd2 hd3 hgot hlen hn ⊢
              refine ⟨Or.inr trivial, hn, ?_, ?_⟩
              · rw [hd0, hd1, hd2, hd3, take_cons4, ← hgot]
                subst hc0 hc1 hc2 hc3
                simp only [toByte_val]
                conv => rhs; rw [← hlen, bufRead_bufStore]
                rfl
              · simp [Nat.add_assoc]
            · simp [eofOrIo_ne_success] at h
    · split at h
      · simp [eofOrIo_ne_success] at h
      · rename_i c1 fpb h1
        obtain ⟨b1, hd1, hc1, hfb⟩ := fgetc_some h1
        simp only [] at h
        split at h
        · rename_i got fpe h4
          obtain ⟨hn, hgot, hlen, hfe⟩ := fread1_ok h4
          simp only [Prod.mk.injEq, true_and] at h
          obtain ⟨hf, hr⟩ := h
          subst hr hf hfe hfb hfa
          simp only at hd1 hgot hlen hn ⊢
          refine ⟨Or.inl trivial, hn, ?_, ?_⟩
          · rw [hd0, hd1, take_cons2, ← hgot]
            subst hc0 hc1
            simp only [toByte_val]
            conv => rhs; rw [← hlen, bufRead_bufStore]
            rfl
          · simp [Nat.add_assoc]
        · simp [eofOrIo_ne_success] at h

theorem fgetc_at {fp : FILE} {b : Byte} {t : List Byte} (h : fp.content.drop fp.pos = b :: t) :
    fgetc fp = (some b.val, { fp with pos := fp.pos + 1 }) ∧ fp.content.drop (fp.pos + 1) = t := by
  have hlt : fp.pos < fp.content.length := by
    by_contra hc
    rw [List.drop_of_length_le (by omega)] at h
    simp at h
  rw [List.drop_eq_getElem_cons hlt] at h
  simp only [List.cons.injEq] at h
  refine ⟨?_, h.2⟩
  unfold fgetc
  rw [List.get?_eq_getElem?, List.getElem?_eq_getElem hlt, h.1]

theorem fread1_at {fp : FILE} {got rest : List Byte} (h : fp.content.drop fp.pos = got ++ rest)
    (hne : got.length ≠ 0) :
    fread1 got.length fp = (1, got, { fp with pos := fp.pos + got.length }) := by
  unfold fread1
  simp [hne, h]

theorem tlvRecRead_short (flag16 : Nat) (fp : FILE) (rec0 : tlvrecord_t) (b0 b1 : Byte)
    (payload rest : List Byte)
    (hd : fp.content.drop fp.pos = b0 :: b1 :: (payload ++ rest))
    (hshort : b0.val &&& flag16 = 0) (hlen : payload.length = b1.val) (hne : payload.length ≠ 0) :
    rsksi_tlvRecRead flag16 fp rec0
      = (rsgte.success, { fp with pos := fp.pos + 2 + payload.length },
          { rec0 with tlvtype := b0.val &&& 0x1f, tlvlen := payload.length, hdr0 := b0, hdr1 := b1,
                      lenHdr := 2, data := bufStore rec0.data payload }) := by
  obtain ⟨g0, hd1⟩ := fgetc_at hd
  have hd1' : ({ fp with pos := fp.pos + 1 } : FILE).content.drop
      ({ fp with pos := fp.pos + 1 } : FILE).pos = b1 :: (payload ++ rest) := hd1
  obtain ⟨g1, hd2⟩ := fgetc_at hd1'
  have hd2' : ({ fp with pos := fp.pos + 1 + 1 } : FILE).content.drop
      ({ fp with pos := fp.pos + 1 + 1 } : FILE).pos = payload ++ rest := hd2
  have g2 := fread1_at hd2' hne
  simp only [hlen] at g2 ⊢
  unfold rsksi_tlvRecRead
  rw [g0]
  simp only [hshort, ne_eq, not_true_eq_false, if_false, g1, g2, toByte_val, Nat.add_assoc,
    Nat.reduceAdd]


theorem tlvRecRead_long (flag16 : Nat) (fp : FILE) (rec0 : tlvrecord_t) (b0 b1 b2 b3 : Byte)
    (payload rest : List Byte)
    (hd : fp.content.drop fp.pos = b0 :: b1 :: b2 :: b3 :: (payload ++ rest))
    (hlong : b0.val &&& flag16 ≠ 0) (hlen : payload.length = 256 * b2.val + b3.val)
    (hne : payload.length ≠ 0) :
    rsksi_tlvRecRead flag16 fp rec0
      = (rsgte.success, { fp with pos := fp.pos + 4 + payload.length },
          { tlvtype := (((b0.val &&& 0x1f) <<< 8) ||| b1.val) % 2 ^ 16, tlvlen := payload.length,
            hdr0 := b0, hdr1 := b1, hdr2 := b2, hdr3 := b3,
            lenHdr := 4, data := bufStore rec0.data payload }) := by
  obtain ⟨g0, hd1⟩ := fgetc_at hd
  have hd1' : ({ fp with pos := fp.pos + 1 } : FILE).content.drop
      ({ fp with pos := fp.pos + 1 } : FILE).pos = b1 :: b2 :: b3 :: (payload ++ rest) := hd1
  obtain ⟨g1, hd2⟩ := fgetc_at hd1'
  have hd2' : ({ fp with pos := fp.pos + 1 + 1 } : FILE).content.drop
      ({ fp with pos := fp.pos + 1 + 1 } : FILE).pos = b2 :: b3 :: (payload ++ rest) := hd2
  obtain ⟨g2, hd3⟩ := fgetc_at hd2'
  have hd3' : ({ fp with pos := fp.pos + 1 + 1 + 1 } : FILE).content.drop
      ({ fp with pos := fp.pos + 1 + 1 + 1 } : FILE).pos = b3 :: (payload ++ rest) := hd3
  obtain ⟨g3, hd4⟩ := fgetc_at hd3'
  have hd4' : ({ fp with pos := fp.pos + 1 + 1 + 1 + 1 } : FILE).content.drop
      ({ fp with pos := fp.pos + 1 + 1 + 1 + 1 } : FILE).pos = payload ++ rest := hd4
  have g4 := fread1_at hd4' hne
  have hl : ((b2.val <<< 8) % 2 ^ 16 ||| b3.val) % 2 ^ 16 = payload.length := by
    have h2 := b2.isLt
    have h3 := b3.isLt
    have e : (b2.val <<< 8) % 2 ^ 16 = b2.val <<< 8 := by
      rw [Nat.shiftLeft_eq]; omega
    rw [e, shl8_or _ _ h3]
    omega
  unfold rsksi_tlvRecRead
  rw [g0]
  simp only [hlong, ne_eq, not_false_eq_true, if_true, g1, g2, g3, hl, g4, toByte_val]

theorem toByte_of_lt {n : Nat} (h : n < 256) : (toByte n).val = n := by
  simp [toByte]; omega

theorem tlv8WriteRecord_ok (fp : OFILE) (tlvtype : Nat) (payload : List Byte) (ht : tlvtype < 32)
    (hr : 2 + payload.length ≤ fp.room) :
    tlv8WriteRecord FLAG_TLV16 fp tlvtype payload
      = some (rsgte.success,
          { content := fp.content ++ toByte tlvtype :: toByte (payload.length &&& 0xff) :: payload,
            room := fp.room - (2 + payload.length) }) := by
  unfold tlv8WriteRecord
  rw [tlv8Write_ok fp tlvtype _ ht (by omega)]
  simp only
  rw [addOctetString_ok payload _ (by simp only; omega)]
  simp [Nat.sub_sub]

theorem tlv16WriteRecord_ok (fp : OFILE) (tlvtype : Nat) (payload : List Byte) (ht : tlvtype < 2 ^ 13)
    (hl : payload.length < 2 ^ 16) (hr : 4 + payload.length ≤ fp.room) :
    tlv16WriteRecord FLAG_TLV16 fp tlvtype payload
      = some (rsgte.success,
          { content := fp.content ++ toByte (0x80 ||| (tlvtype >>> 8)) :: toByte (tlvtype &&& 0xff)
              :: toByte (payload.length >>> 8) :: toByte (payload.length &&& 0xff) :: payload,
            room := fp.room - (4 + payload.length) }) := by
  unfold tlv16WriteRecord
  rw [tlv16Write_ok fp tlvtype _ ht hl (by omega)]
  simp only
  rw [addOctetString_ok payload _ (by simp only; omega)]
  simp [Nat.sub_sub]

theorem and_80_of_lt {c : Nat} (h : c < 128) : c &&& 0x80 = 0 := by
  have h1 := Nat.and_two_pow c 7
  have h2 := Nat.testBit_to_div_mod (x := c) (i := 7)
  norm_num at h1 h2
  rw [h1]
  cases hb : c.testBit 7
  · simp
  · rw [hb] at h2; simp at h2; omega

theorem and_80_of_ge {c : Nat} (h : 128 ≤ c) (h2 : c < 256) : c &&& 0x80 ≠ 0 := by
  have h1 := Nat.and_two_pow c 7
  have h3 := Nat.testBit_to_div_mod (x := c) (i := 7)
  norm_num at h1 h3
  rw [h1]
  cases hb : c.testBit 7
  · rw [hb] at h3; simp at h3; omega
  · simp

theorem shr_and_ff (v s : Nat) : (v >>> s) &&& 0xff = v / 2 ^ s % 256 := by
  rw [and_ff, Nat.shiftRight_eq_div_pow]

theorem toByte_mod (n : Nat) : toByte (n % 256) = toByte n := by
  rw [toByte_eq_iff]; omega

theorem addInt64Step_skip (val sh : Nat) (content : List Byte) (room : Nat)
    (h : val / 2 ^ sh % 256 = 0) :
    addInt64Step val sh false { content := content, room := room }
      = (rsgte.success, false, { content := content, room := room }) := by
  simp [addInt64Step, shr_and_ff, h]

theorem addInt64Step_write (val sh : Nat) (dw : Bool) (content : List Byte) (room : Nat)
    (h : dw = true ∨ val / 2 ^ sh % 256 ≠ 0) (hr : 0 < room) :
    addInt64Step val sh dw { content := content, room := room }
      = (rsgte.success, true,
          { content := content ++ [toByte (val >>> sh)], room := room - 1 }) := by
  have hc : (dw = true ∨ (val >>> sh) &&& 0xff ≠ 0) := by rw [shr_and_ff]; exact h
  unfold addInt64Step
  rw [if_pos hc, addOctet_ok _ _ (by simpa using hr)]
  simp only [Nat.shiftRight_eq_div_pow, and_ff, toByte_mod]

theorem octetSize_eq (n : Nat) (hn : n < 2 ^ 64) :
    rsksi_tlvGetInt64OctetSize n =
      if 2 ^ 56 ≤ n then 8 else if 2 ^ 48 ≤ n then 7 else if 2 ^ 40 ≤ n then 6
      else if 2 ^ 32 ≤ n then 5 else if 2 ^ 24 ≤ n then 4 else if 2 ^ 16 ≤ n then 3
      else if 2 ^ 8 ≤ n then 2 else 1 := by
  have hv : n % 2 ^ 64 = n := Nat.mod_eq_of_lt hn
  unfold rsksi_tlvGetInt64OctetSize
  simp only [hv, Nat.shiftRight_eq_div_pow, and_ff]
  by_cases h56 : 2 ^ 56 ≤ n
  · rw [if_pos h56, if_pos (by omega)]
  rw [if_neg h56, if_neg (by omega)]
  by_cases h48 : 2 ^ 48 ≤ n
  · rw [if_pos h48, if_pos (by omega)]
  rw [if_neg h48, if_neg (by omega)]
  by_cases h40 : 2 ^ 40 ≤ n
  · rw [if_pos h40, if_pos (by omega)]
  rw [if_neg h40, if_neg (by omega)]
  by_cases h32 : 2 ^ 32 ≤ n
  · rw [if_pos h32, if_pos (by omega)]
  rw [if_neg h32, if_neg (by omega)]
  by_cases h24 : 2 ^ 24 ≤ n
  · rw [if_pos h24, if_pos (by omega)]
  rw [if_neg h24, if_neg (by omega)]
  by_cases h16 : 2 ^ 16 ≤ n
  · rw [if_pos h16, if_pos (by omega)]
  rw [if_neg h16, if_neg (by omega)]
  by_cases h8 : 2 ^ 8 ≤ n
  · rw [if_pos h8, if_pos (by omega)]
  rw [if_neg h8, if_neg (by omega)]


theorem addOctet_mk (content : List Byte) (room c : Nat) (h : 0 < room) :
    rsksi_tlvfileAddOctet { content := content, room := room } c
      = (rsgte.success, { content := content ++ [toByte c], room := room - 1 }) :=
  addOctet_ok _ c h

theorem addInt64Step_first (val sh : Nat) (content : List Byte) (room : Nat)
    (h : val / 2 ^ sh % 256 ≠ 0) (hr : 0 < room) :
    addInt64Step val sh false { content := content, room := room }
      = (rsgte.success, true,
          { content := content ++ [toByte (val >>> sh)], room := room - 1 }) :=
  addInt64Step_write val sh false content room (Or.inr h) hr

theorem addInt64Step_next (val sh : Nat) (content : List Byte) (room : Nat) (hr : 0 < room) :
    addInt64Step val sh true { content := content, room := room }
      = (rsgte.success, true,
          { content := content ++ [toByte (val >>> sh)], room := room - 1 }) :=
  addInt64Step_write val sh true content room (Or.inl rfl) hr

set_option maxHeartbeats 4000000 in
theorem addInt64_ok (content : List Byte) (room n : Nat) (hn : n < 2 ^ 64)
    (hr : rsksi_tlvGetInt64OctetSize n ≤ room) :
    rsksi_tlvfileAddInt64 { content := content, room := room } n
      = (rsgte.success,
          { content := content ++ beBytes n (rsksi_tlvGetInt64OctetSize n),
            room := room - rsksi_tlvGetInt64OctetSize n }) := by
  have hv : n % 2 ^ 64 = n := Nat.mod_eq_of_lt hn
  rw [octetSize_eq n hn] at hr ⊢
  unfold rsksi_tlvfileAddInt64
  simp only [hv]
  have e1 : toByte (n >>> 56 &&& 255) = toByte (n >>> 56) := by rw [and_ff, toByte_mod]
  have e0 : toByte (n &&& 255) = toByte n := by rw [and_ff, toByte_mod]
  by_cases h56 : 2 ^ 56 ≤ n
  · simp only [if_pos h56] at hr ⊢
    have h1 : n >>> 56 ≠ 0 := by rw [Nat.shiftRight_eq_div_pow]; omega
    simp (disch := omega) only [h1, ne_eq, not_false_eq_true, if_true, addOctet_mk,
      addInt64Step_next, not_true_eq_false, if_false]
    simp only [beBytes, e1, e0, List.append_assoc, List.cons_append, List.nil_append, Nat.sub_sub,
      Nat.reduceMul, Nat.reduceAdd, Nat.shiftRight_zero]
  have h1 : ¬ (n >>> 56 ≠ 0) := by rw [Nat.shiftRight_eq_div_pow]; omega
  simp only [if_neg h56] at hr ⊢
  by_cases h48 : 2 ^ 48 ≤ n
  · simp only [if_pos h48] at hr ⊢
    simp (disch := omega) only [h1, ne_eq, not_false_eq_true, if_true, addOctet_mk,
      addInt64Step_next, addInt64Step_first, addInt64Step_skip, not_true_eq_false, if_false]
    simp only [beBytes, e1, e0, List.append_assoc, List.cons_append, List.nil_append, Nat.sub_sub,
      Nat.reduceMul, Nat.reduceAdd, Nat.shiftRight_zero]
  simp only [if_neg h48] at hr ⊢
  by_cases h40 : 2 ^ 40 ≤ n
  · simp only [if_pos h40] at hr ⊢
    simp (disch := omega) only [h1, ne_eq, not_false_eq_true, if_true, addOctet_mk,
      addInt64Step_next, addInt64Step_first, addInt64Step_skip, not_true_eq_false, if_false]
    simp only [beBytes, e1, e0, List.append_assoc, List.cons_append, List.nil_append, Nat.sub_sub,
      Nat.reduceMul, Nat.reduceAdd, Nat.shiftRight_zero]
  simp only [if_neg h40] at hr ⊢
  by_cases h32 : 2 ^ 32 ≤ n
  · simp only [if_pos h32] at hr ⊢
    simp (disch := omega) only [h1, ne_eq, not_false_eq_true, if_true, addOctet_mk,
      addInt64Step_next, addInt64Step_first, addInt64Step_skip, not_true_eq_false, if_false]
    simp only [beBytes, e1, e0, List.append_assoc, List.cons_append, List.nil_append, Nat.sub_sub,
      Nat.reduceMul, Nat.reduceAdd, Nat.shiftRight_zero]
  simp only [if_neg h32] at hr ⊢
  by_cases h24 : 2 ^ 24 ≤ n
  · simp only [if_pos h24] at hr ⊢
    simp (disch := omega) only [h1, ne_eq, not_false_eq_true, if_true, addOctet_mk,
      addInt64Step_next, addInt64Step_first, addInt64Step_skip, not_true_eq_false, if_false]
    simp only [beBytes, e1, e0, List.append_assoc, List.cons_append, List.nil_append, Nat.sub_sub,
      Nat.reduceMul, Nat.reduceAdd, Nat.shiftRight_zero]
  simp only [if_neg h24] at hr ⊢
  by_cases h16 : 2 ^ 16 ≤ n
  · simp only [if_pos h16] at hr ⊢
    simp (disch := omega) only [h1, ne_eq, not_false_eq_true, if_true, addOctet_mk,
      addInt64Step_next, addInt64Step_first, addInt64Step_skip, not_true_eq_false, if_false]
    simp only [beBytes, e1, e0, List.append_assoc, List.cons_append, List.nil_append, Nat.sub_sub,
      Nat.reduceMul, Nat.reduceAdd, Nat.shiftRight_zero]
  simp only [if_neg h16] at hr ⊢
  by_cases h8 : 2 ^ 8 ≤ n
  · simp only [if_pos h8] at hr ⊢
    simp (disch := omega) only [h1, ne_eq, not_false_eq_true, if_true, addOctet_mk,
      addInt64Step_next, addInt64Step_first, addInt64Step_skip, not_true_eq_false, if_false]
    simp only [beBytes, e1, e0, List.append_assoc, List.cons_append, List.nil_append, Nat.sub_sub,
      Nat.reduceMul, Nat.reduceAdd, Nat.shiftRight_zero]
  simp only [if_neg h8] at hr ⊢
  simp (disch := omega) only [h1, ne_eq, not_false_eq_true, if_true, addOctet_mk,
    addInt64Step_next, addInt64Step_first, addInt64Step_skip, not_true_eq_false, if_false]
  simp only [beBytes, e1, e0, List.append_assoc, List.cons_append, List.nil_append, Nat.sub_sub,
    Nat.reduceMul, Nat.reduceAdd, Nat.shiftRight_zero]

theorem beBytes_length (n k : Nat) : (beBytes n k).length = k := by
  induction k with
  | zero => rfl
  | succ k ih => simp [beBytes, ih]

/-- The size returned by `rsksi_tlvGetInt64OctetSize` is `k + 1` for the `k`
with `2^(8k) <= n < 2^(8(k+1))` (and `k = 0` for `n = 0`). -/
theorem octetSize_spec (n : Nat) (hn : n < 2 ^ 64) :
    ∃ k, rsksi_tlvGetInt64OctetSize n = k + 1 ∧ k < 8 ∧ n < 2 ^ (8 * (k + 1)) ∧
      (n ≠ 0 → 2 ^ (8 * k) ≤ n) := by
  rw [octetSize_eq n hn]
  by_cases h56 : 2 ^ 56 ≤ n
  · exact ⟨7, by rw [if_pos h56], by omega, by omega, fun _ => by omega⟩
  by_cases h48 : 2 ^ 48 ≤ n
  · exact ⟨6, by rw [if_neg h56, if_pos h48], by omega, by omega, fun _ => by omega⟩
  by_cases h40 : 2 ^ 40 ≤ n
  · exact ⟨5, by rw [if_neg h56, if_neg h48, if_pos h40], by omega, by omega, fun _ => by omega⟩
  by_cases h32 : 2 ^ 32 ≤ n
  · exact ⟨4, by rw [if_neg h56, if_neg h48, if_neg h40, if_pos h32], by omega, by omega,
      fun _ => by omega⟩
  by_cases h24 : 2 ^ 24 ≤ n
  · exact ⟨3, by rw [if_neg h56, if_neg h48, if_neg h40, if_neg h32, if_pos h24], by omega,
      by omega, fun _ => by omega⟩
  by_cases h16 : 2 ^ 16 ≤ n
  · exact ⟨2, by rw [if_neg h56, if_neg h48, if_neg h40, if_neg h32, if_neg h24, if_pos h16],
      by omega, by omega, fun _ => by omega⟩
  by_cases h8 : 2 ^ 8 ≤ n
  · exact ⟨1, by rw [if_neg h56, if_neg h48, if_neg h40, if_neg h32, if_neg h24, if_neg h16,
      if_pos h8], by omega, by omega, fun _ => by omega⟩
  · exact ⟨0, by rw [if_neg h56, if_neg h48, if_neg h40, if_neg h32, if_neg h24, if_neg h16,
      if_neg h8], by omega, by omega, fun _ => by omega⟩

theorem octetSize_eq_size (n : Nat) (hn : n < 2 ^ 64) :
    rsksi_tlvGetInt64OctetSize n = if n = 0 then 1 else (Nat.size n + 7) / 8 := by
  obtain ⟨k, hk, _, hlt, hge⟩ := octetSize_spec n hn
  rw [hk]
  by_cases h0 : n = 0
  · subst h0
    rw [if_pos rfl]
    have : rsksi_tlvGetInt64OctetSize 0 = 1 := by decide
    omega
  · rw [if_neg h0]
    have h1 : Nat.size n ≤ 8 * (k + 1) := Nat.size_le.mpr hlt
    have h2 : 8 * k < Nat.size n := Nat.lt_size.mpr (hge h0)
    omega

theorem beBytes_head_ne_zero (n k : Nat) (hlt : n < 2 ^ (8 * (k + 1))) (hge : 2 ^ (8 * k) ≤ n) :
    ∃ b t, beBytes n (k + 1) = b :: t ∧ b ≠ 0 := by
  refine ⟨_, _, rfl, ?_⟩
  intro h
  have hv := congrArg Fin.val h
  simp only [toByte, Nat.shiftRight_eq_div_pow] at hv
  have hpos : 0 < 2 ^ (8 * k) := Nat.pow_pos (by decide)
  have h1 : 1 ≤ n / 2 ^ (8 * k) := (Nat.le_div_iff_mul_le hpos).mpr (by simpa using hge)
  have h2 : n / 2 ^ (8 * k) < 256 := by
    rw [Nat.div_lt_iff_lt_mul hpos]
    have : 2 ^ (8 * (k + 1)) = 256 * 2 ^ (8 * k) := by
      rw [show 8 * (k + 1) = 8 + 8 * k by ring, Nat.pow_add]
    omega
  have hz : n / 2 ^ (8 * k) % 256 = 0 := hv
  omega

theorem getD_of_drop {l : List Byte} {i : Nat} {b : Byte} {t : List Byte}
    (h : l.drop i = b :: t) : l.getD i 0 = b ∧ l.drop (i + 1) = t := by
  have hlt : i < l.length := by
    by_contra hc
    rw [List.drop_of_length_le (by omega)] at h
    simp at h
  rw [List.drop_eq_getElem_cons hlt] at h
  simp only [List.cons.injEq] at h
  refine ⟨?_, h.2⟩
  rw [List.getD_eq_getElem?_getD, List.getElem?_eq_getElem hlt]
  simpa using h.1

/-- Decoding a short-form child whose octets are at the cursor. -/
theorem tlvDecodeSUBREC_short (flag16 : Nat) (rec : tlvrecord_t) (i : Nat) (newrec : tlvrecord_t)
    (b0 b1 : Byte) (payload rest : List Byte)
    (hd : rec.data.drop i = b0 :: b1 :: (payload ++ rest))
    (hshort : b0.val &&& flag16 = 0) (hlen : b1.val = payload.length)
    (hi : i + 2 + payload.length ≤ rec.tlvlen) (hl : rec.tlvlen < 2 ^ 16) :
    rsksi_tlvDecodeSUBREC flag16 rec i newrec
      = (rsgte.success, i + 2 + payload.length,
          { newrec with tlvtype := b0.val &&& 0x1f, tlvlen := payload.length, hdr0 := b0,
                        hdr1 := b1, lenHdr := 2, data := bufStore newrec.data payload }) := by
  obtain ⟨g0, hd1⟩ := getD_of_drop hd
  obtain ⟨g1, hd2⟩ := getD_of_drop hd1
  have e1 : (i + 1) % 2 ^ 16 = i + 1 := Nat.mod_eq_of_lt (by omega)
  have e2 : (i + 1 + 1) % 2 ^ 16 = i + 1 + 1 := Nat.mod_eq_of_lt (by omega)
  have e3 : (i + 1 + 1 + payload.length) % 2 ^ 16 = i + 2 + payload.length := by
    rw [Nat.mod_eq_of_lt (by omega)]
  have n1 : ¬ rec.tlvlen = i := by omega
  have n2 : ¬ rec.tlvlen = i + 1 := by omega
  have n3 : ¬ rec.tlvlen < i + 1 + 1 + payload.length := by omega
  have hb1 : toByte payload.length = b1 := by rw [← hlen, toByte_val]
  unfold rsksi_tlvDecodeSUBREC subrecCopy
  simp only [e1, e2, g0, g1, hshort, n1, n2, if_false, ne_eq, not_true_eq_false, toByte_val,
    hlen, n3, e3, hd2, bufRead_append, hb1]

/-- Decoding a long-form child whose octets are at the cursor. -/
theorem tlvDecodeSUBREC_long (flag16 : Nat) (rec : tlvrecord_t) (i : Nat) (newrec : tlvrecord_t)
    (b0 b1 b2 b3 : Byte) (payload rest : List Byte)
    (hd : rec.data.drop i = b0 :: b1 :: b2 :: b3 :: (payload ++ rest))
    (hlong : b0.val &&& flag16 ≠ 0) (hlen : 256 * b2.val + b3.val = payload.length)
    (hi : i + 4 + payload.length ≤ rec.tlvlen) (hl : rec.tlvlen < 2 ^ 16) :
    rsksi_tlvDecodeSUBREC flag16 rec i newrec
      = (rsgte.success, i + 4 + payload.length,
          { tlvtype := (((b0.val &&& 0x1f) <<< 8) ||| b1.val) % 2 ^ 16, tlvlen := payload.length,
            hdr0 := b0, hdr1 := b1, hdr2 := b2, hdr3 := b3, lenHdr := 4,
            data := bufStore newrec.data payload }) := by
  obtain ⟨g0, hd1⟩ := getD_of_drop hd
  obtain ⟨g1, hd2⟩ := getD_of_drop hd1
  obtain ⟨g2, hd3⟩ := getD_of_drop hd2
  obtain ⟨g3, hd4⟩ := getD_of_drop hd3
  have e1 : (i + 1) % 2 ^ 16 = i + 1 := Nat.mod_eq_of_lt (by omega)
  have e2 : (i + 1 + 1) % 2 ^ 16 = i + 1 + 1 := Nat.mod_eq_of_lt (by omega)
  have e3 : (i + 1 + 1 + 1) % 2 ^ 16 = i + 1 + 1 + 1 := Nat.mod_eq_of_lt (by omega)
  have e4 : (i + 1 + 1 + 1 + 1) % 2 ^ 16 = i + 1 + 1 + 1 + 1 := Nat.mod_eq_of_lt (by omega)
  have e5 : (i + 1 + 1 + 1 + 1 + payload.length) % 2 ^ 16 = i + 4 + payload.length := by
    rw [Nat.mod_eq_of_lt (by omega)]
  have el : ((b2.val <<< 8) % 2 ^ 16 ||| b3.val) % 2 ^ 16 = payload.length := by
    have h2 := b2.isLt
    have h3 := b3.isLt
    have e : (b2.val <<< 8) % 2 ^ 16 = b2.val <<< 8 := by
      rw [Nat.shiftLeft_eq]; omega
    rw [e, shl8_or _ _ h3]
    omega
  have n1 : ¬ rec.tlvlen = i := by omega
  have n2 : ¬ rec.tlvlen = i + 1 := by omega
  have n3 : ¬ rec.tlvlen = i + 1 + 1 := by omega
  have n4 : ¬ rec.tlvlen = i + 1 + 1 + 1 := by omega
  have n5 : ¬ rec.tlvlen < i + 1 + 1 + 1 + 1 + payload.length := by omega
  unfold rsksi_tlvDecodeSUBREC subrecCopy
  simp only [e1, e2, e3, e4, g0, g1, g2, g3, hlong, n1, n2, n3, n4, if_false, ne_eq,
    not_false_eq_true, if_true, toByte_val, el, n5, e5, hd4, bufRead_append]

theorem bufRead_bufStore_same (buf : List Byte) (src : List Byte) (n : Nat) :
    bufRead (bufStore buf (bufRead src n)) n = bufRead src n := by
  have := bufRead_bufStore buf (bufRead src n)
  rwa [bufRead_length] at this

/-- The accumulation step of the record-count loop. -/
theorem recCountLoop_eq_foldl (data : List Byte) (n : Nat) :
    recCountLoop data n
      = (bufRead data n).foldl (fun val b => ((val <<< 8) + b.val) % 2 ^ 64) 0 := by
  unfold recCountLoop bufRead
  rw [List.foldl_map]

theorem beBytes_foldl (n : Nat) : ∀ (k acc : Nat), acc < 2 ^ 64 →
    (beBytes n k).foldl (fun val b => ((val <<< 8) + b.val) % 2 ^ 64) acc
      = (acc * 2 ^ (8 * k) + n % 2 ^ (8 * k)) % 2 ^ 64 := by
  intro k
  induction k with
  | zero =>
    intro acc hacc
    simp only [beBytes, List.foldl_nil, Nat.mul_zero, Nat.pow_zero, Nat.mul_one, Nat.mod_one,
      Nat.add_zero]
    exact (Nat.mod_eq_of_lt hacc).symm
  | succ k ih =>
    intro acc _
    simp only [beBytes, List.foldl_cons]
    rw [ih _ (Nat.mod_lt _ (by decide))]
    have hpow : 2 ^ (8 * (k + 1)) = 2 ^ (8 * k) * 256 := by
      rw [show 8 * (k + 1) = 8 * k + 8 by ring, Nat.pow_add]
    have hb : (toByte (n >>> (8 * k))).val = n / 2 ^ (8 * k) % 256 := by
      simp [toByte, Nat.shiftRight_eq_div_pow]
    have hsplit : n % 2 ^ (8 * (k + 1)) = n % 2 ^ (8 * k) + 2 ^ (8 * k) * (n / 2 ^ (8 * k) % 256) := by
      rw [hpow, Nat.mod_mul]
    rw [hb, hsplit, hpow, Nat.shiftLeft_eq]
    generalize 2 ^ (8 * k) = P
    generalize n / P % 256 = q
    generalize n % P = r
    have : (acc * 2 ^ 8 + q) % 2 ^ 64 * P + r ≡ acc * (P * 256) + (r + P * q) [MOD 2 ^ 64] := by
      have h1 : (acc * 2 ^ 8 + q) % 2 ^ 64 ≡ acc * 2 ^ 8 + q [MOD 2 ^ 64] := Nat.mod_modEq _ _
      have h2 := (h1.mul_right P).add_right r
      have h3 : (acc * 2 ^ 8 + q) * P + r = acc * (P * 256) + (r + P * q) := by ring
      rw [h3] at h2
      exact h2
    exact this

theorem recCountLoop_beBytes (n k : Nat) (rest : List Byte) (hk : k ≤ 8) (hn : n < 2 ^ (8 * k)) :
    recCountLoop (beBytes n k ++ rest) k = n := by
  rw [recCountLoop_eq_foldl]
  have := bufRead_append (beBytes n k) rest
  rw [beBytes_length] at this
  rw [this, beBytes_foldl n k 0 (by decide), Nat.zero_mul, Nat.zero_add, Nat.mod_eq_of_lt hn]
  apply Nat.mod_eq_of_lt
  calc n < 2 ^ (8 * k) := hn
    _ ≤ 2 ^ 64 := Nat.pow_le_pow_right (by decide) (by omega)

theorem octetSize_le (n : Nat) (hn : n < 2 ^ 64) :
    1 ≤ rsksi_tlvGetInt64OctetSize n ∧ rsksi_tlvGetInt64OctetSize n ≤ 8 := by
  obtain ⟨k, hk, hk8, _, _⟩ := octetSize_spec n hn
  omega

theorem cstr_append_nul (l r : List Byte) : cstr (l ++ 0 :: r) = cstr l := by
  induction l with
  | nil => simp [cstr]
  | cons a t ih =>
    unfold cstr at ih ⊢
    rw [List.cons_append, List.takeWhile_cons, List.takeWhile_cons, ih]

theorem cstr_self_of_no_nul (l : List Byte) (h : ∀ b ∈ l, b ≠ 0) : cstr l = l := by
  unfold cstr
  rw [List.takeWhile_eq_self_iff]
  intro b hb
  simpa using h b hb

theorem cstr_eq_of_length (l e : List Byte) (h : cstr l = e) (hl : e.length = l.length) :
    l = e := by
  have hp : cstr l <+: l := List.takeWhile_prefix _
  have : cstr l = l := hp.eq_of_length (by rw [h, hl])
  rw [← this, h]

theorem bufRead_eq_take (buf : List Byte) (n : Nat) (h : n ≤ buf.length) :
    bufRead buf n = buf.take n := by
  have := bufRead_append (buf.take n) (buf.drop n)
  rw [List.take_append_drop, List.length_take, Nat.min_eq_left h] at this
  exact this

theorem childImprint_inv (dl : Byte → Nat) (subrec : tlvrecord_t) (i : Nat) (imp0 : imprint_t)
    (h : (childImprint dl subrec i imp0).1 = rsgte.success) :
    (childImprint dl subrec i imp0).2.2.len = dl (childImprint dl subrec i imp0).2.2.hashID ∧
    ∃ d, (childImprint dl subrec i imp0).2.2.data = some d ∧
      d.length = dl (childImprint dl subrec i imp0).2.2.hashID := by
  unfold childImprint at h ⊢
  simp only at h ⊢
  split
  · rename_i hne
    rw [if_pos hne] at h
    simp at h
  · rename_i heq
    simp only [ne_eq, Decidable.not_not] at heq
    refine ⟨by simp only; omega, _, rfl, ?_⟩
    simp only [bufRead_length]; omega

theorem tlvDecodeREC_HASH_inv (flag16 : Nat) (dl : Byte → Nat) (rec : tlvrecord_t) (i : Nat)
    (imp0 : imprint_t) (subrec0 : tlvrecord_t)
    (h : (rsksi_tlvDecodeREC_HASH flag16 dl rec i imp0 subrec0).1 = rsgte.success) :
    (rsksi_tlvDecodeREC_HASH flag16 dl rec i imp0 subrec0).2.2.len
        = dl (rsksi_tlvDecodeREC_HASH flag16 dl rec i imp0 subrec0).2.2.hashID ∧
    ∃ d, (rsksi_tlvDecodeREC_HASH flag16 dl rec i imp0 subrec0).2.2.data = some d ∧
      d.length = dl (rsksi_tlvDecodeREC_HASH flag16 dl rec i imp0 subrec0).2.2.hashID := by
  unfold rsksi_tlvDecodeREC_HASH at h ⊢
  generalize rsksi_tlvDecodeSUBREC flag16 rec i subrec0 = s at h ⊢
  obtain ⟨r, j, sub⟩ := s
  cases r <;> simp only at h ⊢ <;> try (exact absurd h (by decide))
  by_cases ht : sub.tlvtype = 0x01
  · rw [if_neg (not_not.mpr ht)] at h ⊢
    exact childImprint_inv dl sub j imp0 h
  · rw [if_pos ht] at h
    simp at h

theorem tlvDecodeSIB_HASH_inv (flag16 : Nat) (dl : Byte → Nat) (rec : tlvrecord_t) (i : Nat)
    (imp0 : imprint_t) (subrec0 : tlvrecord_t)
    (h : (rsksi_tlvDecodeSIB_HASH flag16 dl rec i imp0 subrec0).1 = rsgte.success) :
    (rsksi_tlvDecodeSIB_HASH flag16 dl rec i imp0 subrec0).2.2.len
        = dl (rsksi_tlvDecodeSIB_HASH flag16 dl rec i imp0 subrec0).2.2.hashID ∧
    ∃ d, (rsksi_tlvDecodeSIB_HASH flag16 dl rec i imp0 subrec0).2.2.data = some d ∧
      d.length = dl (rsksi_tlvDecodeSIB_HASH flag16 dl rec i imp0 subrec0).2.2.hashID := by
  unfold rsksi_tlvDecodeSIB_HASH at h ⊢
  generalize rsksi_tlvDecodeSUBREC flag16 rec i subrec0 = s at h ⊢
  obtain ⟨r, j, sub⟩ := s
  cases r <;> simp only at h ⊢ <;> try (exact absurd h (by decide))
  by_cases ht : sub.tlvtype = 0x02
  · rw [if_neg (not_not.mpr ht)] at h ⊢
    exact childImprint_inv dl sub j imp0 h
  · rw [if_pos ht] at h
    simp at h

/-- The sub-record decoder reads exactly the TLV that is encoded at the cursor. -/
theorem tlvDecodeSUBREC_isTlv (rec : tlvrecord_t) (i : Nat) (newrec : tlvrecord_t)
    (enc rest : List Byte) (tlvtype : Nat) (payload : List Byte)
    (henc : isTlv enc tlvtype payload = true)
    (hd : rec.data.drop i = enc ++ rest)
    (hi : i + enc.length ≤ rec.tlvlen) (hl : rec.tlvlen < 2 ^ 16) :
    ∃ nr : tlvrecord_t,
      rsksi_tlvDecodeSUBREC FLAG_TLV16 rec i newrec = (rsgte.success, i + enc.length, nr) ∧
      nr.tlvtype = tlvtype ∧ nr.tlvlen = payload.length ∧
      nr.data = bufStore newrec.data payload := by
  unfold isTlv at henc
  split at henc
  · rename_i b0 b1 tl
    split at henc
    · rename_i hshort
      simp only [decide_eq_true_eq] at henc
      obtain ⟨ht, hlen, htl⟩ := henc
      subst htl
      simp only [List.length_cons] at hi
      have := tlvDecodeSUBREC_short FLAG_TLV16 rec i newrec b0 b1 tl rest
        (by rw [hd]; rfl) hshort hlen (by omega) hl
      have e : i + 2 + tl.length = i + (b0 :: b1 :: tl).length := by
        simp only [List.length_cons]; omega
      rw [this, e]
      exact ⟨_, rfl, ht, rfl, rfl⟩
    · rename_i hlong
      split at henc
      · rename_i b2 b3 tl2
        simp only [decide_eq_true_eq] at henc
        obtain ⟨ht, hlen, htl⟩ := henc
        subst htl
        simp only [List.length_cons] at hi
        have := tlvDecodeSUBREC_long FLAG_TLV16 rec i newrec b0 b1 b2 b3 tl2 rest
          (by rw [hd]; rfl) hlong hlen (by omega) hl
        have e : i + 4 + tl2.length = i + (b0 :: b1 :: b2 :: b3 :: tl2).length := by
          simp only [List.length_cons]; omega
        have ht16 : (((b0.val &&& 0x1f) <<< 8) ||| b1.val) % 2 ^ 16 = tlvtype := by
          rw [← ht]
          apply Nat.mod_eq_of_lt
          have h1 := b1.isLt
          rw [shl8_or _ _ h1, and_1f]; omega
        rw [this, e]
        exact ⟨_, rfl, ht16, rfl, rfl⟩
      · simp at henc
  · simp at henc

theorem tlvDecodeHASH_ALGO_isTlv (rec : tlvrecord_t) (i : Nat) (alg0 : Byte) (subrec0 : tlvrecord_t)
    (enc rest : List Byte) (h : Byte)
    (henc : isTlv enc 0x01 [h] = true) (hd : rec.data.drop i = enc ++ rest)
    (hi : i + enc.length ≤ rec.tlvlen) (hl : rec.tlvlen < 2 ^ 16) :
    rsksi_tlvDecodeHASH_ALGO FLAG_TLV16 rec i alg0 subrec0 = (rsgte.success, i + enc.length, h) := by
  obtain ⟨nr, hs, ht, hlen, hdata⟩ := tlvDecodeSUBREC_isTlv rec i subrec0 enc rest 0x01 [h] henc hd hi hl
  unfold rsksi_tlvDecodeHASH_ALGO
  rw [hs]
  simp only [ht, hlen, hdata, List.length_singleton, and_self, not_true_eq_false, if_false]
  rfl

theorem tlvDecodeBLOCK_IV_isTlv (rec : tlvrecord_t) (i : Nat) (iv0 : Option (List Byte))
    (subrec0 : tlvrecord_t) (enc rest : List Byte) (iv : List Byte)
    (henc : isTlv enc 0x02 iv = true) (hd : rec.data.drop i = enc ++ rest)
    (hi : i + enc.length ≤ rec.tlvlen) (hl : rec.tlvlen < 2 ^ 16) :
    rsksi_tlvDecodeBLOCK_IV FLAG_TLV16 rec i iv0 subrec0
      = (rsgte.success, i + enc.length, some iv) := by
  obtain ⟨nr, hs, ht, hlen, hdata⟩ := tlvDecodeSUBREC_isTlv rec i subrec0 enc rest 0x02 iv henc hd hi hl
  unfold rsksi_tlvDecodeBLOCK_IV
  rw [hs]
  simp only [ht, hlen, hdata, not_true_eq_false, if_false, bufRead_bufStore]

theorem childImprint_ok (dl : Byte → Nat) (subrec : tlvrecord_t) (i : Nat) (imp0 : imprint_t)
    (buf : List Byte) (alg : Byte) (digest : List Byte)
    (hdata : subrec.data = bufStore buf (alg :: digest))
    (hlen : subrec.tlvlen = (alg :: digest).length) (hdig : digest.length = dl alg) :
    childImprint dl subrec i imp0
      = (rsgte.success, i, { hashID := alg, len := digest.length, data := some digest }) := by
  have h0 : subrec.data.getD 0 0 = alg := by rw [hdata]; rfl
  have h1 : subrec.data.drop 1 = digest ++ buf.drop (alg :: digest).length := by rw [hdata]; rfl
  have h2 : subrec.tlvlen = 1 + dl alg := by rw [hlen, List.length_cons, hdig]; omega
  have h3 : subrec.tlvlen - 1 = digest.length := by rw [hlen, List.length_cons]; omega
  unfold childImprint
  simp only [h0, h2, ne_eq, not_true_eq_false, if_false, h1]
  rw [← h2, h3, bufRead_append]

theorem tlvDecodeLAST_HASH_isTlv (dl : Byte → Nat) (rec : tlvrecord_t) (i : Nat) (imp0 : imprint_t)
    (subrec0 : tlvrecord_t) (enc rest : List Byte) (alg : Byte) (digest : List Byte)
    (henc : isTlv enc 0x03 (alg :: digest) = true) (hdig : digest.length = dl alg)
    (hd : rec.data.drop i = enc ++ rest)
    (hi : i + enc.length ≤ rec.tlvlen) (hl : rec.tlvlen < 2 ^ 16) :
    rsksi_tlvDecodeLAST_HASH FLAG_TLV16 dl rec i imp0 subrec0
      = (rsgte.success, i + enc.length,
          { hashID := alg, len := digest.length, data := some digest }) := by
  obtain ⟨nr, hs, ht, hlen, hdata⟩ :=
    tlvDecodeSUBREC_isTlv rec i subrec0 enc rest 0x03 (alg :: digest) henc hd hi hl
  unfold rsksi_tlvDecodeLAST_HASH
  rw [hs]
  simp only [ht, not_true_eq_false, if_false]
  exact childImprint_ok dl nr _ imp0 subrec0.data alg digest hdata hlen hdig

/-! ## Auxiliary lemmas: end of input, block signature, hash chain, pre-scan -/

theorem fgetc_eq (fp : FILE) :
    fgetc fp = if fp.pos < fp.content.length then
        (some (fp.content.getD fp.pos 0).val, { fp with pos := fp.pos + 1 })
      else (none, { fp with eof := true }) := by
  unfold fgetc
  by_cases h : fp.pos < fp.content.length
  · rw [if_pos h, List.get?_eq_getElem?, List.getElem?_eq_getElem h,
      List.getD_eq_getElem?_getD, List.getElem?_eq_getElem h]
    rfl
  · rw [if_neg h, List.get?_eq_getElem?, List.getElem?_eq_none (by omega)]

theorem len16_eq (b2 b3 : Byte) :
    ((b2.val <<< 8) % 2 ^ 16 ||| b3.val) % 2 ^ 16 = 256 * b2.val + b3.val := by
  have h2 := b2.isLt
  have h3 := b3.isLt
  have e : (b2.val <<< 8) % 2 ^ 16 = b2.val <<< 8 := by
    rw [Nat.shiftLeft_eq]; omega
  rw [e, shl8_or _ _ h3]
  omega

theorem fread1_zero (fp : FILE) : fread1 0 fp = (0, [], fp) := by
  simp [fread1]

theorem fread1_short (n : Nat) (fp : FILE) (hn : n ≠ 0) (h : ¬ fp.pos + n ≤ fp.content.length) :
    ∃ got fp1, fread1 n fp = (0, got, fp1) ∧ fp1.eof = true := by
  unfold fread1
  rw [if_neg hn]
  simp only [List.length_take, List.length_drop]
  rw [if_neg (by omega)]
  exact ⟨_, _, rfl, rfl⟩

theorem fread1_full (n : Nat) (fp : FILE) (hn : n ≠ 0) (h : fp.pos + n ≤ fp.content.length) :
    ∃ got fp1, fread1 n fp = (1, got, fp1) := by
  unfold fread1
  rw [if_neg hn]
  simp only [List.length_take, List.length_drop]
  rw [if_pos (by omega)]
  exact ⟨_, _, rfl⟩

theorem eofOrIo_of_eof {fp : FILE} (h : fp.eof = true) : eofOrIo fp = rsgte.eof := by
  simp [eofOrIo, feof, h]

/-- The return code of `rsksi_tlvRecRead` as a function of the stream. -/
theorem tlvRecRead_code (flag16 : Nat) (fp : FILE) (rec0 : tlvrecord_t) :
    (rsksi_tlvRecRead flag16 fp rec0).1 =
      if fp.content.length - fp.pos <
          (if (fp.content.getD fp.pos 0).val &&& flag16 ≠ 0 then 4 else 2) then rsgte.eof
      else if (if (fp.content.getD fp.pos 0).val &&& flag16 ≠ 0 then
            256 * (fp.content.getD (fp.pos + 2) 0).val + (fp.content.getD (fp.pos + 3) 0).val
          else (fp.content.getD (fp.pos + 1) 0).val) = 0 then eofOrIo fp
      else if fp.content.length - fp.pos -
            (if (fp.content.getD fp.pos 0).val &&& flag16 ≠ 0 then 4 else 2) <
          (if (fp.content.getD fp.pos 0).val &&& flag16 ≠ 0 then
            256 * (fp.content.getD (fp.pos + 2) 0).val + (fp.content.getD (fp.pos + 3) 0).val
          else (fp.content.getD (fp.pos + 1) 0).val) then rsgte.eof
      else rsgte.success := by
  unfold rsksi_tlvRecRead
  rw [fgetc_eq fp]
  by_cases h0 : fp.pos < fp.content.length
  swap
  · rw [if_neg h0]
    simp only
    rw [if_pos (by split <;> omega)]
    apply eofOrIo_of_eof; rfl
  rw [if_pos h0]
  simp only
  by_cases hlong : (fp.content.getD fp.pos 0).val &&& flag16 ≠ 0
  · simp only [if_pos hlong]
    rw [fgetc_eq]
    by_cases h1 : fp.pos + 1 < fp.content.length
    swap
    · rw [if_neg h1, if_pos (by omega)]
      simp only
      apply eofOrIo_of_eof; rfl
    rw [if_pos h1]
    simp only
    rw [fgetc_eq]
    by_cases h2 : fp.pos + 1 + 1 < fp.content.length
    swap
    · rw [if_neg h2, if_pos (by omega)]
      simp only
      apply eofOrIo_of_eof; rfl
    rw [if_pos h2]
    simp only
    rw [fgetc_eq]
    by_cases h3 : fp.pos + 1 + 1 + 1 < fp.content.length
    swap
    · rw [if_neg h3, if_pos (by omega)]
      simp only
      apply eofOrIo_of_eof; rfl
    rw [if_pos h3]
    simp only [len16_eq, Nat.add_assoc, Nat.reduceAdd]
    rw [if_neg (by omega)]
    by_cases hz : 256 * (fp.content.getD (fp.pos + 2) 0).val + (fp.content.getD (fp.pos + 3) 0).val = 0
    · rw [hz, if_pos rfl, fread1_zero]
      simp [eofOrIo, feof]
    · rw [if_neg hz]
      by_cases hs : fp.content.length - fp.pos - 4 <
          256 * (fp.content.getD (fp.pos + 2) 0).val + (fp.content.getD (fp.pos + 3) 0).val
      · rw [if_pos hs]
        obtain ⟨got, fp1, hr, he⟩ := fread1_short _ { fp with pos := fp.pos + 4 } hz
          (by simp only; omega)
        rw [hr]
        exact eofOrIo_of_eof he
      · rw [if_neg hs]
        obtain ⟨got, fp1, hr⟩ := fread1_full _ { fp with pos := fp.pos + 4 } hz
          (by simp only; omega)
        rw [hr]
  · simp only [if_neg hlong]
    rw [fgetc_eq]
    by_cases h1 : fp.pos + 1 < fp.content.length
    swap
    · rw [if_neg h1, if_pos (by omega)]
      simp only
      apply eofOrIo_of_eof; rfl
    rw [if_pos h1]
    simp only [Nat.add_assoc, Nat.reduceAdd]
    rw [if_neg (by omega)]
    by_cases hz : (fp.content.getD (fp.pos + 1) 0).val = 0
    · rw [hz, if_pos rfl, fread1_zero]
      simp [eofOrIo, feof]
    · rw [if_neg hz]
      by_cases hs : fp.content.length - fp.pos - 2 < (fp.content.getD (fp.pos + 1) 0).val
      · rw [if_pos hs]
        obtain ⟨got, fp1, hr, he⟩ := fread1_short _ { fp with pos := fp.pos + 2 } hz
          (by simp only; omega)
        rw [hr]
        exact eofOrIo_of_eof he
      · rw [if_neg hs]
        obtain ⟨got, fp1, hr⟩ := fread1_full _ { fp with pos := fp.pos + 2 } hz
          (by simp only; omega)
        rw [hr]

theorem foldl_mod_eq (l : List Byte) : ∀ acc : Nat, (acc + 1) * 256 ^ l.length ≤ 2 ^ 64 →
    l.foldl (fun val b => ((val <<< 8) + b.val) % 2 ^ 64) acc
      = l.foldl (fun v b => 256 * v + b.val) acc := by
  induction l with
  | nil => intro acc _; rfl
  | cons b t ih =>
    intro acc h
    have hb := b.isLt
    simp only [List.length_cons, Nat.pow_succ] at h
    have hpos : 0 < 256 ^ t.length := Nat.pow_pos (by decide)
    have h1 : (256 * acc + b.val + 1) * 256 ^ t.length ≤ 2 ^ 64 := by
      calc (256 * acc + b.val + 1) * 256 ^ t.length
          ≤ (256 * (acc + 1)) * 256 ^ t.length := Nat.mul_le_mul_right _ (by omega)
        _ = (acc + 1) * (256 ^ t.length * 256) := by ring
        _ ≤ 2 ^ 64 := h
    have h2 : 256 * acc + b.val < 2 ^ 64 := by
      have : (256 * acc + b.val + 1) * 1 ≤ (256 * acc + b.val + 1) * 256 ^ t.length :=
        Nat.mul_le_mul_left _ hpos
      omega
    simp only [List.foldl_cons]
    have e : ((acc <<< 8) + b.val) % 2 ^ 64 = 256 * acc + b.val := by
      rw [Nat.shiftLeft_eq, Nat.mul_comm acc (2 ^ 8)]
      exact Nat.mod_eq_of_lt h2
    rw [e]
    exact ih _ h1

theorem recCountLoop_beValue (cnt rest : List Byte) (h : cnt.length ≤ 8) :
    recCountLoop (cnt ++ rest) cnt.length = beValue cnt := by
  rw [recCountLoop_eq_foldl, bufRead_append]
  apply foldl_mod_eq
  have : 256 ^ cnt.length ≤ 256 ^ 8 := Nat.pow_le_pow_right (by decide) h
  calc (0 + 1) * 256 ^ cnt.length = 256 ^ cnt.length := by ring
    _ ≤ 256 ^ 8 := this
    _ = 2 ^ 64 := by norm_num

theorem recCountLoop_lt (data : List Byte) (n : Nat) : recCountLoop data n < 2 ^ 64 := by
  unfold recCountLoop
  cases n with
  | zero => simp
  | succ k =>
    rw [List.range_succ, List.foldl_append]
    simp only [List.foldl_cons, List.foldl_nil]
    exact Nat.mod_lt _ (by decide)

theorem tlvDecodeREC_COUNT_isTlv (rec : tlvrecord_t) (i cnt0 : Nat) (subrec0 : tlvrecord_t)
    (enc rest : List Byte) (cnt : List Byte)
    (henc : isTlv enc 0x01 cnt = true) (hcnt : cnt.length ≤ 8) (hd : rec.data.drop i = enc ++ rest)
    (hi : i + enc.length ≤ rec.tlvlen) (hl : rec.tlvlen < 2 ^ 16) :
    rsksi_tlvDecodeREC_COUNT FLAG_TLV16 rec i cnt0 subrec0
      = (rsgte.success, i + enc.length, beValue cnt) := by
  obtain ⟨nr, hs, ht, hlen, hdata⟩ := tlvDecodeSUBREC_isTlv rec i subrec0 enc rest 0x01 cnt henc hd hi hl
  unfold rsksi_tlvDecodeREC_COUNT
  rw [hs]
  simp only [ht, hlen, hdata, hcnt, and_self, not_true_eq_false, if_false, bufStore]
  rw [recCountLoop_beValue _ _ hcnt]

theorem tlvDecodeREC_COUNT_lt (flag16 : Nat) (rec : tlvrecord_t) (i cnt0 : Nat)
    (subrec0 : tlvrecord_t)
    (h : (rsksi_tlvDecodeREC_COUNT flag16 rec i cnt0 subrec0).1 = rsgte.success) :
    (rsksi_tlvDecodeREC_COUNT flag16 rec i cnt0 subrec0).2.2 < 2 ^ 64 := by
  unfold rsksi_tlvDecodeREC_COUNT at h ⊢
  generalize rsksi_tlvDecodeSUBREC flag16 rec i subrec0 = s at h ⊢
  obtain ⟨r, j, sub⟩ := s
  cases r <;> simp only at h ⊢ <;> try (exact absurd h (by decide))
  by_cases ht : sub.tlvtype = 0x01 ∧ sub.tlvlen ≤ 8
  · rw [if_neg (not_not.mpr ht)]
    exact recCountLoop_lt _ _
  · rw [if_pos ht] at h
    simp at h

theorem tlvDecodeSIG_isTlv (rec : tlvrecord_t) (i : Nat) (bs : block_sig_t) (subrec0 : tlvrecord_t)
    (enc rest : List Byte) (sig : List Byte)
    (henc : isTlv enc 0x0905 sig = true) (hd : rec.data.drop i = enc ++ rest)
    (hi : i + enc.length ≤ rec.tlvlen) (hl : rec.tlvlen < 2 ^ 16) :
    rsksi_tlvDecodeSIG FLAG_TLV16 rec i bs subrec0
      = (rsgte.success, i + enc.length,
          { sigID := SIGID_RFC3161, recCount := bs.recCount, der_len := sig.length,
            der_data := some sig }) := by
  obtain ⟨nr, hs, ht, hlen, hdata⟩ := tlvDecodeSUBREC_isTlv rec i subrec0 enc rest 0x0905 sig henc hd hi hl
  unfold rsksi_tlvDecodeSIG
  rw [hs]
  simp only [ht, hlen, hdata, not_true_eq_false, if_false, bufRead_bufStore]

theorem tlvDecodeSIG_recCount (flag16 : Nat) (rec : tlvrecord_t) (i : Nat) (bs : block_sig_t)
    (subrec0 : tlvrecord_t) :
    (rsksi_tlvDecodeSIG flag16 rec i bs subrec0).2.2.recCount = bs.recCount := by
  unfold rsksi_tlvDecodeSIG
  generalize rsksi_tlvDecodeSUBREC flag16 rec i subrec0 = s
  obtain ⟨r, j, sub⟩ := s
  cases r <;> simp only
  split <;> rfl

/-- Decoding of a block signature whose payload is a record-count child and a
signature child followed by `trailing`. -/
theorem tlvDecodeBLOCK_SIG_children (rec : tlvrecord_t) (stack : Nat → tlvrecord_t)
    (e1 e2 trailing rest : List Byte) (cnt sig : List Byte)
    (h1 : isTlv e1 0x01 cnt = true) (hcnt : cnt.length ≤ 8) (h2 : isTlv e2 0x0905 sig = true)
    (hd : rec.data = e1 ++ (e2 ++ (trailing ++ rest)))
    (hlen : rec.tlvlen = e1.length + e2.length + trailing.length)
    (hl : rec.tlvlen < 2 ^ 16) :
    rsksi_tlvDecodeBLOCK_SIG FLAG_TLV16 rec stack
      = (if trailing = [] then
          (rsgte.success,
            some { sigID := SIGID_RFC3161, recCount := beValue cnt, der_len := sig.length,
                   der_data := some sig })
        else (rsgte.len, none)) := by
  have d1 : rec.data.drop 0 = e1 ++ (e2 ++ (trailing ++ rest)) := by rw [List.drop_zero, hd]
  have d2 : rec.data.drop (0 + e1.length) = e2 ++ (trailing ++ rest) := by
    rw [hd, Nat.zero_add, List.drop_left]
  unfold rsksi_tlvDecodeBLOCK_SIG
  dsimp only
  rw [tlvDecodeREC_COUNT_isTlv rec 0 _ _ e1 _ cnt h1 hcnt d1 (by omega) hl]
  simp only
  rw [tlvDecodeSIG_isTlv rec _ _ _ e2 _ sig h2 d2 (by omega) hl]
  simp only
  by_cases ht : trailing = []
  · subst ht
    simp only [List.length_nil, Nat.add_zero] at hlen
    rw [if_neg (by rw [hlen]; simp), if_pos rfl]
  · have : trailing.length ≠ 0 := by
      intro hc; exact ht (List.length_eq_zero.mp hc)
    rw [if_pos (by rw [hlen]; omega), if_neg ht]

theorem tlvDecodeBLOCK_SIG_lt (flag16 : Nat) (rec : tlvrecord_t) (stack : Nat → tlvrecord_t)
    (bs : block_sig_t)
    (h : rsksi_tlvDecodeBLOCK_SIG flag16 rec stack = (rsgte.success, some bs)) :
    bs.recCount < 2 ^ 64 := by
  unfold rsksi_tlvDecodeBLOCK_SIG at h
  dsimp only at h
  have hc := tlvDecodeREC_COUNT_lt flag16 rec 0 block_sig_t.zero.recCount (stack 0)
  generalize rsksi_tlvDecodeREC_COUNT flag16 rec 0 block_sig_t.zero.recCount (stack 0) = c at h hc
  obtain ⟨r, j, n⟩ := c
  cases r <;> simp only at h <;> try (simp at h)
  have hn : n < 2 ^ 64 := hc rfl
  have hs := tlvDecodeSIG_recCount flag16 rec j
    { sigID := block_sig_t.zero.sigID, recCount := n, der_len := block_sig_t.zero.der_len,
      der_data := block_sig_t.zero.der_data } (stack 1)
  generalize rsksi_tlvDecodeSIG flag16 rec j
    { sigID := block_sig_t.zero.sigID, recCount := n, der_len := block_sig_t.zero.der_len,
      der_data := block_sig_t.zero.der_data } (stack 1) = d at h hs
  obtain ⟨r2, j2, b2⟩ := d
  cases r2 <;> simp only at h <;> try (simp at h)
  by_cases hj : j2 = rec.tlvlen
  · rw [if_pos hj] at h
    simp only [Prod.mk.injEq, Option.some.injEq, true_and] at h
    rw [← h]
    simp only at hs
    rw [hs]; exact hn
  · rw [if_neg hj] at h
    simp at h

theorem isTlv_length (enc : List Byte) (t : Nat) (p : List Byte) (h : isTlv enc t p = true) :
    p.length < 2 ^ 16 ∧ p.length + 2 ≤ enc.length := by
  unfold isTlv at h
  split at h
  · rename_i b0 b1 tl
    split at h
    · simp only [decide_eq_true_eq] at h
      obtain ⟨_, hlen, htl⟩ := h
      subst htl
      have := b1.isLt
      simp only [List.length_cons]
      omega
    · split at h
      · rename_i b2 b3 tl2
        simp only [decide_eq_true_eq] at h
        obtain ⟨_, hlen, htl⟩ := h
        subst htl
        have := b2.isLt
        have := b3.isLt
        simp only [List.length_cons]
        omega
      · simp at h
  · simp at h

theorem childImprint_code (dl : Byte → Nat) (subrec : tlvrecord_t) (i : Nat) (imp0 : imprint_t)
    (buf : List Byte) (alg : Byte) (digest : List Byte)
    (hdata : subrec.data = bufStore buf (alg :: digest))
    (hlen : subrec.tlvlen = (alg :: digest).length) :
    (childImprint dl subrec i imp0).1
      = if digest.length ≠ dl alg then rsgte.len else rsgte.success := by
  have h0 : subrec.data.getD 0 0 = alg := by rw [hdata]; rfl
  unfold childImprint
  simp only [h0, hlen, List.length_cons]
  by_cases hdg : digest.length = dl alg
  · rw [if_neg (by omega), if_neg (not_not.mpr hdg)]
  · rw [if_pos (by omega), if_pos hdg]

theorem tlvDecodeREC_HASH_code (dl : Byte → Nat) (rec : tlvrecord_t) (i : Nat) (imp0 : imprint_t)
    (subrec0 : tlvrecord_t) (enc rest : List Byte) (t : Nat) (alg : Byte) (digest : List Byte)
    (henc : isTlv enc t (alg :: digest) = true)
    (hd : rec.data.drop i = enc ++ rest)
    (hi : i + enc.length ≤ rec.tlvlen) (hl : rec.tlvlen < 2 ^ 16) :
    (rsksi_tlvDecodeREC_HASH FLAG_TLV16 dl rec i imp0 subrec0).1
      = if t ≠ 0x01 then rsgte.invltyp
        else if digest.length ≠ dl alg then rsgte.len else rsgte.success := by
  obtain ⟨nr, hs, ht, hlen, hdata⟩ :=
    tlvDecodeSUBREC_isTlv rec i subrec0 enc rest t (alg :: digest) henc hd hi hl
  unfold rsksi_tlvDecodeREC_HASH
  rw [hs]
  simp only [ht]
  by_cases htt : t = 0x01
  · rw [if_neg (not_not.mpr htt), if_neg (not_not.mpr htt)]
    exact childImprint_code dl nr _ imp0 subrec0.data alg digest hdata hlen
  · rw [if_pos htt, if_pos htt]

theorem tlvDecodeREC_HASH_isTlv (dl : Byte → Nat) (rec : tlvrecord_t) (i : Nat) (imp0 : imprint_t)
    (subrec0 : tlvrecord_t) (enc rest : List Byte) (alg : Byte) (digest : List Byte)
    (henc : isTlv enc 0x01 (alg :: digest) = true) (hdig : digest.length = dl alg)
    (hd : rec.data.drop i = enc ++ rest)
    (hi : i + enc.length ≤ rec.tlvlen) (hl : rec.tlvlen < 2 ^ 16) :
    rsksi_tlvDecodeREC_HASH FLAG_TLV16 dl rec i imp0 subrec0
      = (rsgte.success, i + enc.length,
          { hashID := alg, len := digest.length, data := some digest }) := by
  obtain ⟨nr, hs, ht, hlen, hdata⟩ :=
    tlvDecodeSUBREC_isTlv rec i subrec0 enc rest 0x01 (alg :: digest) henc hd hi hl
  unfold rsksi_tlvDecodeREC_HASH
  rw [hs]
  simp only [ht, not_true_eq_false, if_false]
  exact childImprint_ok dl nr _ imp0 subrec0.data alg digest hdata hlen hdig

theorem tlvDecodeSIB_HASH_code (dl : Byte → Nat) (rec : tlvrecord_t) (i : Nat) (imp0 : imprint_t)
    (subrec0 : tlvrecord_t) (enc rest : List Byte) (t : Nat) (alg : Byte) (digest : List Byte)
    (henc : isTlv enc t (alg :: digest) = true)
    (hd : rec.data.drop i = enc ++ rest)
    (hi : i + enc.length ≤ rec.tlvlen) (hl : rec.tlvlen < 2 ^ 16) :
    (rsksi_tlvDecodeSIB_HASH FLAG_TLV16 dl rec i imp0 subrec0).1
      = if t ≠ 0x02 then rsgte.invltyp
        else if digest.length ≠ dl alg then rsgte.len else rsgte.success := by
  obtain ⟨nr, hs, ht, hlen, hdata⟩ :=
    tlvDecodeSUBREC_isTlv rec i subrec0 enc rest t (alg :: digest) henc hd hi hl
  unfold rsksi_tlvDecodeSIB_HASH
  rw [hs]
  simp only [ht]
  by_cases htt : t = 0x02
  · rw [if_neg (not_not.mpr htt), if_neg (not_not.mpr htt)]
    exact childImprint_code dl nr _ imp0 subrec0.data alg digest hdata hlen
  · rw [if_pos htt, if_pos htt]

theorem tlvDecodeSIB_HASH_isTlv (dl : Byte → Nat) (rec : tlvrecord_t) (i : Nat) (imp0 : imprint_t)
    (subrec0 : tlvrecord_t) (enc rest : List Byte) (alg : Byte) (digest : List Byte)
    (henc : isTlv enc 0x02 (alg :: digest) = true) (hdig : digest.length = dl alg)
    (hd : rec.data.drop i = enc ++ rest)
    (hi : i + enc.length ≤ rec.tlvlen) (hl : rec.tlvlen < 2 ^ 16) :
    rsksi_tlvDecodeSIB_HASH FLAG_TLV16 dl rec i imp0 subrec0
      = (rsgte.success, i + enc.length,
          { hashID := alg, len := digest.length, data := some digest }) := by
  obtain ⟨nr, hs, ht, hlen, hdata⟩ :=
    tlvDecodeSUBREC_isTlv rec i subrec0 enc rest 0x02 (alg :: digest) henc hd hi hl
  unfold rsksi_tlvDecodeSIB_HASH
  rw [hs]
  simp only [ht, not_true_eq_false, if_false]
  exact childImprint_ok dl nr _ imp0 subrec0.data alg digest hdata hlen hdig

theorem tlvDecodeLEVEL_CORR_isTlv (rec : tlvrecord_t) (i : Nat) (lc0 : Byte)
    (subrec0 : tlvrecord_t) (enc rest : List Byte) (t : Nat) (p : List Byte)
    (henc : isTlv enc t p = true) (hd : rec.data.drop i = enc ++ rest)
    (hi : i + enc.length ≤ rec.tlvlen) (hl : rec.tlvlen < 2 ^ 16) :
    rsksi_tlvDecodeLEVEL_CORR FLAG_TLV16 rec i lc0 subrec0
      = if ¬ (t = 0x01 ∧ p.length = 1) then (rsgte.fmt, i + enc.length, lc0)
        else (rsgte.success, i + enc.length, p.getD 0 0) := by
  obtain ⟨nr, hs, ht, hlen, hdata⟩ := tlvDecodeSUBREC_isTlv rec i subrec0 enc rest t p henc hd hi hl
  unfold rsksi_tlvDecodeLEVEL_CORR
  rw [hs]
  simp only [ht, hlen]
  by_cases hc : t = 0x01 ∧ p.length = 1
  · rw [if_neg (not_not.mpr hc), if_neg (not_not.mpr hc), hdata]
    obtain ⟨_, hp⟩ := hc
    match p, hp with
    | [b], _ => rfl
  · rw [if_pos hc, if_pos hc]

theorem tlvDecodeHASH_STEP_code (dl : Byte → Nat) (rec : tlvrecord_t) (i : Nat)
    (bl0 : block_hashstep_t) (stack : Nat → tlvrecord_t) (enc rest : List Byte) (t : Nat)
    (l s x : List Byte) (tl : Nat) (pl : List Byte) (ts : Nat) (alg : Byte) (digest : List Byte)
    (henc : isTlv enc t (l ++ (s ++ x)) = true) (hlc : isTlv l tl pl = true)
    (hsib : isTlv s ts (alg :: digest) = true)
    (hd : rec.data.drop i = enc ++ rest)
    (hi : i + enc.length ≤ rec.tlvlen) (hl : rec.tlvlen < 2 ^ 16) :
    (rsksi_tlvDecodeHASH_STEP FLAG_TLV16 dl rec i bl0 stack).1
      = (if ¬ (tl = 0x01 ∧ pl.length = 1) then rsgte.aborted
         else if ts ≠ 0x02 then rsgte.aborted
         else if digest.length ≠ dl alg then rsgte.aborted
         else if x ≠ [] then rsgte.aborted
         else rsgte.success) ∧
    (rsksi_tlvDecodeHASH_STEP FLAG_TLV16 dl rec i bl0 stack).2.1 = i + enc.length := by
  obtain ⟨nr, hs, -, hlen, hdata⟩ :=
    tlvDecodeSUBREC_isTlv rec i (stack 0) enc rest t (l ++ (s ++ x)) henc hd hi hl
  have hnl : nr.tlvlen < 2 ^ 16 := by rw [hlen]; exact (isTlv_length enc t _ henc).1
  have hlen2 : nr.tlvlen = l.length + s.length + x.length := by
    rw [hlen]; simp only [List.length_append]; omega
  have d1 : nr.data.drop 0 = l ++ ((s ++ x) ++ (stack 0).data.drop (l ++ (s ++ x)).length) := by
    rw [List.drop_zero, hdata, bufStore, List.append_assoc]
  have d2 : nr.data.drop (0 + l.length)
      = s ++ (x ++ (stack 0).data.drop (l ++ (s ++ x)).length) := by
    rw [← List.drop_drop, d1, List.drop_left, List.append_assoc]
  have hl1 := tlvDecodeLEVEL_CORR_isTlv nr 0 bl0.level_corr (stack 1) l _ tl pl hlc d1
    (by omega) hnl
  unfold rsksi_tlvDecodeHASH_STEP
  dsimp only
  rw [hs]
  simp only
  rw [hl1]
  by_cases hc : tl = 0x01 ∧ pl.length = 1
  swap
  · rw [if_pos hc, if_pos hc]
    exact ⟨rfl, rfl⟩
  rw [if_neg (not_not.mpr hc), if_neg (not_not.mpr hc)]
  simp only
  by_cases hts : ts = 0x02
  swap
  · have hcode := tlvDecodeSIB_HASH_code dl nr (0 + l.length)
      { hashID := bl0.sib_hash.hashID, len := bl0.sib_hash.len, data := none } (stack 2) s _ ts
      alg digest hsib d2 (by omega) hnl
    rw [if_pos hts] at hcode
    rw [if_pos hts]
    generalize rsksi_tlvDecodeSIB_HASH FLAG_TLV16 dl nr (0 + l.length)
      { hashID := bl0.sib_hash.hashID, len := bl0.sib_hash.len, data := none } (stack 2)
      = sres at hcode
    obtain ⟨r, j, sh⟩ := sres
    simp only at hcode
    subst hcode
    exact ⟨rfl, rfl⟩
  rw [if_neg (not_not.mpr hts)]
  by_cases hdg : digest.length = dl alg
  swap
  · have hcode := tlvDecodeSIB_HASH_code dl nr (0 + l.length)
      { hashID := bl0.sib_hash.hashID, len := bl0.sib_hash.len, data := none } (stack 2) s _ ts
      alg digest hsib d2 (by omega) hnl
    rw [if_neg (not_not.mpr hts), if_pos hdg] at hcode
    rw [if_pos hdg]
    generalize rsksi_tlvDecodeSIB_HASH FLAG_TLV16 dl nr (0 + l.length)
      { hashID := bl0.sib_hash.hashID, len := bl0.sib_hash.len, data := none } (stack 2)
      = sres at hcode
    obtain ⟨r, j, sh⟩ := sres
    simp only at hcode
    subst hcode
    exact ⟨rfl, rfl⟩
  rw [if_neg (not_not.mpr hdg)]
  subst hts
  rw [tlvDecodeSIB_HASH_isTlv dl nr (0 + l.length) _ (stack 2) s _ alg digest hsib hdg d2
    (by omega) hnl]
  simp only
  by_cases hx : x = []
  · subst hx
    simp only [List.length_nil, Nat.add_zero] at hlen2
    rw [if_neg (by rw [hlen2]; simp), if_neg (not_not.mpr rfl)]
    exact ⟨rfl, rfl⟩
  · have : x.length ≠ 0 := by
      intro hc0; exact hx (List.length_eq_zero.mp hc0)
    rw [if_pos (by rw [hlen2]; omega), if_pos hx]
    exact ⟨rfl, rfl⟩

theorem tlvDecodeHASH_STEP_isTlv (dl : Byte → Nat) (rec : tlvrecord_t) (i : Nat)
    (bl0 : block_hashstep_t) (stack : Nat → tlvrecord_t) (enc rest : List Byte) (t : Nat)
    (l s : List Byte) (lc alg : Byte) (digest : List Byte)
    (henc : isTlv enc t (l ++ s) = true) (hlc : isTlv l 0x01 [lc] = true)
    (hsib : isTlv s 0x02 (alg :: digest) = true) (hdig : digest.length = dl alg)
    (hd : rec.data.drop i = enc ++ rest)
    (hi : i + enc.length ≤ rec.tlvlen) (hl : rec.tlvlen < 2 ^ 16) :
    rsksi_tlvDecodeHASH_STEP FLAG_TLV16 dl rec i bl0 stack
      = (rsgte.success, i + enc.length,
          { level_corr := lc,
            sib_hash := { hashID := alg, len := digest.length, data := some digest } }) := by
  obtain ⟨nr, hs, -, hlen, hdata⟩ :=
    tlvDecodeSUBREC_isTlv rec i (stack 0) enc rest t (l ++ s) henc hd hi hl
  have hnl : nr.tlvlen < 2 ^ 16 := by rw [hlen]; exact (isTlv_length enc t _ henc).1
  have hlen2 : nr.tlvlen = l.length + s.length := by
    rw [hlen]; simp only [List.length_append]
  have d1 : nr.data.drop 0 = l ++ (s ++ (stack 0).data.drop (l ++ s).length) := by
    rw [List.drop_zero, hdata, bufStore, List.append_assoc]
  have d2 : nr.data.drop (0 + l.length) = s ++ ((stack 0).data.drop (l ++ s).length) := by
    rw [← List.drop_drop, d1, List.drop_left]
  have hl1 := tlvDecodeLEVEL_CORR_isTlv nr 0 bl0.level_corr (stack 1) l _ 0x01 [lc] hlc d1
    (by omega) hnl
  rw [if_neg (by simp)] at hl1
  unfold rsksi_tlvDecodeHASH_STEP
  dsimp only
  rw [hs]
  simp only
  rw [hl1]
  simp only
  rw [tlvDecodeSIB_HASH_isTlv dl nr (0 + l.length) _ (stack 2) s _ alg digest hsib hdig d2
    (by omega) hnl]
  simp only
  rw [if_neg (by rw [hlen2]; simp)]
  rfl

theorem stepCode_cases (A B C D : Prop) [Decidable A] [Decidable B] [Decidable C] [Decidable D]
    (c next : rsgte)
    (h : c = if A then rsgte.aborted else if B then rsgte.aborted else if C then rsgte.aborted
      else if D then rsgte.aborted else rsgte.success) :
    (c ≠ rsgte.success ∧
      (if A then rsgte.aborted else if B then rsgte.aborted else if C then rsgte.aborted
        else if D then rsgte.aborted else next) = c) ∨
    (c = rsgte.success ∧
      (if A then rsgte.aborted else if B then rsgte.aborted else if C then rsgte.aborted
        else if D then rsgte.aborted else next) = next) := by
  subst h
  by_cases hA : A
  · left; simp [hA]
  by_cases hB : B
  · left; simp [hA, hB]
  by_cases hC : C
  · left; simp [hA, hB, hC]
  by_cases hD : D
  · left; simp [hA, hB, hC, hD]
  right; simp [hA, hB, hC, hD]

/-- The outcome of `rsksi_tlvDecodeHASH_CHAIN` on a payload that starts with
three TLVs, the first holding an imprint and the other two (of any types `t2`,
`t3`) holding two TLVs each (the second of them an imprint) followed by `x2`,
`x3`: a failure of the record hash is returned, a failure inside a step is
`rsgte.aborted`. -/
theorem tlvDecodeHASH_CHAIN_code (dl : Byte → Nat) (rec : tlvrecord_t)
    (stack : Nat → tlvrecord_t) (e1 e2 e3 rest : List Byte)
    (t1 : Nat) (a1 : Byte) (d1 : List Byte)
    (t2 : Nat) (l2 s2 x2 : List Byte) (tl2 : Nat) (pl2 : List Byte) (ts2 : Nat) (a2 : Byte)
    (d2 : List Byte)
    (t3 : Nat) (l3 s3 x3 : List Byte) (tl3 : Nat) (pl3 : List Byte) (ts3 : Nat) (a3 : Byte)
    (d3 : List Byte)
    (h1 : isTlv e1 t1 (a1 :: d1) = true)
    (h2 : isTlv e2 t2 (l2 ++ (s2 ++ x2)) = true) (hl2 : isTlv l2 tl2 pl2 = true)
    (hs2 : isTlv s2 ts2 (a2 :: d2) = true)
    (h3 : isTlv e3 t3 (l3 ++ (s3 ++ x3)) = true) (hl3 : isTlv l3 tl3 pl3 = true)
    (hs3 : isTlv s3 ts3 (a3 :: d3) = true)
    (hd : rec.data = e1 ++ (e2 ++ (e3 ++ rest)))
    (hlen : e1.length + e2.length + e3.length ≤ rec.tlvlen)
    (hl : rec.tlvlen < 2 ^ 16) :
    (rsksi_tlvDecodeHASH_CHAIN FLAG_TLV16 dl rec stack).1
      = (if t1 ≠ 0x01 then rsgte.invltyp
         else if d1.length ≠ dl a1 then rsgte.len
         else if ¬ (tl2 = 0x01 ∧ pl2.length = 1) then rsgte.aborted
         else if ts2 ≠ 0x02 then rsgte.aborted
         else if d2.length ≠ dl a2 then rsgte.aborted
         else if x2 ≠ [] then rsgte.aborted
         else if ¬ (tl3 = 0x01 ∧ pl3.length = 1) then rsgte.aborted
         else if ts3 ≠ 0x02 then rsgte.aborted
         else if d3.length ≠ dl a3 then rsgte.aborted
         else if x3 ≠ [] then rsgte.aborted
         else rsgte.success) := by
  have dd1 : rec.data.drop 0 = e1 ++ (e2 ++ (e3 ++ rest)) := by rw [List.drop_zero, hd]
  have dd2 : rec.data.drop (0 + e1.length) = e2 ++ (e3 ++ rest) := by
    rw [hd, Nat.zero_add, List.drop_left]
  have dd3 : rec.data.drop (0 + e1.length + e2.length) = e3 ++ rest := by
    rw [← List.drop_drop, dd2, List.drop_left]
  unfold rsksi_tlvDecodeHASH_CHAIN
  dsimp only
  have hcode := tlvDecodeREC_HASH_code dl rec 0 block_hashchain_t.zero.rec_hash (stack 0) e1 _ t1
    a1 d1 h1 dd1 (by omega) hl
  by_cases ht1 : t1 = 0x01
  swap
  · rw [if_pos ht1] at hcode
    rw [if_pos ht1]
    generalize rsksi_tlvDecodeREC_HASH FLAG_TLV16 dl rec 0 block_hashchain_t.zero.rec_hash
      (stack 0) = res at hcode
    obtain ⟨r, j, v⟩ := res
    simp only at hcode
    subst hcode
    rfl
  rw [if_neg (not_not.mpr ht1)]
  by_cases hd1 : d1.length = dl a1
  swap
  · rw [if_neg (not_not.mpr ht1), if_pos hd1] at hcode
    rw [if_pos hd1]
    generalize rsksi_tlvDecodeREC_HASH FLAG_TLV16 dl rec 0 block_hashchain_t.zero.rec_hash
      (stack 0) = res at hcode
    obtain ⟨r, j, v⟩ := res
    simp only at hcode
    subst hcode
    rfl
  rw [if_neg (not_not.mpr hd1)]
  subst ht1
  rw [tlvDecodeREC_HASH_isTlv dl rec 0 _ (stack 0) e1 _ a1 d1 h1 hd1 dd1 (by omega) hl]
  simp only
  obtain ⟨hc2, hi2⟩ := tlvDecodeHASH_STEP_code dl rec (0 + e1.length)
    block_hashchain_t.zero.left_link (fun k => stack (k + 1)) e2 _ t2 l2 s2 x2 tl2 pl2 ts2 a2 d2
    h2 hl2 hs2 dd2 (by omega) hl
  generalize rsksi_tlvDecodeHASH_STEP FLAG_TLV16 dl rec (0 + e1.length)
    block_hashchain_t.zero.left_link (fun k => stack (k + 1)) = res2 at hc2 hi2
  obtain ⟨r2, j2, v2⟩ := res2
  simp only at hc2 hi2
  subst hi2
  rcases stepCode_cases _ _ _ _ r2
    (if ¬ (tl3 = 0x01 ∧ pl3.length = 1) then rsgte.aborted
         else if ts3 ≠ 0x02 then rsgte.aborted
         else if d3.length ≠ dl a3 then rsgte.aborted
         else if x3 ≠ [] then rsgte.aborted
         else rsgte.success) hc2 with ⟨hne, he⟩ | ⟨heq, he⟩
  · rw [he]
    cases r2 <;> first | exact absurd rfl hne | rfl
  rw [he]
  subst heq
  simp only
  obtain ⟨hc3, hi3⟩ := tlvDecodeHASH_STEP_code dl rec (0 + e1.length + e2.length)
    block_hashchain_t.zero.right_link (fun k => stack (k + 4)) e3 _ t3 l3 s3 x3 tl3 pl3 ts3 a3 d3
    h3 hl3 hs3 dd3 (by omega) hl
  generalize rsksi_tlvDecodeHASH_STEP FLAG_TLV16 dl rec (0 + e1.length + e2.length)
    block_hashchain_t.zero.right_link (fun k => stack (k + 4)) = res3 at hc3 hi3
  obtain ⟨r3, j3, v3⟩ := res3
  simp only at hc3 hi3
  rw [← hc3]
  cases r3 <;> rfl

/-- A hash chain whose three children are well formed is accepted whatever
follows them inside the record. -/
theorem tlvDecodeHASH_CHAIN_isTlv (dl : Byte → Nat) (rec : tlvrecord_t)
    (stack : Nat → tlvrecord_t) (e1 e2 e3 rest : List Byte)
    (a1 : Byte) (d1 : List Byte)
    (t2 : Nat) (l2 s2 : List Byte) (lc2 a2 : Byte) (d2 : List Byte)
    (t3 : Nat) (l3 s3 : List Byte) (lc3 a3 : Byte) (d3 : List Byte)
    (h1 : isTlv e1 0x01 (a1 :: d1) = true) (hd1 : d1.length = dl a1)
    (h2 : isTlv e2 t2 (l2 ++ s2) = true) (hl2 : isTlv l2 0x01 [lc2] = true)
    (hs2 : isTlv s2 0x02 (a2 :: d2) = true) (hd2 : d2.length = dl a2)
    (h3 : isTlv e3 t3 (l3 ++ s3) = true) (hl3 : isTlv l3 0x01 [lc3] = true)
    (hs3 : isTlv s3 0x02 (a3 :: d3) = true) (hd3 : d3.length = dl a3)
    (hd : rec.data = e1 ++ (e2 ++ (e3 ++ rest)))
    (hlen : e1.length + e2.length + e3.length ≤ rec.tlvlen)
    (hl : rec.tlvlen < 2 ^ 16) :
    rsksi_tlvDecodeHASH_CHAIN FLAG_TLV16 dl rec stack
      = (rsgte.success,
          some { rec_hash := { hashID := a1, len := d1.length, data := some d1 },
                 left_link :=
                   { level_corr := lc2,
                     sib_hash := { hashID := a2, len := d2.length, data := some d2 } },
                 right_link :=
                   { level_corr := lc3,
                     sib_hash := { hashID := a3, len := d3.length, data := some d3 } } }) := by
  have dd1 : rec.data.drop 0 = e1 ++ (e2 ++ (e3 ++ rest)) := by rw [List.drop_zero, hd]
  have dd2 : rec.data.drop (0 + e1.length) = e2 ++ (e3 ++ rest) := by
    rw [hd, Nat.zero_add, List.drop_left]
  have dd3 : rec.data.drop (0 + e1.length + e2.length) = e3 ++ rest := by
    rw [← List.drop_drop, dd2, List.drop_left]
  unfold rsksi_tlvDecodeHASH_CHAIN
  dsimp only
  rw [tlvDecodeREC_HASH_isTlv dl rec 0 _ (stack 0) e1 _ a1 d1 h1 hd1 dd1 (by omega) hl]
  simp only
  rw [tlvDecodeHASH_STEP_isTlv dl rec _ _ _ e2 _ t2 l2 s2 lc2 a2 d2 h2 hl2 hs2 hd2 dd2
    (by omega) hl]
  simp only
  rw [tlvDecodeHASH_STEP_isTlv dl rec _ _ _ e3 _ t3 l3 s3 lc3 a3 d3 h3 hl3 hs3 hd3 dd3
    (by omega) hl]

theorem tlvDecodeHASH_STEP_inv (flag16 : Nat) (dl : Byte → Nat) (rec : tlvrecord_t) (i : Nat)
    (bl0 : block_hashstep_t) (stack : Nat → tlvrecord_t)
    (h : (rsksi_tlvDecodeHASH_STEP flag16 dl rec i bl0 stack).1 = rsgte.success) :
    (rsksi_tlvDecodeHASH_STEP flag16 dl rec i bl0 stack).2.2.sib_hash.len
      = dl (rsksi_tlvDecodeHASH_STEP flag16 dl rec i bl0 stack).2.2.sib_hash.hashID := by
  unfold rsksi_tlvDecodeHASH_STEP at h ⊢
  dsimp only at h ⊢
  generalize rsksi_tlvDecodeSUBREC flag16 rec i (stack 0) = s at h ⊢
  obtain ⟨r, j, sub⟩ := s
  cases r <;> simp only at h ⊢ <;> try (exact absurd h (by decide))
  generalize rsksi_tlvDecodeLEVEL_CORR flag16 sub 0 bl0.level_corr (stack 1) = s1 at h ⊢
  obtain ⟨r1, j1, lc⟩ := s1
  cases r1 <;> simp only at h ⊢ <;> try (exact absurd h (by decide))
  have hinv := tlvDecodeSIB_HASH_inv flag16 dl sub j1
    { hashID := bl0.sib_hash.hashID, len := bl0.sib_hash.len, data := none } (stack 2)
  generalize rsksi_tlvDecodeSIB_HASH flag16 dl sub j1
    { hashID := bl0.sib_hash.hashID, len := bl0.sib_hash.len, data := none } (stack 2)
    = s2 at h hinv ⊢
  obtain ⟨r2, j2, sh⟩ := s2
  cases r2 <;> simp only at h ⊢ <;> try (exact absurd h (by decide))
  have hv := (hinv rfl).1
  simp only at hv
  by_cases hj : j2 = sub.tlvlen
  · rw [if_neg (not_not.mpr hj)]
    exact hv
  · rw [if_pos hj] at h
    simp [hashStepFail] at h

theorem tlvDecodeHASH_CHAIN_inv (flag16 : Nat) (dl : Byte → Nat) (rec : tlvrecord_t)
    (stack : Nat → tlvrecord_t) (hc : block_hashchain_t)
    (h : rsksi_tlvDecodeHASH_CHAIN flag16 dl rec stack = (rsgte.success, some hc)) :
    hc.rec_hash.len = dl hc.rec_hash.hashID ∧
    hc.left_link.sib_hash.len = dl hc.left_link.sib_hash.hashID ∧
    hc.right_link.sib_hash.len = dl hc.right_link.sib_hash.hashID := by
  unfold rsksi_tlvDecodeHASH_CHAIN at h
  dsimp only at h
  have hinv1 := tlvDecodeREC_HASH_inv flag16 dl rec 0 block_hashchain_t.zero.rec_hash (stack 0)
  generalize rsksi_tlvDecodeREC_HASH flag16 dl rec 0 block_hashchain_t.zero.rec_hash (stack 0)
    = s1 at h hinv1
  obtain ⟨r1, j1, rh⟩ := s1
  cases r1 <;> simp only at h <;> try (simp at h)
  have hinv2 := tlvDecodeHASH_STEP_inv flag16 dl rec j1 block_hashchain_t.zero.left_link
    (fun k => stack (k + 1))
  generalize rsksi_tlvDecodeHASH_STEP flag16 dl rec j1 block_hashchain_t.zero.left_link
    (fun k => stack (k + 1)) = s2 at h hinv2
  obtain ⟨r2, j2, ll⟩ := s2
  cases r2 <;> simp only at h <;> try (simp at h)
  have hinv3 := tlvDecodeHASH_STEP_inv flag16 dl rec j2 block_hashchain_t.zero.right_link
    (fun k => stack (k + 4))
  generalize rsksi_tlvDecodeHASH_STEP flag16 dl rec j2 block_hashchain_t.zero.right_link
    (fun k => stack (k + 4)) = s3 at h hinv3
  obtain ⟨r3, j3, rl⟩ := s3
  cases r3 <;> simp only at h <;> try (simp at h)
  subst h
  exact ⟨(hinv1 rfl).1, hinv2 rfl, hinv3 rfl⟩

theorem tlvDecodeHASH_ALGO_code (rec : tlvrecord_t) (i : Nat) (alg0 : Byte)
    (subrec0 : tlvrecord_t) (enc rest : List Byte) (t : Nat) (p : List Byte)
    (henc : isTlv enc t p = true) (hd : rec.data.drop i = enc ++ rest)
    (hi : i + enc.length ≤ rec.tlvlen) (hl : rec.tlvlen < 2 ^ 16) :
    rsksi_tlvDecodeHASH_ALGO FLAG_TLV16 rec i alg0 subrec0
      = if ¬ (t = 0x01 ∧ p.length = 1) then (rsgte.fmt, i + enc.length, alg0)
        else (rsgte.success, i + enc.length, p.getD 0 0) := by
  obtain ⟨nr, hs, ht, hlen, hdata⟩ := tlvDecodeSUBREC_isTlv rec i subrec0 enc rest t p henc hd hi hl
  unfold rsksi_tlvDecodeHASH_ALGO
  rw [hs]
  simp only [ht, hlen]
  by_cases hc : t = 0x01 ∧ p.length = 1
  · rw [if_neg (not_not.mpr hc), if_neg (not_not.mpr hc), hdata]
    obtain ⟨_, hp⟩ := hc
    match p, hp with
    | [b], _ => rfl
  · rw [if_pos hc, if_pos hc]

theorem tlvDecodeBLOCK_IV_code (rec : tlvrecord_t) (i : Nat) (iv0 : Option (List Byte))
    (subrec0 : tlvrecord_t) (enc rest : List Byte) (t : Nat) (p : List Byte)
    (henc : isTlv enc t p = true) (hd : rec.data.drop i = enc ++ rest)
    (hi : i + enc.length ≤ rec.tlvlen) (hl : rec.tlvlen < 2 ^ 16) :
    rsksi_tlvDecodeBLOCK_IV FLAG_TLV16 rec i iv0 subrec0
      = if t ≠ 0x02 then (rsgte.invltyp, i + enc.length, iv0)
        else (rsgte.success, i + enc.length, some p) := by
  obtain ⟨nr, hs, ht, hlen, hdata⟩ := tlvDecodeSUBREC_isTlv rec i subrec0 enc rest t p henc hd hi hl
  unfold rsksi_tlvDecodeBLOCK_IV
  rw [hs]
  simp only [ht, hlen, hdata, bufRead_bufStore]

theorem tlvDecodeLAST_HASH_badtype (dl : Byte → Nat) (rec : tlvrecord_t) (i : Nat)
    (imp0 : imprint_t) (subrec0 : tlvrecord_t) (enc rest : List Byte) (t : Nat) (p : List Byte)
    (henc : isTlv enc t p = true) (ht3 : t ≠ 0x03) (hd : rec.data.drop i = enc ++ rest)
    (hi : i + enc.length ≤ rec.tlvlen) (hl : rec.tlvlen < 2 ^ 16) :
    rsksi_tlvDecodeLAST_HASH FLAG_TLV16 dl rec i imp0 subrec0
      = (rsgte.invltyp, i + enc.length, imp0) := by
  obtain ⟨nr, hs, ht, hlen, hdata⟩ := tlvDecodeSUBREC_isTlv rec i subrec0 enc rest t p henc hd hi hl
  unfold rsksi_tlvDecodeLAST_HASH
  rw [hs]
  simp only [ht]
  rw [if_pos ht3]

/-- The return code of `rsksi_tlvDecodeBLOCK_HDR` on a payload that starts with
three TLVs, when one of them is not of the expected kind. -/
theorem tlvDecodeBLOCK_HDR_types (dl : Byte → Nat) (rec : tlvrecord_t)
    (stack : Nat → tlvrecord_t) (e1 e2 e3 rest : List Byte) (t1 t2 t3 : Nat)
    (p1 p2 p3 : List Byte)
    (h1 : isTlv e1 t1 p1 = true) (h2 : isTlv e2 t2 p2 = true) (h3 : isTlv e3 t3 p3 = true)
    (hd : rec.data = e1 ++ (e2 ++ (e3 ++ rest)))
    (hlen : e1.length + e2.length + e3.length ≤ rec.tlvlen)
    (hl : rec.tlvlen < 2 ^ 16) :
    (¬ (t1 = 0x01 ∧ p1.length = 1) →
      (rsksi_tlvDecodeBLOCK_HDR FLAG_TLV16 dl rec stack).1 = rsgte.fmt) ∧
    (t1 = 0x01 ∧ p1.length = 1 → t2 ≠ 0x02 →
      (rsksi_tlvDecodeBLOCK_HDR FLAG_TLV16 dl rec stack).1 = rsgte.invltyp) ∧
    (t1 = 0x01 ∧ p1.length = 1 → t2 = 0x02 → t3 ≠ 0x03 →
      (rsksi_tlvDecodeBLOCK_HDR FLAG_TLV16 dl rec stack).1 = rsgte.invltyp) := by
  have d1 : rec.data.drop 0 = e1 ++ (e2 ++ (e3 ++ rest)) := by rw [List.drop_zero, hd]
  have d2 : rec.data.drop (0 + e1.length) = e2 ++ (e3 ++ rest) := by
    rw [hd, Nat.zero_add, List.drop_left]
  have d3 : rec.data.drop (0 + e1.length + e2.length) = e3 ++ rest := by
    rw [← List.drop_drop, d2, List.drop_left]
  unfold rsksi_tlvDecodeBLOCK_HDR
  dsimp only
  rw [tlvDecodeHASH_ALGO_code rec 0 _ _ e1 _ t1 p1 h1 d1 (by omega) hl]
  refine ⟨?_, ?_, ?_⟩
  · intro hc
    rw [if_pos hc]
  · intro hc ht2
    rw [if_neg (not_not.mpr hc)]
    simp only
    rw [tlvDecodeBLOCK_IV_code rec _ _ _ e2 _ t2 p2 h2 d2 (by omega) hl, if_pos ht2]
  · intro hc ht2 ht3
    rw [if_neg (not_not.mpr hc)]
    simp only
    rw [tlvDecodeBLOCK_IV_code rec _ _ _ e2 _ t2 p2 h2 d2 (by omega) hl,
      if_neg (not_not.mpr ht2)]
    simp only
    rw [tlvDecodeLAST_HASH_badtype dl rec _ _ _ e3 _ t3 p3 h3 ht3 d3 (by omega) hl]

theorem tlvRecRead_isTlv (fp : FILE) (rec0 : tlvrecord_t) (enc rest : List Byte) (t : Nat)
    (payload : List Byte) (henc : isTlv enc t payload = true) (hne : payload ≠ [])
    (hd : fp.content.drop fp.pos = enc ++ rest) :
    ∃ nr : tlvrecord_t,
      rsksi_tlvRecRead FLAG_TLV16 fp rec0
        = (rsgte.success, { fp with pos := fp.pos + enc.length }, nr) ∧
      nr.tlvtype = t ∧ nr.tlvlen = payload.length ∧ nr.data = bufStore rec0.data payload := by
  have hne2 : payload.length ≠ 0 := fun hc => hne (List.length_eq_zero.mp hc)
  unfold isTlv at henc
  split at henc
  · rename_i b0 b1 tl
    split at henc
    · rename_i hshort
      simp only [decide_eq_true_eq] at henc
      obtain ⟨ht, hlen, htl⟩ := henc
      subst htl
      have := tlvRecRead_short FLAG_TLV16 fp rec0 b0 b1 tl rest
        (by rw [hd]; rfl) hshort hlen.symm hne2
      have e : fp.pos + 2 + tl.length = fp.pos + (b0 :: b1 :: tl).length := by
        simp only [List.length_cons]; omega
      rw [this, e]
      exact ⟨_, rfl, ht, rfl, rfl⟩
    · rename_i hlong
      split at henc
      · rename_i b2 b3 tl2
        simp only [decide_eq_true_eq] at henc
        obtain ⟨ht, hlen, htl⟩ := henc
        subst htl
        have := tlvRecRead_long FLAG_TLV16 fp rec0 b0 b1 b2 b3 tl2 rest
          (by rw [hd]; rfl) hlong hlen.symm hne2
        have e : fp.pos + 4 + tl2.length = fp.pos + (b0 :: b1 :: b2 :: b3 :: tl2).length := by
          simp only [List.length_cons]; omega
        have ht16 : (((b0.val &&& 0x1f) <<< 8) ||| b1.val) % 2 ^ 16 = t := by
          rw [← ht]
          apply Nat.mod_eq_of_lt
          have h1 := b1.isLt
          rw [shl8_or _ _ h1, and_1f]; omega
        rw [this, e]
        exact ⟨_, rfl, ht16, rfl, rfl⟩
      · simp at henc
  · simp at henc

theorem tlvDecodeIMPRINT_isTlv (dl : Byte → Nat) (rec : tlvrecord_t) (buf : List Byte)
    (alg : Byte) (digest : List Byte)
    (hdata : rec.data = bufStore buf (alg :: digest))
    (hlen : rec.tlvlen = (alg :: digest).length) (hdig : digest.length = dl alg) :
    rsksi_tlvDecodeIMPRINT dl rec
      = (rsgte.success, some { hashID := alg, len := digest.length, data := some digest }) := by
  have h0 : rec.data.getD 0 0 = alg := by rw [hdata]; rfl
  have h1 : rec.data.drop 1 = digest ++ buf.drop (alg :: digest).length := by rw [hdata]; rfl
  have h2 : rec.tlvlen = 1 + dl alg := by rw [hlen, List.length_cons, hdig]; omega
  have h3 : rec.tlvlen - 1 = digest.length := by rw [hlen, List.length_cons]; omega
  unfold rsksi_tlvDecodeIMPRINT
  simp only [imprint_t.zero, h0, h2, ne_eq, not_true_eq_false, if_false, h1]
  rw [← h2, h3, bufRead_append]

theorem tlvDecodeBLOCK_HDR_children (dl : Byte → Nat) (rec : tlvrecord_t)
    (stack : Nat → tlvrecord_t) (e1 e2 e3 rest : List Byte) (h alg : Byte)
    (iv digest : List Byte)
    (h1 : isTlv e1 0x01 [h] = true) (h2 : isTlv e2 0x02 iv = true)
    (h3 : isTlv e3 0x03 (alg :: digest) = true) (hdig : digest.length = dl alg)
    (hd : rec.data = e1 ++ (e2 ++ (e3 ++ rest)))
    (hlen : rec.tlvlen = e1.length + e2.length + e3.length)
    (hl : rec.tlvlen < 2 ^ 16) :
    rsksi_tlvDecodeBLOCK_HDR FLAG_TLV16 dl rec stack
      = (rsgte.success,
          some { hashID := h, iv := some iv,
                 lastHash := { hashID := alg, len := digest.length, data := some digest } }) := by
  have d1 : rec.data.drop 0 = e1 ++ (e2 ++ (e3 ++ rest)) := by rw [List.drop_zero, hd]
  have d2 : rec.data.drop (0 + e1.length) = e2 ++ (e3 ++ rest) := by
    rw [hd, Nat.zero_add, List.drop_left]
  have d3 : rec.data.drop (0 + e1.length + e2.length) = e3 ++ rest := by
    rw [← List.drop_drop, d2, List.drop_left]
  unfold rsksi_tlvDecodeBLOCK_HDR
  dsimp only
  rw [tlvDecodeHASH_ALGO_isTlv rec 0 _ _ e1 _ h h1 d1 (by omega) hl]
  simp only
  rw [tlvDecodeBLOCK_IV_isTlv rec _ _ _ e2 _ iv h2 d2 (by omega) hl]
  simp only
  rw [tlvDecodeLAST_HASH_isTlv dl rec _ _ _ e3 _ alg digest h3 hdig d3 (by omega) hl]
  simp only
  rw [if_neg (by rw [hlen]; simp)]

/-- Reading and decoding a well-formed block header record. -/
theorem tlvrd_hdr (dl : Byte → Nat) (fp : FILE) (rec0 : tlvrecord_t) (obj0 : Option tlvobj)
    (stack : Nat → tlvrecord_t) (enc e1 e2 e3 rest : List Byte) (h alg : Byte)
    (iv digest : List Byte)
    (hwf : (blockRec.hdr enc e1 e2 e3 h iv alg digest).wf dl = true)
    (hd : fp.content.drop fp.pos = enc ++ rest) :
    ∃ nr : tlvrecord_t,
      rsksi_tlvrd FLAG_TLV16 dl fp rec0 obj0 stack
        = (rsgte.success, { fp with pos := fp.pos + enc.length }, nr,
            some (tlvobj.blockHdr
              { hashID := h, iv := some iv,
                lastHash := { hashID := alg, len := digest.length, data := some digest } })) ∧
      nr.tlvtype = 0x0901 := by
  simp only [blockRec.wf, Bool.and_eq_true, decide_eq_true_eq] at hwf
  obtain ⟨⟨⟨⟨henc, h1⟩, h2⟩, h3⟩, hdig⟩ := hwf
  have hne : e1 ++ (e2 ++ e3) ≠ [] := by
    have := (isTlv_length e1 _ _ h1).2
    intro hc
    have := congrArg List.length hc
    simp only [List.length_append, List.length_nil] at this
    omega
  obtain ⟨nr, hr, ht, hlen, hdata⟩ :=
    tlvRecRead_isTlv fp rec0 enc rest 0x0901 (e1 ++ (e2 ++ e3)) henc hne hd
  have hdata2 : nr.data = e1 ++ (e2 ++ (e3 ++ rec0.data.drop (e1 ++ (e2 ++ e3)).length)) := by
    rw [hdata, bufStore, List.append_assoc, List.append_assoc]
  have hlen2 : nr.tlvlen = e1.length + e2.length + e3.length := by
    rw [hlen]; simp only [List.length_append]; omega
  have hl : nr.tlvlen < 2 ^ 16 := by rw [hlen]; exact (isTlv_length enc _ _ henc).1
  refine ⟨nr, ?_, ht⟩
  unfold rsksi_tlvrd
  rw [hr]
  simp only
  unfold rsksi_tlvRecDecode
  rw [if_pos ht,
    tlvDecodeBLOCK_HDR_children dl nr stack e1 e2 e3 _ h alg iv digest h1 h2 h3 hdig hdata2 hlen2 hl]
  rfl

/-- Reading and decoding a well-formed record hash or tree hash record. -/
theorem tlvrd_imprint (dl : Byte → Nat) (fp : FILE) (rec0 : tlvrecord_t) (obj0 : Option tlvobj)
    (stack : Nat → tlvrecord_t) (enc rest : List Byte) (t : Nat) (alg : Byte)
    (digest : List Byte) (ht : t = 0x0902 ∨ t = 0x0903)
    (henc : isTlv enc t (alg :: digest) = true) (hdig : digest.length = dl alg)
    (hd : fp.content.drop fp.pos = enc ++ rest) :
    ∃ nr : tlvrecord_t,
      rsksi_tlvrd FLAG_TLV16 dl fp rec0 obj0 stack
        = (rsgte.success, { fp with pos := fp.pos + enc.length }, nr,
            some (tlvobj.imprint { hashID := alg, len := digest.length, data := some digest })) ∧
      nr.tlvtype = t := by
  obtain ⟨nr, hr, htt, hlen, hdata⟩ :=
    tlvRecRead_isTlv fp rec0 enc rest t (alg :: digest) henc (by simp) hd
  refine ⟨nr, ?_, htt⟩
  have hn1 : nr.tlvtype ≠ 0x0901 := by rw [htt]; rcases ht with h | h <;> rw [h] <;> decide
  have hn2 : nr.tlvtype = 0x0902 ∨ nr.tlvtype = 0x0903 := by rw [htt]; exact ht
  unfold rsksi_tlvrd
  rw [hr]
  simp only
  unfold rsksi_tlvRecDecode
  rw [if_neg hn1, if_pos hn2, tlvDecodeIMPRINT_isTlv dl nr rec0.data alg digest hdata hlen hdig]
  rfl

/-- Reading and decoding a well-formed block signature record. -/
theorem tlvrd_sig (dl : Byte → Nat) (fp : FILE) (rec0 : tlvrecord_t) (obj0 : Option tlvobj)
    (stack : Nat → tlvrecord_t) (enc e1 e2 rest : List Byte) (cnt sig : List Byte)
    (henc : isTlv enc 0x0904 (e1 ++ e2) = true)
    (h1 : isTlv e1 0x01 cnt = true) (hcnt : cnt.length ≤ 8) (h2 : isTlv e2 0x0905 sig = true)
    (hd : fp.content.drop fp.pos = enc ++ rest) :
    ∃ nr : tlvrecord_t,
      rsksi_tlvrd FLAG_TLV16 dl fp rec0 obj0 stack
        = (rsgte.success, { fp with pos := fp.pos + enc.length }, nr,
            some (tlvobj.blockSig
              { sigID := SIGID_RFC3161, recCount := beValue cnt, der_len := sig.length,
                der_data := some sig })) ∧
      nr.tlvtype = 0x0904 := by
  have hne : e1 ++ e2 ≠ [] := by
    have := (isTlv_length e1 _ _ h1).2
    intro hc
    have := congrArg List.length hc
    simp only [List.length_append, List.length_nil] at this
    omega
  obtain ⟨nr, hr, ht, hlen, hdata⟩ :=
    tlvRecRead_isTlv fp rec0 enc rest 0x0904 (e1 ++ e2) henc hne hd
  have hdata2 : nr.data = e1 ++ (e2 ++ ([] ++ rec0.data.drop (e1 ++ e2).length)) := by
    rw [hdata, bufStore, List.append_assoc, List.nil_append]
  have hlen2 : nr.tlvlen = e1.length + e2.length + ([] : List Byte).length := by
    rw [hlen]; simp only [List.length_append, List.length_nil]; omega
  have hl : nr.tlvlen < 2 ^ 16 := by rw [hlen]; exact (isTlv_length enc _ _ henc).1
  refine ⟨nr, ?_, ht⟩
  have hn1 : nr.tlvtype ≠ 0x0901 := by rw [ht]; decide
  have hn2 : ¬ (nr.tlvtype = 0x0902 ∨ nr.tlvtype = 0x0903) := by rw [ht]; decide
  unfold rsksi_tlvrd
  rw [hr]
  simp only
  unfold rsksi_tlvRecDecode
  rw [if_neg hn1, if_neg hn2, if_pos ht,
    tlvDecodeBLOCK_SIG_children nr stack e1 e2 [] _ cnt sig h1 hcnt h2 hdata2 hlen2 hl,
    if_pos rfl]
  rfl

theorem blockRec_enc_length (dl : Byte → Nat) (it : blockRec) (h : it.wf dl = true) :
    2 ≤ it.enc.length := by
  cases it with
  | hdr enc e1 e2 e3 h0 iv alg digest =>
    simp only [blockRec.wf, Bool.and_eq_true, decide_eq_true_eq] at h
    have := (isTlv_length enc _ _ h.1.1.1.1).2
    simp only [blockRec.enc]; omega
  | recHash enc alg digest =>
    simp only [blockRec.wf, Bool.and_eq_true, decide_eq_true_eq] at h
    have := (isTlv_length enc _ _ h.1).2
    simp only [blockRec.enc]; omega
  | treeHash enc alg digest =>
    simp only [blockRec.wf, Bool.and_eq_true, decide_eq_true_eq] at h
    have := (isTlv_length enc _ _ h.1).2
    simp only [blockRec.enc]; omega

/-- The loop of the pre-scan on a sequence of well-formed records followed by a
well-formed block signature. -/
theorem getBlockParamsLoop_items (dl : Byte → Nat) (stack : Nat → Nat → tlvrecord_t)
    (sigEnc e1 e2 cnt sig rest : List Byte)
    (hsig : isTlv sigEnc 0x0904 (e1 ++ e2) = true)
    (h1 : isTlv e1 0x01 cnt = true) (hcnt : cnt.length ≤ 8) (h2 : isTlv e2 0x0905 sig = true) :
    ∀ (items : List blockRec) (fuel : Nat) (st : scanState),
      (∀ it ∈ items, it.wf dl = true) →
      st.fp.content.drop st.fp.pos = encodeAll items ++ (sigEnc ++ rest) →
      (encodeAll items).length + sigEnc.length ≤ fuel →
      st.nRecs < 2 ^ 64 →
      ∃ st1 : scanState,
        getBlockParamsLoop FLAG_TLV16 dl stack fuel st = some (rsgte.success, st1) ∧
        st1.fp = { st.fp with pos := st.fp.pos + ((encodeAll items).length + sigEnc.length) } ∧
        st1.nRecs = (st.nRecs + items.countP blockRec.isRecHash) % 2 ^ 64 ∧
        st1.bHasRecHashes
          = (if items.countP blockRec.isRecHash ≠ 0 then 1 else st.bHasRecHashes) ∧
        st1.bHasIntermedHashes
          = (if items.countP blockRec.isTreeHash ≠ 0 then 1 else st.bHasIntermedHashes) ∧
        st1.bs = some { sigID := SIGID_RFC3161, recCount := beValue cnt, der_len := sig.length,
                        der_data := some sig } ∧
        st1.bh = lastHdr items st.bh := by
  intro items
  induction items with
  | nil =>
    intro fuel st _ hd hfuel hn
    have hs2 := (isTlv_length sigEnc _ _ hsig).2
    obtain ⟨f, rfl⟩ : ∃ f, fuel = f + 1 := ⟨fuel - 1, by omega⟩
    simp only [encodeAll, List.nil_append] at hd
    obtain ⟨nr, hrd, ht⟩ := tlvrd_sig dl st.fp st.tlvrec st.obj (stack f) sigEnc e1 e2 rest cnt
      sig hsig h1 hcnt h2 hd
    rw [getBlockParamsLoop, hrd]
    simp only
    rw [if_neg (by rw [ht]; decide), if_neg (by rw [ht]; decide), if_neg (by rw [ht]; decide),
      if_pos ht]
    refine ⟨_, rfl, ?_, ?_, ?_, ?_, rfl, rfl⟩
    · simp [encodeAll]
    · simp only [List.countP_nil, Nat.add_zero]
      exact (Nat.mod_eq_of_lt hn).symm
    · simp
    · simp
  | cons it rest0 ih =>
    intro fuel st hwf hd hfuel hn
    have hwf1 := hwf it (List.mem_cons_self _ _)
    have hwf2 : ∀ x ∈ rest0, x.wf dl = true := fun x hx => hwf x (List.mem_cons_of_mem _ hx)
    have hlen1 := blockRec_enc_length dl it hwf1
    simp only [encodeAll, List.length_append] at hfuel
    obtain ⟨f, rfl⟩ : ∃ f, fuel = f + 1 := ⟨fuel - 1, by omega⟩
    simp only [encodeAll, List.append_assoc] at hd
    cases it with
    | hdr enc c1 c2 c3 h0 iv alg digest =>
      simp only [blockRec.enc] at hd hlen1 hfuel
      obtain ⟨nr, hrd, ht⟩ := tlvrd_hdr dl st.fp st.tlvrec st.obj (stack f) enc c1 c2 c3 _ h0 alg
        iv digest hwf1 hd
      rw [getBlockParamsLoop, hrd]
      simp only
      rw [if_pos ht]
      obtain ⟨st1, hl, hfp, hnr, hrh, hih, hbs, hbh⟩ := ih f
        { st with
          fp := { st.fp with pos := st.fp.pos + enc.length }
          tlvrec := nr
          obj := some (tlvobj.blockHdr
            { hashID := h0, iv := some iv,
              lastHash := { hashID := alg, len := digest.length, data := some digest } })
          bh := some
            { hashID := h0, iv := some iv,
              lastHash := { hashID := alg, len := digest.length, data := some digest } } }
        hwf2 (by show st.fp.content.drop (st.fp.pos + enc.length) = _
                 rw [← List.drop_drop, hd, List.drop_left]) (by omega) hn
      refine ⟨st1, hl, ?_, ?_, ?_, ?_, hbs, ?_⟩
      · rw [hfp]; simp only [encodeAll, blockRec.enc, List.length_append, FILE.mk.injEq,
          true_and, and_true]; omega
      · rw [hnr]; simp [blockRec.isRecHash]
      · rw [hrh]; simp [blockRec.isRecHash]
      · rw [hih]; simp [blockRec.isTreeHash]
      · rw [hbh]; rfl
    | recHash enc alg digest =>
      simp only [blockRec.enc] at hd hlen1 hfuel
      simp only [blockRec.wf, Bool.and_eq_true, decide_eq_true_eq] at hwf1
      obtain ⟨nr, hrd, ht⟩ := tlvrd_imprint dl st.fp st.tlvrec st.obj (stack f) enc _ 0x0902 alg
        digest (Or.inl rfl) hwf1.1 hwf1.2 hd
      rw [getBlockParamsLoop, hrd]
      simp only
      rw [if_neg (by rw [ht]; decide), if_pos ht]
      obtain ⟨st1, hl, hfp, hnr, hrh, hih, hbs, hbh⟩ := ih f
        { st with
          fp := { st.fp with pos := st.fp.pos + enc.length }
          tlvrec := nr
          obj := some (tlvobj.imprint
            { hashID := alg, len := digest.length, data := some digest })
          nRecs := (st.nRecs + 1) % 2 ^ 64
          bHasRecHashes := 1 }
        hwf2 (by show st.fp.content.drop (st.fp.pos + enc.length) = _
                 rw [← List.drop_drop, hd, List.drop_left]) (by omega)
        (Nat.mod_lt _ (by decide))
      refine ⟨st1, hl, ?_, ?_, ?_, ?_, hbs, ?_⟩
      · rw [hfp]; simp only [encodeAll, blockRec.enc, List.length_append, FILE.mk.injEq,
          true_and, and_true]; omega
      · rw [hnr]; simp only [List.countP_cons, blockRec.isRecHash, if_true]; omega
      · rw [hrh]; simp [blockRec.isRecHash]
      · rw [hih]; simp [blockRec.isTreeHash]
      · rw [hbh]; rfl
    | treeHash enc alg digest =>
      simp only [blockRec.enc] at hd hlen1 hfuel
      simp only [blockRec.wf, Bool.and_eq_true, decide_eq_true_eq] at hwf1
      obtain ⟨nr, hrd, ht⟩ := tlvrd_imprint dl st.fp st.tlvrec st.obj (stack f) enc _ 0x0903 alg
        digest (Or.inr rfl) hwf1.1 hwf1.2 hd
      rw [getBlockParamsLoop, hrd]
      simp only
      rw [if_neg (by rw [ht]; decide), if_neg (by rw [ht]; decide), if_pos ht]
      obtain ⟨st1, hl, hfp, hnr, hrh, hih, hbs, hbh⟩ := ih f
        { st with
          fp := { st.fp with pos := st.fp.pos + enc.length }
          tlvrec := nr
          obj := some (tlvobj.imprint
            { hashID := alg, len := digest.length, data := some digest })
          bHasIntermedHashes := 1
          ksi := copyRootHash st.ksi (some (tlvobj.imprint
            { hashID := alg, len := digest.length, data := some digest })) }
        hwf2 (by show st.fp.content.drop (st.fp.pos + enc.length) = _
                 rw [← List.drop_drop, hd, List.drop_left]) (by omega) hn
      refine ⟨st1, hl, ?_, ?_, ?_, ?_, hbs, ?_⟩
      · rw [hfp]; simp only [encodeAll, blockRec.enc, List.length_append, FILE.mk.injEq,
          true_and, and_true]; omega
      · rw [hnr]; simp [blockRec.isRecHash]
      · rw [hrh]; simp [blockRec.isRecHash]
      · rw [hih]; simp [blockRec.isTreeHash]
      · rw [hbh]; rfl

/-- The pre-scan on a stream that holds a sequence of well-formed records
followed by a well-formed block signature. -/
theorem getBlockParams_items (dl : Byte → Nat) (stack : Nat → Nat → tlvrecord_t)
    (ksi : Option ksifile) (fp : FILE) (bRewind : Nat) (rec0 : tlvrecord_t)
    (obj0 : Option tlvobj) (items : List blockRec) (sigEnc e1 e2 cnt sig rest : List Byte)
    (hwf : ∀ it ∈ items, it.wf dl = true)
    (hsig : isTlv sigEnc 0x0904 (e1 ++ e2) = true)
    (h1 : isTlv e1 0x01 cnt = true) (hcnt : cnt.length ≤ 8) (h2 : isTlv e2 0x0905 sig = true)
    (hd : fp.content.drop fp.pos = encodeAll items ++ (sigEnc ++ rest))
    (hn : items.countP blockRec.isRecHash < 2 ^ 64) :
    ∃ st : scanState,
      rsksi_getBlockParams FLAG_TLV16 dl stack ksi fp bRewind rec0 obj0
        = some (if items.countP blockRec.isRecHash ≠ 0 ∧
                  items.countP blockRec.isRecHash ≠ beValue cnt
                then rsgte.invld_reccnt else rsgte.success, st) ∧
      st.bHasRecHashes = (if items.countP blockRec.isRecHash ≠ 0 then 1 else 0) ∧
      st.bHasIntermedHashes = (if items.countP blockRec.isTreeHash ≠ 0 then 1 else 0) ∧
      st.bs = some { sigID := SIGID_RFC3161, recCount := beValue cnt, der_len := sig.length,
                     der_data := some sig } ∧
      st.bh = lastHdr items none ∧
      st.fp.content = fp.content ∧
      st.fp.pos = (if bRewind ≠ 0 ∧ ¬ (items.countP blockRec.isRecHash ≠ 0 ∧
                        items.countP blockRec.isRecHash ≠ beValue cnt)
                   then fp.pos else fp.pos + ((encodeAll items).length + sigEnc.length)) := by
  have hlen := congrArg List.length hd
  simp only [List.length_drop, List.length_append] at hlen
  obtain ⟨st1, hl, hfp, hnr, hrh, hih, hbs, hbh⟩ :=
    getBlockParamsLoop_items dl stack sigEnc e1 e2 cnt sig rest hsig h1 hcnt h2 items
      (fp.content.length - fp.pos + 1)
      { fp := fp, tlvrec := rec0, obj := obj0, nRecs := 0, bHasRecHashes := 0,
        bHasIntermedHashes := 0, bs := none, bh := none, ksi := ksi }
      hwf hd (by omega) (Nat.two_pow_pos 64)
  simp only [Nat.zero_add] at hnr
  rw [Nat.mod_eq_of_lt hn] at hnr
  have hcond : (st1.bHasRecHashes ≠ 0 ∧ st1.nRecs ≠ (st1.bs.getD block_sig_t.zero).recCount) ↔
      (items.countP blockRec.isRecHash ≠ 0 ∧ items.countP blockRec.isRecHash ≠ beValue cnt) := by
    rw [hrh, hnr, hbs]
    simp only [Option.getD_some]
    by_cases hc0 : items.countP blockRec.isRecHash = 0 <;> simp [hc0]
  unfold rsksi_getBlockParams
  dsimp only
  rw [hl]
  simp only
  by_cases hm : items.countP blockRec.isRecHash ≠ 0 ∧
      items.countP blockRec.isRecHash ≠ beValue cnt
  · rw [if_pos (hcond.mpr hm), if_pos hm]
    refine ⟨st1, rfl, hrh, hih, hbs, hbh, by rw [hfp], ?_⟩
    rw [if_neg (fun h => h.2 hm), hfp]
  · rw [if_neg (mt hcond.mp hm), if_neg hm]
    by_cases hb : bRewind = 0
    · rw [if_neg (not_not.mpr hb)]
      refine ⟨st1, rfl, hrh, hih, hbs, hbh, by rw [hfp], ?_⟩
      rw [if_neg (fun h => h.1 hb), hfp]
    · rw [if_pos hb]
      refine ⟨_, rfl, hrh, hih, hbs, hbh, ?_, ?_⟩
      · show (fseeko st1.fp _).content = fp.content
        simp only [fseeko]; rw [hfp]
      · rw [if_pos (And.intro hb hm)]
        show (fseeko st1.fp (if bRewind ≠ 0 then ftello fp else 0)).pos = fp.pos
        rw [if_pos hb]
        rfl

theorem tlvrd_success {flag16 : Nat} {dl : Byte → Nat} {fp fp1 : FILE} {rec rec1 : tlvrecord_t}
    {obj obj1 : Option tlvobj} {stack : Nat → tlvrecord_t}
    (h : rsksi_tlvrd flag16 dl fp rec obj stack = (rsgte.success, fp1, rec1, obj1)) :
    rsksi_tlvRecRead flag16 fp rec = (rsgte.success, fp1, rec1) := by
  unfold rsksi_tlvrd at h
  generalize rsksi_tlvRecRead flag16 fp rec = s at h ⊢
  obtain ⟨r, f, rc⟩ := s
  cases r <;> simp only [Prod.mk.injEq] at h <;> try (exact absurd h.1 (by decide))
  rw [h.2.1, h.2.2.1]

/-- A successful record read moves the position forward inside the stream. -/
theorem tlvRecRead_advance {flag16 : Nat} {fp fp1 : FILE} {rec0 rec : tlvrecord_t}
    (h : rsksi_tlvRecRead flag16 fp rec0 = (rsgte.success, fp1, rec)) :
    fp1.content = fp.content ∧ fp.pos < fp1.pos ∧ fp1.pos ≤ fp.content.length := by
  obtain ⟨hh, hne, htake, hfp⟩ := tlvRecRead_success h
  have hlen := congrArg List.length htake
  simp only [List.length_take, List.length_drop, List.length_append, bufRead_length] at hlen
  subst hfp
  refine ⟨rfl, ?_, ?_⟩
  · show fp.pos < fp.pos + rec.lenHdr + rec.tlvlen
    omega
  · show fp.pos + rec.lenHdr + rec.tlvlen ≤ fp.content.length
    omega

/-- The loop of the pre-scan returns: `fuel` iterations are enough when the
stream has fewer than `fuel` octets left. -/
theorem getBlockParamsLoop_total (flag16 : Nat) (dl : Byte → Nat)
    (stack : Nat → Nat → tlvrecord_t) :
    ∀ (fuel : Nat) (st : scanState), st.fp.content.length - st.fp.pos < fuel →
      ∃ res, getBlockParamsLoop flag16 dl stack fuel st = some res := by
  intro fuel
  induction fuel with
  | zero => intro st h; omega
  | succ f ih =>
    intro st h
    rw [getBlockParamsLoop]
    have hs : ∀ fp1 rec1 obj1,
        rsksi_tlvrd flag16 dl st.fp st.tlvrec st.obj (stack f) = (rsgte.success, fp1, rec1, obj1) →
        fp1.content = st.fp.content ∧ st.fp.pos < fp1.pos ∧ fp1.pos ≤ st.fp.content.length :=
      fun fp1 rec1 obj1 h1 => tlvRecRead_advance (tlvrd_success h1)
    generalize rsksi_tlvrd flag16 dl st.fp st.tlvrec st.obj (stack f) = res at hs
    obtain ⟨r, fp1, rec1, obj1⟩ := res
    cases r <;> simp only <;> try (exact ⟨_, rfl⟩)
    obtain ⟨hc, hp1, hp2⟩ := hs fp1 rec1 obj1 rfl
    have hlt : fp1.content.length - fp1.pos < f := by rw [hc]; omega
    split
    · exact ih _ hlt
    · split
      · exact ih _ hlt
      · split
        · exact ih _ hlt
        · split
          · exact ⟨_, rfl⟩
          · exact ih _ hlt

/-- When the loop of the pre-scan succeeds, the last record it read is a 0x0904
record, read from a position at or after the starting position, and the stream
holds the same octets as before. -/
theorem getBlockParamsLoop_success (flag16 : Nat) (dl : Byte → Nat)
    (stack : Nat → Nat → tlvrecord_t) :
    ∀ (fuel : Nat) (st st1 : scanState),
      getBlockParamsLoop flag16 dl stack fuel st = some (rsgte.success, st1) →
      ∃ (fpPrev : FILE) (recPrev : tlvrecord_t),
        rsksi_tlvRecRead flag16 fpPrev recPrev = (rsgte.success, st1.fp, st1.tlvrec) ∧
        st1.tlvrec.tlvtype = 0x0904 ∧ fpPrev.content = st.fp.content ∧
        st.fp.pos ≤ fpPrev.pos := by
  intro fuel
  induction fuel with
  | zero => intro st st1 h; simp [getBlockParamsLoop] at h
  | succ f ih =>
    intro st st1 h
    rw [getBlockParamsLoop] at h
    have hs : ∀ fp1 rec1 obj1,
        rsksi_tlvrd flag16 dl st.fp st.tlvrec st.obj (stack f) = (rsgte.success, fp1, rec1, obj1) →
        rsksi_tlvRecRead flag16 st.fp st.tlvrec = (rsgte.success, fp1, rec1) :=
      fun fp1 rec1 obj1 h1 => tlvrd_success h1
    generalize rsksi_tlvrd flag16 dl st.fp st.tlvrec st.obj (stack f) = res at hs h
    obtain ⟨r, fp1, rec1, obj1⟩ := res
    cases r <;> simp only at h <;> try (simp at h)
    have hrd := hs fp1 rec1 obj1 rfl
    obtain ⟨hc, hp1, hp2⟩ := tlvRecRead_advance hrd
    have step : ∀ st2 : scanState, st2.fp = fp1 →
        getBlockParamsLoop flag16 dl stack f st2 = some (rsgte.success, st1) →
        ∃ (fpPrev : FILE) (recPrev : tlvrecord_t),
          rsksi_tlvRecRead flag16 fpPrev recPrev = (rsgte.success, st1.fp, st1.tlvrec) ∧
          st1.tlvrec.tlvtype = 0x0904 ∧ fpPrev.content = st.fp.content ∧
          st.fp.pos ≤ fpPrev.pos := by
      intro st2 hfp2 h2
      obtain ⟨fpPrev, recPrev, ha, hb, hcc, hd⟩ := ih st2 st1 h2
      rw [hfp2] at hcc hd
      exact ⟨fpPrev, recPrev, ha, hb, by rw [hcc, hc], by omega⟩
    split at h
    · exact step _ rfl h
    · split at h
      · exact step _ rfl h
      · split at h
        · exact step _ rfl h
        · split at h
          · rename_i h4
            simp only [Option.some.injEq, Prod.mk.injEq, true_and] at h
            subst h
            exact ⟨st.fp, st.tlvrec, hrd, h4, rfl, Nat.le_refl _⟩
          · exact step _ rfl h

theorem getBlockParams_total (flag16 : Nat) (dl : Byte → Nat) (stack : Nat → Nat → tlvrecord_t)
    (ksi : Option ksifile) (fp : FILE) (bRewind : Nat) (rec0 : tlvrecord_t)
    (obj0 : Option tlvobj) :
    ∃ res, rsksi_getBlockParams flag16 dl stack ksi fp bRewind rec0 obj0 = some res := by
  obtain ⟨res, hres⟩ := getBlockParamsLoop_total flag16 dl stack (fp.content.length - fp.pos + 1)
    { fp := fp, tlvrec := rec0, obj := obj0, nRecs := 0, bHasRecHashes := 0,
      bHasIntermedHashes := 0, bs := none, bh := none, ksi := ksi }
    (Nat.lt_succ_self _)
  unfold rsksi_getBlockParams
  dsimp only
  rw [hres]
  obtain ⟨r, st⟩ := res
  cases r <;> simp only <;> try (exact ⟨_, rfl⟩)
  split
  · exact ⟨_, rfl⟩
  · split <;> exact ⟨_, rfl⟩

theorem getBlockParams_success_pos (flag16 : Nat) (dl : Byte → Nat)
    (stack : Nat → Nat → tlvrecord_t) (ksi : Option ksifile) (fp : FILE) (bRewind : Nat)
    (rec0 : tlvrecord_t) (obj0 : Option tlvobj) (st : scanState)
    (h : rsksi_getBlockParams flag16 dl stack ksi fp bRewind rec0 obj0
      = some (rsgte.success, st)) :
    st.fp.content = fp.content ∧
    (bRewind ≠ 0 → st.fp.pos = fp.pos) ∧
    (bRewind = 0 →
      ∃ start : Nat, fp.pos ≤ start ∧ st.tlvrec.tlvtype = 0x0904 ∧
        (fp.content.drop start).take (st.tlvrec.lenHdr + st.tlvrec.tlvlen)
          = bufRead st.tlvrec.hdr st.tlvrec.lenHdr ++ bufRead st.tlvrec.data st.tlvrec.tlvlen ∧
        st.fp.pos = start + st.tlvrec.lenHdr + st.tlvrec.tlvlen) := by
  have hinv := getBlockParamsLoop_success flag16 dl stack (fp.content.length - fp.pos + 1)
    { fp := fp, tlvrec := rec0, obj := obj0, nRecs := 0, bHasRecHashes := 0,
      bHasIntermedHashes := 0, bs := none, bh := none, ksi := ksi }
  unfold rsksi_getBlockParams at h
  dsimp only at h
  generalize getBlockParamsLoop flag16 dl stack (fp.content.length - fp.pos + 1)
    { fp := fp, tlvrec := rec0, obj := obj0, nRecs := 0, bHasRecHashes := 0,
      bHasIntermedHashes := 0, bs := none, bh := none, ksi := ksi } = lr at h hinv
  cases lr with
  | none => simp at h
  | some p =>
    obtain ⟨r, st1⟩ := p
    cases r <;> simp only at h <;> try (simp at h)
    obtain ⟨fpPrev, recPrev, hrd, ht, hc, hp⟩ := hinv st1 rfl
    obtain ⟨_, _, htake, hfp⟩ := tlvRecRead_success hrd
    simp only at hc hp
    split at h
    · simp at h
    · split at h
      · rename_i hb
        simp only [Option.some.injEq, Prod.mk.injEq, true_and] at h
        subst h
        refine ⟨by rw [hfp]; exact hc, fun h0 => absurd hb h0, fun _ => ?_⟩
        refine ⟨fpPrev.pos, hp, ht, ?_, by rw [hfp]⟩
        rw [← hc]; exact htake
      · rename_i hb
        simp only [Option.some.injEq, Prod.mk.injEq, true_and] at h
        subst h
        refine ⟨?_, fun _ => ?_, fun h0 => absurd h0 hb⟩
        · show (fseeko st1.fp _).content = fp.content
          simp only [fseeko]; rw [hfp]; exact hc
        · rfl

/-! ## Auxiliary lemmas: hash checks, forest, finalization, block signature -/

/-- Adding one to a number whose `c` lowest bits are set and whose bit `c` is
clear clears the `c` lowest bits, sets bit `c` and leaves the higher bits. -/
theorem testBit_succ_of_trailing : ∀ (c k : Nat), (∀ i, i < c → k.testBit i = true) →
    k.testBit c = false →
    ∀ i, (k + 1).testBit i = if i < c then false else if i = c then true else k.testBit i := by
  intro c
  induction c with
  | zero =>
    intro k _ h0 i
    have hk : k % 2 = 0 := by
      have := Nat.testBit_zero k
      rw [h0] at this
      simpa using this.symm
    cases i with
    | zero =>
      simp only [Nat.lt_irrefl, if_false, if_true, Nat.testBit_zero, decide_eq_true_eq]
      omega
    | succ i =>
      have h1 : ¬ (i + 1 < 0) := by omega
      have h2 : ¬ (i + 1 = 0) := by omega
      rw [if_neg h1, if_neg h2, Nat.testBit_succ, Nat.testBit_succ]
      have : (k + 1) / 2 = k / 2 := by omega
      rw [this]
  | succ c ih =>
    intro k hlow hc i
    have hk : k % 2 = 1 := by
      have := Nat.testBit_zero k
      rw [hlow 0 (by omega)] at this
      simpa using this.symm
    have hdiv : (k + 1) / 2 = k / 2 + 1 := by omega
    cases i with
    | zero =>
      simp only [Nat.zero_lt_succ, if_true, Nat.testBit_zero, decide_eq_false_iff_not]
      omega
    | succ i =>
      rw [Nat.testBit_succ, hdiv, ih (k / 2) (fun m hm => by
        rw [← Nat.testBit_succ]; exact hlow (m + 1) (by omega)) (by
        rw [← Nat.testBit_succ]; exact hc) i]
      rw [Nat.testBit_succ]
      simp only [Nat.add_lt_add_iff_right, Nat.add_right_cancel_iff]

theorem size_of_testBit (n s : Nat) (hhi : ∀ i, s ≤ i → n.testBit i = false)
    (htop : s ≠ 0 → n.testBit (s - 1) = true) : Nat.size n = s := by
  have hlt : n < 2 ^ s := Nat.lt_pow_two_of_testBit n (fun i hi => by simp [hhi i hi])
  have h1 : Nat.size n ≤ s := Nat.size_le.mpr hlt
  by_cases hs : s = 0
  · omega
  · have h2 : 2 ^ (s - 1) ≤ n := Nat.testBit_implies_ge (htop hs)
    have h3 : s - 1 < Nat.size n := Nat.lt_size.mpr h2
    omega

/-- A number below `2 ^ s` is the sum of the powers of two of its set bits. -/
theorem sum_testBit (s : Nat) : ∀ n : Nat, n < 2 ^ s →
    ((List.range s).map (fun j => if n.testBit j = true then 2 ^ j else 0)).sum = n := by
  induction s with
  | zero =>
    intro n h
    simp only [Nat.pow_zero, Nat.lt_one_iff] at h
    simp [h]
  | succ s ih =>
    intro n h
    rw [List.range_succ, List.map_append, List.sum_append]
    simp only [List.map_cons, List.map_nil, List.sum_cons, List.sum_nil, Nat.add_zero]
    have hm := ih (n % 2 ^ s) (Nat.mod_lt _ (Nat.two_pow_pos s))
    have hcongr : (List.range s).map (fun j => if (n % 2 ^ s).testBit j = true then 2 ^ j else 0)
        = (List.range s).map (fun j => if n.testBit j = true then 2 ^ j else 0) := by
      apply List.map_congr_left
      intro j hj
      have hj2 : j < s := List.mem_range.mp hj
      rw [Nat.testBit_mod_two_pow]
      simp [hj2]
    rw [hcongr] at hm
    rw [hm]
    have h1 := Nat.mod_pow_succ (x := n) (b := 2) (k := s)
    rw [Nat.mod_eq_of_lt h] at h1
    rw [Nat.testBit_to_div_mod]
    have h2 : n / 2 ^ s % 2 = 0 ∨ n / 2 ^ s % 2 = 1 := by omega
    rcases h2 with h2 | h2
    · rw [h2] at h1
      simp only [h2, Nat.zero_ne_one, decide_False, Bool.false_eq_true, if_false]
      omega
    · rw [h2] at h1
      simp only [h2, decide_True, if_true]
      omega

theorem tlvDecodeSUBREC_range (flag16 : Nat) (rec : tlvrecord_t) (i : Nat) (nr : tlvrecord_t) :
    (rsksi_tlvDecodeSUBREC flag16 rec i nr).1.isDecodeCode = true := by
  unfold rsksi_tlvDecodeSUBREC subrecCopy
  dsimp only
  repeat' split
  all_goals rfl

theorem childImprint_range (dl : Byte → Nat) (sub : tlvrecord_t) (i : Nat) (imp : imprint_t) :
    (childImprint dl sub i imp).1.isDecodeCode = true := by
  unfold childImprint
  dsimp only
  split <;> rfl

theorem tlvDecodeREC_HASH_range (flag16 : Nat) (dl : Byte → Nat) (rec : tlvrecord_t) (i : Nat)
    (imp : imprint_t) (sub0 : tlvrecord_t) :
    (rsksi_tlvDecodeREC_HASH flag16 dl rec i imp sub0).1.isDecodeCode = true := by
  unfold rsksi_tlvDecodeREC_HASH
  have h := tlvDecodeSUBREC_range flag16 rec i sub0
  generalize rsksi_tlvDecodeSUBREC flag16 rec i sub0 = s at h ⊢
  obtain ⟨r, j, sub⟩ := s
  cases r <;> first
    | (simp [rsgte.isDecodeCode] at h; done)
    | (simp only []; split; rfl; exact childImprint_range _ _ _ _)
    | rfl

theorem tlvDecodeSIB_HASH_range (flag16 : Nat) (dl : Byte → Nat) (rec : tlvrecord_t) (i : Nat)
    (imp : imprint_t) (sub0 : tlvrecord_t) :
    (rsksi_tlvDecodeSIB_HASH flag16 dl rec i imp sub0).1.isDecodeCode = true := by
  unfold rsksi_tlvDecodeSIB_HASH
  have h := tlvDecodeSUBREC_range flag16 rec i sub0
  generalize rsksi_tlvDecodeSUBREC flag16 rec i sub0 = s at h ⊢
  obtain ⟨r, j, sub⟩ := s
  cases r <;> first
    | (simp [rsgte.isDecodeCode] at h; done)
    | (simp only []; split; rfl; exact childImprint_range _ _ _ _)
    | rfl

theorem tlvDecodeLAST_HASH_range (flag16 : Nat) (dl : Byte → Nat) (rec : tlvrecord_t) (i : Nat)
    (imp : imprint_t) (sub0 : tlvrecord_t) :
    (rsksi_tlvDecodeLAST_HASH flag16 dl rec i imp sub0).1.isDecodeCode = true := by
  unfold rsksi_tlvDecodeLAST_HASH
  have h := tlvDecodeSUBREC_range flag16 rec i sub0
  generalize rsksi_tlvDecodeSUBREC flag16 rec i sub0 = s at h ⊢
  obtain ⟨r, j, sub⟩ := s
  cases r <;> first
    | (simp [rsgte.isDecodeCode] at h; done)
    | (simp only []; split; rfl; exact childImprint_range _ _ _ _)
    | rfl

theorem tlvDecodeHASH_ALGO_range (flag16 : Nat) (rec : tlvrecord_t) (i : Nat) (a : Byte)
    (sub0 : tlvrecord_t) :
    (rsksi_tlvDecodeHASH_ALGO flag16 rec i a sub0).1.isDecodeCode = true := by
  unfold rsksi_tlvDecodeHASH_ALGO
  have h := tlvDecodeSUBREC_range flag16 rec i sub0
  generalize rsksi_tlvDecodeSUBREC flag16 rec i sub0 = s at h ⊢
  obtain ⟨r, j, sub⟩ := s
  cases r <;> first
    | (simp [rsgte.isDecodeCode] at h; done)
    | (simp only []; split <;> rfl)
    | rfl

theorem tlvDecodeLEVEL_CORR_range (flag16 : Nat) (rec : tlvrecord_t) (i : Nat) (a : Byte)
    (sub0 : tlvrecord_t) :
    (rsksi_tlvDecodeLEVEL_CORR flag16 rec i a sub0).1.isDecodeCode = true := by
  unfold rsksi_tlvDecodeLEVEL_CORR
  have h := tlvDecodeSUBREC_range flag16 rec i sub0
  generalize rsksi_tlvDecodeSUBREC flag16 rec i sub0 = s at h ⊢
  obtain ⟨r, j, sub⟩ := s
  cases r <;> first
    | (simp [rsgte.isDecodeCode] at h; done)
    | (simp only []; split <;> rfl)
    | rfl

theorem tlvDecodeBLOCK_IV_range (flag16 : Nat) (rec : tlvrecord_t) (i : Nat)
    (iv : Option (List Byte)) (sub0 : tlvrecord_t) :
    (rsksi_tlvDecodeBLOCK_IV flag16 rec i iv sub0).1.isDecodeCode = true := by
  unfold rsksi_tlvDecodeBLOCK_IV
  have h := tlvDecodeSUBREC_range flag16 rec i sub0
  generalize rsksi_tlvDecodeSUBREC flag16 rec i sub0 = s at h ⊢
  obtain ⟨r, j, sub⟩ := s
  cases r <;> first
    | (simp [rsgte.isDecodeCode] at h; done)
    | (simp only []; split <;> rfl)
    | rfl

theorem tlvDecodeREC_COUNT_range (flag16 : Nat) (rec : tlvrecord_t) (i : Nat) (c : Nat)
    (sub0 : tlvrecord_t) :
    (rsksi_tlvDecodeREC_COUNT flag16 rec i c sub0).1.isDecodeCode = true := by
  unfold rsksi_tlvDecodeREC_COUNT
  have h := tlvDecodeSUBREC_range flag16 rec i sub0
  generalize rsksi_tlvDecodeSUBREC flag16 rec i sub0 = s at h ⊢
  obtain ⟨r, j, sub⟩ := s
  cases r <;> first
    | (simp [rsgte.isDecodeCode] at h; done)
    | (simp only []; split <;> rfl)
    | rfl

theorem tlvDecodeSIG_range (flag16 : Nat) (rec : tlvrecord_t) (i : Nat) (bs : block_sig_t)
    (sub0 : tlvrecord_t) :
    (rsksi_tlvDecodeSIG flag16 rec i bs sub0).1.isDecodeCode = true := by
  unfold rsksi_tlvDecodeSIG
  have h := tlvDecodeSUBREC_range flag16 rec i sub0
  generalize rsksi_tlvDecodeSUBREC flag16 rec i sub0 = s at h ⊢
  obtain ⟨r, j, sub⟩ := s
  cases r <;> first
    | (simp [rsgte.isDecodeCode] at h; done)
    | (simp only []; split <;> rfl)
    | rfl

theorem tlvDecodeHASH_STEP_range (flag16 : Nat) (dl : Byte → Nat) (rec : tlvrecord_t) (i : Nat)
    (hs : block_hashstep_t) (stack : Nat → tlvrecord_t) :
    (rsksi_tlvDecodeHASH_STEP flag16 dl rec i hs stack).1.isDecodeCode = true := by
  unfold rsksi_tlvDecodeHASH_STEP
  dsimp only
  have h := tlvDecodeSUBREC_range flag16 rec i (stack 0)
  generalize rsksi_tlvDecodeSUBREC flag16 rec i (stack 0) = s at h ⊢
  obtain ⟨r, j, sub⟩ := s
  cases r <;> first
    | (simp [rsgte.isDecodeCode] at h; done)
    | rfl
    | skip
  simp only []
  have h1 := tlvDecodeLEVEL_CORR_range flag16 sub 0 hs.level_corr (stack 1)
  generalize rsksi_tlvDecodeLEVEL_CORR flag16 sub 0 hs.level_corr (stack 1) = s1 at h1 ⊢
  obtain ⟨r1, j1, lc⟩ := s1
  cases r1 <;> first
    | (simp [rsgte.isDecodeCode] at h1; done)
    | rfl
    | skip
  simp only []
  have h2 := tlvDecodeSIB_HASH_range flag16 dl sub j1
    { hashID := hs.sib_hash.hashID, len := hs.sib_hash.len, data := none } (stack 2)
  generalize rsksi_tlvDecodeSIB_HASH flag16 dl sub j1
    { hashID := hs.sib_hash.hashID, len := hs.sib_hash.len, data := none } (stack 2) = s2 at h2 ⊢
  obtain ⟨r2, j2, sh⟩ := s2
  cases r2 <;> first
    | (simp [rsgte.isDecodeCode] at h2; done)
    | rfl
    | skip
  simp only []
  split <;> rfl

theorem tlvDecodeHASH_CHAIN_range (flag16 : Nat) (dl : Byte → Nat) (rec : tlvrecord_t)
    (stack : Nat → tlvrecord_t) :
    (rsksi_tlvDecodeHASH_CHAIN flag16 dl rec stack).1.isDecodeCode = true := by
  unfold rsksi_tlvDecodeHASH_CHAIN
  dsimp only
  have h := tlvDecodeREC_HASH_range flag16 dl rec 0 block_hashchain_t.zero.rec_hash (stack 0)
  generalize rsksi_tlvDecodeREC_HASH flag16 dl rec 0 block_hashchain_t.zero.rec_hash (stack 0)
    = s at h ⊢
  obtain ⟨r, j, x⟩ := s
  cases r <;> first
    | (simp [rsgte.isDecodeCode] at h; done)
    | rfl
    | skip
  simp only []
  have h1 := tlvDecodeHASH_STEP_range flag16 dl rec j block_hashchain_t.zero.left_link
    (fun k => stack (k + 1))
  generalize rsksi_tlvDecodeHASH_STEP flag16 dl rec j block_hashchain_t.zero.left_link
    (fun k => stack (k + 1)) = s1 at h1 ⊢
  obtain ⟨r1, j1, x1⟩ := s1
  cases r1 <;> first
    | (simp [rsgte.isDecodeCode] at h1; done)
    | rfl
    | skip
  simp only []
  have h2 := tlvDecodeHASH_STEP_range flag16 dl rec j1 block_hashchain_t.zero.right_link
    (fun k => stack (k + 4))
  generalize rsksi_tlvDecodeHASH_STEP flag16 dl rec j1 block_hashchain_t.zero.right_link
    (fun k => stack (k + 4)) = s2 at h2 ⊢
  obtain ⟨r2, j2, x2⟩ := s2
  cases r2 <;> first
    | (simp [rsgte.isDecodeCode] at h2; done)
    | rfl

theorem tlvDecodeBLOCK_HDR_range (flag16 : Nat) (dl : Byte → Nat) (rec : tlvrecord_t)
    (stack : Nat → tlvrecord_t) :
    (rsksi_tlvDecodeBLOCK_HDR flag16 dl rec stack).1.isDecodeCode = true := by
  unfold rsksi_tlvDecodeBLOCK_HDR
  dsimp only
  have h := tlvDecodeHASH_ALGO_range flag16 rec 0 block_hdr_t.zero.hashID (stack 0)
  generalize rsksi_tlvDecodeHASH_ALGO flag16 rec 0 block_hdr_t.zero.hashID (stack 0) = s at h ⊢
  obtain ⟨r, j, x⟩ := s
  cases r <;> first
    | (simp [rsgte.isDecodeCode] at h; done)
    | rfl
    | skip
  simp only []
  have h1 := tlvDecodeBLOCK_IV_range flag16 rec j block_hdr_t.zero.iv (stack 1)
  generalize rsksi_tlvDecodeBLOCK_IV flag16 rec j block_hdr_t.zero.iv (stack 1) = s1 at h1 ⊢
  obtain ⟨r1, j1, x1⟩ := s1
  cases r1 <;> first
    | (simp [rsgte.isDecodeCode] at h1; done)
    | rfl
    | skip
  simp only []
  have h2 := tlvDecodeLAST_HASH_range flag16 dl rec j1 block_hdr_t.zero.lastHash (stack 2)
  generalize rsksi_tlvDecodeLAST_HASH flag16 dl rec j1 block_hdr_t.zero.lastHash (stack 2)
    = s2 at h2 ⊢
  obtain ⟨r2, j2, x2⟩ := s2
  cases r2 <;> first
    | (simp [rsgte.isDecodeCode] at h2; done)
    | rfl
    | skip
  simp only []
  split <;> rfl

theorem tlvDecodeBLOCK_SIG_range (flag16 : Nat) (rec : tlvrecord_t)
    (stack : Nat → tlvrecord_t) :
    (rsksi_tlvDecodeBLOCK_SIG flag16 rec stack).1.isDecodeCode = true := by
  unfold rsksi_tlvDecodeBLOCK_SIG
  dsimp only
  have h := tlvDecodeREC_COUNT_range flag16 rec 0 block_sig_t.zero.recCount (stack 0)
  generalize rsksi_tlvDecodeREC_COUNT flag16 rec 0 block_sig_t.zero.recCount (stack 0)
    = s at h ⊢
  obtain ⟨r, j, x⟩ := s
  cases r <;> first
    | (simp [rsgte.isDecodeCode] at h; done)
    | rfl
    | skip
  simp only []
  have h1 := tlvDecodeSIG_range flag16 rec j
    { sigID := block_sig_t.zero.sigID, recCount := x, der_len := block_sig_t.zero.der_len,
      der_data := block_sig_t.zero.der_data } (stack 1)
  generalize rsksi_tlvDecodeSIG flag16 rec j
    { sigID := block_sig_t.zero.sigID, recCount := x, der_len := block_sig_t.zero.der_len,
      der_data := block_sig_t.zero.der_data } (stack 1) = s1 at h1 ⊢
  obtain ⟨r1, j1, x1⟩ := s1
  cases r1 <;> first
    | (simp [rsgte.isDecodeCode] at h1; done)
    | rfl
    | skip
  simp only []
  split <;> rfl

theorem storeObj_fst {α : Type} (mk : α → tlvobj) (res : rsgte × Option α) (obj : Option tlvobj) :
    (storeObj mk res obj).1 = res.1 := by
  obtain ⟨r, o⟩ := res
  cases o <;> rfl

/-- The return codes of `rsksi_tlvRecDecode`. -/
theorem tlvRecDecode_range (flag16 : Nat) (dl : Byte → Nat) (rec : tlvrecord_t)
    (obj : Option tlvobj) (stack : Nat → tlvrecord_t) :
    (rsksi_tlvRecDecode flag16 dl rec obj stack).1.isReadCode = true := by
  have hd : ∀ r : rsgte, r.isDecodeCode = true → r.isReadCode = true := by
    intro r hr
    cases r <;> first | rfl | simp [rsgte.isDecodeCode] at hr
  unfold rsksi_tlvRecDecode
  split
  · rw [storeObj_fst]; exact hd _ (tlvDecodeBLOCK_HDR_range _ _ _ _)
  split
  · rw [storeObj_fst]
    apply hd
    unfold rsksi_tlvDecodeIMPRINT
    dsimp only
    split <;> rfl
  split
  · rw [storeObj_fst]; exact hd _ (tlvDecodeBLOCK_SIG_range _ _ _)
  split
  · rw [storeObj_fst]
    apply hd
    unfold rsksi_tlvDecodeEXCERPT_SIG
    dsimp only
    split <;> rfl
  split
  · rw [storeObj_fst]; exact hd _ (tlvDecodeHASH_CHAIN_range _ _ _ _)
  · rfl

/-- The return codes of `rsksi_tlvrd`. -/
theorem tlvrd_range (flag16 : Nat) (dl : Byte → Nat) (fp : FILE) (rec : tlvrecord_t)
    (obj : Option tlvobj) (stack : Nat → tlvrecord_t) :
    (rsksi_tlvrd flag16 dl fp rec obj stack).1.isReadCode = true := by
  have h : (rsksi_tlvRecRead flag16 fp rec).1.isReadCode = true := by
    rw [tlvRecRead_code]
    have he : (eofOrIo fp).isReadCode = true := by
      unfold eofOrIo
      split <;> rfl
    repeat' split
    all_goals first | rfl | exact he
  unfold rsksi_tlvrd
  generalize rsksi_tlvRecRead flag16 fp rec = s at h ⊢
  obtain ⟨r, f, rc⟩ := s
  cases r <;> first
    | exact tlvRecDecode_range _ _ _ _ _
    | exact h

/-- Writing a record that fits into the output stream succeeds. -/
theorem tlvwrite_room (o : OFILE) (rec : tlvrecord_t) (h1 : rec.lenHdr ≠ 0) (h2 : rec.tlvlen ≠ 0)
    (hr : rec.lenHdr + rec.tlvlen ≤ o.room) :
    ∃ o1, rsksi_tlvwrite o rec = (rsgte.success, o1) := by
  unfold rsksi_tlvwrite
  rw [fwrite1_ok rec.hdr rec.lenHdr o h1 (by omega)]
  simp only []
  rw [fwrite1_ok rec.data rec.tlvlen _ h2 (by simp only []; omega)]
  exact ⟨_, rfl⟩

/-- Reading and decoding a well-formed excerpt signature record. -/
theorem tlvrd_excerpt (dl : Byte → Nat) (fp : FILE) (rec0 : tlvrecord_t) (obj0 : Option tlvobj)
    (stack : Nat → tlvrecord_t) (enc rest sig : List Byte)
    (henc : isTlv enc 0x0905 sig = true) (hne : sig ≠ [])
    (hd : fp.content.drop fp.pos = enc ++ rest) :
    ∃ (nr : tlvrecord_t) (obj : Option tlvobj),
      rsksi_tlvrd FLAG_TLV16 dl fp rec0 obj0 stack
        = (rsgte.success, { fp with pos := fp.pos + enc.length }, nr, obj) ∧
      nr.tlvtype = 0x0905 := by
  obtain ⟨nr, hr, ht, _, _⟩ := tlvRecRead_isTlv fp rec0 enc rest 0x0905 sig henc hne hd
  have hn1 : nr.tlvtype ≠ 0x0901 := by rw [ht]; decide
  have hn2 : ¬ (nr.tlvtype = 0x0902 ∨ nr.tlvtype = 0x0903) := by rw [ht]; decide
  have hn3 : nr.tlvtype ≠ 0x0904 := by rw [ht]; decide
  have hc : (rsksi_tlvRecDecode FLAG_TLV16 dl nr obj0 stack).1 = rsgte.success := by
    unfold rsksi_tlvRecDecode
    rw [if_neg hn1, if_neg hn2, if_neg hn3, if_pos ht]
    unfold rsksi_tlvDecodeEXCERPT_SIG
    dsimp only
    rw [if_neg (not_not.mpr ht)]
    rfl
  refine ⟨nr, (rsksi_tlvRecDecode FLAG_TLV16 dl nr obj0 stack).2, ?_, ht⟩
  unfold rsksi_tlvrd
  rw [hr]
  simp only
  rw [hc]

/-- Reading and decoding a well-formed hash-chain record. -/
theorem tlvrd_chain (dl : Byte → Nat) (fp : FILE) (rec0 : tlvrecord_t) (obj0 : Option tlvobj)
    (stack : Nat → tlvrecord_t) (enc e1 e2 e3 rest : List Byte)
    (a1 : Byte) (d1 : List Byte) (l2 s2 : List Byte) (lc2 a2 : Byte) (d2 : List Byte)
    (l3 s3 : List Byte) (lc3 a3 : Byte) (d3 : List Byte)
    (hwf : (sigRec.hashChain enc e1 e2 e3 a1 d1 l2 s2 lc2 a2 d2 l3 s3 lc3 a3 d3).wf dl = true)
    (hd : fp.content.drop fp.pos = enc ++ rest) :
    ∃ (nr : tlvrecord_t) (obj : Option tlvobj),
      rsksi_tlvrd FLAG_TLV16 dl fp rec0 obj0 stack
        = (rsgte.success, { fp with pos := fp.pos + enc.length }, nr, obj) ∧
      nr.tlvtype = 0x0907 := by
  simp only [sigRec.wf, Bool.and_eq_true, decide_eq_true_eq] at hwf
  obtain ⟨⟨⟨⟨⟨⟨⟨⟨⟨⟨henc, h1⟩, hd1⟩, h2⟩, hl2⟩, hs2⟩, hd2⟩, h3⟩, hl3⟩, hs3⟩, hd3⟩ := hwf
  have hne : e1 ++ (e2 ++ e3) ≠ [] := by
    have := (isTlv_length e1 _ _ h1).2
    intro hc
    have := congrArg List.length hc
    simp only [List.length_append, List.length_nil] at this
    omega
  obtain ⟨nr, hr, ht, hlen, hdata⟩ :=
    tlvRecRead_isTlv fp rec0 enc rest 0x0907 (e1 ++ (e2 ++ e3)) henc hne hd
  have hdata2 : nr.data = e1 ++ (e2 ++ (e3 ++ rec0.data.drop (e1 ++ (e2 ++ e3)).length)) := by
    rw [hdata, bufStore, List.append_assoc, List.append_assoc]
  have hlen2 : e1.length + e2.length + e3.length ≤ nr.tlvlen := by
    rw [hlen]; simp only [List.length_append]; omega
  have hl : nr.tlvlen < 2 ^ 16 := by rw [hlen]; exact (isTlv_length enc _ _ henc).1
  have hn1 : nr.tlvtype ≠ 0x0901 := by rw [ht]; decide
  have hn2 : ¬ (nr.tlvtype = 0x0902 ∨ nr.tlvtype = 0x0903) := by rw [ht]; decide
  have hn3 : nr.tlvtype ≠ 0x0904 := by rw [ht]; decide
  have hn4 : nr.tlvtype ≠ 0x0905 := by rw [ht]; decide
  have hc : (rsksi_tlvRecDecode FLAG_TLV16 dl nr obj0 stack).1 = rsgte.success := by
    unfold rsksi_tlvRecDecode
    rw [if_neg hn1, if_neg hn2, if_neg hn3, if_neg hn4, if_pos ht,
      tlvDecodeHASH_CHAIN_isTlv dl nr stack e1 e2 e3 _ a1 d1 0x02 l2 s2 lc2 a2 d2 0x03 l3 s3 lc3
        a3 d3 h1 hd1 h2 hl2 hs2 hd2 h3 hl3 hs3 hd3 hdata2 hlen2 hl]
    rfl
  refine ⟨nr, (rsksi_tlvRecDecode FLAG_TLV16 dl nr obj0 stack).2, ?_, ht⟩
  unfold rsksi_tlvrd
  rw [hr]
  simp only
  rw [hc]

/-- Reading and decoding a well-formed record of a known type: `rsksi_tlvrd`
returns success, the stream is right after the record, and the record read has
the type of the record. -/
theorem tlvrd_sigRec (dl : Byte → Nat) (fp : FILE) (rec0 : tlvrecord_t) (obj0 : Option tlvobj)
    (stack : Nat → tlvrecord_t) (r : sigRec) (rest : List Byte) (hwf : r.wf dl = true)
    (hd : fp.content.drop fp.pos = r.enc ++ rest) :
    ∃ (nr : tlvrecord_t) (obj : Option tlvobj),
      rsksi_tlvrd FLAG_TLV16 dl fp rec0 obj0 stack
        = (rsgte.success, { fp with pos := fp.pos + r.enc.length }, nr, obj) ∧
      nr.tlvtype = r.tlvtype := by
  cases r with
  | block b =>
    cases b with
    | hdr enc e1 e2 e3 h alg iv digest =>
      obtain ⟨nr, h1, h2⟩ := tlvrd_hdr dl fp rec0 obj0 stack enc e1 e2 e3 rest _ _ _ _ hwf hd
      exact ⟨nr, _, h1, h2⟩
    | recHash enc alg digest =>
      simp only [sigRec.wf, blockRec.wf, Bool.and_eq_true, decide_eq_true_eq] at hwf
      obtain ⟨nr, h1, h2⟩ := tlvrd_imprint dl fp rec0 obj0 stack enc rest 0x0902 alg digest
        (Or.inl rfl) hwf.1 hwf.2 hd
      exact ⟨nr, _, h1, h2⟩
    | treeHash enc alg digest =>
      simp only [sigRec.wf, blockRec.wf, Bool.and_eq_true, decide_eq_true_eq] at hwf
      obtain ⟨nr, h1, h2⟩ := tlvrd_imprint dl fp rec0 obj0 stack enc rest 0x0903 alg digest
        (Or.inr rfl) hwf.1 hwf.2 hd
      exact ⟨nr, _, h1, h2⟩
  | blockSig enc e1 e2 cnt sig =>
    simp only [sigRec.wf, Bool.and_eq_true, decide_eq_true_eq] at hwf
    obtain ⟨nr, h1, h2⟩ := tlvrd_sig dl fp rec0 obj0 stack enc e1 e2 rest cnt sig
      hwf.1.1.1 hwf.1.1.2 hwf.1.2 hwf.2 hd
    exact ⟨nr, _, h1, h2⟩
  | excerptSig enc sig =>
    simp only [sigRec.wf, Bool.and_eq_true, decide_eq_true_eq] at hwf
    exact tlvrd_excerpt dl fp rec0 obj0 stack enc rest sig hwf.1 hwf.2 hd
  | hashChain enc e1 e2 e3 a1 d1 l2 s2 lc2 a2 d2 l3 s3 lc3 a3 d3 =>
    exact tlvrd_chain dl fp rec0 obj0 stack enc e1 e2 e3 rest a1 d1 l2 s2 lc2 a2 d2 l3 s3 lc3 a3
      d3 hwf hd

/-- On a well-formed tree-hash record `rsksi_tlvrdTreeHash` returns success with
the imprint of the record, the stream right after the record; the record is
copied to the output stream when there is one with room for it. -/
theorem tlvrdTreeHash_imprint (dl : Byte → Nat) (fp : FILE) (outfp : Option OFILE)
    (imp0 : Option tlvobj) (rec0 : tlvrecord_t) (stack : Nat → tlvrecord_t)
    (enc rest : List Byte) (alg : Byte) (digest : List Byte)
    (henc : isTlv enc 0x0903 (alg :: digest) = true) (hdig : digest.length = dl alg)
    (hd : fp.content.drop fp.pos = enc ++ rest)
    (hroom : ∀ o, outfp = some o → enc.length ≤ o.room) :
    ∃ o1, rsksi_tlvrdTreeHash FLAG_TLV16 dl fp outfp imp0 rec0 stack
      = (rsgte.success, { fp with pos := fp.pos + enc.length }, o1,
          some (tlvobj.imprint { hashID := alg, len := digest.length, data := some digest })) ∧
      (outfp = none → o1 = none) := by
  obtain ⟨nr, hr, ht⟩ := tlvrd_imprint dl fp rec0 imp0 stack enc rest 0x0903 alg digest
    (Or.inr rfl) henc hdig hd
  obtain ⟨hh, hne, _, hfp⟩ := tlvRecRead_success (tlvrd_success hr)
  have hlen : nr.lenHdr + nr.tlvlen = enc.length := by
    have := congrArg FILE.pos hfp
    simp only [] at this
    omega
  unfold rsksi_tlvrdTreeHash
  rw [hr]
  simp only [ht, ne_eq, not_true_eq_false, if_false]
  cases outfp with
  | none => exact ⟨none, rfl, fun _ => rfl⟩
  | some o =>
    obtain ⟨o1, ho⟩ := tlvwrite_room o nr (by omega) hne (by rw [hlen]; exact hroom o rfl)
    refine ⟨some o1, ?_, fun h => by simp at h⟩
    simp only [ho]

/-- On a well-formed record of a known type other than 0x0903
`rsksi_tlvrdTreeHash` returns `RSGTE_MISS_TREE_HASH`; nothing is written. -/
theorem tlvrdTreeHash_miss (dl : Byte → Nat) (fp : FILE) (outfp : Option OFILE)
    (imp0 : Option tlvobj) (rec0 : tlvrecord_t) (stack : Nat → tlvrecord_t)
    (r : sigRec) (rest : List Byte) (hwf : r.wf dl = true) (ht : r.tlvtype ≠ 0x0903)
    (hd : fp.content.drop fp.pos = r.enc ++ rest) :
    rsksi_tlvrdTreeHash FLAG_TLV16 dl fp outfp imp0 rec0 stack
      = (rsgte.miss_tree_hash, { fp with pos := fp.pos + r.enc.length }, outfp, none) := by
  obtain ⟨nr, obj, hr, htt⟩ := tlvrd_sigRec dl fp rec0 imp0 stack r rest hwf hd
  unfold rsksi_tlvrdTreeHash
  rw [hr]
  simp only []
  rw [if_pos (by rw [htt]; exact ht)]

/-- On a well-formed record of a known type other than 0x0902
`rsksi_tlvrdRecHash` returns `RSGTE_MISS_REC_HASH`; nothing is written. -/
theorem tlvrdRecHash_miss (dl : Byte → Nat) (fp : FILE) (outfp : Option OFILE)
    (imp0 : Option tlvobj) (rec0 : tlvrecord_t) (stack : Nat → tlvrecord_t)
    (r : sigRec) (rest : List Byte) (hwf : r.wf dl = true) (ht : r.tlvtype ≠ 0x0902)
    (hd : fp.content.drop fp.pos = r.enc ++ rest) :
    rsksi_tlvrdRecHash FLAG_TLV16 dl fp outfp imp0 rec0 stack
      = (rsgte.miss_rec_hash, { fp with pos := fp.pos + r.enc.length }, outfp, none) := by
  obtain ⟨nr, obj, hr, htt⟩ := tlvrd_sigRec dl fp rec0 imp0 stack r rest hwf hd
  unfold rsksi_tlvrdRecHash
  rw [hr]
  simp only []
  rw [if_pos (by rw [htt]; exact ht)]

/-- The check of a record hash on a well-formed record of another known
type. -/
theorem vrfy_chkRecHash_miss (api : ksiapi) (ksi : ksifile) (sigfp : FILE)
    (nsigfp : Option OFILE) (hash : Option KSI_DataHash) (ectx : ksierrctx_t)
    (rec0 : tlvrecord_t) (stack : Nat → tlvrecord_t)
    (r : sigRec) (rest : List Byte) (hwf : r.wf api.hashOutputLengthOctetsKSI = true)
    (ht : r.tlvtype ≠ 0x0902) (hd : sigfp.content.drop sigfp.pos = r.enc ++ rest) :
    rsksi_vrfy_chkRecHash api FLAG_TLV16 ksi sigfp nsigfp hash ectx rec0 stack
      = (rsgte.miss_rec_hash, { sigfp with pos := sigfp.pos + r.enc.length }, nsigfp,
          reportError rsgte.miss_rec_hash ectx) := by
  unfold rsksi_vrfy_chkRecHash
  rw [tlvrdRecHash_miss _ sigfp nsigfp none rec0 stack r rest hwf ht hd]
  rfl

/-- The check of a tree hash on a well-formed record of another known type. -/
theorem vrfy_chkTreeHash_miss (api : ksiapi) (debug : Nat) (ksi : ksifile) (sigfp : FILE)
    (nsigfp : Option OFILE) (hash : Option KSI_DataHash) (ectx : ksierrctx_t)
    (rec0 : tlvrecord_t) (stack : Nat → tlvrecord_t)
    (r : sigRec) (rest : List Byte) (hwf : r.wf api.hashOutputLengthOctetsKSI = true)
    (ht : r.tlvtype ≠ 0x0903) (hd : sigfp.content.drop sigfp.pos = r.enc ++ rest) :
    rsksi_vrfy_chkTreeHash api FLAG_TLV16 debug ksi sigfp nsigfp hash ectx rec0 stack
      = (rsgte.miss_tree_hash, { sigfp with pos := sigfp.pos + r.enc.length }, nsigfp,
          reportError rsgte.miss_tree_hash ectx) := by
  unfold rsksi_vrfy_chkTreeHash
  rw [tlvrdTreeHash_miss _ sigfp nsigfp none rec0 stack r rest hwf ht hd]

/-- The check of a record hash on a well-formed record hash: success, whatever
the digest. -/
theorem vrfy_chkRecHash_imprint (api : ksiapi) (ksi : ksifile) (sigfp : FILE)
    (nsigfp : Option OFILE) (hash : Option KSI_DataHash) (ectx : ksierrctx_t)
    (rec0 : tlvrecord_t) (stack : Nat → tlvrecord_t)
    (enc rest : List Byte) (alg : Byte) (digest : List Byte)
    (henc : isTlv enc 0x0902 (alg :: digest) = true)
    (hdig : digest.length = api.hashOutputLengthOctetsKSI alg)
    (hd : sigfp.content.drop sigfp.pos = enc ++ rest)
    (hroom : ∀ o, nsigfp = some o → enc.length ≤ o.room) :
    ∃ o1, rsksi_vrfy_chkRecHash api FLAG_TLV16 ksi sigfp nsigfp hash ectx rec0 stack
      = (rsgte.success, { sigfp with pos := sigfp.pos + enc.length }, o1, ectx) := by
  obtain ⟨nr, hr, ht⟩ := tlvrd_imprint api.hashOutputLengthOctetsKSI sigfp rec0 none stack enc
    rest 0x0902 alg digest (Or.inl rfl) henc hdig hd
  obtain ⟨hh, hne, _, hfp⟩ := tlvRecRead_success (tlvrd_success hr)
  have hlen : nr.lenHdr + nr.tlvlen = enc.length := by
    have := congrArg FILE.pos hfp
    simp only [] at this
    omega
  unfold rsksi_vrfy_chkRecHash rsksi_tlvrdRecHash
  rw [hr]
  simp only [ht, ne_eq, not_true_eq_false, if_false]
  cases nsigfp with
  | none => exact ⟨none, rfl⟩
  | some o =>
    obtain ⟨o1, ho⟩ := tlvwrite_room o nr (by omega) hne (by rw [hlen]; exact hroom o rfl)
    refine ⟨some o1, ?_⟩
    simp only [ho, not_true_eq_false, if_false]

theorem memcmp_eq_zero (a b : List Byte) (n : Nat) (ha : a.length = n) (hb : b.length = n) :
    memcmp a b n = 0 ↔ a = b := by
  unfold memcmp
  have h1 : bufRead a n = a := by
    have := bufRead_append a []
    rw [List.append_nil, ha] at this
    exact this
  have h2 : bufRead b n = b := by
    have := bufRead_append b []
    rw [List.append_nil, hb] at this
    exact this
  rw [h1, h2]
  split <;> simp_all

/-- The result of the tree-hash check on a well-formed tree-hash record, by the
algorithm and digest that the record holds. -/
theorem vrfy_chkTreeHash_imprint (api : ksiapi) (debug : Nat) (ksi : ksifile) (sigfp : FILE)
    (nsigfp : Option OFILE) (h : KSI_DataHash) (ectx : ksierrctx_t)
    (rec0 : tlvrecord_t) (stack : Nat → tlvrecord_t)
    (enc rest : List Byte) (alg : Byte) (digest : List Byte)
    (henc : isTlv enc 0x0903 (alg :: digest) = true)
    (hdig : digest.length = api.hashOutputLengthOctetsKSI alg)
    (hd : sigfp.content.drop sigfp.pos = enc ++ rest)
    (hroom : ∀ o, nsigfp = some o → enc.length ≤ o.room)
    (hh : h.digest.length
      = api.hashOutputLengthOctetsKSI (api.hashIdentifierKSI ksi.hashAlg)) :
    ∃ o1 e1, rsksi_vrfy_chkTreeHash api FLAG_TLV16 debug ksi sigfp nsigfp (some h) ectx rec0 stack
      = (if alg ≠ api.hashIdentifierKSI ksi.hashAlg then rsgte.invld_tree_hashid
         else if digest ≠ h.digest then rsgte.invld_tree_hash else rsgte.success,
         { sigfp with pos := sigfp.pos + enc.length }, o1, e1) ∧
      (debug = 0 → alg = api.hashIdentifierKSI ksi.hashAlg → digest = h.digest → e1 = ectx) := by
  obtain ⟨o1, hr, _⟩ := tlvrdTreeHash_imprint api.hashOutputLengthOctetsKSI sigfp nsigfp none
    rec0 stack enc rest alg digest henc hdig hd hroom
  unfold rsksi_vrfy_chkTreeHash
  rw [hr]
  simp only [tlvobj.toImprint, Option.getD_some, KSI_DataHash_extract]
  by_cases ha : alg = api.hashIdentifierKSI ksi.hashAlg
  · have hm := memcmp_eq_zero digest h.digest (api.hashOutputLengthOctetsKSI alg) hdig
      (by rw [hh, ha])
    by_cases hdg : digest = h.digest
    · rw [if_neg (not_not.mpr ha), if_neg (not_not.mpr (hm.mpr hdg)),
        if_neg (not_not.mpr ha), if_neg (not_not.mpr hdg)]
      by_cases hdb : debug = 0
      · rw [if_neg (not_not.mpr hdb)]
        exact ⟨_, _, rfl, fun _ _ _ => rfl⟩
      · rw [if_pos hdb]
        exact ⟨_, _, rfl, fun h0 => absurd h0 hdb⟩
    · rw [if_neg (not_not.mpr ha), if_pos (mt hm.mp hdg), if_neg (not_not.mpr ha), if_pos hdg]
      exact ⟨_, _, rfl, fun _ _ h2 => absurd h2 hdg⟩
  · rw [if_pos ha, if_pos ha]
    exact ⟨_, _, rfl, fun _ h1 => absurd h1 ha⟩

theorem tlvwrite_code (o : OFILE) (rec : tlvrecord_t) :
    (rsksi_tlvwrite o rec).1 = rsgte.success ∨ (rsksi_tlvwrite o rec).1 = rsgte.io := by
  unfold rsksi_tlvwrite
  repeat' split
  all_goals simp

/-- What a successful `rsksi_tlvrdTreeHash` has read. -/
theorem tlvrdTreeHash_success {flag16 : Nat} {dl : Byte → Nat} {fp f1 : FILE}
    {outfp o1 : Option OFILE} {imp imp1 : Option tlvobj} {rec0 : tlvrecord_t}
    {stack : Nat → tlvrecord_t}
    (h : rsksi_tlvrdTreeHash flag16 dl fp outfp imp rec0 stack = (rsgte.success, f1, o1, imp1)) :
    (∃ rec, rsksi_tlvRecRead flag16 fp rec0 = (rsgte.success, f1, rec) ∧ rec.tlvtype = 0x0903) ∧
    (outfp = none → o1 = none) := by
  unfold rsksi_tlvrdTreeHash at h
  rcases hs : rsksi_tlvrd flag16 dl fp rec0 imp stack with ⟨r, f2, rec, imp2⟩
  rw [hs] at h
  cases r <;> first | (simp at h; done) | skip
  simp only [] at h
  split at h
  · simp at h
  · rename_i ht
    have ht2 : rec.tlvtype = 0x0903 := not_not.mp ht
    have hrd := tlvrd_success hs
    cases outfp with
    | none =>
      simp only [Prod.mk.injEq, true_and] at h
      rw [← h.1]
      exact ⟨⟨rec, hrd, ht2⟩, fun _ => h.2.1.symm⟩
    | some o =>
      simp only [] at h
      split at h
      · simp only [Prod.mk.injEq, true_and] at h
        rw [← h.1]
        exact ⟨⟨rec, hrd, ht2⟩, fun hc => by simp at hc⟩
      · rename_i r2 o2 hne
        simp only [Prod.mk.injEq] at h
        rw [← h.2.1]
        exact ⟨⟨rec, hrd, ht2⟩, fun hc => by simp at hc⟩

/-- What a successful `rsksi_tlvrdRecHash` has read. -/
theorem tlvrdRecHash_success {flag16 : Nat} {dl : Byte → Nat} {fp f1 : FILE}
    {outfp o1 : Option OFILE} {imp imp1 : Option tlvobj} {rec0 : tlvrecord_t}
    {stack : Nat → tlvrecord_t}
    (h : rsksi_tlvrdRecHash flag16 dl fp outfp imp rec0 stack = (rsgte.success, f1, o1, imp1)) :
    (∃ rec, rsksi_tlvRecRead flag16 fp rec0 = (rsgte.success, f1, rec) ∧ rec.tlvtype = 0x0902) ∧
    (outfp = none → o1 = none) := by
  unfold rsksi_tlvrdRecHash at h
  rcases hs : rsksi_tlvrd flag16 dl fp rec0 imp stack with ⟨r, f2, rec, imp2⟩
  rw [hs] at h
  cases r <;> first | (simp at h; done) | skip
  simp only [] at h
  split at h
  · simp at h
  · rename_i ht
    have ht2 : rec.tlvtype = 0x0902 := not_not.mp ht
    have hrd := tlvrd_success hs
    cases outfp with
    | none =>
      simp only [Prod.mk.injEq, true_and] at h
      rw [← h.1]
      exact ⟨⟨rec, hrd, ht2⟩, fun _ => h.2.1.symm⟩
    | some o =>
      simp only [] at h
      split at h
      · simp only [Prod.mk.injEq, true_and] at h
        rw [← h.1]
        exact ⟨⟨rec, hrd, ht2⟩, fun hc => by simp at hc⟩
      · rename_i r2 o2 hne
        simp only [Prod.mk.injEq] at h
        rw [← h.2.1]
        exact ⟨⟨rec, hrd, ht2⟩, fun hc => by simp at hc⟩

/-- The return codes of `rsksi_tlvrdTreeHash`. -/
theorem tlvrdTreeHash_code (flag16 : Nat) (dl : Byte → Nat) (fp : FILE)
    (outfp : Option OFILE) (imp : Option tlvobj) (rec0 : tlvrecord_t)
    (stack : Nat → tlvrecord_t) :
    (rsksi_tlvrdTreeHash flag16 dl fp outfp imp rec0 stack).1.isReadCode = true ∨
    (rsksi_tlvrdTreeHash flag16 dl fp outfp imp rec0 stack).1 = rsgte.miss_tree_hash := by
  unfold rsksi_tlvrdTreeHash
  have hc := tlvrd_range flag16 dl fp rec0 imp stack
  rcases hs : rsksi_tlvrd flag16 dl fp rec0 imp stack with ⟨r, f2, rec, imp2⟩
  rw [hs] at hc
  cases r <;> first | (simp [rsgte.isReadCode, rsgte.isDecodeCode] at hc; done) | skip
  all_goals simp only []
  · split
    · right; rfl
    · cases outfp with
      | none => left; rfl
      | some o =>
        simp only []
        rcases tlvwrite_code o rec with hw | hw
        · rcases hw2 : rsksi_tlvwrite o rec with ⟨r2, o2⟩
          rw [hw2] at hw
          simp only [] at hw
          subst hw
          left; rfl
        · rcases hw2 : rsksi_tlvwrite o rec with ⟨r2, o2⟩
          rw [hw2] at hw
          simp only [] at hw
          subst hw
          left; rfl
  all_goals (left; rfl)

/-- The return codes of `rsksi_tlvrdRecHash`. -/
theorem tlvrdRecHash_code (flag16 : Nat) (dl : Byte → Nat) (fp : FILE)
    (outfp : Option OFILE) (imp : Option tlvobj) (rec0 : tlvrecord_t)
    (stack : Nat → tlvrecord_t) :
    (rsksi_tlvrdRecHash flag16 dl fp outfp imp rec0 stack).1.isReadCode = true ∨
    (rsksi_tlvrdRecHash flag16 dl fp outfp imp rec0 stack).1 = rsgte.miss_rec_hash := by
  unfold rsksi_tlvrdRecHash
  have hc := tlvrd_range flag16 dl fp rec0 imp stack
  rcases hs : rsksi_tlvrd flag16 dl fp rec0 imp stack with ⟨r, f2, rec, imp2⟩
  rw [hs] at hc
  cases r <;> first | (simp [rsgte.isReadCode, rsgte.isDecodeCode] at hc; done) | skip
  all_goals simp only []
  · split
    · right; rfl
    · cases outfp with
      | none => left; rfl
      | some o =>
        simp only []
        rcases tlvwrite_code o rec with hw | hw
        · rcases hw2 : rsksi_tlvwrite o rec with ⟨r2, o2⟩
          rw [hw2] at hw
          simp only [] at hw
          subst hw
          left; rfl
        · rcases hw2 : rsksi_tlvwrite o rec with ⟨r2, o2⟩
          rw [hw2] at hw
          simp only [] at hw
          subst hw
          left; rfl
  all_goals (left; rfl)

/-- What a successful tree-hash check has done: one record of type 0x0903 was
read, nothing was reported, and nothing was written when there is no output
stream. -/
theorem vrfy_chkTreeHash_success {api : ksiapi} {flag16 debug : Nat} {ksi : ksifile}
    {sigfp f : FILE} {nsigfp o : Option OFILE} {hash : Option KSI_DataHash}
    {ectx e : ksierrctx_t} {rec0 : tlvrecord_t} {stack : Nat → tlvrecord_t}
    (h : rsksi_vrfy_chkTreeHash api flag16 debug ksi sigfp nsigfp hash ectx rec0 stack
      = (rsgte.success, f, o, e)) :
    readsRecords flag16 [0x0903] sigfp f ∧ e.fp = ectx.fp ∧ (nsigfp = none → o = none) := by
  unfold rsksi_vrfy_chkTreeHash at h
  dsimp only at h
  rcases hs : rsksi_tlvrdTreeHash flag16 api.hashOutputLengthOctetsKSI sigfp nsigfp none rec0
    stack with ⟨r, f1, o1, obj⟩
  rw [hs] at h
  cases r <;> first | (simp at h; done) | skip
  obtain ⟨⟨rec, hrd, ht⟩, ho⟩ := tlvrdTreeHash_success hs
  simp only [] at h
  split at h
  · simp at h
  · split at h
    · simp at h
    · split at h
      · simp only [Prod.mk.injEq, true_and] at h
        obtain ⟨h1, h2, h3⟩ := h
        subst h1 h2 h3
        exact ⟨⟨rec0, rec, f1, hrd, ht, rfl⟩, rfl, ho⟩
      · simp only [Prod.mk.injEq, true_and] at h
        obtain ⟨h1, h2, h3⟩ := h
        subst h1 h2 h3
        exact ⟨⟨rec0, rec, f1, hrd, ht, rfl⟩, rfl, ho⟩

/-- When the tree-hash check returns `RSGTE_INVLD_TREE_HASH`, the imprint read
differs from the computed hash, `reportError` was called with both in the
error context, and both fields are `NULL` on return. -/
theorem vrfy_chkTreeHash_invld {api : ksiapi} {flag16 debug : Nat} {ksi : ksifile}
    {sigfp f : FILE} {nsigfp o : Option OFILE} {hash : Option KSI_DataHash}
    {ectx e : ksierrctx_t} {rec0 : tlvrecord_t} {stack : Nat → tlvrecord_t}
    (h : rsksi_vrfy_chkTreeHash api flag16 debug ksi sigfp nsigfp hash ectx rec0 stack
      = (rsgte.invld_tree_hash, f, o, e)) :
    ∃ imp : imprint_t,
      memcmp (imp.data.getD []) (KSI_DataHash_extract hash)
        (api.hashOutputLengthOctetsKSI imp.hashID) ≠ 0 ∧
      e = { reportError rsgte.invld_tree_hash
              { ectx with computedHash := hash, fileHash := some imp } with
            computedHash := none, fileHash := none } := by
  unfold rsksi_vrfy_chkTreeHash at h
  dsimp only at h
  have hc := tlvrdTreeHash_code flag16 api.hashOutputLengthOctetsKSI sigfp nsigfp none rec0 stack
  rcases hs : rsksi_tlvrdTreeHash flag16 api.hashOutputLengthOctetsKSI sigfp nsigfp none rec0
    stack with ⟨r, f1, o1, obj⟩
  rw [hs] at h hc
  cases r <;> first | (simp at h; done) | skip
  · simp only [] at h
    split at h
    · simp at h
    · split at h
      · rename_i hm
        simp only [Prod.mk.injEq, true_and] at h
        exact ⟨_, hm, h.2.2.symm⟩
      · split at h <;> simp at h
  · simp [rsgte.isReadCode, rsgte.isDecodeCode] at hc

/-- What a successful record-hash check has done. -/
theorem vrfy_chkRecHash_success {api : ksiapi} {flag16 : Nat} {ksi : ksifile}
    {sigfp f : FILE} {nsigfp o : Option OFILE} {hash : Option KSI_DataHash}
    {ectx e : ksierrctx_t} {rec0 : tlvrecord_t} {stack : Nat → tlvrecord_t}
    (h : rsksi_vrfy_chkRecHash api flag16 ksi sigfp nsigfp hash ectx rec0 stack
      = (rsgte.success, f, o, e)) :
    readsRecords flag16 [0x0902] sigfp f ∧ e = ectx ∧ (nsigfp = none → o = none) := by
  unfold rsksi_vrfy_chkRecHash at h
  rcases hs : rsksi_tlvrdRecHash flag16 api.hashOutputLengthOctetsKSI sigfp nsigfp none rec0
    stack with ⟨r, f1, o1, obj⟩
  rw [hs] at h
  simp only [] at h
  split at h
  · rename_i hr
    simp only [Prod.mk.injEq] at h
    exact absurd h.1 hr
  · simp only [Prod.mk.injEq] at h
    obtain ⟨h0, h1, h2, h3⟩ := h
    subst h0 h1 h2 h3
    obtain ⟨⟨rec, hrd, ht⟩, ho⟩ := tlvrdRecHash_success hs
    exact ⟨⟨rec0, rec, f1, hrd, ht, rfl⟩, rfl, ho⟩

/-- The return codes of the record-hash check. -/
theorem vrfy_chkRecHash_code (api : ksiapi) (flag16 : Nat) (ksi : ksifile)
    (sigfp : FILE) (nsigfp : Option OFILE) (hash : Option KSI_DataHash)
    (ectx : ksierrctx_t) (rec0 : tlvrecord_t) (stack : Nat → tlvrecord_t) :
    (rsksi_vrfy_chkRecHash api flag16 ksi sigfp nsigfp hash ectx rec0 stack).1.isReadCode = true ∨
    (rsksi_vrfy_chkRecHash api flag16 ksi sigfp nsigfp hash ectx rec0 stack).1
      = rsgte.miss_rec_hash := by
  unfold rsksi_vrfy_chkRecHash
  have hc := tlvrdRecHash_code flag16 api.hashOutputLengthOctetsKSI sigfp nsigfp none rec0 stack
  rcases hs : rsksi_tlvrdRecHash flag16 api.hashOutputLengthOctetsKSI sigfp nsigfp none rec0
    stack with ⟨r, f1, o1, obj⟩
  rw [hs] at hc
  simp only [] at hc ⊢
  split <;> exact hc

theorem getD_set_eq {α : Type} (l : List α) (i j : Nat) (a d : α) :
    (l.set i a).getD j d = if i = j ∧ i < l.length then a else l.getD j d := by
  rw [List.getD_eq_getElem?_getD, List.getD_eq_getElem?_getD, List.getElem?_set]
  by_cases h : i = j
  · subst h
    by_cases h2 : i < l.length
    · simp [h2]
    · simp [h2, List.getElem?_eq_none (Nat.le_of_not_lt h2)]
  · simp [h]

theorem getD_set_zero (l : List Nat) (i j : Nat) :
    (l.set i 0).getD j 0 = if i = j then 0 else l.getD j 0 := by
  rw [getD_set_eq]
  by_cases h : i = j
  · subst h
    by_cases h2 : i < l.length
    · simp [h2]
    · simp only [h2, and_false, if_false, if_true]
      rw [List.getD_eq_getElem?_getD, List.getElem?_eq_none (Nat.le_of_not_lt h2)]
      rfl
  · simp [h]

theorem carriesFrom_set (valid : List Nat) (i v : Nat) : ∀ (fuel j : Nat), i < j →
    carriesFrom (valid.set i v) j fuel = carriesFrom valid j fuel := by
  intro fuel
  induction fuel with
  | zero => intro j _; rfl
  | succ fuel ih =>
    intro j hj
    have hg : (valid.set i v).getD j 0 = valid.getD j 0 := by
      rw [getD_set_eq, if_neg (fun hc => absurd hc.1 (by omega))]
    show (if (valid.set i v).getD j 0 = 0 then 0
        else carriesFrom (valid.set i v) (j + 1) fuel + 1)
      = (if valid.getD j 0 = 0 then 0 else carriesFrom valid (j + 1) fuel + 1)
    rw [ih (j + 1) (by omega), hg]

theorem carriesFrom_le (valid : List Nat) : ∀ (fuel j : Nat), carriesFrom valid j fuel ≤ fuel := by
  intro fuel
  induction fuel with
  | zero => intro j; exact Nat.le_refl _
  | succ fuel ih =>
    intro j
    unfold carriesFrom
    split
    · omega
    · have := ih (j + 1); omega

/-- The loop of `rsksi_vrfy_nextRec` when it ends without an error: the fields
of the verifier state it leaves alone, the valid flags, the carry, and the
records read. -/
theorem nextRecLoop_success (api : ksiapi) (flag16 debug shc : Nat)
    (stack : Nat → Nat → tlvrecord_t) :
    ∀ (fuel j : Nat) (tv : KSI_DataHash) (st : vrfyState) (t1 : Option KSI_DataHash)
      (st1 : vrfyState),
      nextRecLoop api flag16 debug shc stack fuel j (some tv) st = (rsgte.success, t1, st1) →
      j + fuel ≤ st.ksi.roots_valid.length →
      (st1.ksi.nRoots = st.ksi.nRoots ∧ st1.ksi.nRecords = st.ksi.nRecords ∧
        st1.ksi.bKeepTreeHashes = st.ksi.bKeepTreeHashes ∧
        st1.ksi.roots_valid.length = st.ksi.roots_valid.length ∧
        st1.ksi.roots_hash.length = st.ksi.roots_hash.length) ∧
      (t1 = none ↔ carriesFrom st.ksi.roots_valid j fuel < fuel) ∧
      (∀ i, st1.ksi.roots_valid.getD i 0 =
        if j ≤ i ∧ i < j + carriesFrom st.ksi.roots_valid j fuel then 0
        else if i = j + carriesFrom st.ksi.roots_valid j fuel ∧
            carriesFrom st.ksi.roots_valid j fuel < fuel then 1
        else st.ksi.roots_valid.getD i 0) ∧
      (st.ksi.bKeepTreeHashes ≠ 0 →
        readsRecords flag16 (List.replicate (carriesFrom st.ksi.roots_valid j fuel) 0x0903)
          st.sigfp st1.sigfp) ∧
      (st.ksi.bKeepTreeHashes = 0 → st1.sigfp = st.sigfp) ∧
      (st.nsigfp = none → st1.nsigfp = none) ∧ st1.ectx.fp = st.ectx.fp := by
  intro fuel
  induction fuel with
  | zero =>
    intro j tv st t1 st1 h _
    simp only [nextRecLoop, Prod.mk.injEq, true_and] at h
    obtain ⟨h1, h2⟩ := h
    subst h1 h2
    refine ⟨⟨rfl, rfl, rfl, rfl, rfl⟩, by simp [carriesFrom], ?_, fun _ => rfl, fun _ => rfl,
      fun h => h, rfl⟩
    intro i
    rw [if_neg (by simp only [carriesFrom]; omega), if_neg (by simp only [carriesFrom]; omega)]
  | succ fuel ih =>
    intro j tv st t1 st1 h hlen
    unfold nextRecLoop at h
    by_cases hv : st.ksi.roots_valid.getD j 0 = 0
    · rw [if_pos hv] at h
      simp only [Prod.mk.injEq, true_and] at h
      obtain ⟨h1, h2⟩ := h
      subst h1 h2
      have hc : carriesFrom st.ksi.roots_valid j (fuel + 1) = 0 := by
        rw [carriesFrom, if_pos hv]
      rw [hc]
      refine ⟨⟨rfl, rfl, rfl, by simp, by simp⟩, by simp, ?_, fun _ => rfl, fun _ => rfl,
        fun h => h, rfl⟩
      intro i
      simp only [getD_set_eq]
      by_cases hi : j = i
      · subst hi
        have : j < st.ksi.roots_valid.length := by omega
        simp [this]
      · rw [if_neg (fun hc => hi hc.1), if_neg (by omega), if_neg (by omega)]
    · rw [if_neg hv, if_pos (by simp)] at h
      have hk : ∀ k : ksifile,
          k = (if shc = 1 then
            { st.ksi with
              x_prevright :=
                api.rsksiImprintFromKSI_DataHash st.ksi (st.ksi.roots_hash.getD j none) }
            else st.ksi) →
          k.roots_valid = st.ksi.roots_valid ∧ k.roots_hash = st.ksi.roots_hash ∧
          k.nRoots = st.ksi.nRoots ∧ k.nRecords = st.ksi.nRecords ∧
          k.bKeepTreeHashes = st.ksi.bKeepTreeHashes := by
        intro k hk
        subst hk
        split <;> exact ⟨rfl, rfl, rfl, rfl, rfl⟩
      generalize (if shc = 1 then
            { st.ksi with
              x_prevright :=
                api.rsksiImprintFromKSI_DataHash st.ksi (st.ksi.roots_hash.getD j none) }
            else st.ksi) = k1 at h hk
      obtain ⟨hkv, hkh, hkn, hkr, hkt⟩ := hk k1 rfl
      dsimp only at h
      have hcar : carriesFrom st.ksi.roots_valid j (fuel + 1)
          = carriesFrom st.ksi.roots_valid (j + 1) fuel + 1 := by
        rw [carriesFrom, if_neg hv]
      have key : ∀ S2 : vrfyState,
          S2.ksi = { k1 with roots_valid := k1.roots_valid.set j 0 } →
          nextRecLoop api flag16 debug shc stack fuel (j + 1)
            (some (api.hash_node_ksi k1 (k1.roots_hash.getD j none) (some tv) (j + 2))) S2
            = (rsgte.success, t1, st1) →
          (st1.ksi.nRoots = st.ksi.nRoots ∧ st1.ksi.nRecords = st.ksi.nRecords ∧
            st1.ksi.bKeepTreeHashes = st.ksi.bKeepTreeHashes ∧
            st1.ksi.roots_valid.length = st.ksi.roots_valid.length ∧
            st1.ksi.roots_hash.length = st.ksi.roots_hash.length) ∧
          (t1 = none ↔ carriesFrom st.ksi.roots_valid j (fuel + 1) < fuel + 1) ∧
          (∀ i, st1.ksi.roots_valid.getD i 0 =
            if j ≤ i ∧ i < j + carriesFrom st.ksi.roots_valid j (fuel + 1) then 0
            else if i = j + carriesFrom st.ksi.roots_valid j (fuel + 1) ∧
                carriesFrom st.ksi.roots_valid j (fuel + 1) < fuel + 1 then 1
            else st.ksi.roots_valid.getD i 0) ∧
          (st.ksi.bKeepTreeHashes ≠ 0 →
            readsRecords flag16
              (List.replicate (carriesFrom st.ksi.roots_valid (j + 1) fuel) 0x0903)
              S2.sigfp st1.sigfp) ∧
          (st.ksi.bKeepTreeHashes = 0 → st1.sigfp = S2.sigfp) ∧
          (S2.nsigfp = none → st1.nsigfp = none) ∧ st1.ectx.fp = S2.ectx.fp := by
        intro S2 hS2 hloop
        have h2v : S2.ksi.roots_valid = st.ksi.roots_valid.set j 0 := by rw [hS2, ← hkv]
        obtain ⟨⟨a1, a2, a3, a4, a5⟩, b, c, d, e, f, g⟩ := ih (j + 1) _ S2 t1 st1 hloop
          (by rw [h2v, List.length_set]; omega)
        rw [h2v, carriesFrom_set st.ksi.roots_valid j 0 fuel (j + 1) (by omega)] at b c d
        rw [hS2] at a1 a2 a3 a5 d e
        simp only [] at a1 a2 a3 a5 d e
        rw [h2v, List.length_set] at a4
        refine ⟨⟨a1.trans hkn, a2.trans hkr, a3.trans hkt, a4, a5.trans (by rw [hkh])⟩, ?_, ?_,
          ?_, ?_, f, g⟩
        · rw [hcar, b]; omega
        · intro i
          rw [c i, getD_set_zero, hcar]
          split_ifs <;> first | rfl | omega
        · intro hb
          exact d (by rw [hkt]; exact hb)
        · intro hb
          exact e (by rw [hkt]; exact hb)
      by_cases hb : k1.bKeepTreeHashes ≠ 0
      · rw [if_pos hb] at h
        split at h
        · rename_i sigfp1 nsigfp1 ectx3 heq
          obtain ⟨hrd, hfp, hno⟩ := vrfy_chkTreeHash_success heq
          obtain ⟨A, B, C, D, _, F, G⟩ := key _ rfl h
          refine ⟨A, B, C, fun hb2 => ?_, fun hb2 => absurd (hkt.trans hb2) hb,
            fun hn => F (hno hn), G.trans hfp⟩
          rw [hcar, List.replicate_succ]
          obtain ⟨r0, rc, fp2, hr, ht, he⟩ := hrd
          have he2 : sigfp1 = fp2 := he
          subst he2
          exact ⟨r0, rc, sigfp1, hr, ht, D hb2⟩
        · rename_i r sigfp1 nsigfp1 ectx3 hne heq
          simp only [Prod.mk.injEq] at h
          exact absurd h.1 hne
      · rw [if_neg hb] at h
        obtain ⟨A, B, C, _, E, F, G⟩ := key _ rfl h
        exact ⟨A, B, C, fun hb2 => absurd (hkt.trans_ne hb2) hb, fun hb2 => E hb2, F, G⟩

/-- When the loop of `rsksi_vrfy_nextRec` ends with `RSGTE_INVLD_TREE_HASH`, a
tree-hash check found the imprint read different from the computed hash. -/
theorem nextRecLoop_invld (api : ksiapi) (flag16 debug shc : Nat)
    (stack : Nat → Nat → tlvrecord_t) :
    ∀ (fuel j : Nat) (t : Option KSI_DataHash) (st : vrfyState) (t1 : Option KSI_DataHash)
      (st1 : vrfyState),
      nextRecLoop api flag16 debug shc stack fuel j t st = (rsgte.invld_tree_hash, t1, st1) →
      ∃ (h : KSI_DataHash) (imp : imprint_t) (e0 : ksierrctx_t), e0.fp = st.ectx.fp ∧
        memcmp (imp.data.getD []) h.digest (api.hashOutputLengthOctetsKSI imp.hashID) ≠ 0 ∧
        st1.ectx = { reportError rsgte.invld_tree_hash
                       { e0 with computedHash := some h, fileHash := some imp } with
                     computedHash := none, fileHash := none } := by
  intro fuel
  induction fuel with
  | zero =>
    intro j t st t1 st1 h
    simp [nextRecLoop] at h
  | succ fuel ih =>
    intro j t st t1 st1 h
    unfold nextRecLoop at h
    by_cases hv : st.ksi.roots_valid.getD j 0 = 0
    · rw [if_pos hv] at h
      simp at h
    · rw [if_neg hv] at h
      by_cases ht : t ≠ none
      · rw [if_pos ht] at h
        generalize (if shc = 1 then
            { st.ksi with
              x_prevright :=
                api.rsksiImprintFromKSI_DataHash st.ksi (st.ksi.roots_hash.getD j none) }
            else st.ksi) = k1 at h
        dsimp only at h
        by_cases hb : k1.bKeepTreeHashes ≠ 0
        · rw [if_pos hb] at h
          split at h
          · rename_i sigfp1 nsigfp1 ectx3 heq
            obtain ⟨_, hfp, _⟩ := vrfy_chkTreeHash_success heq
            obtain ⟨hh, imp, e0, h1, h2, h3⟩ := ih _ _ _ _ _ h
            exact ⟨hh, imp, e0, h1.trans hfp, h2, h3⟩
          · rename_i r sigfp1 nsigfp1 ectx3 hne heq
            simp only [Prod.mk.injEq] at h
            obtain ⟨h1, h2, h3⟩ := h
            subst h1 h3
            obtain ⟨imp, hm, he⟩ := vrfy_chkTreeHash_invld heq
            refine ⟨api.hash_node_ksi k1 (k1.roots_hash.getD j none) t (j + 2), imp,
              { st.ectx with treeLevel := j + 1, righthash := t,
                             lefthash := k1.roots_hash.getD j none }, rfl, hm, ?_⟩
            exact he
        · rw [if_neg hb] at h
          obtain ⟨hh, imp, e0, h1, h2, h3⟩ := ih _ _ _ _ _ h
          exact ⟨hh, imp, e0, h1, h2, h3⟩
      · rw [if_neg ht] at h
        exact ih _ _ _ _ _ h

/-- The fields of an error context after the report of a tree-hash mismatch. -/
theorem mismatch_context (e0 e1 : ksierrctx_t) (h : KSI_DataHash) (imp : imprint_t)
    (he : e1 = { reportError rsgte.invld_tree_hash
                   { e0 with computedHash := some h, fileHash := some imp } with
                 computedHash := none, fileHash := none }) :
    e1.computedHash = none ∧ e1.fileHash = none ∧
    ∀ log, e0.fp = some log →
      ∃ rep : errReport, e1.fp = some (log ++ [rep]) ∧ rep.errcode = rsgte.invld_tree_hash ∧
        rep.computedHash = some h ∧ rep.fileHash = some imp := by
  subst he
  refine ⟨rfl, rfl, ?_⟩
  intro log hl
  unfold reportError
  simp only [hl]
  exact ⟨_, rfl, rfl, rfl, rfl⟩

/-- The loop of `rsksi_vrfy_nextRec` leaves the settings of the verifier state
as they are. -/
theorem nextRecLoop_flags (api : ksiapi) (flag16 debug shc : Nat)
    (stack : Nat → Nat → tlvrecord_t) :
    ∀ (fuel j : Nat) (t : Option KSI_DataHash) (st : vrfyState),
      (nextRecLoop api flag16 debug shc stack fuel j t st).2.2.ksi.bKeepRecordHashes
        = st.ksi.bKeepRecordHashes ∧
      (nextRecLoop api flag16 debug shc stack fuel j t st).2.2.ksi.bKeepTreeHashes
        = st.ksi.bKeepTreeHashes ∧
      (nextRecLoop api flag16 debug shc stack fuel j t st).2.2.ksi.hashAlg
        = st.ksi.hashAlg := by
  intro fuel
  induction fuel with
  | zero => intro j t st; exact ⟨rfl, rfl, rfl⟩
  | succ fuel ih =>
    intro j t st
    unfold nextRecLoop
    by_cases hv : st.ksi.roots_valid.getD j 0 = 0
    · rw [if_pos hv]
      exact ⟨rfl, rfl, rfl⟩
    · rw [if_neg hv]
      by_cases ht : t ≠ none
      · rw [if_pos ht]
        have hk : ∀ k : ksifile,
            k = (if shc = 1 then
              { st.ksi with
                x_prevright :=
                  api.rsksiImprintFromKSI_DataHash st.ksi (st.ksi.roots_hash.getD j none) }
              else st.ksi) →
            k.bKeepRecordHashes = st.ksi.bKeepRecordHashes ∧
            k.bKeepTreeHashes = st.ksi.bKeepTreeHashes ∧ k.hashAlg = st.ksi.hashAlg := by
          intro k hk
          subst hk
          split <;> exact ⟨rfl, rfl, rfl⟩
        generalize (if shc = 1 then
              { st.ksi with
                x_prevright :=
                  api.rsksiImprintFromKSI_DataHash st.ksi (st.ksi.roots_hash.getD j none) }
              else st.ksi) = k1 at hk ⊢
        obtain ⟨h1, h2, h3⟩ := hk k1 rfl
        dsimp only
        by_cases hb : k1.bKeepTreeHashes ≠ 0
        · rw [if_pos hb]
          split
          · rename_i sigfp1 nsigfp1 ectx3 heq
            obtain ⟨a, b, c⟩ := ih (j + 1)
              (some (api.hash_node_ksi k1 (k1.roots_hash.getD j none) t (j + 2)))
              { ksi := { k1 with roots_valid := k1.roots_valid.set j 0 }, sigfp := sigfp1,
                nsigfp := nsigfp1, ectx := ectx3 }
            exact ⟨a.trans h1, b.trans h2, c.trans h3⟩
          · exact ⟨h1, h2, h3⟩
        · rw [if_neg hb]
          obtain ⟨a, b, c⟩ := ih (j + 1)
            (some (api.hash_node_ksi k1 (k1.roots_hash.getD j none) t (j + 2)))
            { st with ksi := { k1 with roots_valid := k1.roots_valid.set j 0 },
                      ectx := { st.ectx with treeLevel := j + 1, righthash := t } }
          exact ⟨a.trans h1, b.trans h2, c.trans h3⟩
      · rw [if_neg ht]
        exact ih (j + 1) t st

/-- The ways in which `rsksi_vrfy_nextRec` returns: with the code of the failed
record-hash check, of the failed tree-hash check of the leaf, of the loop, or
with success after the loop. -/
theorem vrfy_nextRec_cases {api : ksiapi} {flag16 debug M : Nat} {st st1 : vrfyState}
    {record : List Byte} {shc : Nat} {stack : Nat → Nat → tlvrecord_t} {r : rsgte}
    (h : rsksi_vrfy_nextRec api flag16 debug M st record shc stack = some (r, st1)) :
    ∃ (r1 : rsgte) (f1 : FILE) (o1 : Option OFILE) (e1 : ksierrctx_t),
      (if st.ksi.bKeepRecordHashes ≠ 0 then
          rsksi_vrfy_chkRecHash api flag16 st.ksi st.sigfp st.nsigfp
            (some (api.hash_r_ksi st.ksi record)) st.ectx (stack 0 0) (fun k => stack 0 (k + 1))
        else (rsgte.success, st.sigfp, st.nsigfp, st.ectx)) = (r1, f1, o1, e1) ∧
      ((r1 ≠ rsgte.success ∧ r = r1 ∧
          st1 = { st with sigfp := f1, nsigfp := o1, ectx := e1 }) ∨
       (r1 = rsgte.success ∧
        ∃ (r2 : rsgte) (f2 : FILE) (o2 : Option OFILE) (e2 : ksierrctx_t),
          (if st.ksi.bKeepTreeHashes ≠ 0 then
              rsksi_vrfy_chkTreeHash api flag16 debug st.ksi f1 o1
                (some (leafHash api st.ksi record))
                { e1 with treeLevel := 0, lefthash := some (api.hash_m_ksi st.ksi),
                          righthash := some (api.hash_r_ksi st.ksi record) }
                (stack 1 0) (fun k => stack 1 (k + 1))
            else (rsgte.success, f1, o1, e1)) = (r2, f2, o2, e2) ∧
          ((r2 ≠ rsgte.success ∧ r = r2 ∧
              st1 = { st with sigfp := f2, nsigfp := o2, ectx := e2 }) ∨
           (r2 = rsgte.success ∧
            ∃ (k2 : ksifile) (r3 : rsgte) (t : Option KSI_DataHash) (st3 : vrfyState),
              (k2.roots_valid = st.ksi.roots_valid ∧ k2.roots_hash = st.ksi.roots_hash ∧
                k2.nRoots = st.ksi.nRoots ∧ k2.nRecords = st.ksi.nRecords ∧
                k2.bKeepTreeHashes = st.ksi.bKeepTreeHashes ∧
                k2.bKeepRecordHashes = st.ksi.bKeepRecordHashes ∧
                k2.hashAlg = st.ksi.hashAlg) ∧
              nextRecLoop api flag16 debug shc stack st.ksi.nRoots 0
                (some (leafHash api st.ksi record))
                { ksi := k2, sigfp := f2, nsigfp := o2, ectx := e2 } = (r3, t, st3) ∧
              ((r3 ≠ rsgte.success ∧ r = r3 ∧ st1 = st3) ∨
               (r3 = rsgte.success ∧ r = rsgte.success ∧
                ((t = none ∧
                    st1 = { st3 with
                            ksi := { st3.ksi with
                                     nRecords := (st3.ksi.nRecords + 1) % 2 ^ 64 } }) ∨
                 (t ≠ none ∧ st3.ksi.nRoots + 1 < M ∧
                    st1 = { st3 with
                            ksi := { st3.ksi with
                                     roots_hash := st3.ksi.roots_hash.set st3.ksi.nRoots t,
                                     roots_valid := st3.ksi.roots_valid.set st3.ksi.nRoots 1,
                                     nRoots := st3.ksi.nRoots + 1,
                                     nRecords := (st3.ksi.nRecords + 1) % 2 ^ 64 } })))))))) := by
  unfold rsksi_vrfy_nextRec at h
  dsimp only at h
  rcases hR1 : (if st.ksi.bKeepRecordHashes ≠ 0 then
          rsksi_vrfy_chkRecHash api flag16 st.ksi st.sigfp st.nsigfp
            (some (api.hash_r_ksi st.ksi record)) st.ectx (stack 0 0) (fun k => stack 0 (k + 1))
        else (rsgte.success, st.sigfp, st.nsigfp, st.ectx)) with ⟨r1, f1, o1, e1⟩
  rw [hR1] at h
  refine ⟨r1, f1, o1, e1, rfl, ?_⟩
  by_cases hr1 : r1 = rsgte.success
  swap
  · left
    split at h
    · rename_i heq
      simp only [Prod.mk.injEq] at heq
      exact absurd heq.1 hr1
    · rename_i heq
      simp only [Prod.mk.injEq] at heq
      obtain ⟨a, b, c, d⟩ := heq
      subst a b c d
      simp only [Option.some.injEq, Prod.mk.injEq] at h
      exact ⟨hr1, h.1.symm, h.2.symm⟩
  right
  subst hr1
  refine ⟨rfl, ?_⟩
  simp only [] at h
  unfold leafHash
  rcases hR2 : (if st.ksi.bKeepTreeHashes ≠ 0 then
              rsksi_vrfy_chkTreeHash api flag16 debug st.ksi f1 o1
                (some (api.hash_node_ksi st.ksi (some (api.hash_m_ksi st.ksi))
                  (some (api.hash_r_ksi st.ksi record)) 1))
                { e1 with treeLevel := 0, lefthash := some (api.hash_m_ksi st.ksi),
                          righthash := some (api.hash_r_ksi st.ksi record) }
                (stack 1 0) (fun k => stack 1 (k + 1))
            else (rsgte.success, f1, o1, e1)) with ⟨r2, f2, o2, e2⟩
  rw [hR2] at h
  refine ⟨r2, f2, o2, e2, rfl, ?_⟩
  by_cases hr2 : r2 = rsgte.success
  swap
  · left
    split at h
    · rename_i heq
      simp only [Prod.mk.injEq] at heq
      exact absurd heq.1 hr2
    · rename_i heq
      simp only [Prod.mk.injEq] at heq
      obtain ⟨a, b, c, d⟩ := heq
      subst a b c d
      simp only [Option.some.injEq, Prod.mk.injEq] at h
      exact ⟨hr2, h.1.symm, h.2.symm⟩
  right
  subst hr2
  refine ⟨rfl, ?_⟩
  simp only [] at h
  have hk : ∀ k : ksifile,
      k = (if shc = 1 then
        { st.ksi with
          x_prevleft := api.rsksiImprintFromKSI_DataHash st.ksi (some (api.hash_m_ksi st.ksi)) }
        else st.ksi) →
      k.roots_valid = st.ksi.roots_valid ∧ k.roots_hash = st.ksi.roots_hash ∧
      k.nRoots = st.ksi.nRoots ∧ k.nRecords = st.ksi.nRecords ∧
      k.bKeepTreeHashes = st.ksi.bKeepTreeHashes ∧
      k.bKeepRecordHashes = st.ksi.bKeepRecordHashes ∧ k.hashAlg = st.ksi.hashAlg := by
    intro k hk
    subst hk
    split <;> exact ⟨rfl, rfl, rfl, rfl, rfl, rfl, rfl⟩
  generalize (if shc = 1 then
        { st.ksi with
          x_prevleft := api.rsksiImprintFromKSI_DataHash st.ksi (some (api.hash_m_ksi st.ksi)) }
        else st.ksi) = k1 at h hk
  obtain ⟨hkv, hkh, hkn, hkr, hkt, hkb, hka⟩ := hk k1 rfl
  rcases hL : nextRecLoop api flag16 debug shc stack k1.nRoots 0
      (some (api.hash_node_ksi st.ksi (some (api.hash_m_ksi st.ksi))
        (some (api.hash_r_ksi st.ksi record)) 1))
      { ksi := { k1 with
                 x_prev := api.rsksiImprintFromKSI_DataHash k1
                   (some (api.hash_node_ksi st.ksi (some (api.hash_m_ksi st.ksi))
                     (some (api.hash_r_ksi st.ksi record)) 1)) },
        sigfp := f2, nsigfp := o2, ectx := e2 } with ⟨r3, t, st3⟩
  rw [hL] at h
  rw [hkn] at hL
  refine ⟨_, r3, t, st3, ?_, hL, ?_⟩
  · exact ⟨hkv, hkh, rfl, hkr, hkt, hkb, hka⟩
  by_cases hr3 : r3 = rsgte.success
  swap
  · left
    split at h
    · rename_i heq
      simp only [Prod.mk.injEq] at heq
      exact absurd heq.1 hr3
    · rename_i heq
      simp only [Prod.mk.injEq] at heq
      obtain ⟨a, b, c⟩ := heq
      subst a b c
      simp only [Option.some.injEq, Prod.mk.injEq] at h
      exact ⟨hr3, h.1.symm, h.2.symm⟩
  right
  subst hr3
  refine ⟨rfl, ?_⟩
  simp only [] at h
  by_cases ht : t ≠ none
  · rw [if_pos ht] at h
    split at h
    · rename_i hlt
      simp only [Option.some.injEq, Prod.mk.injEq] at h
      exact ⟨h.1.symm, Or.inr ⟨ht, hlt, h.2.symm⟩⟩
    · simp at h
  · rw [if_neg ht] at h
    simp only [Option.some.injEq, Prod.mk.injEq] at h
    exact ⟨h.1.symm, Or.inl ⟨not_not.mp ht, h.2.symm⟩⟩

/-- A call of `rsksi_vrfy_nextRec` leaves the settings of the verifier state as
they are. -/
theorem vrfy_nextRec_flags {api : ksiapi} {flag16 debug M : Nat} {st st1 : vrfyState}
    {record : List Byte} {shc : Nat} {stack : Nat → Nat → tlvrecord_t} {r : rsgte}
    (h : rsksi_vrfy_nextRec api flag16 debug M st record shc stack = some (r, st1)) :
    st1.ksi.bKeepRecordHashes = st.ksi.bKeepRecordHashes ∧
    st1.ksi.bKeepTreeHashes = st.ksi.bKeepTreeHashes ∧ st1.ksi.hashAlg = st.ksi.hashAlg := by
  obtain ⟨r1, f1, o1, e1, hR1, hcase⟩ := vrfy_nextRec_cases h
  rcases hcase with ⟨_, _, hst⟩ | ⟨hr1, r2, f2, o2, e2, hR2, hcase2⟩
  · subst hst; exact ⟨rfl, rfl, rfl⟩
  rcases hcase2 with ⟨_, _, hst⟩ |
    ⟨hr2, k2, r3, t, st3, ⟨_, _, _, _, hkt, hkb, hka⟩, hL, hcase3⟩
  · subst hst; exact ⟨rfl, rfl, rfl⟩
  have hf := nextRecLoop_flags api flag16 debug shc stack st.ksi.nRoots 0
    (some (leafHash api st.ksi record)) { ksi := k2, sigfp := f2, nsigfp := o2, ectx := e2 }
  rw [hL] at hf
  obtain ⟨a, b, c⟩ := hf
  simp only [] at a b c
  rcases hcase3 with ⟨_, _, hst⟩ | ⟨_, _, hfin⟩
  · subst hst; exact ⟨a.trans hkb, b.trans hkt, c.trans hka⟩
  · rcases hfin with ⟨_, hst⟩ | ⟨_, _, hst⟩ <;> subst hst <;>
      exact ⟨a.trans hkb, b.trans hkt, c.trans hka⟩

theorem carriesFrom_spec (valid : List Nat) : ∀ (fuel j : Nat),
    (∀ i, j ≤ i → i < j + carriesFrom valid j fuel → valid.getD i 0 ≠ 0) ∧
    (carriesFrom valid j fuel < fuel → valid.getD (j + carriesFrom valid j fuel) 0 = 0) := by
  intro fuel
  induction fuel with
  | zero =>
    intro j
    refine ⟨fun i h1 h2 => ?_, fun h => absurd h (by simp [carriesFrom])⟩
    simp only [carriesFrom] at h2
    omega
  | succ fuel ih =>
    intro j
    by_cases hv : valid.getD j 0 = 0
    · have hc : carriesFrom valid j (fuel + 1) = 0 := by rw [carriesFrom, if_pos hv]
      rw [hc]
      exact ⟨fun i h1 h2 => by omega, fun _ => hv⟩
    · have hc : carriesFrom valid j (fuel + 1) = carriesFrom valid (j + 1) fuel + 1 := by
        rw [carriesFrom, if_neg hv]
      rw [hc]
      obtain ⟨a, b⟩ := ih (j + 1)
      refine ⟨fun i h1 h2 => ?_, fun h => ?_⟩
      · by_cases hi : i = j
        · subst hi; exact hv
        · exact a i (by omega) (by omega)
      · have := b (by omega)
        rw [show j + (carriesFrom valid (j + 1) fuel + 1)
          = j + 1 + carriesFrom valid (j + 1) fuel by omega]
        exact this

theorem coversUp_congr (H : KSI_DataHash → KSI_DataHash → Nat → KSI_DataHash)
    (v1 v2 : List Nat) (h1 h2 : List (Option KSI_DataHash)) :
    ∀ (fuel j : Nat) (l : List KSI_DataHash),
      (∀ i, j ≤ i → i < j + fuel → v1.getD i 0 = v2.getD i 0) →
      (∀ i, j ≤ i → i < j + fuel → h1.getD i none = h2.getD i none) →
      coversUp H v1 h1 fuel j l = coversUp H v2 h2 fuel j l := by
  intro fuel
  induction fuel with
  | zero => intro j l _ _; rfl
  | succ fuel ih =>
    intro j l hv hh
    unfold coversUp
    rw [hv j (Nat.le_refl j) (by omega), hh j (Nat.le_refl j) (by omega),
      ih (j + 1) _ (fun i a b => hv i (by omega) (by omega))
        (fun i a b => hh i (by omega) (by omega)),
      ih (j + 1) l (fun i a b => hv i (by omega) (by omega))
        (fun i a b => hh i (by omega) (by omega))]

theorem coversUp_cleared (H : KSI_DataHash → KSI_DataHash → Nat → KSI_DataHash)
    (valid : List Nat) (hash : List (Option KSI_DataHash)) (g : Nat) :
    ∀ (f j : Nat) (l : List KSI_DataHash),
      (∀ i, j ≤ i → i < j + f → valid.getD i 0 = 0) →
      coversUp H valid hash (f + g) j l = coversUp H valid hash g (j + f) l := by
  intro f
  induction f with
  | zero => intro j l _; rw [Nat.zero_add, Nat.add_zero]
  | succ f ih =>
    intro j l hz
    rw [show f + 1 + g = (f + g) + 1 by omega, coversUp,
      if_neg (not_not.mpr (hz j (Nat.le_refl j) (by omega))),
      ih (j + 1) l (fun i a b => hz i (by omega) (by omega)),
      show j + 1 + f = j + (f + 1) by omega]

theorem treeHash_succ (H : KSI_DataHash → KSI_DataHash → Nat → KSI_DataHash) (j : Nat)
    (A X : List KSI_DataHash) (hA : A.length = 2 ^ j) :
    treeHash H (j + 1) (A ++ X) = H (treeHash H j A) (treeHash H j X) (j + 2) := by
  rw [treeHash, ← hA, List.take_left, List.drop_left]

/-- The loop of `rsksi_vrfy_nextRec` and the contents of the forest: when the
slots from `j` on cover the leaves `L` and the carry is the tree over the
`2 ^ j` leaves `X` that follow, then after the loop either the carry has been
stored and the slots cover `L ++ X`, or all slots were combined into the carry,
which is the perfect tree over `L ++ X`. -/
theorem nextRecLoop_covers (api : ksiapi) (flag16 debug shc : Nat)
    (stack : Nat → Nat → tlvrecord_t)
    (H : KSI_DataHash → KSI_DataHash → Nat → KSI_DataHash)
    (hH : ∀ k l r lv, api.hash_node_ksi k (some l) (some r) lv = H l r lv) :
    ∀ (fuel j : Nat) (tv : KSI_DataHash) (st : vrfyState) (t1 : Option KSI_DataHash)
      (st1 : vrfyState) (L X : List KSI_DataHash),
      nextRecLoop api flag16 debug shc stack fuel j (some tv) st = (rsgte.success, t1, st1) →
      j + fuel ≤ st.ksi.roots_valid.length → j + fuel ≤ st.ksi.roots_hash.length →
      X.length = 2 ^ j → tv = treeHash H j X →
      coversUp H st.ksi.roots_valid st.ksi.roots_hash fuel j L = true →
      (t1 = none →
        coversUp H st1.ksi.roots_valid st1.ksi.roots_hash fuel j (L ++ X) = true) ∧
      (∀ T, t1 = some T →
        T = treeHash H (j + fuel) (L ++ X) ∧ (L ++ X).length = 2 ^ (j + fuel)) := by
  intro fuel
  induction fuel with
  | zero =>
    intro j tv st t1 st1 L X h _ _ hX htv hc
    simp only [nextRecLoop, Prod.mk.injEq, true_and] at h
    obtain ⟨h1, h2⟩ := h
    subst h1 h2
    simp only [coversUp, decide_eq_true_eq] at hc
    subst hc
    refine ⟨fun hn => by simp at hn, fun T hT => ?_⟩
    simp only [Option.some.injEq] at hT
    subst hT
    exact ⟨htv, by simpa using hX⟩
  | succ fuel ih =>
    intro j tv st t1 st1 L X h hlv hlh hX htv hc
    have hall := nextRecLoop_success api flag16 debug shc stack (fuel + 1) j tv st t1 st1 h hlv
    unfold nextRecLoop at h
    by_cases hv : st.ksi.roots_valid.getD j 0 = 0
    · rw [if_pos hv] at h
      simp only [Prod.mk.injEq, true_and] at h
      obtain ⟨h1, h2⟩ := h
      subst h1 h2
      refine ⟨fun _ => ?_, fun T hT => by simp at hT⟩
      rw [coversUp, if_neg (not_not.mpr hv)] at hc
      have hj1 : (st.ksi.roots_valid.set j 1).getD j 0 = 1 := by
        rw [getD_set_eq, if_pos ⟨rfl, by omega⟩]
      have hj2 : (st.ksi.roots_hash.set j (some tv)).getD j none = some tv := by
        rw [getD_set_eq, if_pos ⟨rfl, by omega⟩]
      show coversUp H (st.ksi.roots_valid.set j 1) (st.ksi.roots_hash.set j (some tv)) (fuel + 1)
        j (L ++ X) = true
      rw [coversUp, hj1, if_pos (by decide), hj2]
      have hlen : (L ++ X).length - 2 ^ j = L.length := by
        rw [List.length_append, hX]; omega
      rw [hlen, List.drop_left, List.take_left, ← htv]
      simp only [List.length_append, hX, Nat.le_add_left, decide_True, Bool.true_and,
        Bool.and_eq_true, decide_eq_true_eq, true_and]
      rw [← hc]
      apply coversUp_congr
      · intro i a b
        rw [getD_set_eq, if_neg (fun hh => by omega)]
      · intro i a b
        rw [getD_set_eq, if_neg (fun hh => by omega)]
    · rw [if_neg hv, if_pos (by simp)] at h
      rw [coversUp, if_pos hv] at hc
      simp only [Bool.and_eq_true, decide_eq_true_eq] at hc
      obtain ⟨⟨hc1, hc2⟩, hc3⟩ := hc
      have hk : ∀ k : ksifile,
          k = (if shc = 1 then
            { st.ksi with
              x_prevright :=
                api.rsksiImprintFromKSI_DataHash st.ksi (st.ksi.roots_hash.getD j none) }
            else st.ksi) →
          k.roots_valid = st.ksi.roots_valid ∧ k.roots_hash = st.ksi.roots_hash := by
        intro k hk
        subst hk
        split <;> exact ⟨rfl, rfl⟩
      generalize (if shc = 1 then
            { st.ksi with
              x_prevright :=
                api.rsksiImprintFromKSI_DataHash st.ksi (st.ksi.roots_hash.getD j none) }
            else st.ksi) = k1 at h hk
      obtain ⟨hkv, hkh⟩ := hk k1 rfl
      dsimp only at h
      have hLj : (L.drop (L.length - 2 ^ j)).length = 2 ^ j := by
        rw [List.length_drop]; omega
      have hT1 : api.hash_node_ksi k1 (k1.roots_hash.getD j none) (some tv) (j + 2)
          = treeHash H (j + 1) (L.drop (L.length - 2 ^ j) ++ X) := by
        rw [hkh, hc2, hH, treeHash_succ H j _ X hLj, htv]
      have hsplit : L.take (L.length - 2 ^ j) ++ (L.drop (L.length - 2 ^ j) ++ X) = L ++ X := by
        rw [← List.append_assoc, List.take_append_drop]
      have key : ∀ S2 : vrfyState,
          S2.ksi = { k1 with roots_valid := k1.roots_valid.set j 0 } →
          nextRecLoop api flag16 debug shc stack fuel (j + 1)
            (some (api.hash_node_ksi k1 (k1.roots_hash.getD j none) (some tv) (j + 2))) S2
            = (rsgte.success, t1, st1) →
          (t1 = none →
            coversUp H st1.ksi.roots_valid st1.ksi.roots_hash (fuel + 1) j (L ++ X) = true) ∧
          (∀ T, t1 = some T →
            T = treeHash H (j + (fuel + 1)) (L ++ X) ∧
            (L ++ X).length = 2 ^ (j + (fuel + 1))) := by
        intro S2 hS2 hloop
        have h2v : S2.ksi.roots_valid = st.ksi.roots_valid.set j 0 := by rw [hS2, ← hkv]
        have h2h : S2.ksi.roots_hash = st.ksi.roots_hash := by rw [hS2, ← hkh]
        obtain ⟨a, b⟩ := ih (j + 1) _ S2 t1 st1 (L.take (L.length - 2 ^ j))
          (L.drop (L.length - 2 ^ j) ++ X) hloop
          (by rw [h2v, List.length_set]; omega) (by rw [h2h]; omega)
          (by rw [List.length_append, hLj, hX, Nat.pow_succ]; omega) hT1
          (by
            rw [h2v, h2h, ← hc3]
            apply coversUp_congr
            · intro i a b
              rw [getD_set_eq, if_neg (fun hh => by omega)]
            · intro i a b
              rfl)
        rw [hsplit] at a b
        refine ⟨fun hn => ?_, fun T hT => ?_⟩
        · have hz : st1.ksi.roots_valid.getD j 0 = 0 := by
            rw [hall.2.2.1 j, if_pos ⟨Nat.le_refl j, by
              rw [carriesFrom, if_neg hv]; omega⟩]
          rw [coversUp, if_neg (not_not.mpr hz)]
          exact a hn
        · have := b T hT
          rw [show j + 1 + fuel = j + (fuel + 1) by omega] at this
          exact this
      by_cases hb : k1.bKeepTreeHashes ≠ 0
      · rw [if_pos hb] at h
        split at h
        · exact key _ rfl h
        · rename_i r sigfp1 nsigfp1 ectx3 hne heq
          simp only [Prod.mk.injEq] at h
          exact absurd h.1 hne
      · rw [if_neg hb] at h
        exact key _ rfl h

theorem readsRecords_append (flag16 : Nat) : ∀ (a b : List Nat) (fp fp1 fp2 : FILE),
    readsRecords flag16 a fp fp1 → readsRecords flag16 b fp1 fp2 →
    readsRecords flag16 (a ++ b) fp fp2 := by
  intro a
  induction a with
  | nil =>
    intro b fp fp1 fp2 h1 h2
    have : fp1 = fp := h1
    subst this
    exact h2
  | cons t ts ih =>
    intro b fp fp1 fp2 h1 h2
    obtain ⟨r0, rc, f, hr, ht, hrest⟩ := h1
    exact ⟨r0, rc, f, hr, ht, ih b f fp1 fp2 hrest h2⟩

/-- The record-hash step of `rsksi_vrfy_nextRec` when it succeeds. -/
theorem recHashStep_success {api : ksiapi} {flag16 : Nat} {st : vrfyState} {record : List Byte}
    {stack : Nat → Nat → tlvrecord_t} {f1 : FILE} {o1 : Option OFILE} {e1 : ksierrctx_t}
    (h : (if st.ksi.bKeepRecordHashes ≠ 0 then
          rsksi_vrfy_chkRecHash api flag16 st.ksi st.sigfp st.nsigfp
            (some (api.hash_r_ksi st.ksi record)) st.ectx (stack 0 0) (fun k => stack 0 (k + 1))
        else (rsgte.success, st.sigfp, st.nsigfp, st.ectx)) = (rsgte.success, f1, o1, e1)) :
    e1 = st.ectx ∧
    readsRecords flag16 (if st.ksi.bKeepRecordHashes ≠ 0 then [0x0902] else []) st.sigfp f1 := by
  by_cases hb : st.ksi.bKeepRecordHashes ≠ 0
  · rw [if_pos hb] at h
    rw [if_pos hb]
    obtain ⟨a, b, _⟩ := vrfy_chkRecHash_success h
    exact ⟨b, a⟩
  · rw [if_neg hb] at h
    rw [if_neg hb]
    simp only [Prod.mk.injEq, true_and] at h
    exact ⟨h.2.2.symm, h.1.symm⟩

/-- The tree-hash step for the leaf in `rsksi_vrfy_nextRec` when it succeeds. -/
theorem leafHashStep_success {api : ksiapi} {flag16 debug : Nat} {ksi : ksifile}
    {hash : Option KSI_DataHash} {stack : Nat → Nat → tlvrecord_t} {f1 f2 : FILE}
    {o1 o2 : Option OFILE} {e1 e2 ex : ksierrctx_t}
    (h : (if ksi.bKeepTreeHashes ≠ 0 then
          rsksi_vrfy_chkTreeHash api flag16 debug ksi f1 o1 hash ex
            (stack 1 0) (fun k => stack 1 (k + 1))
        else (rsgte.success, f1, o1, e1)) = (rsgte.success, f2, o2, e2))
    (hex : ex.fp = e1.fp) :
    e2.fp = e1.fp ∧
    readsRecords flag16 (if ksi.bKeepTreeHashes ≠ 0 then [0x0903] else []) f1 f2 := by
  by_cases hb : ksi.bKeepTreeHashes ≠ 0
  · rw [if_pos hb] at h
    rw [if_pos hb]
    obtain ⟨a, b, _⟩ := vrfy_chkTreeHash_success h
    exact ⟨b.trans hex, a⟩
  · rw [if_neg hb] at h
    rw [if_neg hb]
    simp only [Prod.mk.injEq, true_and] at h
    exact ⟨by rw [h.2.2], h.1.symm⟩

/-- When `rsksi_vrfy_nextRec` returns `RSGTE_INVLD_TREE_HASH`, a tree-hash check
found the imprint read different from the computed hash, reported both, and
reset both fields of the error context. -/
theorem vrfy_nextRec_invld {api : ksiapi} {flag16 debug M : Nat} {st st1 : vrfyState}
    {record : List Byte} {shc : Nat} {stack : Nat → Nat → tlvrecord_t}
    (h : rsksi_vrfy_nextRec api flag16 debug M st record shc stack
      = some (rsgte.invld_tree_hash, st1)) :
    ∃ (hh : KSI_DataHash) (imp : imprint_t) (e0 : ksierrctx_t), e0.fp = st.ectx.fp ∧
      memcmp (imp.data.getD []) hh.digest (api.hashOutputLengthOctetsKSI imp.hashID) ≠ 0 ∧
      st1.ectx = { reportError rsgte.invld_tree_hash
                     { e0 with computedHash := some hh, fileHash := some imp } with
                   computedHash := none, fileHash := none } := by
  obtain ⟨r1, f1, o1, e1, hR1, hcase⟩ := vrfy_nextRec_cases h
  rcases hcase with ⟨hne, hr, _⟩ | ⟨hr1, r2, f2, o2, e2, hR2, hcase2⟩
  · subst hr
    exfalso
    by_cases hb : st.ksi.bKeepRecordHashes ≠ 0
    · rw [if_pos hb] at hR1
      have hc := vrfy_chkRecHash_code api flag16 st.ksi st.sigfp st.nsigfp
        (some (api.hash_r_ksi st.ksi record)) st.ectx (stack 0 0) (fun k => stack 0 (k + 1))
      rw [hR1] at hc
      simp [rsgte.isReadCode, rsgte.isDecodeCode] at hc
    · rw [if_neg hb] at hR1
      simp at hR1
  subst hr1
  obtain ⟨he1, _⟩ := recHashStep_success hR1
  rcases hcase2 with ⟨hne, hr, hst⟩ | ⟨hr2, k2, r3, t, st3, _, hL, hcase3⟩
  · subst hr
    by_cases hb : st.ksi.bKeepTreeHashes ≠ 0
    · rw [if_pos hb] at hR2
      obtain ⟨imp, hm, he⟩ := vrfy_chkTreeHash_invld hR2
      subst hst
      refine ⟨leafHash api st.ksi record, imp,
        { e1 with treeLevel := 0, lefthash := some (api.hash_m_ksi st.ksi),
                  righthash := some (api.hash_r_ksi st.ksi record) }, ?_, hm, he⟩
      show e1.fp = st.ectx.fp
      rw [he1]
    · rw [if_neg hb] at hR2
      simp at hR2
  subst hr2
  obtain ⟨he2, _⟩ := leafHashStep_success hR2 rfl
  rcases hcase3 with ⟨hne, hr, hst⟩ | ⟨_, hr, _⟩
  · subst hr hst
    obtain ⟨hh, imp, e0, a, b, c⟩ := nextRecLoop_invld api flag16 debug shc stack _ _ _ _ _ _ hL
    refine ⟨hh, imp, e0, ?_, b, c⟩
    rw [a]
    show e2.fp = st.ectx.fp
    rw [he2, he1]
  · exact absurd hr (by decide)

/-- The records that a successful `rsksi_vrfy_nextRec` reads when tree hashes
are kept: the record hash if record hashes are kept, the tree hash of the leaf,
and one tree hash for every carry. -/
theorem vrfy_nextRec_reads {api : ksiapi} {flag16 debug M : Nat} {st st1 : vrfyState}
    {record : List Byte} {shc : Nat} {stack : Nat → Nat → tlvrecord_t}
    (h : rsksi_vrfy_nextRec api flag16 debug M st record shc stack = some (rsgte.success, st1))
    (hb : st.ksi.bKeepTreeHashes ≠ 0) (hlen : st.ksi.nRoots ≤ st.ksi.roots_valid.length) :
    readsRecords flag16
      ((if st.ksi.bKeepRecordHashes ≠ 0 then [0x0902] else [])
        ++ List.replicate (carries st.ksi + 1) 0x0903) st.sigfp st1.sigfp := by
  obtain ⟨r1, f1, o1, e1, hR1, hcase⟩ := vrfy_nextRec_cases h
  rcases hcase with ⟨hne, hr, _⟩ | ⟨hr1, r2, f2, o2, e2, hR2, hcase2⟩
  · exact absurd hr.symm hne
  subst hr1
  obtain ⟨_, hrd1⟩ := recHashStep_success hR1
  rcases hcase2 with ⟨hne, hr, hst⟩ | ⟨hr2, k2, r3, t, st3, ⟨hkv, _, _, _, hkt, _⟩, hL, hcase3⟩
  · exact absurd hr.symm hne
  subst hr2
  obtain ⟨_, hrd2⟩ := leafHashStep_success hR2 rfl
  rw [if_pos hb] at hrd2
  rcases hcase3 with ⟨hne, hr, hst⟩ | ⟨hr3, _, hfin⟩
  · exact absurd hr.symm hne
  subst hr3
  obtain ⟨_, _, _, hrd3, _⟩ := nextRecLoop_success api flag16 debug shc stack _ _ _ _ _ _ hL
    (by show 0 + st.ksi.nRoots ≤ k2.roots_valid.length; rw [hkv]; omega)
  have hrd3b := hrd3 (by show k2.bKeepTreeHashes ≠ 0; rw [hkt]; exact hb)
  have hs : st1.sigfp = st3.sigfp := by
    rcases hfin with ⟨_, hst⟩ | ⟨_, _, hst⟩ <;> rw [hst]
  rw [hs, List.replicate_succ]
  apply readsRecords_append flag16 _ _ _ f1 _ hrd1
  have : (0x0903 :: List.replicate (carries st.ksi) 0x0903)
      = [0x0903] ++ List.replicate (carries st.ksi) 0x0903 := rfl
  rw [this]
  apply readsRecords_append flag16 _ _ _ f2 _ hrd2
  have hc : carriesFrom k2.roots_valid 0 st.ksi.nRoots = carries st.ksi := by
    rw [hkv]; rfl
  rw [← hc]
  exact hrd3b

/-- The forest after a successful `rsksi_vrfy_nextRec`: with `c` the number of
carries, the slots below `c` are cleared, slot `c` is set, the others are as
before, and `nRoots` grows by one when all slots were combined. -/
theorem vrfy_nextRec_forest {api : ksiapi} {flag16 debug M : Nat} {st st1 : vrfyState}
    {record : List Byte} {shc : Nat} {stack : Nat → Nat → tlvrecord_t}
    (h : rsksi_vrfy_nextRec api flag16 debug M st record shc stack = some (rsgte.success, st1))
    (hv : st.ksi.roots_valid.length = M) (hn : st.ksi.nRoots ≤ M) :
    st1.ksi.roots_valid.length = M ∧
    st1.ksi.roots_hash.length = st.ksi.roots_hash.length ∧
    st1.ksi.nRoots ≤ M ∧
    st1.ksi.nRoots
      = (if carries st.ksi = st.ksi.nRoots then st.ksi.nRoots + 1 else st.ksi.nRoots) ∧
    st1.ksi.nRecords = (st.ksi.nRecords + 1) % 2 ^ 64 ∧
    (∀ i, st1.ksi.roots_valid.getD i 0 =
      if i < carries st.ksi then 0 else if i = carries st.ksi then 1
      else st.ksi.roots_valid.getD i 0) := by
  obtain ⟨r1, f1, o1, e1, hR1, hcase⟩ := vrfy_nextRec_cases h
  rcases hcase with ⟨hne, hr, _⟩ | ⟨hr1, r2, f2, o2, e2, hR2, hcase2⟩
  · exact absurd hr.symm hne
  rcases hcase2 with ⟨hne, hr, hst⟩ |
    ⟨hr2, k2, r3, t, st3, ⟨hkv, hkh, hkn, hkr, hkt, _⟩, hL, hcase3⟩
  · exact absurd hr.symm hne
  rcases hcase3 with ⟨hne, hr, hst⟩ | ⟨hr3, _, hfin⟩
  · exact absurd hr.symm hne
  subst hr3
  obtain ⟨⟨a1, a2, a3, a4, a5⟩, b, c, _⟩ :=
    nextRecLoop_success api flag16 debug shc stack _ _ _ _ _ _ hL
      (by show 0 + st.ksi.nRoots ≤ k2.roots_valid.length; rw [hkv]; omega)
  have hc : carriesFrom k2.roots_valid 0 st.ksi.nRoots = carries st.ksi := by
    rw [hkv]; rfl
  rw [hc] at b c
  simp only [] at a1 a2 a4 a5 b c
  rw [hkn] at a1
  rw [hkr] at a2
  rw [hkv, hv] at a4
  rw [hkh] at a5
  rw [hkv] at c
  have hcle : carries st.ksi ≤ st.ksi.nRoots := carriesFrom_le _ _ _
  rcases hfin with ⟨ht, hst⟩ | ⟨ht, hlt, hst⟩
  · have hclt := b.mp ht
    subst hst
    refine ⟨a4, a5, by show st3.ksi.nRoots ≤ M; omega, ?_, ?_, ?_⟩
    · show st3.ksi.nRoots = _
      rw [if_neg (by omega), a1]
    · show (st3.ksi.nRecords + 1) % 2 ^ 64 = _
      rw [a2]
    · intro i
      show st3.ksi.roots_valid.getD i 0 = _
      rw [c i]
      split_ifs <;> first | rfl | omega
  · have hceq : carries st.ksi = st.ksi.nRoots := by
      have : ¬ carries st.ksi < st.ksi.nRoots := fun hh => ht (b.mpr hh)
      omega
    subst hst
    refine ⟨by show (st3.ksi.roots_valid.set st3.ksi.nRoots 1).length = M
               rw [List.length_set]; exact a4,
      by show (st3.ksi.roots_hash.set st3.ksi.nRoots t).length = _
         rw [List.length_set]; exact a5,
      by show st3.ksi.nRoots + 1 ≤ M; omega, ?_, ?_, ?_⟩
    · show st3.ksi.nRoots + 1 = _
      rw [if_pos hceq, a1]
    · show (st3.ksi.nRecords + 1) % 2 ^ 64 = _
      rw [a2]
    · intro i
      show (st3.ksi.roots_valid.set st3.ksi.nRoots 1).getD i 0 = _
      rw [getD_set_eq, c i, a1, a4, hceq]
      split_ifs <;> first | rfl | omega

/-- The contents of the forest after a successful `rsksi_vrfy_nextRec`: when the
slots covered the leaves `L`, they cover `L` followed by the new leaf. -/
theorem vrfy_nextRec_covers {api : ksiapi} {flag16 debug M : Nat} {st st1 : vrfyState}
    {record : List Byte} {shc : Nat} {stack : Nat → Nat → tlvrecord_t}
    (H : KSI_DataHash → KSI_DataHash → Nat → KSI_DataHash)
    (hH : ∀ k l r lv, api.hash_node_ksi k (some l) (some r) lv = H l r lv)
    (h : rsksi_vrfy_nextRec api flag16 debug M st record shc stack = some (rsgte.success, st1))
    (hv : st.ksi.roots_valid.length = M) (hh : st.ksi.roots_hash.length = M)
    (hn : st.ksi.nRoots ≤ M) (L : List KSI_DataHash)
    (hc : coversUp H st.ksi.roots_valid st.ksi.roots_hash st.ksi.nRoots 0 L = true) :
    coversUp H st1.ksi.roots_valid st1.ksi.roots_hash st1.ksi.nRoots 0
      (L ++ [leafHash api st.ksi record]) = true := by
  obtain ⟨r1, f1, o1, e1, hR1, hcase⟩ := vrfy_nextRec_cases h
  rcases hcase with ⟨hne, hr, _⟩ | ⟨hr1, r2, f2, o2, e2, hR2, hcase2⟩
  · exact absurd hr.symm hne
  rcases hcase2 with ⟨hne, hr, hst⟩ |
    ⟨hr2, k2, r3, t, st3, ⟨hkv, hkh, hkn, hkr, hkt, _⟩, hL, hcase3⟩
  · exact absurd hr.symm hne
  rcases hcase3 with ⟨hne, hr, hst⟩ | ⟨hr3, _, hfin⟩
  · exact absurd hr.symm hne
  subst hr3
  have hlen : 0 + st.ksi.nRoots ≤ k2.roots_valid.length := by rw [hkv]; omega
  obtain ⟨⟨a1, a2, a3, a4, a5⟩, b, c, _⟩ :=
    nextRecLoop_success api flag16 debug shc stack _ _ _ _ _ _ hL hlen
  obtain ⟨d1, d2⟩ := nextRecLoop_covers api flag16 debug shc stack H hH _ _ _ _ _ _ L
    [leafHash api st.ksi record] hL hlen
    (by show 0 + st.ksi.nRoots ≤ k2.roots_hash.length; rw [hkh]; omega) rfl rfl
    (by show coversUp H k2.roots_valid k2.roots_hash st.ksi.nRoots 0 L = true
        rw [hkv, hkh]; exact hc)
  have hcar : carriesFrom k2.roots_valid 0 st.ksi.nRoots = carries st.ksi := by
    rw [hkv]; rfl
  rw [hcar] at b c
  simp only [] at a1 a4 a5 b c
  rw [hkn] at a1
  rw [hkv, hv] at a4
  rw [hkh, hh] at a5
  have hcle : carries st.ksi ≤ st.ksi.nRoots := carriesFrom_le _ _ _
  rcases hfin with ⟨ht, hst⟩ | ⟨ht, hlt, hst⟩
  · subst hst
    show coversUp H st3.ksi.roots_valid st3.ksi.roots_hash st3.ksi.nRoots 0 _ = true
    rw [a1]
    exact d1 ht
  · have hceq : carries st.ksi = st.ksi.nRoots := by
      have : ¬ carries st.ksi < st.ksi.nRoots := fun hh => ht (b.mpr hh)
      omega
    obtain ⟨T, hT⟩ := Option.ne_none_iff_exists'.mp ht
    obtain ⟨e1, e2⟩ := d2 T hT
    subst hst
    show coversUp H (st3.ksi.roots_valid.set st3.ksi.nRoots 1)
      (st3.ksi.roots_hash.set st3.ksi.nRoots t) (st3.ksi.nRoots + 1) 0 _ = true
    rw [a1, coversUp_cleared H _ _ 1 st.ksi.nRoots 0 _ (fun i _ hi => by
      rw [getD_set_eq, if_neg (fun hx => by omega), c i, if_pos ⟨Nat.zero_le i, by omega⟩])]
    have hg1 : (st3.ksi.roots_valid.set st.ksi.nRoots 1).getD (0 + st.ksi.nRoots) 0 = 1 := by
      rw [getD_set_eq, if_pos ⟨by omega, by omega⟩]
    have hg2 : (st3.ksi.roots_hash.set st.ksi.nRoots t).getD (0 + st.ksi.nRoots) none = t := by
      rw [getD_set_eq, if_pos ⟨by omega, by omega⟩]
    rw [coversUp, hg1, if_pos (by decide), hg2]
    simp only [e2, Nat.le_refl, decide_True, Nat.sub_self, List.drop_zero, List.take_zero,
      coversUp, Bool.true_and, Bool.and_true, decide_eq_true_eq]
    rw [hT, e1]

theorem vrfyRecords_cons {api : ksiapi} {flag16 debug M shc : Nat}
    {stack : Nat → Nat → Nat → tlvrecord_t} {record : List Byte} {rest : List (List Byte)}
    {st st2 : vrfyState} {leaves : List KSI_DataHash}
    (h : vrfyRecords api flag16 debug M shc stack (record :: rest) st = some (st2, leaves)) :
    ∃ (st1 : vrfyState) (lv : List KSI_DataHash),
      rsksi_vrfy_nextRec api flag16 debug M st record shc (stack rest.length)
        = some (rsgte.success, st1) ∧
      vrfyRecords api flag16 debug M shc stack rest st1 = some (st2, lv) ∧
      leaves = leafHash api st.ksi record :: lv := by
  unfold vrfyRecords at h
  split at h
  · rename_i st1 heq
    split at h
    · rename_i st2b lv heq2
      simp only [Option.some.injEq, Prod.mk.injEq] at h
      obtain ⟨h1, h2⟩ := h
      subst h1 h2
      exact ⟨st1, lv, heq, heq2, rfl⟩
    · simp at h
  · simp at h

/-- One append and the occupancy of the forest: when the valid flags are the
bits of `k`, the flags after the append are the bits of `k + 1`. -/
theorem occupancy_step (valid valid1 : List Nat) (n n1 k : Nat)
    (hn1 : n1 = if carriesFrom valid 0 n = n then n + 1 else n)
    (hval : ∀ i, valid1.getD i 0 =
      if i < carriesFrom valid 0 n then 0 else if i = carriesFrom valid 0 n then 1
      else valid.getD i 0)
    (h1 : ∀ i, valid.getD i 0 ≠ 0 ↔ k.testBit i = true)
    (h2 : ∀ i, n ≤ i → k.testBit i = false)
    (h3 : n ≠ 0 → k.testBit (n - 1) = true) :
    (∀ i, valid1.getD i 0 ≠ 0 ↔ (k + 1).testBit i = true) ∧
    (∀ i, n1 ≤ i → (k + 1).testBit i = false) ∧
    (n1 ≠ 0 → (k + 1).testBit (n1 - 1) = true) := by
  have hcle : carriesFrom valid 0 n ≤ n := carriesFrom_le _ _ _
  obtain ⟨s1, s2⟩ := carriesFrom_spec valid n 0
  generalize carriesFrom valid 0 n = c at *
  have hlow : ∀ i, i < c → k.testBit i = true := fun i hi =>
    (h1 i).mp (s1 i (Nat.zero_le i) (by omega))
  have hbit : k.testBit c = false := by
    by_cases hc : c < n
    · have := s2 hc
      rw [Nat.zero_add] at this
      have h4 : ¬ (k.testBit c = true) := fun hh => (h1 c).mpr hh this
      simpa using h4
    · exact h2 c (by omega)
  have tb := testBit_succ_of_trailing c k hlow hbit
  refine ⟨fun i => ?_, fun i hi => ?_, fun hz => ?_⟩
  · rw [hval i, tb i]
    by_cases ha : i < c
    · simp [ha]
    · by_cases hb : i = c
      · simp [hb]
      · rw [if_neg ha, if_neg hb, if_neg ha, if_neg hb]
        exact h1 i
  · have hic : c < i := by
      rw [hn1] at hi
      split at hi <;> omega
    rw [tb i, if_neg (by omega), if_neg (by omega)]
    exact h2 i (by rw [hn1] at hi; split at hi <;> omega)
  · rw [tb]
    by_cases hc : c = n
    · rw [hn1, if_pos hc, if_neg (by omega), if_pos (by omega)]
    · rw [hn1, if_neg hc]
      rw [hn1, if_neg hc] at hz
      rw [if_neg (by omega)]
      by_cases hd : n - 1 = c
      · rw [if_pos hd]
      · rw [if_neg hd]
        exact h3 hz

/-- Successive appends and the occupancy of the forest. -/
theorem vrfyRecords_occupancy (api : ksiapi) (flag16 debug M shc : Nat)
    (stack : Nat → Nat → Nat → tlvrecord_t) :
    ∀ (records : List (List Byte)) (st st1 : vrfyState) (leaves : List KSI_DataHash) (k : Nat),
      vrfyRecords api flag16 debug M shc stack records st = some (st1, leaves) →
      st.ksi.roots_valid.length = M → st.ksi.nRoots ≤ M →
      (∀ i, st.ksi.roots_valid.getD i 0 ≠ 0 ↔ k.testBit i = true) →
      (∀ i, st.ksi.nRoots ≤ i → k.testBit i = false) →
      (st.ksi.nRoots ≠ 0 → k.testBit (st.ksi.nRoots - 1) = true) →
      leaves.length = records.length ∧
      (∀ i, st1.ksi.roots_valid.getD i 0 ≠ 0 ↔ (k + records.length).testBit i = true) ∧
      (∀ i, st1.ksi.nRoots ≤ i → (k + records.length).testBit i = false) ∧
      (st1.ksi.nRoots ≠ 0 → (k + records.length).testBit (st1.ksi.nRoots - 1) = true) := by
  intro records
  induction records with
  | nil =>
    intro st st1 leaves k h _ _ h1 h2 h3
    simp only [vrfyRecords, Option.some.injEq, Prod.mk.injEq] at h
    obtain ⟨a, b⟩ := h
    subst a b
    exact ⟨rfl, h1, h2, h3⟩
  | cons record rest ih =>
    intro st st2 leaves k h hv hn h1 h2 h3
    obtain ⟨st1, lv, hstep, hrest, hl⟩ := vrfyRecords_cons h
    obtain ⟨f1, _, f3, f4, _, f6⟩ := vrfy_nextRec_forest hstep hv hn
    obtain ⟨g1, g2, g3⟩ := occupancy_step st.ksi.roots_valid st1.ksi.roots_valid st.ksi.nRoots
      st1.ksi.nRoots k f4 f6 h1 h2 h3
    obtain ⟨i1, i2, i3, i4⟩ := ih st1 st2 lv (k + 1) hrest f1 f3 g1 g2 g3
    have he : k + (record :: rest).length = k + 1 + rest.length := by
      rw [List.length_cons]; omega
    rw [he]
    exact ⟨by rw [hl, List.length_cons, List.length_cons, i1], i2, i3, i4⟩

/-- Successive appends and the contents of the forest. -/
theorem vrfyRecords_covers (api : ksiapi) (flag16 debug M shc : Nat)
    (stack : Nat → Nat → Nat → tlvrecord_t)
    (H : KSI_DataHash → KSI_DataHash → Nat → KSI_DataHash)
    (hH : ∀ k l r lv, api.hash_node_ksi k (some l) (some r) lv = H l r lv) :
    ∀ (records : List (List Byte)) (st st1 : vrfyState) (leaves L : List KSI_DataHash),
      vrfyRecords api flag16 debug M shc stack records st = some (st1, leaves) →
      st.ksi.roots_valid.length = M → st.ksi.roots_hash.length = M → st.ksi.nRoots ≤ M →
      coversUp H st.ksi.roots_valid st.ksi.roots_hash st.ksi.nRoots 0 L = true →
      coversUp H st1.ksi.roots_valid st1.ksi.roots_hash st1.ksi.nRoots 0 (L ++ leaves)
        = true := by
  intro records
  induction records with
  | nil =>
    intro st st1 leaves L h _ _ _ hc
    simp only [vrfyRecords, Option.some.injEq, Prod.mk.injEq] at h
    obtain ⟨a, b⟩ := h
    subst a b
    rw [List.append_nil]
    exact hc
  | cons record rest ih =>
    intro st st2 leaves L h hv hh hn hc
    obtain ⟨st1, lv, hstep, hrest, hl⟩ := vrfyRecords_cons h
    obtain ⟨f1, f2, f3, _⟩ := vrfy_nextRec_forest hstep hv hn
    have hc1 := vrfy_nextRec_covers H hH hstep hv hh hn L hc
    have := ih st1 st2 lv _ hrest f1 (f2.trans hh) f3 hc1
    rw [hl]
    rw [List.append_assoc] at this
    exact this

/-- The state that the loop of `verifySigblkFinish` leaves: the valid flags of
the slots it has visited are cleared, everything else is as before. -/
theorem sigblkFinishLoop_state (api : ksiapi) :
    ∀ (fuel j : Nat) (root : Option KSI_DataHash) (ksi : ksifile),
      (∀ i, (sigblkFinishLoop api fuel j root ksi).2.roots_valid.getD i 0 =
        if j ≤ i ∧ i < j + fuel then 0 else ksi.roots_valid.getD i 0) ∧
      (sigblkFinishLoop api fuel j root ksi).2.roots_hash = ksi.roots_hash ∧
      (sigblkFinishLoop api fuel j root ksi).2.nRoots = ksi.nRoots ∧
      (sigblkFinishLoop api fuel j root ksi).2.nRecords = ksi.nRecords := by
  intro fuel
  induction fuel with
  | zero =>
    intro j root ksi
    refine ⟨fun i => ?_, rfl, rfl, rfl⟩
    rw [if_neg (by omega)]
    rfl
  | succ fuel ih =>
    intro j root ksi
    unfold sigblkFinishLoop
    by_cases hr : root = none
    · rw [if_pos hr]
      dsimp only
      obtain ⟨a, b, c, d⟩ := ih (j + 1)
        (if ksi.roots_valid.getD j 0 ≠ 0 then ksi.roots_hash.getD j none else none)
        { ksi with roots_valid := ksi.roots_valid.set j 0 }
      refine ⟨fun i => ?_, b, c, d⟩
      rw [a i]
      simp only [getD_set_zero]
      split_ifs <;> first | rfl | omega
    · rw [if_neg hr]
      by_cases hv : ksi.roots_valid.getD j 0 ≠ 0
      · rw [if_pos hv]
        dsimp only
        obtain ⟨a, b, c, d⟩ := ih (j + 1)
          (some (api.hash_node_ksi ksi (ksi.roots_hash.getD j none) root (j + 2)))
          { ksi with roots_valid := ksi.roots_valid.set j 0 }
        refine ⟨fun i => ?_, b, c, d⟩
        rw [a i]
        simp only [getD_set_zero]
        split_ifs <;> first | rfl | omega
      · rw [if_neg hv]
        obtain ⟨a, b, c, d⟩ := ih (j + 1) root ksi
        refine ⟨fun i => ?_, b, c, d⟩
        rw [a i]
        have hz : ksi.roots_valid.getD j 0 = 0 := not_not.mp hv
        by_cases hi : i = j
        · subst hi
          rw [if_neg (by omega), if_pos (by omega), hz]
        · split_ifs <;> first | rfl | omega

theorem filter_valid_set (valid : List Nat) (j fuel : Nat) :
    (List.range' (j + 1) fuel).filter (fun i => decide ((valid.set j 0).getD i 0 ≠ 0))
      = (List.range' (j + 1) fuel).filter (fun i => decide (valid.getD i 0 ≠ 0)) := by
  apply List.filter_congr
  intro i hi
  have := (List.mem_range'_1.mp hi).1
  rw [getD_set_zero, if_neg (by omega)]

/-- The loop of `verifySigblkFinish` once a root has been picked: every further
valid slot is combined with the root. -/
theorem sigblkFinishLoop_some (api : ksiapi)
    (H : Option KSI_DataHash → Option KSI_DataHash → Nat → KSI_DataHash)
    (hH : ∀ k l r lv, api.hash_node_ksi k l r lv = H l r lv) :
    ∀ (fuel j : Nat) (r : KSI_DataHash) (ksi : ksifile),
      (sigblkFinishLoop api fuel j (some r) ksi).1
        = ((List.range' j fuel).filter (fun i => decide (ksi.roots_valid.getD i 0 ≠ 0))).foldl
            (fun root i => some (H (ksi.roots_hash.getD i none) root (i + 2))) (some r) := by
  intro fuel
  induction fuel with
  | zero => intro j r ksi; rfl
  | succ fuel ih =>
    intro j r ksi
    unfold sigblkFinishLoop
    rw [if_neg (by simp), List.range'_succ, List.filter_cons]
    by_cases hv : ksi.roots_valid.getD j 0 ≠ 0
    · rw [if_pos hv, if_pos (by simpa using hv)]
      dsimp only
      rw [ih, filter_valid_set, List.foldl_cons, hH]
    · rw [if_neg hv, if_neg (by simpa using hv), ih]

/-- The loop of `verifySigblkFinish` before a root has been picked. -/
theorem sigblkFinishLoop_none (api : ksiapi)
    (H : Option KSI_DataHash → Option KSI_DataHash → Nat → KSI_DataHash)
    (hH : ∀ k l r lv, api.hash_node_ksi k l r lv = H l r lv) :
    ∀ (fuel j : Nat) (ksi : ksifile),
      (∀ i, j ≤ i → i < j + fuel → ksi.roots_valid.getD i 0 ≠ 0 →
        ksi.roots_hash.getD i none ≠ none) →
      (sigblkFinishLoop api fuel j none ksi).1
        = (match (List.range' j fuel).filter (fun i => decide (ksi.roots_valid.getD i 0 ≠ 0)) with
          | [] => none
          | j0 :: js =>
            js.foldl (fun root i => some (H (ksi.roots_hash.getD i none) root (i + 2)))
              (ksi.roots_hash.getD j0 none)) := by
  intro fuel
  induction fuel with
  | zero => intro j ksi _; rfl
  | succ fuel ih =>
    intro j ksi hs
    unfold sigblkFinishLoop
    rw [if_pos rfl, List.range'_succ, List.filter_cons]
    dsimp only
    by_cases hv : ksi.roots_valid.getD j 0 ≠ 0
    · rw [if_pos hv, if_pos (by simpa using hv)]
      obtain ⟨a, ha⟩ := Option.ne_none_iff_exists'.mp (hs j (Nat.le_refl j) (by omega) hv)
      rw [ha, sigblkFinishLoop_some api H hH, filter_valid_set]
      simp only []
      rw [ha]
    · rw [if_neg hv, if_neg (by simpa using hv)]
      have hz : ksi.roots_valid.getD j 0 = 0 := not_not.mp hv
      have hset : ∀ i, (ksi.roots_valid.set j 0).getD i 0 = ksi.roots_valid.getD i 0 := by
        intro i
        rw [getD_set_zero]
        split
        · rename_i hji; rw [← hji, hz]
        · rfl
      rw [ih (j + 1) { ksi with roots_valid := ksi.roots_valid.set j 0 } (fun i a b c =>
        hs i (by omega) (by omega) (by rw [← hset i]; exact c))]
      simp only [hset]

/-- The result of `verifySigblkFinish` for a block with records. -/
theorem verifySigblkFinish_root (api : ksiapi)
    (H : Option KSI_DataHash → Option KSI_DataHash → Nat → KSI_DataHash)
    (hH : ∀ k l r lv, api.hash_node_ksi k l r lv = H l r lv)
    (ksi : ksifile) (pRoot : Option KSI_DataHash) (r0 : rsgte)
    (hrec : ksi.nRecords ≠ 0)
    (hs : ∀ i, i < ksi.nRoots → ksi.roots_valid.getD i 0 ≠ 0 →
      ksi.roots_hash.getD i none ≠ none) :
    ∃ ksi1 : ksifile,
      verifySigblkFinish api ksi pRoot r0 = (rsgte.success, finishRoot H ksi, ksi1) ∧
      (∀ i, ksi1.roots_valid.getD i 0 = if i < ksi.nRoots then 0 else ksi.roots_valid.getD i 0) ∧
      ksi1.bInBlk = 0 ∧ ksi1.roots_hash = ksi.roots_hash ∧ ksi1.nRoots = ksi.nRoots ∧
      ksi1.nRecords = ksi.nRecords := by
  unfold verifySigblkFinish
  rw [if_neg hrec]
  obtain ⟨a, b, c, d⟩ := sigblkFinishLoop_state api ksi.nRoots 0 none ksi
  have hroot := sigblkFinishLoop_none api H hH ksi.nRoots 0 ksi (fun i _ h2 h3 =>
    hs i (by omega) h3)
  rcases hl : sigblkFinishLoop api ksi.nRoots 0 none ksi with ⟨root, ksi1⟩
  rw [hl] at a b c d hroot
  simp only [] at a b c d hroot
  refine ⟨{ ksi1 with bInBlk := 0 }, ?_, fun i => ?_, rfl, b, c, d⟩
  · simp only []
    rw [hroot, finishRoot, List.range_eq_range']
  · show ksi1.roots_valid.getD i 0 = _
    rw [a i]
    split_ifs <;> first | rfl | omega

/-- Writing a record of payload length 0: the `fwrite` of the payload transfers
no item, so `rsksi_tlvwrite` returns `RSGTE_IO`. -/
theorem tlvwrite_zero (o : OFILE) (rec : tlvrecord_t) (h : rec.tlvlen = 0) :
    (rsksi_tlvwrite o rec).1 = rsgte.io := by
  unfold rsksi_tlvwrite
  rcases h1 : fwrite1 rec.hdr rec.lenHdr o with ⟨n, o1⟩
  have h0 : ∀ o1, fwrite1 rec.data rec.tlvlen o1 = (0, o1) := by
    intro o1; rw [h]; simp [fwrite1]
  split
  · rw [h0]
  · rfl

theorem getD_of_drop_cons {l : List Byte} {i : Nat} {b : Byte} {rest : List Byte}
    (h : l.drop i = b :: rest) : l.getD i 0 = b ∧ l.drop (i + 1) = rest ∧ i < l.length := by
  have hlt : i < l.length := by
    by_contra hc
    rw [List.drop_eq_nil_of_le (by omega)] at h
    exact absurd h (by simp)
  refine ⟨?_, ?_, hlt⟩
  · have := List.getD_eq_getElem l 0 hlt
    rw [this]
    have h2 := List.drop_eq_getElem_cons hlt
    rw [h2] at h
    exact (List.cons.inj h).1
  · have h2 := List.drop_eq_getElem_cons hlt
    rw [h2] at h
    exact (List.cons.inj h).2

/-- A header that declares payload length 0 makes `rsksi_tlvRecRead` fail with the
code of `feof(fp) ? RSGTE_EOF : RSGTE_IO`. -/
theorem tlvRecRead_zero_short (flag16 : Nat) (fp : FILE) (rec0 : tlvrecord_t) (b0 b1 : Byte)
    (rest : List Byte) (hd : fp.content.drop fp.pos = b0 :: b1 :: rest)
    (hshort : b0.val &&& flag16 = 0) (hlen : b1.val = 0) :
    (rsksi_tlvRecRead flag16 fp rec0).1 = eofOrIo fp := by
  obtain ⟨g0, d1, hlt0⟩ := getD_of_drop_cons hd
  obtain ⟨g1, _, hlt1⟩ := getD_of_drop_cons d1
  rw [tlvRecRead_code, g0, g1]
  have hs : ¬ (b0.val &&& flag16 ≠ 0) := by simp [hshort]
  simp only [hs, if_false]
  rw [if_neg (by omega), if_pos hlen]

theorem tlvRecRead_zero_long (flag16 : Nat) (fp : FILE) (rec0 : tlvrecord_t) (b0 b1 b2 b3 : Byte)
    (rest : List Byte) (hd : fp.content.drop fp.pos = b0 :: b1 :: b2 :: b3 :: rest)
    (hlong : b0.val &&& flag16 ≠ 0) (hlen : b2.val = 0 ∧ b3.val = 0) :
    (rsksi_tlvRecRead flag16 fp rec0).1 = eofOrIo fp := by
  obtain ⟨g0, d1, hlt0⟩ := getD_of_drop_cons hd
  obtain ⟨g1, d2, hlt1⟩ := getD_of_drop_cons d1
  obtain ⟨g2, d3, hlt2⟩ := getD_of_drop_cons d2
  obtain ⟨g3, _, hlt3⟩ := getD_of_drop_cons d3
  rw [tlvRecRead_code, g0, g2, g3]
  rw [if_pos hlong, if_pos hlong, if_neg (by omega), if_pos (by omega)]

theorem eofOrIo_cases (fp : FILE) : eofOrIo fp = rsgte.eof ∨ eofOrIo fp = rsgte.io := by
  unfold eofOrIo; split <;> simp

/-- The return code and the cursor of `rsksi_tlvDecodeSUBREC` do not depend on
the previous contents of the record that it fills in. -/
theorem tlvDecodeSUBREC_indep (flag16 : Nat) (rec : tlvrecord_t) (i : Nat) (n n1 : tlvrecord_t) :
    (rsksi_tlvDecodeSUBREC flag16 rec i n).1 = (rsksi_tlvDecodeSUBREC flag16 rec i n1).1 ∧
    (rsksi_tlvDecodeSUBREC flag16 rec i n).2.1 = (rsksi_tlvDecodeSUBREC flag16 rec i n1).2.1 := by
  unfold rsksi_tlvDecodeSUBREC subrecCopy
  dsimp only
  split_ifs <;> simp

theorem bufRead_append_left (a rest : List Byte) (n : Nat) (h : n = a.length) :
    bufRead (a ++ rest) n = a := by
  subst h; exact bufRead_append a rest

/-- After `memcpy(buf + off, src, len)` the first `off + len` octets are the
first `off` octets of before, followed by `src`. -/
theorem bufRead_bufStoreAt (buf : List Byte) (off : Nat) (src : List Byte) :
    bufRead (bufStoreAt buf off src) (off + src.length) = bufRead buf off ++ src := by
  unfold bufStoreAt
  apply bufRead_append_left
  simp [bufRead_length]

theorem bufRead_take (buf : List Byte) (n k : Nat) (h : k ≤ n) :
    (bufRead buf n).take k = bufRead buf k := by
  unfold bufRead
  rw [← List.map_take]
  congr 1
  rw [List.take_range, Nat.min_eq_left h]

theorem bufRead_bufStore_take (buf src : List Byte) (n : Nat) (h : n ≤ src.length) :
    bufRead (bufStore buf src) n = src.take n := by
  have h1 := bufRead_bufStore buf src
  rw [← bufRead_take _ src.length n h, h1]

/-- The sub-record decoder keeps the raw header of the TLV at the cursor: the
`lenHdr` header octets followed by the payload are the octets of the TLV. -/
theorem tlvDecodeSUBREC_raw (rec : tlvrecord_t) (i : Nat) (newrec : tlvrecord_t)
    (enc rest : List Byte) (tlvtype : Nat) (payload : List Byte)
    (henc : isTlv enc tlvtype payload = true)
    (hd : rec.data.drop i = enc ++ rest)
    (hi : i + enc.length ≤ rec.tlvlen) (hl : rec.tlvlen < 2 ^ 16) :
    ∃ nr : tlvrecord_t,
      rsksi_tlvDecodeSUBREC FLAG_TLV16 rec i newrec = (rsgte.success, i + enc.length, nr) ∧
      bufRead nr.hdr nr.lenHdr ++ bufRead nr.data nr.tlvlen = enc ∧
      nr.lenHdr + nr.tlvlen = enc.length := by
  unfold isTlv at henc
  split at henc
  · rename_i b0 b1 tl
    split at henc
    · rename_i hshort
      simp only [decide_eq_true_eq] at henc
      obtain ⟨ht, hlen, htl⟩ := henc
      subst htl
      simp only [List.length_cons] at hi
      have := tlvDecodeSUBREC_short FLAG_TLV16 rec i newrec b0 b1 tl rest
        (by rw [hd]; rfl) hshort hlen (by omega) hl
      have e : i + 2 + tl.length = i + (b0 :: b1 :: tl).length := by
        simp only [List.length_cons]; omega
      rw [this, e]
      refine ⟨_, rfl, ?_, ?_⟩
      · simp only [bufRead_bufStore]
        rfl
      · simp only [List.length_cons]; omega
    · rename_i hlong
      split at henc
      · rename_i b2 b3 tl2
        simp only [decide_eq_true_eq] at henc
        obtain ⟨ht, hlen, htl⟩ := henc
        subst htl
        simp only [List.length_cons] at hi
        have := tlvDecodeSUBREC_long FLAG_TLV16 rec i newrec b0 b1 b2 b3 tl2 rest
          (by rw [hd]; rfl) hlong hlen (by omega) hl
        have e : i + 4 + tl2.length = i + (b0 :: b1 :: b2 :: b3 :: tl2).length := by
          simp only [List.length_cons]; omega
        rw [this, e]
        refine ⟨_, rfl, ?_, ?_⟩
        · simp only [bufRead_bufStore]
          rfl
        · simp only [List.length_cons]; omega
      · simp at henc
  · simp at henc

/-- The macro `COPY_SUBREC_TO_NEWREC` appends the raw header and the payload of
the sub-record to what `newrec.data` holds before the cursor. -/
theorem copySubrecToNewrec_spec (newrec subrec : tlvrecord_t) (iWr : Nat) (pre enc : List Byte)
    (hpre : bufRead newrec.data iWr = pre)
    (henc : bufRead subrec.hdr subrec.lenHdr ++ bufRead subrec.data subrec.tlvlen = enc)
    (hlen : subrec.lenHdr + subrec.tlvlen = enc.length)
    (hw : iWr + enc.length < 2 ^ 16) :
    (copySubrecToNewrec newrec subrec iWr).2 = iWr + enc.length ∧
    bufRead (copySubrecToNewrec newrec subrec iWr).1.data (iWr + enc.length) = pre ++ enc := by
  unfold copySubrecToNewrec
  dsimp only
  have e1 : (iWr + subrec.lenHdr) % 2 ^ 16 = iWr + subrec.lenHdr := Nat.mod_eq_of_lt (by omega)
  rw [e1]
  have e2 : (iWr + subrec.lenHdr + subrec.tlvlen) % 2 ^ 16 = iWr + enc.length := by
    rw [Nat.mod_eq_of_lt (by omega)]; omega
  refine ⟨e2, ?_⟩
  have h1 := bufRead_bufStoreAt newrec.data iWr (bufRead subrec.hdr subrec.lenHdr)
  rw [bufRead_length, hpre] at h1
  have h2 := bufRead_bufStoreAt
    (bufStoreAt newrec.data iWr (bufRead subrec.hdr subrec.lenHdr)) (iWr + subrec.lenHdr)
    (bufRead subrec.data subrec.tlvlen)
  rw [bufRead_length, h1] at h2
  have e3 : iWr + enc.length = iWr + subrec.lenHdr + subrec.tlvlen := by omega
  rw [e3, h2, List.append_assoc, henc]

/-- The end of `rsksi_extendSig`: the record that replaces `*rec`. -/
theorem extendSigFinish_spec (rec newrec : tlvrecord_t) (iWr : Nat) (pre der : List Byte)
    (hpre : bufRead newrec.data iWr = pre) (hw : iWr + 4 + der.length < 2 ^ 16) :
    (extendSigFinish FLAG_TLV16 rec newrec iWr der).tlvlen = iWr + 4 + der.length ∧
    bufRead (extendSigFinish FLAG_TLV16 rec newrec iWr der).data (iWr + 4 + der.length)
      = pre ++ ([0x89, 0x06, toByte (der.length >>> 8), toByte (der.length &&& 0xff)] ++ der) ∧
    (extendSigFinish FLAG_TLV16 rec newrec iWr der).tlvtype = rec.tlvtype ∧
    (extendSigFinish FLAG_TLV16 rec newrec iWr der).hdr0 = rec.hdr0 ∧
    (extendSigFinish FLAG_TLV16 rec newrec iWr der).hdr1 = rec.hdr1 ∧
    (extendSigFinish FLAG_TLV16 rec newrec iWr der).hdr2
      = toByte ((iWr + 4 + der.length) >>> 8) ∧
    (extendSigFinish FLAG_TLV16 rec newrec iWr der).hdr3
      = toByte ((iWr + 4 + der.length) &&& 0xff) ∧
    (extendSigFinish FLAG_TLV16 rec newrec iWr der).lenHdr = 4 := by
  unfold extendSigFinish
  dsimp only
  have m1 : (iWr + 1) % 2 ^ 16 = iWr + 1 := Nat.mod_eq_of_lt (by omega)
  have m2 : (iWr + 2) % 2 ^ 16 = iWr + 2 := Nat.mod_eq_of_lt (by omega)
  have m3 : (iWr + 3) % 2 ^ 16 = iWr + 3 := Nat.mod_eq_of_lt (by omega)
  have m4 : (iWr + 4) % 2 ^ 16 = iWr + 4 := Nat.mod_eq_of_lt (by omega)
  have m5 : (iWr + 4 + der.length) % 2 ^ 16 = iWr + 4 + der.length := Nat.mod_eq_of_lt (by omega)
  rw [m1, m2, m3, m4, m5]
  have hlt : (iWr + 4 + der.length) >>> 8 < 256 := by
    rw [Nat.shiftRight_eq_div_pow]
    have : iWr + 4 + der.length < 2 ^ 16 := hw
    omega
  have hder : der.length >>> 8 < 256 := by
    rw [Nat.shiftRight_eq_div_pow]
    omega
  have a1 : ((iWr + 4 + der.length) >>> 8) &&& 0xff = (iWr + 4 + der.length) >>> 8 := by
    have : (255 : Nat) = 2 ^ 8 - 1 := by norm_num
    rw [this, Nat.and_pow_two_sub_one_eq_mod]
    exact Nat.mod_eq_of_lt hlt
  have a2 : (der.length >>> 8) &&& 0xff = der.length >>> 8 := by
    have : (255 : Nat) = 2 ^ 8 - 1 := by norm_num
    rw [this, Nat.and_pow_two_sub_one_eq_mod]
    exact Nat.mod_eq_of_lt hder
  rw [a1, a2]
  refine ⟨rfl, ?_, rfl, rfl, rfl, rfl, rfl, rfl⟩
  have h1 := bufRead_bufStoreAt newrec.data iWr [toByte (0x09 ||| FLAG_TLV16)]
  rw [hpre] at h1
  have h2 := bufRead_bufStoreAt (bufStoreAt newrec.data iWr [toByte (0x09 ||| FLAG_TLV16)])
    (iWr + 1) [toByte 0x06]
  have h3 := bufRead_bufStoreAt
    (bufStoreAt (bufStoreAt newrec.data iWr [toByte (0x09 ||| FLAG_TLV16)]) (iWr + 1) [toByte 0x06])
    (iWr + 2) [toByte (der.length >>> 8)]
  have h4 := bufRead_bufStoreAt
    (bufStoreAt (bufStoreAt (bufStoreAt newrec.data iWr [toByte (0x09 ||| FLAG_TLV16)]) (iWr + 1)
      [toByte 0x06]) (iWr + 2) [toByte (der.length >>> 8)])
    (iWr + 3) [toByte (der.length &&& 0xff)]
  have h5 := bufRead_bufStoreAt
    (bufStoreAt (bufStoreAt (bufStoreAt (bufStoreAt newrec.data iWr
      [toByte (0x09 ||| FLAG_TLV16)]) (iWr + 1)
      [toByte 0x06]) (iWr + 2) [toByte (der.length >>> 8)])
      (iWr + 3) [toByte (der.length &&& 0xff)])
    (iWr + 4) der
  simp only [List.length_singleton] at h1 h2 h3 h4
  rw [h1] at h2
  rw [h2] at h3
  rw [h3] at h4
  rw [h4] at h5
  rw [bufRead_bufStore_take _ _ _ (by rw [bufRead_length]; omega),
    bufRead_take _ _ _ (by omega), h5]
  have hb : toByte (0x09 ||| FLAG_TLV16) = (0x89 : Byte) := by decide
  have hc : toByte 0x06 = (0x06 : Byte) := by decide
  rw [hb, hc]
  simp only [List.append_assoc, List.singleton_append, List.cons_append, List.nil_append]

/-- The rewrite of `rsksi_extendSig` on a record that begins with five
sub-records. -/
theorem extendSig_rewrite (api : ksiapi) (sig ext : Option KSI_Signature) (rec : tlvrecord_t)
    (ectx : ksierrctx_t) (newrec0 subrec0 : tlvrecord_t)
    (s1 s2 s3 s4 s5 rest der : List Byte) (t1 t2 t3 t4 t5 : Nat) (p1 p2 p3 p4 p5 : List Byte)
    (he : api.KSI_extendSignature sig = (KSI_OK, ext))
    (hs : api.KSI_Signature_serialize ext = (KSI_OK, der))
    (h1 : isTlv s1 t1 p1 = true) (h2 : isTlv s2 t2 p2 = true) (h3 : isTlv s3 t3 p3 = true)
    (h4 : isTlv s4 t4 p4 = true) (h5 : isTlv s5 t5 p5 = true)
    (hd : rec.data = s1 ++ (s2 ++ (s3 ++ (s4 ++ (s5 ++ rest)))))
    (hlen : s1.length + s2.length + s3.length + s4.length + s5.length ≤ rec.tlvlen)
    (hl : rec.tlvlen < 2 ^ 16)
    (hnew : s1.length + s2.length + s3.length + s4.length + 4 + der.length < 2 ^ 16) :
    ∃ rec1 : tlvrecord_t,
      rsksi_extendSig api FLAG_TLV16 sig rec ectx newrec0 subrec0 = (rsgte.success, rec1, ectx) ∧
      rec1.tlvlen = s1.length + s2.length + s3.length + s4.length + 4 + der.length ∧
      bufRead rec1.data rec1.tlvlen
        = s1 ++ (s2 ++ (s3 ++ (s4 ++
            ([0x89, 0x06, toByte (der.length >>> 8), toByte (der.length &&& 0xff)] ++ der)))) ∧
      rec1.tlvtype = rec.tlvtype ∧ rec1.hdr0 = rec.hdr0 ∧ rec1.hdr1 = rec.hdr1 ∧
      rec1.hdr2 = toByte (rec1.tlvlen >>> 8) ∧ rec1.hdr3 = toByte (rec1.tlvlen &&& 0xff) ∧
      rec1.lenHdr = 4 := by
  have dd1 : rec.data.drop 0 = s1 ++ (s2 ++ (s3 ++ (s4 ++ (s5 ++ rest)))) := by
    rw [List.drop_zero, hd]
  have dd2 : rec.data.drop (0 + s1.length) = s2 ++ (s3 ++ (s4 ++ (s5 ++ rest))) := by
    rw [hd, Nat.zero_add, List.drop_left]
  have dd3 : rec.data.drop (0 + s1.length + s2.length) = s3 ++ (s4 ++ (s5 ++ rest)) := by
    rw [← List.drop_drop, dd2, List.drop_left]
  have dd4 : rec.data.drop (0 + s1.length + s2.length + s3.length) = s4 ++ (s5 ++ rest) := by
    rw [← List.drop_drop, dd3, List.drop_left]
  have dd5 : rec.data.drop (0 + s1.length + s2.length + s3.length + s4.length) = s5 ++ rest := by
    rw [← List.drop_drop, dd4, List.drop_left]
  obtain ⟨n1, r1, c1, l1⟩ := tlvDecodeSUBREC_raw rec 0 subrec0 s1 _ t1 p1 h1 dd1 (by omega) hl
  obtain ⟨n2, r2, c2, l2⟩ := tlvDecodeSUBREC_raw rec (0 + s1.length) n1 s2 _ t2 p2 h2 dd2
    (by omega) hl
  obtain ⟨n3, r3, c3, l3⟩ := tlvDecodeSUBREC_raw rec (0 + s1.length + s2.length) n2 s3 _ t3 p3
    h3 dd3 (by omega) hl
  obtain ⟨n4, r4, c4, l4⟩ := tlvDecodeSUBREC_raw rec (0 + s1.length + s2.length + s3.length) n3
    s4 _ t4 p4 h4 dd4 (by omega) hl
  obtain ⟨n5, r5, c5, l5⟩ := tlvDecodeSUBREC_raw rec
    (0 + s1.length + s2.length + s3.length + s4.length) n4 s5 _ t5 p5 h5 dd5 (by omega) hl
  have hp0 : bufRead newrec0.data 0 = [] := rfl
  obtain ⟨w1, q1⟩ := copySubrecToNewrec_spec newrec0 n1 0 [] s1 hp0 c1 l1 (by omega)
  obtain ⟨w2, q2⟩ := copySubrecToNewrec_spec (copySubrecToNewrec newrec0 n1 0).1 n2
    (0 + s1.length) ([] ++ s1) s2 q1 c2 l2 (by omega)
  obtain ⟨w3, q3⟩ := copySubrecToNewrec_spec
    (copySubrecToNewrec (copySubrecToNewrec newrec0 n1 0).1 n2 (0 + s1.length)).1 n3
    (0 + s1.length + s2.length) ([] ++ s1 ++ s2) s3 q2 c3 l3 (by omega)
  obtain ⟨w4, q4⟩ := copySubrecToNewrec_spec
    (copySubrecToNewrec
      (copySubrecToNewrec (copySubrecToNewrec newrec0 n1 0).1 n2 (0 + s1.length)).1 n3
      (0 + s1.length + s2.length)).1 n4
    (0 + s1.length + s2.length + s3.length) ([] ++ s1 ++ s2 ++ s3) s4 q3 c4 l4 (by omega)
  obtain ⟨f1, f2, f3, f4, f5, f6, f7, f8⟩ := extendSigFinish_spec rec
    (copySubrecToNewrec
      (copySubrecToNewrec
        (copySubrecToNewrec (copySubrecToNewrec newrec0 n1 0).1 n2 (0 + s1.length)).1 n3
        (0 + s1.length + s2.length)).1 n4 (0 + s1.length + s2.length + s3.length)).1
    (0 + s1.length + s2.length + s3.length + s4.length) ([] ++ s1 ++ s2 ++ s3 ++ s4) der q4
    (by omega)
  refine ⟨extendSigFinish FLAG_TLV16 rec
    (copySubrecToNewrec
      (copySubrecToNewrec
        (copySubrecToNewrec (copySubrecToNewrec newrec0 n1 0).1 n2 (0 + s1.length)).1 n3
        (0 + s1.length + s2.length)).1 n4 (0 + s1.length + s2.length + s3.length)).1
    (0 + s1.length + s2.length + s3.length + s4.length) der, ?_, ?_, ?_, f3, f4, f5, ?_, ?_, f8⟩
  · unfold rsksi_extendSig
    rw [he]
    simp only [hs, ne_eq, not_true_eq_false, if_false]
    rw [r1]
    simp only
    rw [w1, r2]
    simp only
    rw [w2, r3]
    simp only
    rw [w3, r4]
    simp only
    rw [w4, r5]
  · rw [f1]; omega
  · rw [f1, f2]
    simp only [List.nil_append, List.append_assoc]
  · rw [f6, f1]
  · rw [f7, f1]

/-- On a record that `rsksi_tlvDecodeBLOCK_SIG` accepts, the third sub-record
read of `rsksi_extendSig` is at the end of the payload and fails with
`RSGTE_LEN`; the record is returned as it was. -/
theorem extendSig_blockSig (api : ksiapi) (flag16 : Nat) (sig ext : Option KSI_Signature)
    (rec : tlvrecord_t) (ectx : ksierrctx_t) (newrec0 subrec0 : tlvrecord_t)
    (stack : Nat → tlvrecord_t) (bs : Option block_sig_t) (der : List Byte)
    (hacc : rsksi_tlvDecodeBLOCK_SIG flag16 rec stack = (rsgte.success, bs))
    (he : api.KSI_extendSignature sig = (KSI_OK, ext))
    (hs : api.KSI_Signature_serialize ext = (KSI_OK, der)) :
    (∃ (i1 i2 : Nat) (n1 n2 : tlvrecord_t),
      rsksi_tlvDecodeSUBREC flag16 rec 0 subrec0 = (rsgte.success, i1, n1) ∧
      rsksi_tlvDecodeSUBREC flag16 rec i1 n1 = (rsgte.success, i2, n2) ∧
      (rsksi_tlvDecodeSUBREC flag16 rec i2 n2).1 = rsgte.len) ∧
    rsksi_extendSig api flag16 sig rec ectx newrec0 subrec0 = (rsgte.len, rec, ectx) := by
  unfold rsksi_tlvDecodeBLOCK_SIG rsksi_tlvDecodeREC_COUNT rsksi_tlvDecodeSIG at hacc
  dsimp only at hacc
  rcases ha : rsksi_tlvDecodeSUBREC flag16 rec 0 (stack 0) with ⟨ra, ia, na⟩
  rw [ha] at hacc
  cases ra <;> first | (simp at hacc; done) | skip
  by_cases hc1 : (na.tlvtype = 0x01 ∧ na.tlvlen ≤ 8)
  swap
  · simp only [hc1, not_false_eq_true, if_true] at hacc
    exact absurd (congrArg Prod.fst hacc) (by simp)
  simp only [hc1, and_self, not_true_eq_false, if_false] at hacc
  rcases hb : rsksi_tlvDecodeSUBREC flag16 rec ia (stack 1) with ⟨rb, ib, nb⟩
  rw [hb] at hacc
  cases rb <;> first | (simp at hacc; done) | skip
  by_cases hc2 : nb.tlvtype = 0x0905
  swap
  · simp only [hc2, not_false_eq_true, if_true] at hacc
    exact absurd (congrArg Prod.fst hacc) (by simp)
  simp only [hc2, not_true_eq_false, if_false] at hacc
  by_cases hend1 : ib = rec.tlvlen
  swap
  · simp only [ne_eq, hend1, not_false_eq_true, if_true] at hacc
    exact absurd (congrArg Prod.fst hacc) (by simp)
  -- the reads of rsksi_extendSig
  rcases h1 : rsksi_tlvDecodeSUBREC flag16 rec 0 subrec0 with ⟨r1, i1, n1⟩
  have e1 := tlvDecodeSUBREC_indep flag16 rec 0 subrec0 (stack 0)
  rw [h1, ha] at e1
  simp only at e1
  obtain ⟨e1a, e1b⟩ := e1
  subst e1a e1b
  rcases h2 : rsksi_tlvDecodeSUBREC flag16 rec i1 n1 with ⟨r2, i2, n2⟩
  have e2 := tlvDecodeSUBREC_indep flag16 rec i1 n1 (stack 1)
  rw [h2, hb] at e2
  simp only at e2
  obtain ⟨e2a, e2b⟩ := e2
  subst e2a e2b
  have h3 : ∀ n, rsksi_tlvDecodeSUBREC flag16 rec i2 n = (rsgte.len, i2, n) := by
    intro n
    unfold rsksi_tlvDecodeSUBREC
    rw [if_pos hend1.symm]
  refine ⟨⟨i1, i2, n1, n2, rfl, h2, by rw [h3]⟩, ?_⟩
  unfold rsksi_extendSig
  rw [he]
  simp only [hs, ne_eq, not_true_eq_false, if_false]
  rw [h1]
  simp only
  rw [h2]
  simp only
  rw [h3]

/-- Outside extraction mode the loop of `rsksi_vrfy_nextRec` leaves the three
extractor imprints as they are. -/
theorem nextRecLoop_prev_other (api : ksiapi) (flag16 debug shc : Nat)
    (stack : Nat → Nat → tlvrecord_t) (hs : shc ≠ 1) :
    ∀ (fuel j : Nat) (t : Option KSI_DataHash) (st : vrfyState),
      (nextRecLoop api flag16 debug shc stack fuel j t st).2.2.ksi.x_prev = st.ksi.x_prev ∧
      (nextRecLoop api flag16 debug shc stack fuel j t st).2.2.ksi.x_prevleft
        = st.ksi.x_prevleft ∧
      (nextRecLoop api flag16 debug shc stack fuel j t st).2.2.ksi.x_prevright
        = st.ksi.x_prevright := by
  intro fuel
  induction fuel with
  | zero => intro j t st; exact ⟨rfl, rfl, rfl⟩
  | succ fuel ih =>
    intro j t st
    unfold nextRecLoop
    by_cases hv : st.ksi.roots_valid.getD j 0 = 0
    · rw [if_pos hv]
      exact ⟨rfl, rfl, rfl⟩
    · rw [if_neg hv]
      by_cases ht : t ≠ none
      · rw [if_pos ht, if_neg hs]
        dsimp only
        by_cases hb : st.ksi.bKeepTreeHashes ≠ 0
        · rw [if_pos hb]
          split
          · rename_i sigfp1 nsigfp1 ectx3 heq
            exact ih (j + 1) _ _
          · exact ⟨rfl, rfl, rfl⟩
        · rw [if_neg hb]
          exact ih (j + 1) _ _
      · rw [if_neg ht]
        exact ih (j + 1) t st

/-- In extraction mode a loop of `rsksi_vrfy_nextRec` that ends without an error
leaves `x_prev` and `x_prevleft` as they are; `x_prevright` is the imprint of
the root in the last slot that was combined, if any. -/
theorem nextRecLoop_prev_chain (api : ksiapi) (flag16 debug : Nat)
    (stack : Nat → Nat → tlvrecord_t) :
    ∀ (fuel j : Nat) (tv : KSI_DataHash) (st : vrfyState) (t1 : Option KSI_DataHash)
      (st1 : vrfyState),
      nextRecLoop api flag16 debug 1 stack fuel j (some tv) st = (rsgte.success, t1, st1) →
      st1.ksi.x_prev = st.ksi.x_prev ∧ st1.ksi.x_prevleft = st.ksi.x_prevleft ∧
      (carriesFrom st.ksi.roots_valid j fuel = 0 → st1.ksi.x_prevright = st.ksi.x_prevright) ∧
      (carriesFrom st.ksi.roots_valid j fuel ≠ 0 →
        ∃ k : ksifile, k.hashAlg = st.ksi.hashAlg ∧
          st1.ksi.x_prevright = api.rsksiImprintFromKSI_DataHash k
            (st.ksi.roots_hash.getD (j + carriesFrom st.ksi.roots_valid j fuel - 1) none)) := by
  intro fuel
  induction fuel with
  | zero =>
    intro j tv st t1 st1 h
    simp only [nextRecLoop, Prod.mk.injEq, true_and] at h
    obtain ⟨h1, h2⟩ := h
    subst h1 h2
    exact ⟨rfl, rfl, fun _ => rfl, fun hc => absurd rfl hc⟩
  | succ fuel ih =>
    intro j tv st t1 st1 h
    unfold nextRecLoop at h
    by_cases hv : st.ksi.roots_valid.getD j 0 = 0
    · rw [if_pos hv] at h
      simp only [Prod.mk.injEq, true_and] at h
      obtain ⟨h1, h2⟩ := h
      subst h1 h2
      have hc : carriesFrom st.ksi.roots_valid j (fuel + 1) = 0 := by
        rw [carriesFrom, if_pos hv]
      exact ⟨rfl, rfl, fun _ => rfl, fun hne => absurd hc hne⟩
    · rw [if_neg hv, if_pos (by simp), if_pos rfl] at h
      dsimp only at h
      have hcar : carriesFrom st.ksi.roots_valid j (fuel + 1)
          = carriesFrom st.ksi.roots_valid (j + 1) fuel + 1 := by
        rw [carriesFrom, if_neg hv]
      have key : ∀ S2 : vrfyState,
          S2.ksi = { st.ksi with
                     x_prevright :=
                       api.rsksiImprintFromKSI_DataHash st.ksi (st.ksi.roots_hash.getD j none),
                     roots_valid := st.ksi.roots_valid.set j 0 } →
          ∀ tv2 : KSI_DataHash,
          nextRecLoop api flag16 debug 1 stack fuel (j + 1) (some tv2) S2
            = (rsgte.success, t1, st1) →
          st1.ksi.x_prev = st.ksi.x_prev ∧ st1.ksi.x_prevleft = st.ksi.x_prevleft ∧
          (carriesFrom st.ksi.roots_valid j (fuel + 1) = 0 →
            st1.ksi.x_prevright = st.ksi.x_prevright) ∧
          (carriesFrom st.ksi.roots_valid j (fuel + 1) ≠ 0 →
            ∃ k : ksifile, k.hashAlg = st.ksi.hashAlg ∧
              st1.ksi.x_prevright = api.rsksiImprintFromKSI_DataHash k
                (st.ksi.roots_hash.getD
                  (j + carriesFrom st.ksi.roots_valid j (fuel + 1) - 1) none)) := by
        intro S2 hS2 tv2 hloop
        obtain ⟨a, b, c, d⟩ := ih (j + 1) tv2 S2 t1 st1 hloop
        have h2v : S2.ksi.roots_valid = st.ksi.roots_valid.set j 0 := by rw [hS2]
        rw [h2v, carriesFrom_set st.ksi.roots_valid j 0 fuel (j + 1) (by omega)] at c d
        rw [hS2] at a b c d
        simp only [] at a b c d
        refine ⟨a, b, fun hc => absurd hc (by omega), fun _ => ?_⟩
        by_cases hz : carriesFrom st.ksi.roots_valid (j + 1) fuel = 0
        · refine ⟨st.ksi, rfl, ?_⟩
          rw [c hz, hcar, hz]
          have e : j + (0 + 1) - 1 = j := by omega
          rw [e]
        · obtain ⟨k, hk1, hk2⟩ := d hz
          refine ⟨k, hk1, ?_⟩
          rw [hk2, hcar]
          have e : j + 1 + carriesFrom st.ksi.roots_valid (j + 1) fuel - 1
              = j + (carriesFrom st.ksi.roots_valid (j + 1) fuel + 1) - 1 := by omega
          rw [e]
      by_cases hb : st.ksi.bKeepTreeHashes ≠ 0
      · rw [if_pos hb] at h
        split at h
        · exact key _ rfl _ h
        · rename_i r sigfp1 nsigfp1 ectx3 hne heq
          simp only [Prod.mk.injEq] at h
          exact absurd h.1 hne
      · rw [if_neg hb] at h
        exact key _ rfl _ h

/-- A loop of `rsksi_vrfy_nextRec` that checks no tree hash does not fail. -/
theorem nextRecLoop_nochk (api : ksiapi) (flag16 debug shc : Nat)
    (stack : Nat → Nat → tlvrecord_t) :
    ∀ (fuel j : Nat) (t : Option KSI_DataHash) (st : vrfyState),
      st.ksi.bKeepTreeHashes = 0 →
      (nextRecLoop api flag16 debug shc stack fuel j t st).1 = rsgte.success := by
  intro fuel
  induction fuel with
  | zero => intro j t st _; rfl
  | succ fuel ih =>
    intro j t st hb
    unfold nextRecLoop
    by_cases hv : st.ksi.roots_valid.getD j 0 = 0
    · rw [if_pos hv]
    · rw [if_neg hv]
      by_cases ht : t ≠ none
      · rw [if_pos ht]
        dsimp only
        have hb2 : (if shc = 1 then
            { st.ksi with
              x_prevright :=
                api.rsksiImprintFromKSI_DataHash st.ksi (st.ksi.roots_hash.getD j none) }
            else st.ksi).bKeepTreeHashes = 0 := by
          split <;> exact hb
        rw [if_neg (by rw [hb2]; simp)]
        apply ih
        exact hb2
      · rw [if_neg ht]
        exact ih (j + 1) t st hb

theorem loopEntry_fields (api : ksiapi) (ksi : ksifile) (record : List Byte) (shc : Nat) :
    (loopEntry api ksi record shc).roots_valid = ksi.roots_valid ∧
    (loopEntry api ksi record shc).roots_hash = ksi.roots_hash ∧
    (loopEntry api ksi record shc).nRoots = ksi.nRoots ∧
    (loopEntry api ksi record shc).nRecords = ksi.nRecords ∧
    (loopEntry api ksi record shc).bKeepTreeHashes = ksi.bKeepTreeHashes ∧
    (loopEntry api ksi record shc).bKeepRecordHashes = ksi.bKeepRecordHashes ∧
    (loopEntry api ksi record shc).hashAlg = ksi.hashAlg ∧
    (loopEntry api ksi record shc).x_prevright = ksi.x_prevright ∧
    (shc ≠ 1 → (loopEntry api ksi record shc).x_prevleft = ksi.x_prevleft) := by
  unfold loopEntry
  dsimp only
  by_cases hs : shc = 1
  · rw [if_pos hs]
    exact ⟨rfl, rfl, rfl, rfl, rfl, rfl, rfl, rfl, fun hc => absurd hs hc⟩
  · rw [if_neg hs]
    exact ⟨rfl, rfl, rfl, rfl, rfl, rfl, rfl, rfl, fun _ => rfl⟩

/-- The result of `rsksi_vrfy_nextRec`, step by step: the record-hash check, the
tree-hash check of the leaf, the loop from `loopEntry`, and the append at
`nRoots` with its assertion. -/
theorem vrfy_nextRec_eq (api : ksiapi) (flag16 debug M : Nat) (st : vrfyState)
    (record : List Byte) (shc : Nat) (stack : Nat → Nat → tlvrecord_t) :
    ∃ (r1 : rsgte) (f1 : FILE) (o1 : Option OFILE) (e1 : ksierrctx_t),
      (if st.ksi.bKeepRecordHashes ≠ 0 then
          rsksi_vrfy_chkRecHash api flag16 st.ksi st.sigfp st.nsigfp
            (some (api.hash_r_ksi st.ksi record)) st.ectx (stack 0 0) (fun k => stack 0 (k + 1))
        else (rsgte.success, st.sigfp, st.nsigfp, st.ectx)) = (r1, f1, o1, e1) ∧
      (r1 ≠ rsgte.success →
        rsksi_vrfy_nextRec api flag16 debug M st record shc stack
          = some (r1, { st with sigfp := f1, nsigfp := o1, ectx := e1 })) ∧
      (r1 = rsgte.success →
        ∃ (r2 : rsgte) (f2 : FILE) (o2 : Option OFILE) (e2 : ksierrctx_t),
          (if st.ksi.bKeepTreeHashes ≠ 0 then
              rsksi_vrfy_chkTreeHash api flag16 debug st.ksi f1 o1
                (some (leafHash api st.ksi record))
                { e1 with treeLevel := 0, lefthash := some (api.hash_m_ksi st.ksi),
                          righthash := some (api.hash_r_ksi st.ksi record) }
                (stack 1 0) (fun k => stack 1 (k + 1))
            else (rsgte.success, f1, o1, e1)) = (r2, f2, o2, e2) ∧
          (r2 ≠ rsgte.success →
            rsksi_vrfy_nextRec api flag16 debug M st record shc stack
              = some (r2, { st with sigfp := f2, nsigfp := o2, ectx := e2 })) ∧
          (r2 = rsgte.success →
            ∃ (r3 : rsgte) (t : Option KSI_DataHash) (st3 : vrfyState),
              nextRecLoop api flag16 debug shc stack st.ksi.nRoots 0
                (some (leafHash api st.ksi record))
                { ksi := loopEntry api st.ksi record shc, sigfp := f2, nsigfp := o2, ectx := e2 }
                = (r3, t, st3) ∧
              (r3 ≠ rsgte.success →
                rsksi_vrfy_nextRec api flag16 debug M st record shc stack = some (r3, st3)) ∧
              (r3 = rsgte.success →
                rsksi_vrfy_nextRec api flag16 debug M st record shc stack
                  = if t ≠ none then
                      if st3.ksi.nRoots + 1 < M then
                        some (rsgte.success,
                          { st3 with
                            ksi := { st3.ksi with
                                     roots_hash := st3.ksi.roots_hash.set st3.ksi.nRoots t,
                                     roots_valid := st3.ksi.roots_valid.set st3.ksi.nRoots 1,
                                     nRoots := st3.ksi.nRoots + 1,
                                     nRecords := (st3.ksi.nRecords + 1) % 2 ^ 64 } })
                      else none
                    else
                      some (rsgte.success,
                        { st3 with
                          ksi := { st3.ksi with
                                   nRecords := (st3.ksi.nRecords + 1) % 2 ^ 64 } })))) := by
  unfold rsksi_vrfy_nextRec
  dsimp only
  rcases hR1 : (if st.ksi.bKeepRecordHashes ≠ 0 then
          rsksi_vrfy_chkRecHash api flag16 st.ksi st.sigfp st.nsigfp
            (some (api.hash_r_ksi st.ksi record)) st.ectx (stack 0 0) (fun k => stack 0 (k + 1))
        else (rsgte.success, st.sigfp, st.nsigfp, st.ectx)) with ⟨r1, f1, o1, e1⟩
  refine ⟨r1, f1, o1, e1, rfl, ?_, ?_⟩
  · intro hne
    cases r1 <;> first | exact absurd rfl hne | rfl
  intro hr1
  subst hr1
  simp only []
  unfold leafHash
  rcases hR2 : (if st.ksi.bKeepTreeHashes ≠ 0 then
              rsksi_vrfy_chkTreeHash api flag16 debug st.ksi f1 o1
                (some (api.hash_node_ksi st.ksi (some (api.hash_m_ksi st.ksi))
                  (some (api.hash_r_ksi st.ksi record)) 1))
                { e1 with treeLevel := 0, lefthash := some (api.hash_m_ksi st.ksi),
                          righthash := some (api.hash_r_ksi st.ksi record) }
                (stack 1 0) (fun k => stack 1 (k + 1))
            else (rsgte.success, f1, o1, e1)) with ⟨r2, f2, o2, e2⟩
  refine ⟨r2, f2, o2, e2, rfl, ?_, ?_⟩
  · intro hne
    cases r2 <;> first | exact absurd rfl hne | rfl
  intro hr2
  subst hr2
  simp only []
  generalize hL : nextRecLoop api flag16 debug shc stack (ksifile.nRoots (if shc = 1 then _ else _)) 0 _ _ = L
  have hL2 : nextRecLoop api flag16 debug shc stack (loopEntry api st.ksi record shc).nRoots 0
      (some (leafHash api st.ksi record))
      { ksi := loopEntry api st.ksi record shc, sigfp := f2, nsigfp := o2, ectx := e2 } = L := hL
  rw [(loopEntry_fields api st.ksi record shc).2.2.1] at hL2
  obtain ⟨r3, t, st3⟩ := L
  refine ⟨r3, t, st3, hL2, ?_, ?_⟩
  · intro hne
    cases r3 <;> first | exact absurd rfl hne | rfl
  intro hr3
  subst hr3
  simp only []

/-- Outside extraction mode `rsksi_vrfy_nextRec` leaves `x_prevleft` and
`x_prevright` as they are, whatever it returns. -/
theorem vrfy_nextRec_prev_other {api : ksiapi} {flag16 debug M : Nat} {st st1 : vrfyState}
    {record : List Byte} {shc : Nat} {stack : Nat → Nat → tlvrecord_t} {r : rsgte}
    (h : rsksi_vrfy_nextRec api flag16 debug M st record shc stack = some (r, st1))
    (hs : shc ≠ 1) :
    st1.ksi.x_prevleft = st.ksi.x_prevleft ∧ st1.ksi.x_prevright = st.ksi.x_prevright := by
  obtain ⟨r1, f1, o1, e1, -, hA, hB⟩ := vrfy_nextRec_eq api flag16 debug M st record shc stack
  by_cases hr1 : r1 = rsgte.success
  swap
  · rw [hA hr1] at h
    simp only [Option.some.injEq, Prod.mk.injEq] at h
    obtain ⟨_, h2⟩ := h
    subst h2
    exact ⟨rfl, rfl⟩
  obtain ⟨r2, f2, o2, e2, -, hC, hD⟩ := hB hr1
  by_cases hr2 : r2 = rsgte.success
  swap
  · rw [hC hr2] at h
    simp only [Option.some.injEq, Prod.mk.injEq] at h
    obtain ⟨_, h2⟩ := h
    subst h2
    exact ⟨rfl, rfl⟩
  obtain ⟨r3, t, st3, hL, hE, hF⟩ := hD hr2
  have hp := nextRecLoop_prev_other api flag16 debug shc stack hs st.ksi.nRoots 0
    (some (leafHash api st.ksi record))
    { ksi := loopEntry api st.ksi record shc, sigfp := f2, nsigfp := o2, ectx := e2 }
  rw [hL] at hp
  obtain ⟨-, p2, p3⟩ := hp
  simp only [] at p2 p3
  obtain ⟨-, -, -, -, -, -, -, q1, q2⟩ := loopEntry_fields api st.ksi record shc
  rw [q2 hs] at p2
  rw [q1] at p3
  by_cases hr3 : r3 = rsgte.success
  swap
  · rw [hE hr3] at h
    simp only [Option.some.injEq, Prod.mk.injEq] at h
    obtain ⟨_, h2⟩ := h
    subst h2
    exact ⟨p2, p3⟩
  rw [hF hr3] at h
  by_cases ht : t ≠ none
  · rw [if_pos ht] at h
    by_cases hm : st3.ksi.nRoots + 1 < M
    · rw [if_pos hm] at h
      simp only [Option.some.injEq, Prod.mk.injEq] at h
      obtain ⟨_, h2⟩ := h
      subst h2
      exact ⟨p2, p3⟩
    · rw [if_neg hm] at h
      simp at h
  · rw [if_neg ht] at h
    simp only [Option.some.injEq, Prod.mk.injEq] at h
    obtain ⟨_, h2⟩ := h
    subst h2
    exact ⟨p2, p3⟩

/-- What a successful `rsksi_vrfy_nextRec` leaves behind: the state after the
loop that started from `loopEntry`, with the record counted and, when every
slot was combined, the carry appended at `nRoots`. -/
theorem vrfy_nextRec_success_loop {api : ksiapi} {flag16 debug M : Nat} {st st1 : vrfyState}
    {record : List Byte} {shc : Nat} {stack : Nat → Nat → tlvrecord_t}
    (h : rsksi_vrfy_nextRec api flag16 debug M st record shc stack = some (rsgte.success, st1)) :
    ∃ (f2 : FILE) (o2 : Option OFILE) (e2 : ksierrctx_t) (t : Option KSI_DataHash)
      (st3 : vrfyState),
      nextRecLoop api flag16 debug shc stack st.ksi.nRoots 0
        (some (leafHash api st.ksi record))
        { ksi := loopEntry api st.ksi record shc, sigfp := f2, nsigfp := o2, ectx := e2 }
        = (rsgte.success, t, st3) ∧
      (t ≠ none → st3.ksi.nRoots + 1 < M) ∧
      st1.ksi.x_prev = st3.ksi.x_prev ∧ st1.ksi.x_prevleft = st3.ksi.x_prevleft ∧
      st1.ksi.x_prevright = st3.ksi.x_prevright ∧
      st1.ksi.nRoots = (if t ≠ none then st3.ksi.nRoots + 1 else st3.ksi.nRoots) := by
  obtain ⟨r1, f1, o1, e1, -, hA, hB⟩ := vrfy_nextRec_eq api flag16 debug M st record shc stack
  by_cases hr1 : r1 = rsgte.success
  swap
  · rw [hA hr1] at h
    simp only [Option.some.injEq, Prod.mk.injEq] at h
    exact absurd h.1 hr1
  obtain ⟨r2, f2, o2, e2, -, hC, hD⟩ := hB hr1
  by_cases hr2 : r2 = rsgte.success
  swap
  · rw [hC hr2] at h
    simp only [Option.some.injEq, Prod.mk.injEq] at h
    exact absurd h.1 hr2
  obtain ⟨r3, t, st3, hL, hE, hF⟩ := hD hr2
  by_cases hr3 : r3 = rsgte.success
  swap
  · rw [hE hr3] at h
    simp only [Option.some.injEq, Prod.mk.injEq] at h
    exact absurd h.1 hr3
  subst hr3
  rw [hF rfl] at h
  refine ⟨f2, o2, e2, t, st3, hL, ?_⟩
  by_cases ht : t ≠ none
  · rw [if_pos ht] at h
    by_cases hm : st3.ksi.nRoots + 1 < M
    · rw [if_pos hm] at h
      simp only [Option.some.injEq, Prod.mk.injEq, true_and] at h
      subst h
      exact ⟨fun _ => hm, rfl, rfl, rfl, by rw [if_pos ht]⟩
    · rw [if_neg hm] at h
      simp at h
  · rw [if_neg ht] at h
    simp only [Option.some.injEq, Prod.mk.injEq, true_and] at h
    subst h
    exact ⟨fun hc => absurd hc ht, rfl, rfl, rfl, by rw [if_neg ht]⟩

/-- In extraction mode a successful `rsksi_vrfy_nextRec` has stored the imprint
of the mask hash in `x_prevleft` and the imprint of the leaf hash in `x_prev`;
`x_prevright` is the imprint of the root in the last slot combined, if any. -/
theorem vrfy_nextRec_prev_chain {api : ksiapi} {flag16 debug M : Nat} {st st1 : vrfyState}
    {record : List Byte} {stack : Nat → Nat → tlvrecord_t}
    (h : rsksi_vrfy_nextRec api flag16 debug M st record 1 stack = some (rsgte.success, st1)) :
    st1.ksi.x_prevleft
      = api.rsksiImprintFromKSI_DataHash st.ksi (some (api.hash_m_ksi st.ksi)) ∧
    st1.ksi.x_prev
      = api.rsksiImprintFromKSI_DataHash
          { st.ksi with
            x_prevleft := api.rsksiImprintFromKSI_DataHash st.ksi (some (api.hash_m_ksi st.ksi)) }
          (some (leafHash api st.ksi record)) ∧
    (carries st.ksi = 0 → st1.ksi.x_prevright = st.ksi.x_prevright) ∧
    (carries st.ksi ≠ 0 →
      ∃ k : ksifile, k.hashAlg = st.ksi.hashAlg ∧
        st1.ksi.x_prevright = api.rsksiImprintFromKSI_DataHash k
          (st.ksi.roots_hash.getD (carries st.ksi - 1) none)) := by
  obtain ⟨f2, o2, e2, t, st3, hL, -, a, b, c, -⟩ := vrfy_nextRec_success_loop h
  obtain ⟨p1, p2, p3, p4⟩ := nextRecLoop_prev_chain api flag16 debug stack st.ksi.nRoots 0
    (leafHash api st.ksi record)
    { ksi := loopEntry api st.ksi record 1, sigfp := f2, nsigfp := o2, ectx := e2 } t st3 hL
  simp only [] at p1 p2 p3 p4
  obtain ⟨q1, q2, -, -, -, -, q7, q8, -⟩ := loopEntry_fields api st.ksi record 1
  rw [q1] at p3 p4
  rw [q2, q7, Nat.zero_add] at p4
  rw [q8] at p3
  refine ⟨b.trans p2, a.trans p1, fun hc => c.trans (p3 hc), fun hc => ?_⟩
  obtain ⟨k, hk1, hk2⟩ := p4 hc
  exact ⟨k, hk1, c.trans hk2⟩

/-- A number whose bits below `n` are all set and whose other bits are clear is
`2 ^ n - 1`. -/
theorem succ_eq_pow_of_testBit (k n : Nat) (h1 : ∀ i, i < n → k.testBit i = true)
    (h2 : ∀ i, n ≤ i → k.testBit i = false) : k + 1 = 2 ^ n := by
  have hk : k = 2 ^ n - 1 := by
    apply Nat.eq_of_testBit_eq
    intro i
    rw [Nat.testBit_two_pow_sub_one]
    by_cases hi : i < n
    · rw [h1 i hi]; simp [hi]
    · rw [h2 i (by omega)]; simp [hi]
  have : 0 < 2 ^ n := Nat.pow_pos (by decide)
  omega

theorem carriesFrom_full (valid : List Nat) (n : Nat) (h : ∀ i, i < n → valid.getD i 0 ≠ 0) :
    carriesFrom valid 0 n = n := by
  have hle := carriesFrom_le valid n 0
  by_contra hc
  have hlt : carriesFrom valid 0 n < n := by omega
  have := (carriesFrom_spec valid n 0).2 hlt
  rw [Nat.zero_add] at this
  exact h _ hlt this

/-- The assertion of `rsksi_vrfy_nextRec` and the forest: the call can only be
stopped by the assertion when every slot below `nRoots` is valid and `nRoots + 1`
is not below `MAX_ROOTS`; in that case it does not return success, and it is
stopped when no hash is checked. -/
theorem vrfy_nextRec_assert (api : ksiapi) (flag16 debug M : Nat) (st : vrfyState)
    (record : List Byte) (shc : Nat) (stack : Nat → Nat → tlvrecord_t)
    (hv : st.ksi.roots_valid.length = M) (hn : st.ksi.nRoots ≤ M) :
    (rsksi_vrfy_nextRec api flag16 debug M st record shc stack = none →
      carries st.ksi = st.ksi.nRoots ∧ ¬ (st.ksi.nRoots + 1 < M)) ∧
    (carries st.ksi = st.ksi.nRoots → ¬ (st.ksi.nRoots + 1 < M) →
      (∀ st1, rsksi_vrfy_nextRec api flag16 debug M st record shc stack
        ≠ some (rsgte.success, st1)) ∧
      (st.ksi.bKeepRecordHashes = 0 → st.ksi.bKeepTreeHashes = 0 →
        rsksi_vrfy_nextRec api flag16 debug M st record shc stack = none)) := by
  obtain ⟨q1, -, q3, -, q5, -, -, -, -⟩ := loopEntry_fields api st.ksi record shc
  have hloop : ∀ (f2 : FILE) (o2 : Option OFILE) (e2 : ksierrctx_t) (t : Option KSI_DataHash)
      (st3 : vrfyState),
      nextRecLoop api flag16 debug shc stack st.ksi.nRoots 0
        (some (leafHash api st.ksi record))
        { ksi := loopEntry api st.ksi record shc, sigfp := f2, nsigfp := o2, ectx := e2 }
        = (rsgte.success, t, st3) →
      st3.ksi.nRoots = st.ksi.nRoots ∧ (t = none ↔ carries st.ksi < st.ksi.nRoots) := by
    intro f2 o2 e2 t st3 hL
    obtain ⟨⟨a1, -⟩, b, -⟩ := nextRecLoop_success api flag16 debug shc stack st.ksi.nRoots 0
      (leafHash api st.ksi record)
      { ksi := loopEntry api st.ksi record shc, sigfp := f2, nsigfp := o2, ectx := e2 } t st3 hL
      (by simp only []; rw [q1, hv]; omega)
    simp only [] at a1 b
    rw [q3] at a1
    rw [q1] at b
    exact ⟨a1, b⟩
  have hcle : carries st.ksi ≤ st.ksi.nRoots := carriesFrom_le _ _ _
  obtain ⟨r1, f1, o1, e1, hR1, hA, hB⟩ := vrfy_nextRec_eq api flag16 debug M st record shc stack
  refine ⟨fun hnone => ?_, fun hc hm => ⟨fun st1 hsome => ?_, fun hb1 hb2 => ?_⟩⟩
  · by_cases hr1 : r1 = rsgte.success
    swap
    · rw [hA hr1] at hnone; simp at hnone
    obtain ⟨r2, f2, o2, e2, -, hC, hD⟩ := hB hr1
    by_cases hr2 : r2 = rsgte.success
    swap
    · rw [hC hr2] at hnone; simp at hnone
    obtain ⟨r3, t, st3, hL, hE, hF⟩ := hD hr2
    by_cases hr3 : r3 = rsgte.success
    swap
    · rw [hE hr3] at hnone; simp at hnone
    subst hr3
    rw [hF rfl] at hnone
    obtain ⟨n3, ht⟩ := hloop f2 o2 e2 t st3 hL
    by_cases htn : t ≠ none
    · rw [if_pos htn] at hnone
      by_cases hm : st3.ksi.nRoots + 1 < M
      · rw [if_pos hm] at hnone; simp at hnone
      · rw [n3] at hm
        refine ⟨?_, hm⟩
        by_contra hcc
        exact htn (ht.mpr (by omega))
    · rw [if_neg htn] at hnone; simp at hnone
  · obtain ⟨f2, o2, e2, t, st3, hL, hlt, -⟩ := vrfy_nextRec_success_loop hsome
    obtain ⟨n3, ht⟩ := hloop f2 o2 e2 t st3 hL
    have htn : t ≠ none := fun hcc => by
      have := ht.mp hcc
      omega
    have := hlt htn
    rw [n3] at this
    exact hm this
  · have g1 : r1 = rsgte.success := by
      rw [if_neg (by simp [hb1])] at hR1
      simp only [Prod.mk.injEq] at hR1
      exact hR1.1.symm
    obtain ⟨r2, f2, o2, e2, hR2, hC, hD⟩ := hB g1
    have g2 : r2 = rsgte.success := by
      rw [if_neg (by simp [hb2])] at hR2
      simp only [Prod.mk.injEq] at hR2
      exact hR2.1.symm
    obtain ⟨r3, t, st3, hL, hE, hF⟩ := hD g2
    have g3 : r3 = rsgte.success := by
      have := nextRecLoop_nochk api flag16 debug shc stack st.ksi.nRoots 0
        (some (leafHash api st.ksi record))
        { ksi := loopEntry api st.ksi record shc, sigfp := f2, nsigfp := o2, ectx := e2 }
        (by simp only []; rw [q5]; exact hb2)
      rw [hL] at this
      exact this
    subst g3
    rw [hF rfl]
    obtain ⟨n3, ht⟩ := hloop f2 o2 e2 t st3 hL
    have htn : t ≠ none := fun hcc => by
      have := ht.mp hcc
      omega
    rw [if_pos htn, if_neg (by rw [n3]; exact hm)]

/-- Successive successful appends keep the number of valid flags and keep
`nRoots` below `MAX_ROOTS`. -/
theorem vrfyRecords_bounds (api : ksiapi) (flag16 debug M shc : Nat)
    (stack : Nat → Nat → Nat → tlvrecord_t) :
    ∀ (records : List (List Byte)) (st st1 : vrfyState) (leaves : List KSI_DataHash),
      vrfyRecords api flag16 debug M shc stack records st = some (st1, leaves) →
      st.ksi.roots_valid.length = M → st.ksi.nRoots < M →
      st1.ksi.roots_valid.length = M ∧ st1.ksi.nRoots < M := by
  intro records
  induction records with
  | nil =>
    intro st st1 leaves h hv hn
    simp only [vrfyRecords, Option.some.injEq, Prod.mk.injEq] at h
    obtain ⟨a, -⟩ := h
    subst a
    exact ⟨hv, hn⟩
  | cons record rest ih =>
    intro st st2 leaves h hv hn
    obtain ⟨st1, lv, hstep, hrest, -⟩ := vrfyRecords_cons h
    obtain ⟨f1, -⟩ := vrfy_nextRec_forest hstep hv (by omega)
    obtain ⟨f2, o2, e2, t, st3, hL, hlt, -, -, -, hnr⟩ := vrfy_nextRec_success_loop hstep
    obtain ⟨⟨a1, -⟩, -⟩ := nextRecLoop_success api flag16 debug shc (stack rest.length)
      st.ksi.nRoots 0 (leafHash api st.ksi record)
      { ksi := loopEntry api st.ksi record shc, sigfp := f2, nsigfp := o2, ectx := e2 } t st3 hL
      (by simp only []; rw [(loopEntry_fields api st.ksi record shc).1, hv]; omega)
    simp only [] at a1
    rw [(loopEntry_fields api st.ksi record shc).2.2.1] at a1
    have hn1 : st1.ksi.nRoots < M := by
      rw [hnr]
      by_cases ht : t ≠ none
      · rw [if_pos ht]; exact hlt ht
      · rw [if_neg ht, a1]; exact hn
    exact ih st1 st2 lv hrest f1 hn1

/-- The capacity of the forest.  From an empty forest of `MAX_ROOTS` slots, `k`
successful appends keep `nRoots` below `MAX_ROOTS` and imply `k < 2 ^ (MAX_ROOTS - 1)`;
the next append is not stopped by the assertion when `k + 1 < 2 ^ (MAX_ROOTS - 1)`, and
for `k + 1 = 2 ^ (MAX_ROOTS - 1)` it does not return success and is stopped by
the assertion when no hash is checked. -/
theorem vrfyRecords_capacity (api : ksiapi) (flag16 debug M shc : Nat)
    (stack : Nat → Nat → Nat → tlvrecord_t) (records : List (List Byte))
    (st st1 : vrfyState) (leaves : List KSI_DataHash)
    (h : vrfyRecords api flag16 debug M shc stack records st = some (st1, leaves))
    (hM : 0 < M) (hv : st.ksi.roots_valid.length = M)
    (hz : ∀ j, st.ksi.roots_valid.getD j 0 = 0) (hn : st.ksi.nRoots = 0) :
    st1.ksi.nRoots < M ∧ records.length < 2 ^ (M - 1) ∧
    (∀ (record : List Byte) (shc1 : Nat) (stk : Nat → Nat → tlvrecord_t),
      (records.length + 1 < 2 ^ (M - 1) →
        rsksi_vrfy_nextRec api flag16 debug M st1 record shc1 stk ≠ none) ∧
      (records.length + 1 = 2 ^ (M - 1) →
        (∀ st2, rsksi_vrfy_nextRec api flag16 debug M st1 record shc1 stk
          ≠ some (rsgte.success, st2)) ∧
        (st1.ksi.bKeepRecordHashes = 0 → st1.ksi.bKeepTreeHashes = 0 →
          rsksi_vrfy_nextRec api flag16 debug M st1 record shc1 stk = none))) := by
  obtain ⟨_, a, b, c⟩ := vrfyRecords_occupancy api flag16 debug M shc stack records st st1
    leaves 0 h hv (by omega) (fun i => ⟨fun hc => absurd (hz i) hc, fun hc => by simp at hc⟩)
    (fun i _ => Nat.zero_testBit i) (fun hz0 => absurd hn hz0)
  rw [Nat.zero_add] at a b c
  obtain ⟨hv1, hn1⟩ := vrfyRecords_bounds api flag16 debug M shc stack records st st1 leaves h hv
    (by omega)
  have hsize : Nat.size records.length = st1.ksi.nRoots :=
    size_of_testBit records.length st1.ksi.nRoots b c
  have hlt : records.length < 2 ^ st1.ksi.nRoots := by
    rw [← hsize]; exact Nat.lt_size_self _
  have hpow : 2 ^ st1.ksi.nRoots ≤ 2 ^ (M - 1) :=
    Nat.pow_le_pow_right (by decide) (by omega)
  refine ⟨hn1, by omega, fun record shc1 stk => ?_⟩
  obtain ⟨A, B⟩ := vrfy_nextRec_assert api flag16 debug M st1 record shc1 stk hv1 (by omega)
  refine ⟨fun hk hnone => ?_, fun hk => ?_⟩
  · obtain ⟨hc, hm⟩ := A hnone
    have hbits : ∀ i, i < st1.ksi.nRoots → records.length.testBit i = true := by
      intro i hi
      have := (carriesFrom_spec st1.ksi.roots_valid st1.ksi.nRoots 0).1 i (Nat.zero_le i)
        (by rw [Nat.zero_add]; unfold carries at hc; rw [hc]; exact hi)
      exact (a i).mp this
    have he := succ_eq_pow_of_testBit records.length st1.ksi.nRoots hbits b
    have hge : M - 1 ≤ st1.ksi.nRoots := by omega
    have := Nat.pow_le_pow_right (show 0 < 2 by decide) hge
    omega
  · have hnr : st1.ksi.nRoots = M - 1 := by
      by_contra hne
      have h2 : st1.ksi.nRoots + 1 ≤ M - 1 := by omega
      have := Nat.pow_le_pow_right (show 0 < 2 by decide) h2
      have h3 : 2 ^ (st1.ksi.nRoots + 1) = 2 * 2 ^ st1.ksi.nRoots := by
        rw [Nat.pow_succ]; omega
      have hpos : 0 < 2 ^ st1.ksi.nRoots := Nat.pow_pos (by decide)
      -- records.length + 1 = 2 ^ (M - 1) ≥ 2 * 2 ^ nRoots > records.length + 1
      omega
    have hbits : ∀ i, i < st1.ksi.nRoots → records.length.testBit i = true := by
      intro i hi
      have hk2 : records.length = 2 ^ (M - 1) - 1 := by omega
      rw [hk2, Nat.testBit_two_pow_sub_one]
      simp; omega
    have hc : carries st1.ksi = st1.ksi.nRoots :=
      carriesFrom_full _ _ (fun i hi => (a i).mpr (hbits i hi))
    exact B hc (by omega)

theorem CHKrDecode_success (fp : OFILE) (next : OFILE → Option (rsgte × OFILE)) :
    CHKrDecode (some (rsgte.success, fp)) next = next fp := rfl

/-- A short-form record as the header writer and the payload writes produce it. -/
theorem isTlv_short (t : Nat) (payload : List Byte) (ht : t < 32) (hl : payload.length < 256) :
    isTlv (toByte t :: toByte (payload.length &&& 0xff) :: payload) t payload = true := by
  unfold isTlv
  have h0 : (toByte t).val = t := toByte_of_lt (by omega)
  have h1 : (toByte (payload.length &&& 0xff)).val = payload.length := by
    rw [and_ff, Nat.mod_eq_of_lt hl]; exact toByte_of_lt hl
  simp only [h0, h1]
  rw [if_pos (and_80_of_lt (by omega)), and_1f, Nat.mod_eq_of_lt ht]
  simp

/-- A long-form record of type 0x0907. -/
theorem isTlv_chain (payload : List Byte) (hl : payload.length < 2 ^ 16) :
    isTlv (0x89 :: 0x07 :: toByte (payload.length >>> 8) :: toByte (payload.length &&& 0xff)
      :: payload) 0x0907 payload = true := by
  unfold isTlv
  have h1 : (toByte (payload.length &&& 0xff)).val = payload.length % 256 := by
    rw [and_ff]; exact toByte_of_lt (Nat.mod_lt _ (by decide))
  have h2 : (toByte (payload.length >>> 8)).val = payload.length / 256 := by
    rw [Nat.shiftRight_eq_div_pow]
    exact toByte_of_lt (by
      have : payload.length < 65536 := hl
      omega)
  have h3 : ((0x89 : Byte).val &&& 0x80 = 0) = False := by decide
  simp only [h1, h2]
  rw [if_neg (by decide)]
  simp only [decide_eq_true_eq]
  refine ⟨by decide, by omega, trivial⟩

/-- The imprint child that `rsksi_StartHashChain` and `rsksi_AddRightToHashChain`
write for an imprint with a digest of fewer than 255 octets. -/
theorem writeImprintChild_ok (fp : OFILE) (t : Nat) (a : Byte) (d : List Byte)
    (next : OFILE → Option (rsgte × OFILE)) (ht : t < 32)
    (hr : 3 + d.length ≤ fp.room) :
    writeImprintChild FLAG_TLV16 fp t { hashID := a, len := d.length, data := some d } next
      = next { content := fp.content
                 ++ (toByte t :: toByte ((a :: d).length &&& 0xff) :: (a :: d)),
               room := fp.room - (3 + d.length) } := by
  unfold writeImprintChild
  dsimp only
  rw [tlv8Write_ok fp t _ ht (by omega), CHKrDecode_success,
    addOctet_ok _ _ (by simp only []; omega), CHKrDecode_success]
  have := addOctetString_ok d
    { content := fp.content ++ [toByte t, toByte ((1 + d.length) &&& 0xff)] ++ [toByte a.val],
      room := fp.room - 2 - 1 } (by simp only []; omega)
  simp only [Option.getD_some]
  rw [this, CHKrDecode_success]
  congr 2
  · simp only [List.append_assoc, List.cons_append, List.nil_append, List.length_cons,
      toByte_val, List.singleton_append]
    rw [Nat.add_comm d.length 1]
  · simp only []; omega

theorem octetSize_small (n : Nat) (h : n < 256) : rsksi_tlvGetInt64OctetSize n % 2 ^ 8 = 1 := by
  rw [octetSize_eq n (by omega)]
  rw [if_neg (by omega), if_neg (by omega), if_neg (by omega), if_neg (by omega),
    if_neg (by omega), if_neg (by omega), if_neg (by omega)]
  rfl

theorem octetSize_small1 (n : Nat) (h : n < 256) : rsksi_tlvGetInt64OctetSize n = 1 := by
  rw [octetSize_eq n (by omega)]
  rw [if_neg (by omega), if_neg (by omega), if_neg (by omega), if_neg (by omega),
    if_neg (by omega), if_neg (by omega), if_neg (by omega)]

theorem imprintChild_length (t : Nat) (a : Byte) (d : List Byte) :
    (imprintChild t a d).length = 3 + d.length := by
  simp only [imprintChild, List.length_cons]; omega

theorem hashStep_length (t : Nat) (lc a : Byte) (d : List Byte) :
    (hashStep t lc a d).length = 8 + d.length := by
  simp only [hashStep, imprintChild, List.length_cons, List.length_append, List.length_nil]; omega

/-- A step of a hash chain as the writers produce it: the header with the length
`2 + tlvlenLevelCorr + 2 + 1 + len`, the level correction and the sibling
imprint. -/
theorem writeStep_ok (fp : OFILE) (t v : Nat) (a : Byte) (d : List Byte)
    (next : OFILE → Option (rsgte × OFILE)) (ht : t < 32) (hv : v < 256)
    (hr : 8 + d.length ≤ fp.room) :
    (CHKrDecode (rsksi_tlv8Write FLAG_TLV16 fp 0x00 t (2 + 1 + 2 + 1 + d.length)) fun fp1 =>
      CHKrDecode (rsksi_tlv8Write FLAG_TLV16 fp1 0x00 0x01 1) fun fp2 =>
      CHKrDecode (some (rsksi_tlvfileAddInt64 fp2 v)) fun fp3 =>
      writeImprintChild FLAG_TLV16 fp3 0x02 { hashID := a, len := d.length, data := some d } next)
      = next { content := fp.content ++ hashStep t (toByte v) a d,
               room := fp.room - (8 + d.length) } := by
  rw [tlv8Write_ok fp t _ ht (by omega), CHKrDecode_success]
  rw [tlv8Write_ok _ 0x01 _ (by decide) (by simp only []; omega), CHKrDecode_success]
  rw [addInt64_ok _ _ v (by omega) (by rw [octetSize_small1 v hv]; simp only []; omega),
    CHKrDecode_success]
  rw [writeImprintChild_ok _ 0x02 a d next (by decide)
    (by simp only []; rw [octetSize_small1 v hv]; omega)]
  congr 2
  · rw [octetSize_small1 v hv]
    simp only [hashStep, imprintChild, beBytes, List.append_assoc, List.cons_append,
      List.nil_append, List.length_cons, List.length_append, List.length_nil,
      Nat.mul_zero, Nat.shiftRight_zero]
    have e : 2 + 1 + 2 + 1 + d.length = d.length + 1 + 1 + 1 + (0 + 1 + 1 + 1) := by omega
    rw [e]
    rfl
  · simp only []
    rw [octetSize_small1 v hv]
    omega

/-- What `rsksi_StartHashChain` writes when the three extractor imprints are set:
the long-form header of type 0x0907 with the total length, the record hash and
the left step with level correction 0. -/
theorem startHashChain_ok (out : OFILE) (ksi : ksifile) (n : Nat) (a1 a2 : Byte)
    (d1 d2 : List Byte) (pr : imprint_t)
    (hp : ksi.x_prev = some { hashID := a1, len := d1.length, data := some d1 })
    (hl : ksi.x_prevleft = some { hashID := a2, len := d2.length, data := some d2 })
    (hr : ksi.x_prevright = some pr)
    (hn : ksi.nRoots < 256)
    (hlen : 4 + 2 + 1 + d1.length + 2 + 1 + 2 + 1 + d2.length + (2 + 1 + 2 + 1 + pr.len) * n
      < 2 ^ 16)
    (hroom : 4 + (3 + d1.length) + (8 + d2.length) ≤ out.room) :
    rsksi_StartHashChain FLAG_TLV16 out ksi n
      = some (rsgte.success,
          { content := out.content
              ++ ([0x89, 0x07,
                    toByte ((4 + 2 + 1 + d1.length + 2 + 1 + 2 + 1 + d2.length
                      + (2 + 1 + 2 + 1 + pr.len) * n) >>> 8),
                    toByte ((4 + 2 + 1 + d1.length + 2 + 1 + 2 + 1 + d2.length
                      + (2 + 1 + 2 + 1 + pr.len) * n) &&& 0xff)]
                  ++ (imprintChild 0x01 a1 d1 ++ hashStep 0x02 0 a2 d2)),
            room := out.room - (4 + (3 + d1.length) + (8 + d2.length)) }) := by
  unfold rsksi_StartHashChain
  rw [hl, hp]
  simp only []
  rw [hr]
  simp only []
  rw [octetSize_small ksi.nRoots hn]
  rw [Nat.mod_eq_of_lt (show 4 + 2 + 1 + d1.length + 2 + 1 + 2 + 1 + d2.length
      + (2 + 1 + 2 + 1 + pr.len) * n < 2 ^ 32 by omega)]
  rw [tlv16Write_ok out 0x0907 _ (by decide) hlen (by omega), CHKrDecode_success]
  rw [writeImprintChild_ok _ 0x01 a1 d1 _ (by decide) (by simp only []; omega)]
  rw [writeStep_ok _ 0x02 0 a2 d2 _ (by decide) (by decide) (by simp only []; omega)]
  simp only [Option.some.injEq, Prod.mk.injEq, true_and]
  congr 1
  · simp only [List.append_assoc, imprintChild, List.cons_append, List.nil_append]
    rfl
  · omega

/-- What `rsksi_AddRightToHashChain` writes when `x_prevright` is set: the right
step with the level correction given. -/
theorem addRightToHashChain_ok (out : OFILE) (ksi : ksifile) (v : Nat) (a3 : Byte)
    (d3 : List Byte)
    (hr : ksi.x_prevright = some { hashID := a3, len := d3.length, data := some d3 })
    (hv : v < 256) (hroom : 8 + d3.length ≤ out.room) :
    rsksi_AddRightToHashChain FLAG_TLV16 out ksi v
      = some (rsgte.success,
          { content := out.content ++ hashStep 0x03 (toByte v) a3 d3,
            room := out.room - (8 + d3.length) }) := by
  unfold rsksi_AddRightToHashChain
  rw [hr]
  simp only []
  rw [octetSize_small v hv]
  rw [writeStep_ok _ 0x03 v a3 d3 _ (by decide) hv hroom]

/-- Reading and decoding a well-formed hash-chain record: `rsksi_tlvrd` returns
success, the stream is right after the record, and the object is the chain that
the record holds (as `rsksi_tlvDecodeHASH_CHAIN` delivers it). -/
theorem tlvrd_chain_obj (dl : Byte → Nat) (fp : FILE) (rec0 : tlvrecord_t) (obj0 : Option tlvobj)
    (stack : Nat → tlvrecord_t) (enc e1 e2 e3 rest : List Byte)
    (a1 : Byte) (d1 : List Byte) (l2 s2 : List Byte) (lc2 a2 : Byte) (d2 : List Byte)
    (l3 s3 : List Byte) (lc3 a3 : Byte) (d3 : List Byte)
    (hwf : (sigRec.hashChain enc e1 e2 e3 a1 d1 l2 s2 lc2 a2 d2 l3 s3 lc3 a3 d3).wf dl = true)
    (hd : fp.content.drop fp.pos = enc ++ rest) :
    ∃ nr : tlvrecord_t,
      rsksi_tlvrd FLAG_TLV16 dl fp rec0 obj0 stack
        = (rsgte.success, { fp with pos := fp.pos + enc.length }, nr,
            some (tlvobj.hashChain
              { rec_hash := { hashID := a1, len := d1.length, data := some d1 },
                left_link :=
                  { level_corr := lc2,
                    sib_hash := { hashID := a2, len := d2.length, data := some d2 } },
                right_link :=
                  { level_corr := lc3,
                    sib_hash := { hashID := a3, len := d3.length, data := some d3 } } })) ∧
      nr.tlvtype = 0x0907 ∧ nr.tlvlen = (e1 ++ (e2 ++ e3)).length ∧
      rsksi_tlvRecRead FLAG_TLV16 fp rec0
        = (rsgte.success, { fp with pos := fp.pos + enc.length }, nr) ∧
      rsksi_tlvDecodeHASH_CHAIN FLAG_TLV16 dl nr stack
        = (rsgte.success,
            some { rec_hash := { hashID := a1, len := d1.length, data := some d1 },
                   left_link :=
                     { level_corr := lc2,
                       sib_hash := { hashID := a2, len := d2.length, data := some d2 } },
                   right_link :=
                     { level_corr := lc3,
                       sib_hash := { hashID := a3, len := d3.length, data := some d3 } } }) := by
  simp only [sigRec.wf, Bool.and_eq_true, decide_eq_true_eq] at hwf
  obtain ⟨⟨⟨⟨⟨⟨⟨⟨⟨⟨henc, h1⟩, hd1⟩, h2⟩, hl2⟩, hs2⟩, hd2⟩, h3⟩, hl3⟩, hs3⟩, hd3⟩ := hwf
  have hne : e1 ++ (e2 ++ e3) ≠ [] := by
    have := (isTlv_length e1 _ _ h1).2
    intro hc
    have := congrArg List.length hc
    simp only [List.length_append, List.length_nil] at this
    omega
  obtain ⟨nr, hr, ht, hlen, hdata⟩ :=
    tlvRecRead_isTlv fp rec0 enc rest 0x0907 (e1 ++ (e2 ++ e3)) henc hne hd
  have hdata2 : nr.data = e1 ++ (e2 ++ (e3 ++ rec0.data.drop (e1 ++ (e2 ++ e3)).length)) := by
    rw [hdata, bufStore, List.append_assoc, List.append_assoc]
  have hlen2 : e1.length + e2.length + e3.length ≤ nr.tlvlen := by
    rw [hlen]; simp only [List.length_append]; omega
  have hl : nr.tlvlen < 2 ^ 16 := by rw [hlen]; exact (isTlv_length enc _ _ henc).1
  have hn1 : nr.tlvtype ≠ 0x0901 := by rw [ht]; decide
  have hn2 : ¬ (nr.tlvtype = 0x0902 ∨ nr.tlvtype = 0x0903) := by rw [ht]; decide
  have hn3 : nr.tlvtype ≠ 0x0904 := by rw [ht]; decide
  have hn4 : nr.tlvtype ≠ 0x0905 := by rw [ht]; decide
  have hdec := tlvDecodeHASH_CHAIN_isTlv dl nr stack e1 e2 e3 _ a1 d1 0x02 l2 s2 lc2 a2 d2 0x03
    l3 s3 lc3 a3 d3 h1 hd1 h2 hl2 hs2 hd2 h3 hl3 hs3 hd3 hdata2 hlen2 hl
  have hc : rsksi_tlvRecDecode FLAG_TLV16 dl nr obj0 stack
      = (rsgte.success,
          some (tlvobj.hashChain
            { rec_hash := { hashID := a1, len := d1.length, data := some d1 },
              left_link :=
                { level_corr := lc2,
                  sib_hash := { hashID := a2, len := d2.length, data := some d2 } },
              right_link :=
                { level_corr := lc3,
                  sib_hash := { hashID := a3, len := d3.length, data := some d3 } } })) := by
    unfold rsksi_tlvRecDecode
    rw [if_neg hn1, if_neg hn2, if_neg hn3, if_neg hn4, if_pos ht, hdec]
    rfl
  refine ⟨nr, ?_, ht, hlen, hr, hdec⟩
  unfold rsksi_tlvrd
  rw [hr]
  simp only
  rw [hc]

/-- The record that the two hash-chain writers produce is well-formed. -/
theorem chainRecord_wf (dl : Byte → Nat) (a1 a2 a3 lc3 : Byte) (d1 d2 d3 : List Byte)
    (h1 : d1.length = dl a1) (h2 : d2.length = dl a2) (h3 : d3.length = dl a3)
    (b1 : d1.length < 250) (b2 : d2.length < 250) (b3 : d3.length < 250) :
    (sigRec.hashChain (chainRecord (chainPayload a1 d1 a2 d2 lc3 a3 d3))
      (imprintChild 0x01 a1 d1) (hashStep 0x02 0 a2 d2) (hashStep 0x03 lc3 a3 d3) a1 d1
      [0x01, 0x01, 0] (imprintChild 0x02 a2 d2) 0 a2 d2
      [0x01, 0x01, lc3] (imprintChild 0x02 a3 d3) lc3 a3 d3).wf dl = true := by
  have i1 : isTlv (imprintChild 0x01 a1 d1) 0x01 (a1 :: d1) = true :=
    isTlv_short 0x01 (a1 :: d1) (by decide) (by simp only [List.length_cons]; omega)
  have i2 : isTlv (imprintChild 0x02 a2 d2) 0x02 (a2 :: d2) = true :=
    isTlv_short 0x02 (a2 :: d2) (by decide) (by simp only [List.length_cons]; omega)
  have i3 : isTlv (imprintChild 0x02 a3 d3) 0x02 (a3 :: d3) = true :=
    isTlv_short 0x02 (a3 :: d3) (by decide) (by simp only [List.length_cons]; omega)
  have s2 : isTlv (hashStep 0x02 0 a2 d2) 0x02 ([0x01, 0x01, 0] ++ imprintChild 0x02 a2 d2)
      = true :=
    isTlv_short 0x02 _ (by decide)
      (by simp only [List.length_append, List.length_cons, List.length_nil,
            imprintChild_length]; omega)
  have s3 : isTlv (hashStep 0x03 lc3 a3 d3) 0x03 ([0x01, 0x01, lc3] ++ imprintChild 0x02 a3 d3)
      = true :=
    isTlv_short 0x03 _ (by decide)
      (by simp only [List.length_append, List.length_cons, List.length_nil,
            imprintChild_length]; omega)
  have l2 : isTlv [0x01, 0x01, (0 : Byte)] 0x01 [0] = true := by decide
  have l3 : isTlv [0x01, 0x01, lc3] 0x01 [lc3] = true := by
    unfold isTlv
    simp
  have hp : isTlv (chainRecord (chainPayload a1 d1 a2 d2 lc3 a3 d3)) 0x0907
      (imprintChild 0x01 a1 d1 ++ (hashStep 0x02 0 a2 d2 ++ hashStep 0x03 lc3 a3 d3)) = true :=
    isTlv_chain _ (by
      simp only [chainPayload, List.length_append, imprintChild_length, hashStep_length]
      omega)
  simp only [sigRec.wf, Bool.and_eq_true, decide_eq_true_eq]
  exact ⟨⟨⟨⟨⟨⟨⟨⟨⟨⟨hp, i1⟩, h1⟩, s2⟩, l2⟩, i2⟩, h2⟩, s3⟩, l3⟩, i3⟩, h3⟩

theorem chainPayload_length (a1 a2 a3 lc3 : Byte) (d1 d2 d3 : List Byte) :
    (chainPayload a1 d1 a2 d2 lc3 a3 d3).length
      = 4 + 2 + 1 + d1.length + 2 + 1 + 2 + 1 + d2.length + (2 + 1 + 2 + 1 + d3.length) * 1 := by
  simp only [chainPayload, List.length_append, imprintChild_length, hashStep_length]
  omega

/-- The octets that `rsksi_StartHashChain` with one right link and one
`rsksi_AddRightToHashChain` write: one record of type 0x0907 whose payload is
the record hash, the left step with level correction 0 and the right step. -/
theorem hashChain_written (out : OFILE) (ksi : ksifile) (v : Nat) (a1 a2 a3 : Byte)
    (d1 d2 d3 : List Byte)
    (hp : ksi.x_prev = some { hashID := a1, len := d1.length, data := some d1 })
    (hl : ksi.x_prevleft = some { hashID := a2, len := d2.length, data := some d2 })
    (hr : ksi.x_prevright = some { hashID := a3, len := d3.length, data := some d3 })
    (hn : ksi.nRoots < 256) (hv : v < 256)
    (b1 : d1.length < 250) (b2 : d2.length < 250) (b3 : d3.length < 250)
    (hroom : 4 + (3 + d1.length) + (8 + d2.length) + (8 + d3.length) ≤ out.room) :
    ∃ out1 out2 : OFILE,
      rsksi_StartHashChain FLAG_TLV16 out ksi 1 = some (rsgte.success, out1) ∧
      rsksi_AddRightToHashChain FLAG_TLV16 out1 ksi v = some (rsgte.success, out2) ∧
      out2.content = out.content ++ chainRecord (chainPayload a1 d1 a2 d2 (toByte v) a3 d3) := by
  have hs := startHashChain_ok out ksi 1 a1 a2 d1 d2 _ hp hl hr hn (by simp only []; omega)
    (by omega)
  refine ⟨_, _, hs, addRightToHashChain_ok _ ksi v a3 d3 hr hv (by simp only []; omega), ?_⟩
  have e := chainPayload_length a1 a2 a3 (toByte v) d1 d2 d3
  simp only [chainRecord, List.append_assoc, List.cons_append, List.nil_append]
  rw [e]
  rfl

/-- The return code of `rsksi_vrfy_nextHashChain` when the next record is a
well-formed hash chain: the check of the algorithm, the record-hash check, and
the three steps of the signature engine. -/
theorem vrfy_nextHashChain_chain (api : ksiapi) (lib : ksilib) (bs : Option block_sig_t)
    (ksi : ksifile) (sigfp : FILE) (record : List Byte) (ectx : ksierrctx_t)
    (rec0 : tlvrecord_t) (obj0 : Option tlvobj) (stack : Nat → tlvrecord_t)
    (enc e1 e2 e3 rest : List Byte)
    (a1 : Byte) (d1 : List Byte) (l2 s2 : List Byte) (lc2 a2 : Byte) (d2 : List Byte)
    (l3 s3 : List Byte) (lc3 a3 : Byte) (d3 : List Byte) (ks : Nat) (sig : Option KSI_Signature)
    (hwf : (sigRec.hashChain enc e1 e2 e3 a1 d1 l2 s2 lc2 a2 d2 l3 s3 lc3 a3 d3).wf
      api.hashOutputLengthOctetsKSI = true)
    (hd : sigfp.content.drop sigfp.pos = enc ++ rest)
    (hparse : api.KSI_Signature_parse ((bs.getD block_sig_t.zero).der_data.getD [])
      (bs.getD block_sig_t.zero).der_len = (ks, sig)) :
    (rsksi_vrfy_nextHashChain api lib FLAG_TLV16 bs ksi sigfp record ectx rec0 obj0 stack).1
      = if a1 ≠ api.hashIdentifierKSI ksi.hashAlg then rsgte.invld_rec_hashid
        else if lib.KSI_DataHash_equals
            (some (api.hash_node_ksi ksi (lib.KSI_DataHash_fromDigest a2 (some d2) d2.length)
              (some (api.hash_r_ksi ksi record)) (lc2.val + 1)))
            (lib.KSI_DataHash_fromDigest a1 (some d1) d1.length) ≠ 1 then rsgte.invld_rec_hash
        else if ks ≠ KSI_OK then rsgte.invld_signature
        else if lib.KSI_Signature_verify sig ≠ KSI_OK then rsgte.invld_signature
        else if api.KSI_Signature_verifyDataHash sig
            (some (api.hash_node_ksi ksi (lib.KSI_DataHash_fromDigest a3 (some d3) d3.length)
              (some (api.hash_node_ksi ksi (lib.KSI_DataHash_fromDigest a2 (some d2) d2.length)
                (some (api.hash_r_ksi ksi record)) (lc2.val + 1))) lc3.val)) ≠ KSI_OK
          then rsgte.invld_signature
        else rsgte.success := by
  obtain ⟨nr, hrd, ht, -, -, -⟩ := tlvrd_chain_obj api.hashOutputLengthOctetsKSI sigfp rec0 obj0
    stack enc e1 e2 e3 rest a1 d1 l2 s2 lc2 a2 d2 l3 s3 lc3 a3 d3 hwf hd
  unfold rsksi_vrfy_nextHashChain
  rw [hrd]
  simp only [tlvobj.toHashChain, Option.getD_some]
  rw [if_neg (by rw [ht]; simp)]
  by_cases h1 : a1 ≠ api.hashIdentifierKSI ksi.hashAlg
  · rw [if_pos h1, if_pos h1]
  rw [if_neg h1, if_neg h1]
  split_ifs <;> simp_all

/-- A next record of another known type makes `rsksi_vrfy_nextHashChain` return
`RSGTE_INVLTYP`. -/
theorem vrfy_nextHashChain_other (api : ksiapi) (lib : ksilib) (bs : Option block_sig_t)
    (ksi : ksifile) (sigfp : FILE) (record : List Byte) (ectx : ksierrctx_t)
    (rec0 : tlvrecord_t) (obj0 : Option tlvobj) (stack : Nat → tlvrecord_t)
    (r : sigRec) (rest : List Byte) (hwf : r.wf api.hashOutputLengthOctetsKSI = true)
    (hd : sigfp.content.drop sigfp.pos = r.enc ++ rest) (ht : r.tlvtype ≠ 0x0907) :
    (rsksi_vrfy_nextHashChain api lib FLAG_TLV16 bs ksi sigfp record ectx rec0 obj0 stack).1
      = rsgte.invltyp := by
  obtain ⟨nr, obj, hrd, hty⟩ := tlvrd_sigRec api.hashOutputLengthOctetsKSI sigfp rec0 obj0 stack r
    rest hwf hd
  unfold rsksi_vrfy_nextHashChain
  rw [hrd]
  simp only []
  rw [if_pos (by rw [hty]; exact ht)]

theorem CHKrDecode_some (res : Option (rsgte × OFILE)) (next : OFILE → Option (rsgte × OFILE))
    (h1 : ∃ x, res = some x) (h2 : ∀ fp, ∃ x, next fp = some x) :
    ∃ x, CHKrDecode res next = some x := by
  obtain ⟨⟨r, fp⟩, hx⟩ := h1
  subst hx
  unfold CHKrDecode
  cases r <;> first | exact h2 fp | exact ⟨_, rfl⟩

theorem tlv8Write_some (flag16 : Nat) (fp : OFILE) (tlvtype len : Nat) (ht : tlvtype < 32) :
    ∃ x, rsksi_tlv8Write flag16 fp 0x00 tlvtype len = some x := by
  unfold rsksi_tlv8Write
  rw [if_neg (by decide),
    if_neg (by unfold RSGT_TYPE_MASK; rw [and_1f, Nat.mod_eq_of_lt ht]; simp)]
  split <;> exact ⟨_, rfl⟩

theorem tlv16Write_some (flag16 : Nat) (fp : OFILE) (tlvtype len : Nat)
    (ht : (tlvtype >>> 8) &&& RSGT_TYPE_MASK = tlvtype >>> 8) :
    ∃ x, rsksi_tlv16Write flag16 fp 0x00 tlvtype len = some x := by
  unfold rsksi_tlv16Write
  dsimp only
  rw [if_neg (by decide), if_neg (by rw [ht]; simp)]
  repeat' split
  all_goals exact ⟨_, rfl⟩

/-- The writes of the converter do not fail an assertion: the flags are 0 and
the types are constants within range. -/
theorem convertWrite_some (api : ksiapi) (flag16 : Nat) (newsigfp : OFILE) (bh : block_hdr_t)
    (bs : block_sig_t) : ∃ x, convertWrite api flag16 newsigfp bh bs = some x := by
  unfold convertWrite
  dsimp only
  refine CHKrDecode_some _ _ (tlv16Write_some _ _ _ _ (by decide)) fun fp1 => ?_
  refine CHKrDecode_some _ _ (tlv8Write_some _ _ _ _ (by decide)) fun fp2 => ?_
  refine CHKrDecode_some _ _ ⟨_, rfl⟩ fun fp3 => ?_
  refine CHKrDecode_some _ _ (tlv8Write_some _ _ _ _ (by decide)) fun fp4 => ?_
  refine CHKrDecode_some _ _ ⟨_, rfl⟩ fun fp5 => ?_
  refine CHKrDecode_some _ _ (tlv8Write_some _ _ _ _ (by decide)) fun fp6 => ?_
  refine CHKrDecode_some _ _ ⟨_, rfl⟩ fun fp7 => ?_
  refine CHKrDecode_some _ _ ⟨_, rfl⟩ fun fp8 => ?_
  refine CHKrDecode_some _ _ (tlv16Write_some _ _ _ _ (by decide)) fun fp9 => ?_
  refine CHKrDecode_some _ _ (tlv8Write_some _ _ _ _ (by decide)) fun fp10 => ?_
  refine CHKrDecode_some _ _ ⟨_, rfl⟩ fun fp11 => ?_
  refine CHKrDecode_some _ _ (tlv16Write_some _ _ _ _ (by decide)) fun fp12 => ?_
  exact ⟨_, rfl⟩

/-- The loop of `rsksi_ConvertSigFile` returns (`fuel` iterations are enough
when the stream has fewer than `fuel` octets left), and when it is entered with
the flag at 0x20 the flag is 0x20 at the label `done`. -/
theorem convertLoop_flag (api : ksiapi) :
    ∀ (fuel : Nat) (st : convState), st.oldsigfp.content.length - st.oldsigfp.pos < fuel →
      st.flag = 0x20 →
      ∃ (r : rsgte) (st1 : convState), convertLoop api fuel st = some (r, st1) ∧
        st1.flag = 0x20 := by
  intro fuel
  induction fuel with
  | zero => intro st h; omega
  | succ f ih =>
    intro st h hf
    rw [convertLoop]
    have hs : ∀ fp1 rec1,
        rsksi_tlvRecRead st.flag st.oldsigfp st.tlvrec = (rsgte.success, fp1, rec1) →
        fp1.content = st.oldsigfp.content ∧ st.oldsigfp.pos < fp1.pos ∧
          fp1.pos ≤ st.oldsigfp.content.length :=
      fun fp1 rec1 h1 => tlvRecRead_advance h1
    generalize rsksi_tlvRecRead st.flag st.oldsigfp st.tlvrec = res at hs
    obtain ⟨r, fp1, rec1⟩ := res
    cases r <;> simp only <;> try (exact ⟨_, _, rfl, hf⟩)
    obtain ⟨hc, hp1, hp2⟩ := hs fp1 rec1 rfl
    have hlt : fp1.content.length - fp1.pos < f := by rw [hc]; omega
    split
    · split
      · split
        · exact ih _ hlt hf
        · exact ⟨_, _, rfl, hf⟩
      · exact ⟨_, _, rfl, rfl⟩
    · split
      · split
        · rename_i subrec bh bs heq
          obtain ⟨⟨r2, o⟩, hw⟩ := convertWrite_some api 0x80 st.newsigfp bh bs
          rw [hw]
          cases r2 <;> simp only <;> first | exact ih _ hlt rfl | exact ⟨_, _, rfl, rfl⟩
        · exact ⟨_, _, rfl, rfl⟩
      · exact ih _ hlt hf

/-- On every input `rsksi_ConvertSigFile` returns, and the flag
`RSKSI_FLAG_TLV16_RUNTIME` is 0x20 when it returns, whatever it was on entry. -/
theorem ConvertSigFile_flag (api : ksiapi) (flag : Nat) (oldsigfp : FILE) (newsigfp : OFILE)
    (rec0 subrec0 : tlvrecord_t) :
    ∃ (r : rsgte) (st1 : convState),
      rsksi_ConvertSigFile api flag oldsigfp newsigfp rec0 subrec0 = some (r, st1) ∧
      st1.flag = 0x20 := by
  unfold rsksi_ConvertSigFile
  exact convertLoop_flag api _ _ (by simp only []; omega) rfl

theorem sampleLib_fromDigest (a : Byte) (d : List Byte) :
    sampleLib.KSI_DataHash_fromDigest a (some d) d.length
      = some { algo := a.val, digest := d } := by
  show some ({ algo := a.val, digest := bufRead d d.length } : KSI_DataHash) = _
  rw [bufRead_eq_take d d.length (Nat.le_refl _), List.take_length]

theorem sampleLib_equals (x y : KSI_DataHash) :
    sampleLib.KSI_DataHash_equals (some x) (some y) = 1 ↔ x = y := by
  show (if (some x ≠ none ∧ some x = some y) then 1 else 0) = 1 ↔ x = y
  by_cases h : x = y
  · simp [h]
  · simp [h]

theorem sample_restoresHash (h : KSI_DataHash) (ha : h.algo = 1) (hd : h.digest.length = 32) :
    restoresHash sampleApi sampleLib h := by
  intro k
  refine ⟨1, h.digest, ?_, hd, by omega, ?_⟩
  · show some ({ hashID := toByte h.algo, len := h.digest.length, data := some h.digest }
        : imprint_t) = _
    rw [ha]
    rfl
  · rw [sampleLib_fromDigest]
    cases h
    simp only [] at ha
    subst ha
    rfl

/-! ## Auxiliary lemmas: hash-step outcomes, freed block signature, pre-scan
position, tree-hash mismatch, first extracted record -/

/-- The outcome of `rsksi_tlvDecodeHASH_CHAIN` on a payload that starts with a
well-formed record hash and two further TLVs: success when both hold a
well-formed step, `rsgte.aborted` otherwise; the types `t2`, `t3` of the two
TLVs play no part. -/
theorem tlvDecodeHASH_CHAIN_steps (dl : Byte → Nat) (rec : tlvrecord_t)
    (stack : Nat → tlvrecord_t) (e1 e2 e3 rest : List Byte)
    (a1 : Byte) (d1 : List Byte)
    (t2 : Nat) (l2 s2 x2 : List Byte) (tl2 : Nat) (pl2 : List Byte) (ts2 : Nat) (a2 : Byte)
    (d2 : List Byte)
    (t3 : Nat) (l3 s3 x3 : List Byte) (tl3 : Nat) (pl3 : List Byte) (ts3 : Nat) (a3 : Byte)
    (d3 : List Byte)
    (h1 : isTlv e1 0x01 (a1 :: d1) = true) (hd1 : d1.length = dl a1)
    (h2 : isTlv e2 t2 (l2 ++ (s2 ++ x2)) = true) (hl2 : isTlv l2 tl2 pl2 = true)
    (hs2 : isTlv s2 ts2 (a2 :: d2) = true)
    (h3 : isTlv e3 t3 (l3 ++ (s3 ++ x3)) = true) (hl3 : isTlv l3 tl3 pl3 = true)
    (hs3 : isTlv s3 ts3 (a3 :: d3) = true)
    (hd : rec.data = e1 ++ (e2 ++ (e3 ++ rest)))
    (hlen : e1.length + e2.length + e3.length ≤ rec.tlvlen)
    (hl : rec.tlvlen < 2 ^ 16) :
    (rsksi_tlvDecodeHASH_CHAIN FLAG_TLV16 dl rec stack).1
      = if (tl2 = 0x01 ∧ pl2.length = 1 ∧ ts2 = 0x02 ∧ d2.length = dl a2 ∧ x2 = []) ∧
            (tl3 = 0x01 ∧ pl3.length = 1 ∧ ts3 = 0x02 ∧ d3.length = dl a3 ∧ x3 = [])
        then rsgte.success else rsgte.aborted := by
  rw [tlvDecodeHASH_CHAIN_code dl rec stack e1 e2 e3 rest 0x01 a1 d1 t2 l2 s2 x2 tl2 pl2 ts2 a2 d2
    t3 l3 s3 x3 tl3 pl3 ts3 a3 d3 h1 h2 hl2 hs2 h3 hl3 hs3 hd hlen hl]
  rw [if_neg (not_not.mpr rfl), if_neg (not_not.mpr hd1)]
  by_cases c1 : tl2 = 0x01 ∧ pl2.length = 1
  swap
  · rw [if_pos c1, if_neg (fun h => c1 ⟨h.1.1, h.1.2.1⟩)]
  rw [if_neg (not_not.mpr c1)]
  by_cases c2 : ts2 = 0x02
  swap
  · rw [if_pos c2, if_neg (fun h => c2 h.1.2.2.1)]
  rw [if_neg (not_not.mpr c2)]
  by_cases c3 : d2.length = dl a2
  swap
  · rw [if_pos c3, if_neg (fun h => c3 h.1.2.2.2.1)]
  rw [if_neg (not_not.mpr c3)]
  by_cases c4 : x2 = []
  swap
  · rw [if_pos c4, if_neg (fun h => c4 h.1.2.2.2.2)]
  rw [if_neg (not_not.mpr c4)]
  by_cases c5 : tl3 = 0x01 ∧ pl3.length = 1
  swap
  · rw [if_pos c5, if_neg (fun h => c5 ⟨h.2.1, h.2.2.1⟩)]
  rw [if_neg (not_not.mpr c5)]
  by_cases c6 : ts3 = 0x02
  swap
  · rw [if_pos c6, if_neg (fun h => c6 h.2.2.2.1)]
  rw [if_neg (not_not.mpr c6)]
  by_cases c7 : d3.length = dl a3
  swap
  · rw [if_pos c7, if_neg (fun h => c7 h.2.2.2.2.1)]
  rw [if_neg (not_not.mpr c7)]
  by_cases c8 : x3 = []
  swap
  · rw [if_pos c8, if_neg (fun h => c8 h.2.2.2.2.2)]
  rw [if_neg (not_not.mpr c8),
    if_pos ⟨⟨c1.1, c1.2, c2, c3, c4⟩, ⟨c5.1, c5.2, c6, c7, c8⟩⟩]

/-- When the loop of the pre-scan succeeds, it has read records of types other
than 0x0904 one after the other and then a 0x0904 record, which is the record
it read last; the stream holds the same octets as before. -/
theorem getBlockParamsLoop_reads (flag16 : Nat) (dl : Byte → Nat)
    (stack : Nat → Nat → tlvrecord_t) :
    ∀ (fuel : Nat) (st st1 : scanState),
      getBlockParamsLoop flag16 dl stack fuel st = some (rsgte.success, st1) →
      ∃ (types : List Nat) (fpPrev : FILE) (recPrev : tlvrecord_t),
        (∀ t ∈ types, t ≠ 0x0904) ∧ readsRecords flag16 types st.fp fpPrev ∧
        rsksi_tlvRecRead flag16 fpPrev recPrev = (rsgte.success, st1.fp, st1.tlvrec) ∧
        st1.tlvrec.tlvtype = 0x0904 ∧ fpPrev.content = st.fp.content ∧
        st.fp.pos ≤ fpPrev.pos := by
  intro fuel
  induction fuel with
  | zero => intro st st1 h; simp [getBlockParamsLoop] at h
  | succ f ih =>
    intro st st1 h
    rw [getBlockParamsLoop] at h
    have hs : ∀ fp1 rec1 obj1,
        rsksi_tlvrd flag16 dl st.fp st.tlvrec st.obj (stack f) = (rsgte.success, fp1, rec1, obj1) →
        rsksi_tlvRecRead flag16 st.fp st.tlvrec = (rsgte.success, fp1, rec1) :=
      fun fp1 rec1 obj1 h1 => tlvrd_success h1
    generalize rsksi_tlvrd flag16 dl st.fp st.tlvrec st.obj (stack f) = res at hs h
    obtain ⟨r, fp1, rec1, obj1⟩ := res
    cases r <;> simp only at h <;> try (simp at h)
    have hrd := hs fp1 rec1 obj1 rfl
    obtain ⟨hc, hp1, hp2⟩ := tlvRecRead_advance hrd
    have step : ∀ st2 : scanState, st2.fp = fp1 → rec1.tlvtype ≠ 0x0904 →
        getBlockParamsLoop flag16 dl stack f st2 = some (rsgte.success, st1) →
        ∃ (types : List Nat) (fpPrev : FILE) (recPrev : tlvrecord_t),
          (∀ t ∈ types, t ≠ 0x0904) ∧ readsRecords flag16 types st.fp fpPrev ∧
          rsksi_tlvRecRead flag16 fpPrev recPrev = (rsgte.success, st1.fp, st1.tlvrec) ∧
          st1.tlvrec.tlvtype = 0x0904 ∧ fpPrev.content = st.fp.content ∧
          st.fp.pos ≤ fpPrev.pos := by
      intro st2 hfp2 hne h2
      obtain ⟨types, fpPrev, recPrev, hty, hrr, ha, hb, hcc, hd⟩ := ih st2 st1 h2
      rw [hfp2] at hcc hd hrr
      refine ⟨rec1.tlvtype :: types, fpPrev, recPrev, ?_, ?_, ha, hb, by rw [hcc, hc],
        by omega⟩
      · intro t ht
        rcases List.mem_cons.mp ht with h0 | h0
        · rw [h0]; exact hne
        · exact hty t h0
      · exact ⟨st.tlvrec, rec1, fp1, hrd, rfl, hrr⟩
    split at h
    · rename_i h1
      exact step _ rfl (by rw [h1]; decide) h
    · split at h
      · rename_i h2
        exact step _ rfl (by rw [h2]; decide) h
      · split at h
        · rename_i h3
          exact step _ rfl (by rw [h3]; decide) h
        · split at h
          · rename_i h4
            simp only [Option.some.injEq, Prod.mk.injEq, true_and] at h
            subst h
            exact ⟨[], st.fp, st.tlvrec, fun t ht => absurd ht (List.not_mem_nil t), rfl, hrd,
              h4, rfl, Nat.le_refl _⟩
          · rename_i h4
            exact step _ rfl h4 h

/-- The position of the stream after a successful pre-scan. -/
theorem getBlockParams_success_reads (flag16 : Nat) (dl : Byte → Nat)
    (stack : Nat → Nat → tlvrecord_t) (ksi : Option ksifile) (fp : FILE) (bRewind : Nat)
    (rec0 : tlvrecord_t) (obj0 : Option tlvobj) (st : scanState)
    (h : rsksi_getBlockParams flag16 dl stack ksi fp bRewind rec0 obj0
      = some (rsgte.success, st)) :
    st.fp.content = fp.content ∧
    (bRewind ≠ 0 → st.fp.pos = fp.pos) ∧
    (bRewind = 0 →
      ∃ (types : List Nat) (fpPrev : FILE) (recPrev : tlvrecord_t),
        (∀ t ∈ types, t ≠ 0x0904) ∧ readsRecords flag16 types fp fpPrev ∧
        rsksi_tlvRecRead flag16 fpPrev recPrev = (rsgte.success, st.fp, st.tlvrec) ∧
        st.tlvrec.tlvtype = 0x0904 ∧
        fp.pos ≤ fpPrev.pos ∧ fpPrev.pos < st.fp.pos ∧
        st.fp.pos = fpPrev.pos + st.tlvrec.lenHdr + st.tlvrec.tlvlen ∧
        st.fp.pos ≤ fp.content.length ∧
        (fp.content.drop fpPrev.pos).take (st.tlvrec.lenHdr + st.tlvrec.tlvlen)
          = bufRead st.tlvrec.hdr st.tlvrec.lenHdr
              ++ bufRead st.tlvrec.data st.tlvrec.tlvlen) := by
  have hinv := getBlockParamsLoop_reads flag16 dl stack (fp.content.length - fp.pos + 1)
    { fp := fp, tlvrec := rec0, obj := obj0, nRecs := 0, bHasRecHashes := 0,
      bHasIntermedHashes := 0, bs := none, bh := none, ksi := ksi }
  unfold rsksi_getBlockParams at h
  dsimp only at h
  generalize getBlockParamsLoop flag16 dl stack (fp.content.length - fp.pos + 1)
    { fp := fp, tlvrec := rec0, obj := obj0, nRecs := 0, bHasRecHashes := 0,
      bHasIntermedHashes := 0, bs := none, bh := none, ksi := ksi } = lr at h hinv
  cases lr with
  | none => simp at h
  | some p =>
    obtain ⟨r, st1⟩ := p
    cases r <;> simp only at h <;> try (simp at h)
    obtain ⟨types, fpPrev, recPrev, hty, hrr, hrd, ht, hc, hp⟩ := hinv st1 rfl
    obtain ⟨_, _, htake, hfp⟩ := tlvRecRead_success hrd
    obtain ⟨hc2, hadv, hle⟩ := tlvRecRead_advance hrd
    simp only at hc hp hrr
    split at h
    · simp at h
    · split at h
      · rename_i hb
        simp only [Option.some.injEq, Prod.mk.injEq, true_and] at h
        subst h
        refine ⟨by rw [hfp]; exact hc, fun h0 => absurd hb h0, fun _ => ?_⟩
        refine ⟨types, fpPrev, recPrev, hty, hrr, hrd, ht, hp, hadv, by rw [hfp], ?_, ?_⟩
        · rw [← hc]; exact hle
        · rw [← hc]; exact htake
      · rename_i hb
        simp only [Option.some.injEq, Prod.mk.injEq, true_and] at h
        subst h
        refine ⟨?_, fun _ => ?_, fun h0 => absurd h0 hb⟩
        · show (fseeko st1.fp _).content = fp.content
          simp only [fseeko]; rw [hfp]; exact hc
        · rfl

/-- A successful `rsksi_tlvrd` of a record of type 0x0902 or 0x0903 has decoded
the imprint of the record. -/
theorem tlvrd_imprint_obj {flag16 : Nat} {dl : Byte → Nat} {fp fp1 : FILE}
    {rec0 rec : tlvrecord_t} {obj0 obj : Option tlvobj} {stack : Nat → tlvrecord_t}
    (h : rsksi_tlvrd flag16 dl fp rec0 obj0 stack = (rsgte.success, fp1, rec, obj))
    (ht : rec.tlvtype = 0x0902 ∨ rec.tlvtype = 0x0903) :
    ∃ imp : imprint_t, rsksi_tlvDecodeIMPRINT dl rec = (rsgte.success, some imp) ∧
      obj = some (tlvobj.imprint imp) := by
  unfold rsksi_tlvrd at h
  rcases hs : rsksi_tlvRecRead flag16 fp rec0 with ⟨r, f, rc⟩
  rw [hs] at h
  cases r <;> first | (simp at h; done) | skip
  simp only [Prod.mk.injEq] at h
  obtain ⟨h1, -, h3, h4⟩ := h
  subst h3
  have hn1 : rc.tlvtype ≠ 0x0901 := by rcases ht with h | h <;> rw [h] <;> decide
  unfold rsksi_tlvRecDecode at h1 h4
  rw [if_neg hn1, if_pos ht] at h1 h4
  rcases hd : rsksi_tlvDecodeIMPRINT dl rc with ⟨r2, oi⟩
  rw [hd] at h1 h4
  cases oi with
  | none =>
    exfalso
    unfold rsksi_tlvDecodeIMPRINT at hd
    dsimp only at hd
    split at hd
    · simp only [Prod.mk.injEq] at hd
      simp only [storeObj] at h1
      rw [← hd.1] at h1
      exact absurd h1 (by decide)
    · simp at hd
  | some imp =>
    simp only [storeObj] at h1 h4
    subst h1
    exact ⟨imp, rfl, h4.symm⟩

/-- What a successful `rsksi_tlvrdTreeHash` has read and decoded. -/
theorem tlvrdTreeHash_success_imp {flag16 : Nat} {dl : Byte → Nat} {fp f1 : FILE}
    {outfp o1 : Option OFILE} {imp0 imp1 : Option tlvobj} {rec0 : tlvrecord_t}
    {stack : Nat → tlvrecord_t}
    (h : rsksi_tlvrdTreeHash flag16 dl fp outfp imp0 rec0 stack
      = (rsgte.success, f1, o1, imp1)) :
    ∃ (rec : tlvrecord_t) (imp : imprint_t),
      rsksi_tlvRecRead flag16 fp rec0 = (rsgte.success, f1, rec) ∧ rec.tlvtype = 0x0903 ∧
      rsksi_tlvDecodeIMPRINT dl rec = (rsgte.success, some imp) ∧
      imp1 = some (tlvobj.imprint imp) := by
  unfold rsksi_tlvrdTreeHash at h
  rcases hs : rsksi_tlvrd flag16 dl fp rec0 imp0 stack with ⟨r, f2, rec, imp2⟩
  rw [hs] at h
  cases r <;> first | (simp at h; done) | skip
  simp only [] at h
  split at h
  · simp at h
  · rename_i ht
    have ht2 : rec.tlvtype = 0x0903 := not_not.mp ht
    have hrd := tlvrd_success hs
    obtain ⟨imp, hi, ho⟩ := tlvrd_imprint_obj hs (Or.inr ht2)
    cases outfp with
    | none =>
      simp only [Prod.mk.injEq, true_and] at h
      rw [← h.1, ← h.2.2, ho]
      exact ⟨rec, imp, hrd, ht2, hi, rfl⟩
    | some o =>
      simp only [] at h
      split at h
      · simp only [Prod.mk.injEq, true_and] at h
        rw [← h.1, ← h.2.2, ho]
        exact ⟨rec, imp, hrd, ht2, hi, rfl⟩
      · rename_i r2 o2 hne heq
        simp only [Prod.mk.injEq] at h
        exact absurd h.1 hne

/-- A tree-hash check that fails with `RSGTE_INVLD_TREE_HASH` has read a 0x0903
record, decoded its imprint, found the algorithm id of the verifier in it and
digest octets that differ from the computed hash; it has reported both and then
reset the two fields of the error context. -/
theorem vrfy_chkTreeHash_invld_read {api : ksiapi} {flag16 debug : Nat} {ksi : ksifile}
    {sigfp f : FILE} {nsigfp o : Option OFILE} {hash : Option KSI_DataHash}
    {ectx e : ksierrctx_t} {rec0 : tlvrecord_t} {stack : Nat → tlvrecord_t}
    (h : rsksi_vrfy_chkTreeHash api flag16 debug ksi sigfp nsigfp hash ectx rec0 stack
      = (rsgte.invld_tree_hash, f, o, e)) :
    ∃ (rec : tlvrecord_t) (imp : imprint_t),
      rsksi_tlvRecRead flag16 sigfp rec0 = (rsgte.success, f, rec) ∧ rec.tlvtype = 0x0903 ∧
      rsksi_tlvDecodeIMPRINT api.hashOutputLengthOctetsKSI rec = (rsgte.success, some imp) ∧
      imp.hashID = api.hashIdentifierKSI ksi.hashAlg ∧
      memcmp (imp.data.getD []) (KSI_DataHash_extract hash)
        (api.hashOutputLengthOctetsKSI imp.hashID) ≠ 0 ∧
      e = { reportError rsgte.invld_tree_hash
              { ectx with computedHash := hash, fileHash := some imp } with
            computedHash := none, fileHash := none } := by
  unfold rsksi_vrfy_chkTreeHash at h
  dsimp only at h
  have hc := tlvrdTreeHash_code flag16 api.hashOutputLengthOctetsKSI sigfp nsigfp none rec0 stack
  rcases hs : rsksi_tlvrdTreeHash flag16 api.hashOutputLengthOctetsKSI sigfp nsigfp none rec0
    stack with ⟨r, f1, o1, obj⟩
  rw [hs] at h hc
  cases r <;> first | (simp at h; done) | skip
  · obtain ⟨rec, imp, hrd, ht, hi, ho⟩ := tlvrdTreeHash_success_imp hs
    subst ho
    simp only [tlvobj.toImprint, Option.getD_some] at h
    split at h
    · simp at h
    · rename_i hid
      split at h
      · rename_i hm
        simp only [Prod.mk.injEq, true_and] at h
        refine ⟨rec, imp, ?_, ht, hi, not_not.mp hid, hm, h.2.2.symm⟩
        rw [← h.1]
        exact hrd
      · split at h <;> simp at h
  · simp [rsgte.isReadCode, rsgte.isDecodeCode] at hc

/-- When the loop of `rsksi_vrfy_nextRec` ends with `RSGTE_INVLD_TREE_HASH`: it
has made `k` tree-hash checks that passed, reading a 0x0903 record for each,
and then the check of the node at level `j + k + 1` found the imprint of the
next 0x0903 record different from the node hash. -/
theorem nextRecLoop_invld_read (api : ksiapi) (flag16 debug shc : Nat)
    (stack : Nat → Nat → tlvrecord_t)
    (H : Option KSI_DataHash → Option KSI_DataHash → Nat → KSI_DataHash)
    (hH : ∀ k l r lv, api.hash_node_ksi k l r lv = H l r lv)
    (roots : List (Option KSI_DataHash)) (leaf : KSI_DataHash) :
    ∀ (fuel j : Nat) (st : vrfyState) (t1 : Option KSI_DataHash) (st1 : vrfyState),
      nextRecLoop api flag16 debug shc stack fuel j (some (carryHash H roots leaf j)) st
        = (rsgte.invld_tree_hash, t1, st1) →
      st.ksi.roots_hash = roots →
      ∃ (k : Nat) (fpPrev : FILE) (rec0 rec : tlvrecord_t) (imp : imprint_t)
        (e0 : ksierrctx_t),
        (∀ i, j ≤ i → i ≤ j + k → st.ksi.roots_valid.getD i 0 ≠ 0) ∧
        readsRecords flag16 (List.replicate k 0x0903) st.sigfp fpPrev ∧
        rsksi_tlvRecRead flag16 fpPrev rec0 = (rsgte.success, st1.sigfp, rec) ∧
        rec.tlvtype = 0x0903 ∧
        rsksi_tlvDecodeIMPRINT api.hashOutputLengthOctetsKSI rec = (rsgte.success, some imp) ∧
        imp.hashID = api.hashIdentifierKSI st.ksi.hashAlg ∧
        memcmp (imp.data.getD []) (carryHash H roots leaf (j + k + 1)).digest
          (api.hashOutputLengthOctetsKSI imp.hashID) ≠ 0 ∧
        e0.fp = st.ectx.fp ∧ e0.treeLevel = j + k + 1 ∧
        st1.ectx = { reportError rsgte.invld_tree_hash
                       { e0 with computedHash := some (carryHash H roots leaf (j + k + 1)),
                                 fileHash := some imp } with
                     computedHash := none, fileHash := none } := by
  intro fuel
  induction fuel with
  | zero =>
    intro j st t1 st1 h _
    simp [nextRecLoop] at h
  | succ fuel ih =>
    intro j st t1 st1 h hr
    unfold nextRecLoop at h
    by_cases hv : st.ksi.roots_valid.getD j 0 = 0
    · rw [if_pos hv] at h
      simp at h
    · rw [if_neg hv, if_pos (by simp)] at h
      have hk : ∀ k : ksifile,
          k = (if shc = 1 then
            { st.ksi with
              x_prevright :=
                api.rsksiImprintFromKSI_DataHash st.ksi (st.ksi.roots_hash.getD j none) }
            else st.ksi) →
          k.roots_valid = st.ksi.roots_valid ∧ k.roots_hash = st.ksi.roots_hash ∧
          k.hashAlg = st.ksi.hashAlg := by
        intro k hk
        subst hk
        split <;> exact ⟨rfl, rfl, rfl⟩
      generalize (if shc = 1 then
            { st.ksi with
              x_prevright :=
                api.rsksiImprintFromKSI_DataHash st.ksi (st.ksi.roots_hash.getD j none) }
            else st.ksi) = k1 at h hk
      obtain ⟨hkv, hkh, hka⟩ := hk k1 rfl
      dsimp only at h
      have hnext : api.hash_node_ksi k1 (k1.roots_hash.getD j none)
          (some (carryHash H roots leaf j)) (j + 2) = carryHash H roots leaf (j + 1) := by
        rw [hH, hkh, hr]
        rfl
      rw [hnext] at h
      have key : ∀ S2 : vrfyState,
          S2.ksi = { k1 with roots_valid := k1.roots_valid.set j 0 } →
          nextRecLoop api flag16 debug shc stack fuel (j + 1)
            (some (carryHash H roots leaf (j + 1))) S2 = (rsgte.invld_tree_hash, t1, st1) →
          ∃ (k : Nat) (fpPrev : FILE) (rec0 rec : tlvrecord_t) (imp : imprint_t)
            (e0 : ksierrctx_t),
            (∀ i, j ≤ i → i ≤ j + k → st.ksi.roots_valid.getD i 0 ≠ 0) ∧
            readsRecords flag16 (List.replicate (k - 1) 0x0903) S2.sigfp fpPrev ∧ 1 ≤ k ∧
            rsksi_tlvRecRead flag16 fpPrev rec0 = (rsgte.success, st1.sigfp, rec) ∧
            rec.tlvtype = 0x0903 ∧
            rsksi_tlvDecodeIMPRINT api.hashOutputLengthOctetsKSI rec
              = (rsgte.success, some imp) ∧
            imp.hashID = api.hashIdentifierKSI st.ksi.hashAlg ∧
            memcmp (imp.data.getD []) (carryHash H roots leaf (j + k + 1)).digest
              (api.hashOutputLengthOctetsKSI imp.hashID) ≠ 0 ∧
            e0.fp = S2.ectx.fp ∧ e0.treeLevel = j + k + 1 ∧
            st1.ectx = { reportError rsgte.invld_tree_hash
                           { e0 with computedHash := some (carryHash H roots leaf (j + k + 1)),
                                     fileHash := some imp } with
                         computedHash := none, fileHash := none } := by
        intro S2 hS2 hloop
        obtain ⟨k, fpPrev, rec0, rec, imp, e0, a1, a2, a3, a4, a5, a6, a7, a8, a9, a10⟩ :=
          ih (j + 1) S2 t1 st1 hloop (by rw [hS2]; exact hkh.trans hr)
        refine ⟨k + 1, fpPrev, rec0, rec, imp, e0, ?_, a2, by omega, a3, a4, a5, ?_, ?_, a8, ?_,
          ?_⟩
        · intro i hi1 hi2
          by_cases hij : i = j
          · rw [hij]; exact hv
          · have := a1 i (by omega) (by omega)
            rw [hS2] at this
            simp only [] at this
            rw [hkv, getD_set_eq, if_neg (fun hc => hij hc.1.symm)] at this
            exact this
        · rw [a6, hS2]
          simp only []
          rw [hka]
        · have e : j + 1 + k + 1 = j + (k + 1) + 1 := by omega
          rw [← e]; exact a7
        · have e : j + 1 + k + 1 = j + (k + 1) + 1 := by omega
          rw [← e]; exact a9
        · have e : j + 1 + k + 1 = j + (k + 1) + 1 := by omega
          rw [← e]; exact a10
      by_cases hb : k1.bKeepTreeHashes ≠ 0
      · rw [if_pos hb] at h
        split at h
        · rename_i sigfp1 nsigfp1 ectx3 heq
          obtain ⟨hrd, hfp, _⟩ := vrfy_chkTreeHash_success heq
          obtain ⟨k, fpPrev, rec0, rec, imp, e0, a1, a2, ak, a3, a4, a5, a6, a7, a8, a9, a10⟩ :=
            key _ rfl h
          refine ⟨k, fpPrev, rec0, rec, imp, e0, a1, ?_, a3, a4, a5, a6, a7, a8.trans hfp, a9,
            a10⟩
          obtain ⟨r0, rc, fp2, hr1, ht1, he1⟩ := hrd
          have he2 : fp2 = sigfp1 := he1.symm
          subst he2
          have hk1 : k = (k - 1) + 1 := by omega
          rw [hk1, List.replicate_succ]
          exact ⟨r0, rc, fp2, hr1, ht1, a2⟩
        · rename_i r sigfp1 nsigfp1 ectx3 hne heq
          simp only [Prod.mk.injEq] at h
          obtain ⟨h1, h2, h3⟩ := h
          subst h1 h3
          obtain ⟨rec, imp, b1, b2, b3, b4, b5, b6⟩ := vrfy_chkTreeHash_invld_read heq
          refine ⟨0, st.sigfp, _, rec, imp,
            { st.ectx with treeLevel := j + 1,
                           righthash := some (carryHash H roots leaf j),
                           lefthash := k1.roots_hash.getD j none },
            ?_, rfl, b1, b2, b3, ?_, b5, rfl, rfl, b6⟩
          · intro i hi1 hi2
            have : i = j := by omega
            rw [this]; exact hv
          · rw [b4]
            simp only []
            rw [hka]
      · rw [if_neg hb] at h
        exfalso
        have hn := nextRecLoop_nochk api flag16 debug shc stack fuel (j + 1)
          (some (carryHash H roots leaf (j + 1)))
          { st with ksi := { k1 with roots_valid := k1.roots_valid.set j 0 },
                    ectx := { st.ectx with treeLevel := j + 1,
                                           righthash := some (carryHash H roots leaf j) } }
          (not_not.mp hb)
        rw [h] at hn
        simp at hn

/-- The fields of an error context after the report of a tree-hash mismatch,
with the tree level of the report. -/
theorem mismatch_context_level (e0 e1 : ksierrctx_t) (h : KSI_DataHash) (imp : imprint_t)
    (he : e1 = { reportError rsgte.invld_tree_hash
                   { e0 with computedHash := some h, fileHash := some imp } with
                 computedHash := none, fileHash := none }) :
    e1.computedHash = none ∧ e1.fileHash = none ∧
    ∀ log, e0.fp = some log →
      ∃ rep : errReport, e1.fp = some (log ++ [rep]) ∧ rep.errcode = rsgte.invld_tree_hash ∧
        rep.computedHash = some h ∧ rep.fileHash = some imp ∧
        rep.treeLevel = e0.treeLevel := by
  subst he
  refine ⟨rfl, rfl, ?_⟩
  intro log hl
  unfold reportError
  simp only [hl]
  exact ⟨_, rfl, rfl, rfl, rfl, rfl⟩

/-- When `rsksi_vrfy_nextRec` returns `RSGTE_INVLD_TREE_HASH`: it has read the
record hash (if record hashes are kept) and `lvl` tree hashes that passed their
check, over valid slots `0 .. lvl - 1`; the next record of the stream is a
0x0903 record whose imprint differs from the hash computed for level `lvl`;
both are reported and the two fields of the error context are reset. -/
theorem vrfy_nextRec_invld_read {api : ksiapi} {flag16 debug M : Nat} {st st1 : vrfyState}
    {record : List Byte} {shc : Nat} {stack : Nat → Nat → tlvrecord_t}
    (H : Option KSI_DataHash → Option KSI_DataHash → Nat → KSI_DataHash)
    (hH : ∀ k l r lv, api.hash_node_ksi k l r lv = H l r lv)
    (h : rsksi_vrfy_nextRec api flag16 debug M st record shc stack
      = some (rsgte.invld_tree_hash, st1)) :
    ∃ (lvl : Nat) (fpPrev : FILE) (rec0 rec : tlvrecord_t) (imp : imprint_t)
      (e0 : ksierrctx_t),
      (∀ i, i < lvl → st.ksi.roots_valid.getD i 0 ≠ 0) ∧
      readsRecords flag16
        ((if st.ksi.bKeepRecordHashes ≠ 0 then [0x0902] else [])
          ++ List.replicate lvl 0x0903) st.sigfp fpPrev ∧
      rsksi_tlvRecRead flag16 fpPrev rec0 = (rsgte.success, st1.sigfp, rec) ∧
      rec.tlvtype = 0x0903 ∧
      rsksi_tlvDecodeIMPRINT api.hashOutputLengthOctetsKSI rec = (rsgte.success, some imp) ∧
      imp.hashID = api.hashIdentifierKSI st.ksi.hashAlg ∧
      memcmp (imp.data.getD [])
        (carryHash H st.ksi.roots_hash (leafHash api st.ksi record) lvl).digest
        (api.hashOutputLengthOctetsKSI imp.hashID) ≠ 0 ∧
      e0.fp = st.ectx.fp ∧ e0.treeLevel = lvl ∧
      st1.ectx = { reportError rsgte.invld_tree_hash
                     { e0 with
                       computedHash :=
                         some (carryHash H st.ksi.roots_hash (leafHash api st.ksi record) lvl),
                       fileHash := some imp } with
                   computedHash := none, fileHash := none } := by
  obtain ⟨r1, f1, o1, e1, hR1, hcase⟩ := vrfy_nextRec_cases h
  rcases hcase with ⟨hne, hr, _⟩ | ⟨hr1, r2, f2, o2, e2, hR2, hcase2⟩
  · subst hr
    exfalso
    by_cases hb : st.ksi.bKeepRecordHashes ≠ 0
    · rw [if_pos hb] at hR1
      have hc := vrfy_chkRecHash_code api flag16 st.ksi st.sigfp st.nsigfp
        (some (api.hash_r_ksi st.ksi record)) st.ectx (stack 0 0) (fun k => stack 0 (k + 1))
      rw [hR1] at hc
      simp [rsgte.isReadCode, rsgte.isDecodeCode] at hc
    · rw [if_neg hb] at hR1
      simp at hR1
  subst hr1
  obtain ⟨he1, hrd1⟩ := recHashStep_success hR1
  rcases hcase2 with ⟨hne, hr, hst⟩ | ⟨hr2, k2, r3, t, st3, hk2, hL, hcase3⟩
  · subst hr
    by_cases hb : st.ksi.bKeepTreeHashes ≠ 0
    · rw [if_pos hb] at hR2
      obtain ⟨rec, imp, b1, b2, b3, b4, b5, b6⟩ := vrfy_chkTreeHash_invld_read hR2
      subst hst
      refine ⟨0, f1, _, rec, imp,
        { e1 with treeLevel := 0, lefthash := some (api.hash_m_ksi st.ksi),
                  righthash := some (api.hash_r_ksi st.ksi record) },
        fun i hi => absurd hi (Nat.not_lt_zero i), ?_, b1, b2, b3, b4, b5, ?_, rfl, b6⟩
      · rw [List.replicate_zero, List.append_nil]
        exact hrd1
      · show e1.fp = st.ectx.fp
        rw [he1]
    · rw [if_neg hb] at hR2
      simp at hR2
  subst hr2
  obtain ⟨he2, hrd2⟩ := leafHashStep_success hR2 rfl
  rcases hcase3 with ⟨hne, hr, hst⟩ | ⟨_, hr, _⟩
  · subst hr hst
    obtain ⟨hkv, hkh, -, -, hkt, -, hka⟩ := hk2
    obtain ⟨k, fpPrev, rec0, rec, imp, e0, a1, a2, a3, a4, a5, a6, a7, a8, a9, a10⟩ :=
      nextRecLoop_invld_read api flag16 debug shc stack H hH st.ksi.roots_hash
        (leafHash api st.ksi record) _ 0
        { ksi := k2, sigfp := f2, nsigfp := o2, ectx := e2 } t st1 hL hkh
    simp only [Nat.zero_add] at a1 a7 a9 a10
    simp only [] at a1 a2 a6 a8
    have hb : st.ksi.bKeepTreeHashes ≠ 0 := by
      intro hb0
      have hn := nextRecLoop_nochk api flag16 debug shc stack st.ksi.nRoots 0
        (some (leafHash api st.ksi record))
        { ksi := k2, sigfp := f2, nsigfp := o2, ectx := e2 } (hkt.trans hb0)
      rw [hL] at hn
      simp at hn
    rw [if_pos hb] at hrd2
    refine ⟨k + 1, fpPrev, rec0, rec, imp, e0, ?_, ?_, a3, a4, a5, ?_, a7, ?_, a9, a10⟩
    · intro i hi
      have := a1 i (Nat.zero_le i) (by omega)
      rw [hkv] at this
      exact this
    · rw [List.replicate_succ]
      have e : (if st.ksi.bKeepRecordHashes ≠ 0 then [0x0902] else [])
          ++ 0x0903 :: List.replicate k 0x0903
          = ((if st.ksi.bKeepRecordHashes ≠ 0 then [0x0902] else []) ++ [0x0903])
            ++ List.replicate k 0x0903 := by simp
      rw [e]
      exact readsRecords_append flag16 _ _ _ f2 _
        (readsRecords_append flag16 _ _ _ f1 _ hrd1 hrd2) a2
    · rw [a6, hka]
    · rw [a8]
      show e2.fp = st.ectx.fp
      rw [he2, he1]
  · exact absurd hr (by decide)

/-- After the first record of a verifier that has no right sibling yet
(`x_prevright` is `NULL`, the forest is empty) `rsksi_StartHashChain` starts no
chain. -/
theorem startHashChain_first (api : ksiapi) (flag16 debug M : Nat) (st st1 : vrfyState)
    (record : List Byte) (stack : Nat → Nat → tlvrecord_t)
    (h : rsksi_vrfy_nextRec api flag16 debug M st record 1 stack = some (rsgte.success, st1))
    (hn : st.ksi.nRoots = 0) (hpr : st.ksi.x_prevright = none) :
    st1.ksi.x_prevleft
      = api.rsksiImprintFromKSI_DataHash st.ksi (some (api.hash_m_ksi st.ksi)) ∧
    st1.ksi.x_prevright = none ∧
    ∀ (f16 : Nat) (out : OFILE) (n : Nat),
      rsksi_StartHashChain f16 out st1.ksi n
        = if st1.ksi.x_prevleft = none ∨ st1.ksi.x_prev = none then
            some (rsgte.extract_hash, out)
          else none := by
  obtain ⟨pl, -, pr0, -⟩ := vrfy_nextRec_prev_chain h
  have hc : carries st.ksi = 0 := by
    unfold carries
    rw [hn]
    rfl
  have hr : st1.ksi.x_prevright = none := (pr0 hc).trans hpr
  refine ⟨pl, hr, fun f16 out n => ?_⟩
  unfold rsksi_StartHashChain
  rw [hr]
  cases hl : st1.ksi.x_prevleft with
  | none => simp
  | some a =>
    cases hp : st1.ksi.x_prev with
    | none => simp
    | some b => simp

/-! ## Properties of the codec and the decoders -/

/-- C1 (TLV round trip, `encode(decode(bytes)) == bytes`).  Whenever
`rsksi_tlvRecRead` succeeds on a stream, it has consumed exactly
`lenHdr + tlvlen` octets (the stream afterwards is the stream before with the
position advanced by that amount, all of them inside the file), these octets
are `hdr[0..lenHdr)` followed by `data[0..tlvlen)` of the record, and
`rsksi_tlvwrite` of the resulting record to an output with enough room succeeds
and appends exactly those consumed octets.  Holds for every value of the
long-form flag. -/
theorem tlvRecRead_tlvwrite_roundtrip (flag16 : Nat) (fp fp1 : FILE) (rec0 rec : tlvrecord_t)
    (out : OFILE)
    (hread : rsksi_tlvRecRead flag16 fp rec0 = (rsgte.success, fp1, rec))
    (hroom : rec.lenHdr + rec.tlvlen ≤ out.room) :
    fp1 = { fp with pos := fp.pos + (rec.lenHdr + rec.tlvlen) } ∧
    fp.pos + (rec.lenHdr + rec.tlvlen) ≤ fp.content.length ∧
    (fp.content.drop fp.pos).take (rec.lenHdr + rec.tlvlen)
      = bufRead rec.hdr rec.lenHdr ++ bufRead rec.data rec.tlvlen ∧
    rsksi_tlvwrite out rec
      = (rsgte.success,
          { content := out.content ++ (fp.content.drop fp.pos).take (rec.lenHdr + rec.tlvlen),
            room := out.room - (rec.lenHdr + rec.tlvlen) }) := by
  obtain ⟨hh, hn, hbytes, hf⟩ := tlvRecRead_success hread
  have hlen := congrArg List.length hbytes
  simp only [List.length_take, List.length_drop, List.length_append, bufRead_length] at hlen
  refine ⟨by rw [hf, Nat.add_assoc], by omega, hbytes, ?_⟩
  have hh0 : rec.lenHdr ≠ 0 := by omega
  unfold rsksi_tlvwrite
  rw [fwrite1_ok _ _ _ hh0 (by omega)]
  simp only
  rw [fwrite1_ok _ _ _ hn (by simp only; omega)]
  simp only [hbytes, List.append_assoc, Nat.sub_sub]

theorem tlvRecRead_tlvwrite_roundtrip_witness :
    rsksi_tlvRecRead FLAG_TLV16 { content := [0x02, 0x02, 0xAA, 0xBB, 0x07], pos := 0, eof := false }
        tlvrecord_t.zero
      = (rsgte.success, { content := [0x02, 0x02, 0xAA, 0xBB, 0x07], pos := 4, eof := false },
          { tlvtype := 2, tlvlen := 2, hdr0 := 0x02, hdr1 := 0x02, hdr2 := 0, hdr3 := 0, lenHdr := 2,
            data := [0xAA, 0xBB] }) ∧
    rsksi_tlvwrite { content := [], room := 4 }
        { tlvtype := 2, tlvlen := 2, hdr0 := 0x02, hdr1 := 0x02, hdr2 := 0, hdr3 := 0, lenHdr := 2,
          data := [0xAA, 0xBB] }
      = (rsgte.success, { content := [0x02, 0x02, 0xAA, 0xBB], room := 0 }) :=
  have hread : rsksi_tlvRecRead FLAG_TLV16
      { content := [0x02, 0x02, 0xAA, 0xBB, 0x07], pos := 0, eof := false } tlvrecord_t.zero
      = (rsgte.success, { content := [0x02, 0x02, 0xAA, 0xBB, 0x07], pos := 4, eof := false },
          { tlvtype := 2, tlvlen := 2, hdr0 := 0x02, hdr1 := 0x02, hdr2 := 0, hdr3 := 0, lenHdr := 2,
            data := [0xAA, 0xBB] }) := by decide
  ⟨hread, (tlvRecRead_tlvwrite_roundtrip FLAG_TLV16 _ _ _ _ { content := [], room := 4 } hread
    (by decide)).2.2.2⟩

/-- C2 (`decode(encode(r)) == r`), at the failing input.  The short-form record
of type 0x02 with an empty payload is written as `02 00`, the long-form record
of type 0x0901 with an empty payload as `89 01 00 00`; `rsksi_tlvRecRead` on
either returns `RSGTE_IO` instead of the record, because `fread` of a zero-size
item returns 0. -/
theorem tlvRecRead_empty_payload_fails :
    tlv8WriteRecord FLAG_TLV16 { content := [], room := 2 } 0x02 []
        = some (rsgte.success, { content := [0x02, 0x00], room := 0 }) ∧
    (rsksi_tlvRecRead FLAG_TLV16 { content := [0x02, 0x00], pos := 0, eof := false }
        tlvrecord_t.zero).1 = rsgte.io ∧
    tlv16WriteRecord FLAG_TLV16 { content := [], room := 4 } 0x0901 []
        = some (rsgte.success, { content := [0x89, 0x01, 0x00, 0x00], room := 0 }) ∧
    (rsksi_tlvRecRead FLAG_TLV16 { content := [0x89, 0x01, 0x00, 0x00], pos := 0, eof := false }
        tlvrecord_t.zero).1 = rsgte.io := by
  decide

/-- Short-form records with a non-empty payload do round-trip: the octets written
by `rsksi_tlv8Write` (flags 0) and the payload are read back by
`rsksi_tlvRecRead` as the same type, length and payload, with `lenHdr = 2`. -/
theorem tlv8WriteRecord_tlvRecRead (tlvtype : Nat) (payload : List Byte) (rec0 : tlvrecord_t)
    (ht : tlvtype < 32) (hne : payload.length ≠ 0) (hl : payload.length < 256) :
    ∃ bytes : List Byte,
      tlv8WriteRecord FLAG_TLV16 { content := [], room := 2 + payload.length } tlvtype payload
        = some (rsgte.success, { content := bytes, room := 0 }) ∧
      rsksi_tlvRecRead FLAG_TLV16 { content := bytes, pos := 0, eof := false } rec0
        = (rsgte.success, { content := bytes, pos := bytes.length, eof := false },
            { rec0 with tlvtype := tlvtype, tlvlen := payload.length, lenHdr := 2,
                        hdr0 := toByte tlvtype, hdr1 := toByte payload.length,
                        data := bufStore rec0.data payload }) := by
  refine ⟨toByte tlvtype :: toByte payload.length :: payload, ?_, ?_⟩
  · rw [tlv8WriteRecord_ok _ _ _ ht (by simp only; omega)]
    have e : toByte (payload.length &&& 0xff) = toByte payload.length := by
      rw [toByte_eq_iff, and_ff]; omega
    simp [e]
  · have hv0 : (toByte tlvtype).val = tlvtype := toByte_of_lt (by omega)
    have hv1 : (toByte payload.length).val = payload.length := toByte_of_lt hl
    have := tlvRecRead_short FLAG_TLV16
      { content := toByte tlvtype :: toByte payload.length :: payload, pos := 0, eof := false }
      rec0 (toByte tlvtype) (toByte payload.length) payload []
      (by simp) (by rw [hv0]; exact and_80_of_lt (by omega)) hv1.symm hne
    rw [this, hv0, and_1f, Nat.mod_eq_of_lt ht]
    simp
    omega

/-- Long-form records with a non-empty payload do round-trip: the octets written
by `rsksi_tlv16Write` (flags 0) and the payload are read back by
`rsksi_tlvRecRead` as the same type, length and payload, with `lenHdr = 4`. -/
theorem tlv16WriteRecord_tlvRecRead (tlvtype : Nat) (payload : List Byte) (rec0 : tlvrecord_t)
    (ht : tlvtype < 2 ^ 13) (hne : payload.length ≠ 0) (hl : payload.length < 2 ^ 16) :
    ∃ bytes : List Byte,
      tlv16WriteRecord FLAG_TLV16 { content := [], room := 4 + payload.length } tlvtype payload
        = some (rsgte.success, { content := bytes, room := 0 }) ∧
      rsksi_tlvRecRead FLAG_TLV16 { content := bytes, pos := 0, eof := false } rec0
        = (rsgte.success, { content := bytes, pos := bytes.length, eof := false },
            { tlvtype := tlvtype, tlvlen := payload.length, lenHdr := 4,
              hdr0 := toByte (0x80 ||| (tlvtype >>> 8)), hdr1 := toByte (tlvtype &&& 0xff),
              hdr2 := toByte (payload.length >>> 8), hdr3 := toByte (payload.length &&& 0xff),
              data := bufStore rec0.data payload }) := by
  refine ⟨toByte (0x80 ||| (tlvtype >>> 8)) :: toByte (tlvtype &&& 0xff)
      :: toByte (payload.length >>> 8) :: toByte (payload.length &&& 0xff) :: payload, ?_, ?_⟩
  · rw [tlv16WriteRecord_ok _ _ _ ht hl (by simp only; omega)]
    simp
  · have hq : tlvtype >>> 8 < 32 := by rw [Nat.shiftRight_eq_div_pow]; omega
    have hv0 : (toByte (0x80 ||| (tlvtype >>> 8))).val = 0x80 + (tlvtype >>> 8) := by
      rw [← or_80 _ (by omega)]; apply toByte_of_lt; rw [or_80 _ (by omega)]; omega
    have hv1 : (toByte (tlvtype &&& 0xff)).val = tlvtype % 256 := by
      rw [and_ff]; apply toByte_of_lt; omega
    have hv2 : (toByte (payload.length >>> 8)).val = payload.length / 256 := by
      rw [Nat.shiftRight_eq_div_pow]; apply toByte_of_lt; omega
    have hv3 : (toByte (payload.length &&& 0xff)).val = payload.length % 256 := by
      rw [and_ff]; apply toByte_of_lt; omega
    have := tlvRecRead_long FLAG_TLV16
      { content := toByte (0x80 ||| (tlvtype >>> 8)) :: toByte (tlvtype &&& 0xff)
        :: toByte (payload.length >>> 8) :: toByte (payload.length &&& 0xff) :: payload,
        pos := 0, eof := false }
      rec0 (toByte (0x80 ||| (tlvtype >>> 8))) (toByte (tlvtype &&& 0xff))
      (toByte (payload.length >>> 8)) (toByte (payload.length &&& 0xff))
      payload []
      (by simp) (by rw [hv0]; exact and_80_of_ge (by omega) (by omega))
      (by rw [hv2, hv3]; omega) hne
    rw [this, hv0, hv1]
    have et : (((0x80 + (tlvtype >>> 8)) &&& 0x1f) <<< 8 ||| tlvtype % 256) % 2 ^ 16 = tlvtype := by
      rw [and_1f, shl8_or _ _ (by omega)]
      rw [Nat.shiftRight_eq_div_pow] at hq ⊢
      omega
    rw [et]
    simp
    omega

/-- C3 (TLV header layout).  With flags 0 and the long-form flag 0x80,
`rsksi_tlv8Write` for a type below 32 and a length below 256 appends exactly the
two octets `[type, len]`, and `rsksi_tlv16Write` for a type below 2^13 appends
exactly the four octets `[0x80 | (type >> 8), type & 0xFF, len >> 8, len & 0xFF]`;
type 0x02 with payload `AA BB` is written as `02 02 AA BB`, and type 0x0901
with any 256-octet payload as `89 01 01 00` followed by the payload. -/
theorem tlv_header_layout (fp : OFILE) (t8 len8 t16 len16 : Nat) (payload : List Byte)
    (ht8 : t8 < 32) (hl8 : len8 < 256) (ht16 : t16 < 2 ^ 13) (hl16 : len16 < 2 ^ 16)
    (hroom : 4 ≤ fp.room) (hp : payload.length = 256) :
    rsksi_tlv8Write FLAG_TLV16 fp 0 t8 len8
        = some (rsgte.success,
            { content := fp.content ++ [toByte t8, toByte len8], room := fp.room - 2 }) ∧
    (toByte t8).val = t8 ∧ (toByte len8).val = len8 ∧
    rsksi_tlv16Write FLAG_TLV16 fp 0 t16 len16
        = some (rsgte.success,
            { content := fp.content ++ [toByte (0x80 ||| (t16 >>> 8)), toByte (t16 &&& 0xff),
                toByte (len16 >>> 8), toByte (len16 &&& 0xff)],
              room := fp.room - 4 }) ∧
    (toByte (0x80 ||| (t16 >>> 8))).val = 0x80 ||| (t16 >>> 8) ∧
    (toByte (t16 &&& 0xff)).val = t16 &&& 0xff ∧
    (toByte (len16 >>> 8)).val = len16 >>> 8 ∧
    (toByte (len16 &&& 0xff)).val = len16 &&& 0xff ∧
    tlv8WriteRecord FLAG_TLV16 { content := [], room := 4 } 0x02 [0xAA, 0xBB]
        = some (rsgte.success, { content := [0x02, 0x02, 0xAA, 0xBB], room := 0 }) ∧
    tlv16WriteRecord FLAG_TLV16 { content := [], room := 260 } 0x0901 payload
        = some (rsgte.success, { content := [0x89, 0x01, 0x01, 0x00] ++ payload, room := 0 }) := by
  have e8 : toByte (len8 &&& 0xff) = toByte len8 := by
    rw [toByte_eq_iff, and_ff]; omega
  refine ⟨?_, toByte_of_lt (by omega), toByte_of_lt hl8, tlv16Write_ok fp t16 len16 ht16 hl16 hroom,
    ?_, ?_, ?_, ?_, by decide, ?_⟩
  · rw [tlv8Write_ok fp t8 len8 ht8 (by omega), e8]
  · apply toByte_of_lt
    rw [or_80 _ (by rw [Nat.shiftRight_eq_div_pow]; omega), Nat.shiftRight_eq_div_pow]; omega
  · apply toByte_of_lt; rw [and_ff]; omega
  · apply toByte_of_lt; rw [Nat.shiftRight_eq_div_pow]; omega
  · apply toByte_of_lt; rw [and_ff]; omega
  · rw [tlv16WriteRecord_ok _ _ _ (by decide) (by omega) (by simp only; omega), hp]
    rfl

theorem tlv_header_layout_witness :
    rsksi_tlv8Write FLAG_TLV16 { content := [], room := 4 } 0 0x02 2
        = some (rsgte.success, { content := [0x02, 0x02], room := 2 }) ∧
    rsksi_tlv16Write FLAG_TLV16 { content := [], room := 4 } 0 0x0901 256
        = some (rsgte.success, { content := [0x89, 0x01, 0x01, 0x00], room := 0 }) :=
  have h := tlv_header_layout { content := [], room := 4 } 0x02 2 0x0901 256 (List.replicate 256 0)
    (by decide) (by decide) (by decide) (by decide) (by decide) (List.length_replicate 256 0)
  ⟨h.1, h.2.2.2.1⟩

/-- C4 (integer encoding length).  For `n < 2^64`,
`rsksi_tlvGetInt64OctetSize n` is `ceil(bitlength n / 8)` (1 for `n = 0`), and
`rsksi_tlvfileAddInt64` appends exactly that many octets, the first of which is
non-zero unless `n = 0`, in which case the single octet 0 is written. -/
theorem int64_encoding_length (fp : OFILE) (n : Nat) (hn : n < 2 ^ 64)
    (hr : rsksi_tlvGetInt64OctetSize n ≤ fp.room) :
    rsksi_tlvGetInt64OctetSize n = (if n = 0 then 1 else (Nat.size n + 7) / 8) ∧
    ∃ bs : List Byte,
      rsksi_tlvfileAddInt64 fp n
        = (rsgte.success, { content := fp.content ++ bs, room := fp.room - bs.length }) ∧
      bs.length = rsksi_tlvGetInt64OctetSize n ∧
      (n ≠ 0 → ∀ b, bs.head? = some b → b ≠ 0) ∧
      (n = 0 → bs = [0]) := by
  refine ⟨octetSize_eq_size n hn, beBytes n (rsksi_tlvGetInt64OctetSize n), ?_, beBytes_length _ _,
    ?_, ?_⟩
  · obtain ⟨content, room⟩ := fp
    rw [addInt64_ok content room n hn hr, beBytes_length]
  · intro h0 b hb
    obtain ⟨k, hk, _, hlt, hge⟩ := octetSize_spec n hn
    obtain ⟨b1, t, hbt, hb1⟩ := beBytes_head_ne_zero n k hlt (hge h0)
    rw [hk, hbt] at hb
    simp at hb
    rw [← hb]; exact hb1
  · intro h0
    subst h0
    decide

theorem int64_encoding_length_witness :
    rsksi_tlvGetInt64OctetSize 0x010203 = (if 0x010203 = 0 then 1 else (Nat.size 0x010203 + 7) / 8) ∧
    ∃ bs : List Byte,
      rsksi_tlvfileAddInt64 { content := [], room := 3 } 0x010203
        = (rsgte.success, { content := [] ++ bs, room := 3 - bs.length }) ∧
      bs.length = rsksi_tlvGetInt64OctetSize 0x010203 ∧
      (0x010203 ≠ 0 → ∀ b, bs.head? = some b → b ≠ 0) ∧
      (0x010203 = 0 → bs = [0]) :=
  int64_encoding_length { content := [], room := 3 } 0x010203 (by decide) (by decide)

/-- C5 (integer round trip).  For `n < 2^64` the record-count child written
as a short-form header of type 0x01 with length `rsksi_tlvGetInt64OctetSize n`
followed by `rsksi_tlvfileAddInt64 n` is written successfully, has
`2 + rsksi_tlvGetInt64OctetSize n` octets, and `rsksi_tlvDecodeREC_COUNT` on any
parent record whose payload starts with these octets returns success, the cursor
just behind the child and the value `n`. -/
theorem recCount_roundtrip (n : Nat) (hn : n < 2 ^ 64) :
    ∃ bytes : List Byte,
      writeRecCount FLAG_TLV16 { content := [], room := 2 + rsksi_tlvGetInt64OctetSize n } n
        = some (rsgte.success, { content := bytes, room := 0 }) ∧
      bytes.length = 2 + rsksi_tlvGetInt64OctetSize n ∧
      ∀ (rec : tlvrecord_t) (rest : List Byte) (cnt0 : Nat) (subrec0 : tlvrecord_t),
        rec.data = bytes ++ rest → bytes.length ≤ rec.tlvlen → rec.tlvlen < 2 ^ 16 →
        rsksi_tlvDecodeREC_COUNT FLAG_TLV16 rec 0 cnt0 subrec0
          = (rsgte.success, bytes.length, n) := by
  obtain ⟨h1, h8⟩ := octetSize_le n hn
  obtain ⟨k, hk, _, hlt, _⟩ := octetSize_spec n hn
  have hsz : rsksi_tlvGetInt64OctetSize n % 2 ^ 8 = rsksi_tlvGetInt64OctetSize n :=
    Nat.mod_eq_of_lt (by omega)
  have hb1 : toByte (rsksi_tlvGetInt64OctetSize n &&& 0xff) = toByte (rsksi_tlvGetInt64OctetSize n) := by
    rw [and_ff, toByte_mod]
  have hv1 : (toByte (rsksi_tlvGetInt64OctetSize n)).val = rsksi_tlvGetInt64OctetSize n :=
    toByte_of_lt (by omega)
  refine ⟨toByte 0x01 :: toByte (rsksi_tlvGetInt64OctetSize n)
      :: beBytes n (rsksi_tlvGetInt64OctetSize n), ?_, by simp [beBytes_length]; omega, ?_⟩
  · unfold writeRecCount
    simp only [hsz]
    rw [tlv8Write_ok _ _ _ (by decide) (by simp only; omega)]
    simp only [List.nil_append, hb1]
    rw [addInt64_ok _ _ n hn (by omega)]
    simp
  · intro rec rest cnt0 subrec0 hd hlen hl
    have hdrop : rec.data.drop 0 = toByte 0x01 :: toByte (rsksi_tlvGetInt64OctetSize n)
        :: (beBytes n (rsksi_tlvGetInt64OctetSize n) ++ rest) := by
      rw [List.drop_zero, hd]; rfl
    simp only [List.length_cons, beBytes_length] at hlen ⊢
    have hsub := tlvDecodeSUBREC_short FLAG_TLV16 rec 0 subrec0 (toByte 0x01)
      (toByte (rsksi_tlvGetInt64OctetSize n)) (beBytes n (rsksi_tlvGetInt64OctetSize n)) rest hdrop
      (by decide) (by rw [hv1, beBytes_length]) (by rw [beBytes_length]; omega) hl
    unfold rsksi_tlvDecodeREC_COUNT
    rw [hsub]
    have ht : (toByte 0x01).val &&& 0x1f = 0x01 := by decide
    simp only [ht, beBytes_length, h8, and_self, not_true_eq_false, if_false, bufStore]
    rw [recCountLoop_beBytes n _ _ h8 (by rw [hk]; exact hlt)]
    congr 2
    omega

theorem recCount_roundtrip_witness :
    ∃ bytes : List Byte,
      writeRecCount FLAG_TLV16 { content := [], room := 2 + rsksi_tlvGetInt64OctetSize 0x010203 }
          0x010203
        = some (rsgte.success, { content := bytes, room := 0 }) ∧
      bytes.length = 2 + rsksi_tlvGetInt64OctetSize 0x010203 ∧
      ∀ (rec : tlvrecord_t) (rest : List Byte) (cnt0 : Nat) (subrec0 : tlvrecord_t),
        rec.data = bytes ++ rest → bytes.length ≤ rec.tlvlen → rec.tlvlen < 2 ^ 16 →
        rsksi_tlvDecodeREC_COUNT FLAG_TLV16 rec 0 cnt0 subrec0
          = (rsgte.success, bytes.length, 0x010203) :=
  recCount_roundtrip 0x010203 (by decide)

/-- C6 (file header check).  For a stream with at least 8 octets left and an
expected magic that is a C string of 8 characters: if the next 8 octets equal
the magic, `rsksi_chkFileHdr` returns 0 and the position is 8 past the entry
position; otherwise it returns `RSGTE_INVLHDR` and the position is the entry
position again. -/
theorem chkFileHdr_spec (fp : FILE) (expect hdr0 : List Byte)
    (havail : fp.pos + 8 ≤ fp.content.length)
    (hexp : expect.length = 8) (hnul : ∀ b ∈ expect, b ≠ 0) :
    ((fp.content.drop fp.pos).take 8 = expect →
      rsksi_chkFileHdr fp expect hdr0 = (rsgte.success, { fp with pos := fp.pos + 8 })) ∧
    ((fp.content.drop fp.pos).take 8 ≠ expect →
      rsksi_chkFileHdr fp expect hdr0 = (rsgte.invlhdr, { fp with pos := fp.pos, eof := false })) := by
  have hlen : ((fp.content.drop fp.pos).take 8).length = 8 := by
    rw [List.length_take, List.length_drop]; omega
  have hread : fread1 8 fp = (1, (fp.content.drop fp.pos).take 8, { fp with pos := fp.pos + 8 }) := by
    unfold fread1
    simp [hlen]
  have hbuf : (bufStore hdr0 ((fp.content.drop fp.pos).take 8)).take 8
      = (fp.content.drop fp.pos).take 8 := by
    unfold bufStore
    rw [List.take_append_of_le_length (by omega), List.take_of_length_le (by omega)]
  have hrd : rsksi_tlvrdHeader fp hdr0
      = (rsgte.success, (fp.content.drop fp.pos).take 8 ++ [0], { fp with pos := fp.pos + 8 }) := by
    unfold rsksi_tlvrdHeader
    rw [hread]
    simp only [hbuf]
  have hce : cstr expect = expect := cstr_self_of_no_nul expect hnul
  constructor
  · intro heq
    unfold rsksi_chkFileHdr
    rw [hrd]
    have : strcmp ((fp.content.drop fp.pos).take 8 ++ [0]) expect = 0 := by
      unfold strcmp
      rw [heq, cstr_append_nul, hce, if_pos rfl]
    simp only [this, ne_eq, not_true_eq_false, if_false]
  · intro hne
    unfold rsksi_chkFileHdr
    rw [hrd]
    have : strcmp ((fp.content.drop fp.pos).take 8 ++ [0]) expect ≠ 0 := by
      unfold strcmp
      rw [hce, cstr_append_nul]
      have : cstr ((fp.content.drop fp.pos).take 8) ≠ expect := by
        intro hc
        exact hne (cstr_eq_of_length _ _ hc (by rw [hexp, hlen]))
      rw [if_neg this]
      decide
    simp only [this, ne_eq, not_false_eq_true, if_true, fseeko, ftello]

theorem chkFileHdr_spec_witness :
    rsksi_chkFileHdr { content := [76, 79, 71, 83, 73, 71, 49, 49, 0x89, 0x01], pos := 0, eof := false }
        [76, 79, 71, 83, 73, 71, 49, 49] []
      = (rsgte.success,
          { content := [76, 79, 71, 83, 73, 71, 49, 49, 0x89, 0x01], pos := 8, eof := false }) ∧
    rsksi_chkFileHdr { content := [76, 79, 71, 83, 73, 71, 49, 49, 0x89, 0x01], pos := 0, eof := false }
        [76, 79, 71, 83, 73, 71, 49, 48] []
      = (rsgte.invlhdr,
          { content := [76, 79, 71, 83, 73, 71, 49, 49, 0x89, 0x01], pos := 0, eof := false }) :=
  ⟨(chkFileHdr_spec
      { content := [76, 79, 71, 83, 73, 71, 49, 49, 0x89, 0x01], pos := 0, eof := false }
      [76, 79, 71, 83, 73, 71, 49, 49] [] (by decide) (by decide) (by simp)).1 (by decide),
   (chkFileHdr_spec
      { content := [76, 79, 71, 83, 73, 71, 49, 49, 0x89, 0x01], pos := 0, eof := false }
      [76, 79, 71, 83, 73, 71, 49, 48] [] (by decide) (by decide) (by simp)).2 (by decide)⟩

/-- C8 (sub-record decoder).  For a cursor `i <= tlvlen` of a parent record,
`rsksi_tlvDecodeSUBREC` returns `RSGTE_LEN` when fewer octets remain than the
child header needs (2 in short form, 4 in long form) or when the declared child
length exceeds what remains after the header; otherwise it succeeds, the child
has the type, length and payload encoded at offset `i`, and the cursor becomes
`i + lenHdr + child.tlvlen`, which is at most the parent length. -/
theorem tlvDecodeSUBREC_spec (flag16 : Nat) (rec : tlvrecord_t) (i : Nat) (newrec : tlvrecord_t)
    (hi : i ≤ rec.tlvlen) (hl : rec.tlvlen < 2 ^ 16) :
    let remaining := rec.tlvlen - i
    let b := fun k => (rec.data.getD (i + k) 0).val
    let long := b 0 &&& flag16 ≠ 0
    let lenHdr := if long then 4 else 2
    let childLen := if long then 256 * b 2 + b 3 else b 1
    let childType := if long then ((b 0 &&& 0x1f) <<< 8) ||| b 1 else b 0 &&& 0x1f
    let res := rsksi_tlvDecodeSUBREC flag16 rec i newrec
    (remaining < lenHdr ∨ remaining - lenHdr < childLen → res.1 = rsgte.len) ∧
    (¬ (remaining < lenHdr ∨ remaining - lenHdr < childLen) →
      res.1 = rsgte.success ∧
      res.2.2.tlvtype = childType ∧ res.2.2.tlvlen = childLen ∧ res.2.2.lenHdr = lenHdr ∧
      bufRead res.2.2.data childLen = bufRead (rec.data.drop (i + lenHdr)) childLen ∧
      res.2.1 = i + lenHdr + childLen ∧ res.2.1 ≤ rec.tlvlen) := by
  intro remaining b long lenHdr childLen childType res
  have hb0 := (rec.data.getD (i + 0) 0).isLt
  have hb1 := (rec.data.getD (i + 1) 0).isLt
  have hb2 := (rec.data.getD (i + 2) 0).isLt
  have hb3 := (rec.data.getD (i + 3) 0).isLt
  by_cases h0 : rec.tlvlen = i
  · -- nothing left
    have hres : res = (rsgte.len, i, newrec) := by
      simp only [res, rsksi_tlvDecodeSUBREC, h0, if_true]
    have hrem : remaining < lenHdr := by
      simp only [remaining, lenHdr]; split <;> omega
    exact ⟨fun _ => by rw [hres], fun hn => absurd (Or.inl hrem) hn⟩
  have e1 : (i + 1) % 2 ^ 16 = i + 1 := Nat.mod_eq_of_lt (by omega)
  by_cases hlong : long
  · have hlong' : (rec.data.getD i 0).val &&& flag16 ≠ 0 := hlong
    have hH : lenHdr = 4 := if_pos hlong
    have hL : childLen = 256 * b 2 + b 3 := if_pos hlong
    have hT : childType = ((b 0 &&& 0x1f) <<< 8) ||| b 1 := if_pos hlong
    have ht16 : (((rec.data.getD i 0).val &&& 0x1f) <<< 8 ||| (rec.data.getD (i + 1) 0).val) % 2 ^ 16
        = ((rec.data.getD i 0).val &&& 0x1f) <<< 8 ||| (rec.data.getD (i + 1) 0).val := by
      apply Nat.mod_eq_of_lt
      rw [shl8_or _ _ hb1, and_1f]; omega
    have el : (((rec.data.getD (i + 2) 0).val <<< 8) % 2 ^ 16 ||| (rec.data.getD (i + 3) 0).val) % 2 ^ 16
        = 256 * (rec.data.getD (i + 2) 0).val + (rec.data.getD (i + 3) 0).val := by
      have e : ((rec.data.getD (i + 2) 0).val <<< 8) % 2 ^ 16 = (rec.data.getD (i + 2) 0).val <<< 8 := by
        rw [Nat.shiftLeft_eq]; omega
      rw [e, shl8_or _ _ hb3]
      omega
    by_cases h1 : rec.tlvlen = i + 1
    · have hres : res.1 = rsgte.len := by
        simp only [res, rsksi_tlvDecodeSUBREC, h0, if_false, hlong', ne_eq, not_false_eq_true,
          if_true, e1, if_pos h1]
      have hrem : remaining < lenHdr := by rw [hH]; simp only [remaining]; omega
      exact ⟨fun _ => hres, fun hn => absurd (Or.inl hrem) hn⟩
    have e2 : (i + 1 + 1) % 2 ^ 16 = i + 2 := Nat.mod_eq_of_lt (by omega)
    by_cases h2 : rec.tlvlen = i + 2
    · have hres : res.1 = rsgte.len := by
        simp only [res, rsksi_tlvDecodeSUBREC, h0, if_false, hlong', ne_eq, not_false_eq_true,
          if_true, e1, h1, e2, if_pos h2]
      have hrem : remaining < lenHdr := by rw [hH]; simp only [remaining]; omega
      exact ⟨fun _ => hres, fun hn => absurd (Or.inl hrem) hn⟩
    have e3 : (i + 2 + 1) % 2 ^ 16 = i + 3 := Nat.mod_eq_of_lt (by omega)
    by_cases h3 : rec.tlvlen = i + 3
    · have hres : res.1 = rsgte.len := by
        simp only [res, rsksi_tlvDecodeSUBREC, h0, if_false, hlong', ne_eq, not_false_eq_true,
          if_true, e1, h1, e2, h2, e3, if_pos h3]
      have hrem : remaining < lenHdr := by rw [hH]; simp only [remaining]; omega
      exact ⟨fun _ => hres, fun hn => absurd (Or.inl hrem) hn⟩
    have e4 : (i + 3 + 1) % 2 ^ 16 = i + 4 := Nat.mod_eq_of_lt (by omega)
    have hrem : ¬ remaining < lenHdr := by rw [hH]; simp only [remaining]; omega
    by_cases h4 : rec.tlvlen < i + 4 + childLen
    · have h4' : rec.tlvlen < i + 4 + (256 * (rec.data.getD (i + 2) 0).val + (rec.data.getD (i + 3) 0).val) := by
        rw [hL] at h4; exact h4
      have hres : res.1 = rsgte.len := by
        simp only [res, rsksi_tlvDecodeSUBREC, subrecCopy, h0, if_false, hlong', ne_eq,
          not_false_eq_true, if_true, e1, h1, e2, h2, e3, h3, e4, el, h4']
      have hover : remaining - lenHdr < childLen := by rw [hH]; simp only [remaining]; omega
      exact ⟨fun _ => hres, fun hn => absurd (Or.inr hover) hn⟩
    · have h4' : ¬ rec.tlvlen < i + 4 + (256 * (rec.data.getD (i + 2) 0).val + (rec.data.getD (i + 3) 0).val) := by
        rw [hL] at h4; exact h4
      have e5 : (i + 4 + (256 * (rec.data.getD (i + 2) 0).val + (rec.data.getD (i + 3) 0).val)) % 2 ^ 16
          = i + 4 + (256 * (rec.data.getD (i + 2) 0).val + (rec.data.getD (i + 3) 0).val) :=
        Nat.mod_eq_of_lt (by omega)
      have hres : res = (rsgte.success, i + 4 + childLen,
          { tlvtype := childType, tlvlen := childLen, hdr0 := toByte (rec.data.getD i 0).val,
            hdr1 := toByte (rec.data.getD (i + 1) 0).val, hdr2 := toByte (rec.data.getD (i + 2) 0).val,
            hdr3 := toByte (rec.data.getD (i + 3) 0).val, lenHdr := 4,
            data := bufStore newrec.data (bufRead (rec.data.drop (i + 4)) childLen) }) := by
        rw [hL, hT]
        simp only [res, rsksi_tlvDecodeSUBREC, subrecCopy, h0, if_false, hlong', ne_eq,
          not_false_eq_true, if_true, e1, h1, e2, h2, e3, h3, e4, el, h4', e5, ht16, b,
          Nat.add_zero]
      have hover : ¬ remaining - lenHdr < childLen := by rw [hH]; simp only [remaining]; omega
      refine ⟨fun hc => absurd hc (by intro hc; cases hc <;> contradiction), fun _ => ?_⟩
      rw [hres, hH]
      exact ⟨rfl, rfl, rfl, rfl, bufRead_bufStore_same _ _ _, rfl, by simp only; omega⟩
  · have hshort : (rec.data.getD i 0).val &&& flag16 = 0 := by
      by_contra hc; exact hlong hc
    have hH : lenHdr = 2 := if_neg hlong
    have hL : childLen = b 1 := if_neg hlong
    have hT : childType = b 0 &&& 0x1f := if_neg hlong
    by_cases h1 : rec.tlvlen = i + 1
    · have hres : res.1 = rsgte.len := by
        simp only [res, rsksi_tlvDecodeSUBREC, h0, if_false, hshort, ne_eq, not_true_eq_false,
          e1, if_pos h1]
      have hrem : remaining < lenHdr := by rw [hH]; simp only [remaining]; omega
      exact ⟨fun _ => hres, fun hn => absurd (Or.inl hrem) hn⟩
    have e2 : (i + 1 + 1) % 2 ^ 16 = i + 2 := Nat.mod_eq_of_lt (by omega)
    have hrem : ¬ remaining < lenHdr := by rw [hH]; simp only [remaining]; omega
    by_cases h4 : rec.tlvlen < i + 2 + childLen
    · have h4' : rec.tlvlen < i + 2 + (rec.data.getD (i + 1) 0).val := by
        rw [hL] at h4; exact h4
      have hres : res.1 = rsgte.len := by
        simp only [res, rsksi_tlvDecodeSUBREC, subrecCopy, h0, if_false, hshort, ne_eq,
          not_true_eq_false, e1, h1, e2, h4', if_true]
      have hover : remaining - lenHdr < childLen := by rw [hH]; simp only [remaining]; omega
      exact ⟨fun _ => hres, fun hn => absurd (Or.inr hover) hn⟩
    · have h4' : ¬ rec.tlvlen < i + 2 + (rec.data.getD (i + 1) 0).val := by
        rw [hL] at h4; exact h4
      have e5 : (i + 2 + (rec.data.getD (i + 1) 0).val) % 2 ^ 16
          = i + 2 + (rec.data.getD (i + 1) 0).val := Nat.mod_eq_of_lt (by omega)
      have hres : res = (rsgte.success, i + 2 + childLen,
          { tlvtype := childType, tlvlen := childLen,
            hdr0 := toByte (rec.data.getD i 0).val,
            hdr1 := toByte (rec.data.getD (i + 1) 0).val, hdr2 := newrec.hdr2, hdr3 := newrec.hdr3,
            lenHdr := 2,
            data := bufStore newrec.data (bufRead (rec.data.drop (i + 2)) childLen) }) := by
        rw [hL, hT]
        simp only [res, rsksi_tlvDecodeSUBREC, subrecCopy, h0, if_false, hshort, ne_eq,
          not_true_eq_false, e1, h1, e2, h4', e5, b, Nat.add_zero]
      have hover : ¬ remaining - lenHdr < childLen := by rw [hH]; simp only [remaining]; omega
      refine ⟨fun hc => absurd hc (by intro hc; cases hc <;> contradiction), fun _ => ?_⟩
      rw [hres, hH]
      exact ⟨rfl, rfl, rfl, rfl, bufRead_bufStore_same _ _ _, rfl, by simp only; omega⟩

theorem tlvDecodeSUBREC_spec_witness :
    (rsksi_tlvDecodeSUBREC FLAG_TLV16
        { tlvtype := 0x0901, tlvlen := 5, hdr0 := 0x89, hdr1 := 0x01, hdr2 := 0, hdr3 := 5,
          lenHdr := 4, data := [0x02, 0x02, 0xAA, 0xBB, 0x07] }
        0 tlvrecord_t.zero).1 = rsgte.success ∧
    (rsksi_tlvDecodeSUBREC FLAG_TLV16
        { tlvtype := 0x0901, tlvlen := 5, hdr0 := 0x89, hdr1 := 0x01, hdr2 := 0, hdr3 := 5,
          lenHdr := 4, data := [0x02, 0x02, 0xAA, 0xBB, 0x07] }
        0 tlvrecord_t.zero).2.1 = 4 :=
  have h := (tlvDecodeSUBREC_spec FLAG_TLV16
      { tlvtype := 0x0901, tlvlen := 5, hdr0 := 0x89, hdr1 := 0x01, hdr2 := 0, hdr3 := 5,
        lenHdr := 4, data := [0x02, 0x02, 0xAA, 0xBB, 0x07] }
      0 tlvrecord_t.zero (by decide) (by decide)).2 (by decide)
  ⟨h.1, h.2.2.2.2.2.1⟩

/-- C9 (block header decoding).  For a record whose payload is a type-0x01
child holding one octet `h`, a type-0x02 child with payload `iv`, a type-0x03
child holding an imprint `alg || digest` with `|digest| = digest_length(alg)`,
followed by the octets `trailing`: `rsksi_tlvDecodeBLOCK_HDR` returns the header
`{hashID = h, iv = iv, lastHash = {alg, digest}}` when `trailing` is empty and
fails with `RSGTE_LEN` when it is not. -/
theorem tlvDecodeBLOCK_HDR_spec (dl : Byte → Nat) (rec : tlvrecord_t) (stack : Nat → tlvrecord_t)
    (e1 e2 e3 trailing rest : List Byte) (h alg : Byte) (iv digest : List Byte)
    (h1 : isTlv e1 0x01 [h] = true) (h2 : isTlv e2 0x02 iv = true)
    (h3 : isTlv e3 0x03 (alg :: digest) = true) (hdig : digest.length = dl alg)
    (hd : rec.data = e1 ++ (e2 ++ (e3 ++ (trailing ++ rest))))
    (hlen : rec.tlvlen = e1.length + e2.length + e3.length + trailing.length)
    (hl : rec.tlvlen < 2 ^ 16) :
    rsksi_tlvDecodeBLOCK_HDR FLAG_TLV16 dl rec stack
      = (if trailing = [] then
          (rsgte.success,
            some { hashID := h, iv := some iv,
                   lastHash := { hashID := alg, len := digest.length, data := some digest } })
        else (rsgte.len, none)) := by
  have d1 : rec.data.drop 0 = e1 ++ (e2 ++ (e3 ++ (trailing ++ rest))) := by rw [List.drop_zero, hd]
  have d2 : rec.data.drop (0 + e1.length) = e2 ++ (e3 ++ (trailing ++ rest)) := by
    rw [hd, Nat.zero_add, List.drop_left]
  have d3 : rec.data.drop (0 + e1.length + e2.length) = e3 ++ (trailing ++ rest) := by
    rw [← List.drop_drop, d2, List.drop_left]
  unfold rsksi_tlvDecodeBLOCK_HDR
  dsimp only
  rw [tlvDecodeHASH_ALGO_isTlv rec 0 _ _ e1 _ h h1 d1 (by omega) hl]
  simp only
  rw [tlvDecodeBLOCK_IV_isTlv rec _ _ _ e2 _ iv h2 d2 (by omega) hl]
  simp only
  rw [tlvDecodeLAST_HASH_isTlv dl rec _ _ _ e3 _ alg digest h3 hdig d3 (by omega) hl]
  simp only
  by_cases ht : trailing = []
  · subst ht
    simp only [List.length_nil, Nat.add_zero] at hlen
    rw [if_neg (by rw [hlen]; simp), if_pos rfl]
  · have : trailing.length ≠ 0 := by
      intro hc; exact ht (List.length_eq_zero.mp hc)
    rw [if_pos (by rw [hlen]; omega), if_neg ht]

theorem tlvDecodeBLOCK_HDR_spec_witness :
    rsksi_tlvDecodeBLOCK_HDR FLAG_TLV16 sha256DigestLen
        { tlvtype := 0x0901, tlvlen := 72, hdr0 := 0x89, hdr1 := 0x01, hdr2 := 0, hdr3 := 72,
          lenHdr := 4,
          data := [0x01, 0x01, 0x01] ++ ((0x02 :: 0x20 :: List.replicate 32 0xFF)
            ++ ((0x03 :: 0x21 :: 0x01 :: List.replicate 32 0x00) ++ ([] ++ []))) }
        (fun _ => tlvrecord_t.zero)
      = (rsgte.success,
          some { hashID := 0x01, iv := some (List.replicate 32 0xFF),
                 lastHash := { hashID := 0x01, len := 32, data := some (List.replicate 32 0x00) } }) :=
  tlvDecodeBLOCK_HDR_spec sha256DigestLen _ (fun _ => tlvrecord_t.zero)
    [0x01, 0x01, 0x01] (0x02 :: 0x20 :: List.replicate 32 0xFF)
    (0x03 :: 0x21 :: 0x01 :: List.replicate 32 0x00) [] [] 0x01 0x01 (List.replicate 32 0xFF)
    (List.replicate 32 0x00) (by decide) (by decide) (by decide) (by decide) rfl (by decide)
    (by decide)

/-- C10 (IV length), at the failing input.  With a digest length of 32 for
algorithm 0x01, `rsksi_tlvDecodeBLOCK_HDR` accepts the block header
`01 01 01 | 02 00 | 03 21 01 <32 octets>` whose IV child is empty: the decoded
IV has length 0, not `digest_length(hash_algo) = 32`. -/
theorem tlvDecodeBLOCK_HDR_accepts_short_iv :
    rsksi_tlvDecodeBLOCK_HDR FLAG_TLV16 sha256DigestLen
        { tlvtype := 0x0901, tlvlen := 40, hdr0 := 0x89, hdr1 := 0x01, hdr2 := 0x00, hdr3 := 0x28,
          lenHdr := 4,
          data := [0x01, 0x01, 0x01, 0x02, 0x00, 0x03, 0x21, 0x01] ++ List.replicate 32 0 }
        (fun _ => tlvrecord_t.zero)
      = (rsgte.success,
          some { hashID := 0x01, iv := some [],
                 lastHash := { hashID := 0x01, len := 32, data := some (List.replicate 32 0) } }) ∧
    ([] : List Byte).length ≠ sha256DigestLen 0x01 := by
  decide

/-- C11 (block signature decoding).  For a record whose payload is a type-0x01
child with payload `cnt` of at most 8 octets, a type-0x0905 child with payload
`sig`, followed by the octets `trailing`: `rsksi_tlvDecodeBLOCK_SIG` returns the
signature `{recCount = big-endian value of cnt, sigID = RFC3161, der = sig}` when
`trailing` is empty and fails with `RSGTE_LEN` when it is not. -/
theorem tlvDecodeBLOCK_SIG_spec (rec : tlvrecord_t) (stack : Nat → tlvrecord_t)
    (e1 e2 trailing rest : List Byte) (cnt sig : List Byte)
    (h1 : isTlv e1 0x01 cnt = true) (hcnt : cnt.length ≤ 8) (h2 : isTlv e2 0x0905 sig = true)
    (hd : rec.data = e1 ++ (e2 ++ (trailing ++ rest)))
    (hlen : rec.tlvlen = e1.length + e2.length + trailing.length)
    (hl : rec.tlvlen < 2 ^ 16) :
    rsksi_tlvDecodeBLOCK_SIG FLAG_TLV16 rec stack
      = (if trailing = [] then
          (rsgte.success,
            some { sigID := SIGID_RFC3161, recCount := beValue cnt, der_len := sig.length,
                   der_data := some sig })
        else (rsgte.len, none)) :=
  tlvDecodeBLOCK_SIG_children rec stack e1 e2 trailing rest cnt sig h1 hcnt h2 hd hlen hl

theorem tlvDecodeBLOCK_SIG_spec_witness :
    rsksi_tlvDecodeBLOCK_SIG FLAG_TLV16
        { tlvtype := 0x0904, tlvlen := 9, hdr0 := 0x89, hdr1 := 0x04, hdr2 := 0, hdr3 := 9,
          lenHdr := 4,
          data := [0x01, 0x02, 0x01, 0x00] ++ ([0x89, 0x05, 0x00, 0x01, 0xAA] ++ ([] ++ [])) }
        (fun _ => tlvrecord_t.zero)
      = (rsgte.success,
          some { sigID := SIGID_RFC3161, recCount := 256, der_len := 1, der_data := some [0xAA] }) :=
  tlvDecodeBLOCK_SIG_spec _ (fun _ => tlvrecord_t.zero)
    [0x01, 0x02, 0x01, 0x00] [0x89, 0x05, 0x00, 0x01, 0xAA] [] [] [0x01, 0x00] [0xAA]
    (by decide) (by decide) (by decide) rfl (by decide) (by decide)

/-- C12 (record-count bound), counterexample.  `rsksi_tlvDecodeBLOCK_SIG` accepts
the block signature `01 08 ff ff ff ff ff ff ff ff | 89 05 00 01 aa`; the decoded
record count is 2^64 - 1, which is above 2^56 - 1. -/
theorem tlvDecodeBLOCK_SIG_recCount_above_2_56 :
    rsksi_tlvDecodeBLOCK_SIG FLAG_TLV16
        { tlvtype := 0x0904, tlvlen := 15, hdr0 := 0x89, hdr1 := 0x04, hdr2 := 0, hdr3 := 15,
          lenHdr := 4,
          data := [0x01, 0x08, 0xff, 0xff, 0xff, 0xff, 0xff, 0xff, 0xff, 0xff,
                   0x89, 0x05, 0x00, 0x01, 0xAA] }
        (fun _ => tlvrecord_t.zero)
      = (rsgte.success,
          some { sigID := SIGID_RFC3161, recCount := 2 ^ 64 - 1, der_len := 1,
                 der_data := some [0xAA] }) ∧
    ¬ (2 ^ 64 - 1 ≤ 2 ^ 56 - 1) := by
  decide

/-- C12 (record-count bound), amended.  For every block signature that
`rsksi_tlvDecodeBLOCK_SIG` accepts, whatever the long-form flag and the initial
contents of the locals, the decoded record count is at most 2^64 - 1. -/
theorem tlvDecodeBLOCK_SIG_recCount_bound (flag16 : Nat) (rec : tlvrecord_t)
    (stack : Nat → tlvrecord_t) (bs : block_sig_t)
    (h : rsksi_tlvDecodeBLOCK_SIG flag16 rec stack = (rsgte.success, some bs)) :
    bs.recCount ≤ 2 ^ 64 - 1 := by
  have := tlvDecodeBLOCK_SIG_lt flag16 rec stack bs h
  omega

theorem tlvDecodeBLOCK_SIG_recCount_bound_witness :
    rsksi_tlvDecodeBLOCK_SIG FLAG_TLV16
        { tlvtype := 0x0904, tlvlen := 9, hdr0 := 0x89, hdr1 := 0x04, hdr2 := 0, hdr3 := 9,
          lenHdr := 4, data := [0x01, 0x02, 0x01, 0x00, 0x89, 0x05, 0x00, 0x01, 0xAA] }
        (fun _ => tlvrecord_t.zero)
      = (rsgte.success,
          some { sigID := SIGID_RFC3161, recCount := 256, der_len := 1, der_data := some [0xAA] }) ∧
    (256 : Nat) ≤ 2 ^ 64 - 1 :=
  ⟨by decide,
   tlvDecodeBLOCK_SIG_recCount_bound FLAG_TLV16
    { tlvtype := 0x0904, tlvlen := 9, hdr0 := 0x89, hdr1 := 0x04, hdr2 := 0, hdr3 := 9,
      lenHdr := 4, data := [0x01, 0x02, 0x01, 0x00, 0x89, 0x05, 0x00, 0x01, 0xAA] }
    (fun _ => tlvrecord_t.zero)
    { sigID := SIGID_RFC3161, recCount := 256, der_len := 1, der_data := some [0xAA] }
    (by decide)⟩

/-- C13 (trailing bytes in a hash chain), at the failing input.  The 0x0907
record of 116 payload octets holds a record hash (35 octets), a left step and a
right step (40 octets each) and then one further octet `ee`.
`rsksi_tlvDecodeHASH_CHAIN` accepts it: the result is success with the decoded
chain, not `RSGTE_LEN`. -/
theorem tlvDecodeHASH_CHAIN_accepts_trailing :
    rsksi_tlvDecodeHASH_CHAIN FLAG_TLV16 sha256DigestLen
        { tlvtype := 0x0907, tlvlen := 116, hdr0 := 0x89, hdr1 := 0x07, hdr2 := 0x00,
          hdr3 := 0x74, lenHdr := 4,
          data := (0x01 :: 0x21 :: 0x01 :: List.replicate 32 0x22)
            ++ ((0x02 :: 0x26 :: ([0x01, 0x01, 0x00]
                  ++ (0x02 :: 0x21 :: 0x01 :: List.replicate 32 0x33)))
            ++ ((0x03 :: 0x26 :: ([0x01, 0x01, 0x00]
                  ++ (0x02 :: 0x21 :: 0x01 :: List.replicate 32 0x44)))
            ++ [0xEE])) }
        (fun _ => tlvrecord_t.zero)
      = (rsgte.success,
          some { rec_hash := { hashID := 0x01, len := 32, data := some (List.replicate 32 0x22) },
                 left_link :=
                   { level_corr := 0x00,
                     sib_hash :=
                       { hashID := 0x01, len := 32, data := some (List.replicate 32 0x33) } },
                 right_link :=
                   { level_corr := 0x00,
                     sib_hash :=
                       { hashID := 0x01, len := 32, data := some (List.replicate 32 0x44) } } }) ∧
    35 + 40 + 40 < 116 :=
  ⟨tlvDecodeHASH_CHAIN_isTlv sha256DigestLen _ (fun _ => tlvrecord_t.zero)
    (0x01 :: 0x21 :: 0x01 :: List.replicate 32 0x22)
    (0x02 :: 0x26 :: ([0x01, 0x01, 0x00] ++ (0x02 :: 0x21 :: 0x01 :: List.replicate 32 0x33)))
    (0x03 :: 0x26 :: ([0x01, 0x01, 0x00] ++ (0x02 :: 0x21 :: 0x01 :: List.replicate 32 0x44)))
    [0xEE] 0x01 (List.replicate 32 0x22)
    0x02 [0x01, 0x01, 0x00] (0x02 :: 0x21 :: 0x01 :: List.replicate 32 0x33) 0x00 0x01
    (List.replicate 32 0x33)
    0x03 [0x01, 0x01, 0x00] (0x02 :: 0x21 :: 0x01 :: List.replicate 32 0x44) 0x00 0x01
    (List.replicate 32 0x44)
    (by decide) (by decide) (by decide) (by decide) (by decide) (by decide)
    (by decide) (by decide) (by decide) (by decide) rfl (by decide) (by decide),
   by decide⟩

/-- C14 (sibling algorithm ids), counterexample.  With a digest length of 32 for
every algorithm id, `rsksi_tlvDecodeHASH_CHAIN` accepts the chain whose record
hash has algorithm id 0x01, whose left sibling has id 0x02 and whose right
sibling has id 0x03: the siblings do not carry the id of the record hash. -/
theorem tlvDecodeHASH_CHAIN_mixed_algorithms :
    rsksi_tlvDecodeHASH_CHAIN FLAG_TLV16 sha256DigestLen
        { tlvtype := 0x0907, tlvlen := 115, hdr0 := 0x89, hdr1 := 0x07, hdr2 := 0x00,
          hdr3 := 0x73, lenHdr := 4,
          data := (0x01 :: 0x21 :: 0x01 :: List.replicate 32 0x22)
            ++ ((0x02 :: 0x26 :: ([0x01, 0x01, 0x00]
                  ++ (0x02 :: 0x21 :: 0x02 :: List.replicate 32 0x33)))
            ++ ((0x03 :: 0x26 :: ([0x01, 0x01, 0x00]
                  ++ (0x02 :: 0x21 :: 0x03 :: List.replicate 32 0x44)))
            ++ [])) }
        (fun _ => tlvrecord_t.zero)
      = (rsgte.success,
          some { rec_hash := { hashID := 0x01, len := 32, data := some (List.replicate 32 0x22) },
                 left_link :=
                   { level_corr := 0x00,
                     sib_hash :=
                       { hashID := 0x02, len := 32, data := some (List.replicate 32 0x33) } },
                 right_link :=
                   { level_corr := 0x00,
                     sib_hash :=
                       { hashID := 0x03, len := 32, data := some (List.replicate 32 0x44) } } }) ∧
    (0x02 : Byte) ≠ 0x01 ∧ (0x03 : Byte) ≠ 0x01 :=
  ⟨tlvDecodeHASH_CHAIN_isTlv sha256DigestLen _ (fun _ => tlvrecord_t.zero)
    (0x01 :: 0x21 :: 0x01 :: List.replicate 32 0x22)
    (0x02 :: 0x26 :: ([0x01, 0x01, 0x00] ++ (0x02 :: 0x21 :: 0x02 :: List.replicate 32 0x33)))
    (0x03 :: 0x26 :: ([0x01, 0x01, 0x00] ++ (0x02 :: 0x21 :: 0x03 :: List.replicate 32 0x44)))
    [] 0x01 (List.replicate 32 0x22)
    0x02 [0x01, 0x01, 0x00] (0x02 :: 0x21 :: 0x02 :: List.replicate 32 0x33) 0x00 0x02
    (List.replicate 32 0x33)
    0x03 [0x01, 0x01, 0x00] (0x02 :: 0x21 :: 0x03 :: List.replicate 32 0x44) 0x00 0x03
    (List.replicate 32 0x44)
    (by decide) (by decide) (by decide) (by decide) (by decide) (by decide)
    (by decide) (by decide) (by decide) (by decide) rfl (by decide) (by decide),
   by decide, by decide⟩

/-- C14 (sibling algorithm ids), amended.  For every hash chain that
`rsksi_tlvDecodeHASH_CHAIN` accepts, each of the three imprints (record hash,
left sibling, right sibling) has the digest length of its own algorithm id; the
ids are not compared with each other. -/
theorem tlvDecodeHASH_CHAIN_imprint_lengths (flag16 : Nat) (dl : Byte → Nat) (rec : tlvrecord_t)
    (stack : Nat → tlvrecord_t) (hc : block_hashchain_t)
    (h : rsksi_tlvDecodeHASH_CHAIN flag16 dl rec stack = (rsgte.success, some hc)) :
    hc.rec_hash.len = dl hc.rec_hash.hashID ∧
    hc.left_link.sib_hash.len = dl hc.left_link.sib_hash.hashID ∧
    hc.right_link.sib_hash.len = dl hc.right_link.sib_hash.hashID :=
  tlvDecodeHASH_CHAIN_inv flag16 dl rec stack hc h

theorem tlvDecodeHASH_CHAIN_imprint_lengths_witness :
    rsksi_tlvDecodeHASH_CHAIN FLAG_TLV16 sha256DigestLen
        { tlvtype := 0x0907, tlvlen := 115, hdr0 := 0x89, hdr1 := 0x07, hdr2 := 0x00,
          hdr3 := 0x73, lenHdr := 4,
          data := (0x01 :: 0x21 :: 0x01 :: List.replicate 32 0x22)
            ++ ((0x02 :: 0x26 :: ([0x01, 0x01, 0x00]
                  ++ (0x02 :: 0x21 :: 0x01 :: List.replicate 32 0x33)))
            ++ ((0x03 :: 0x26 :: ([0x01, 0x01, 0x05]
                  ++ (0x02 :: 0x21 :: 0x01 :: List.replicate 32 0x44)))
            ++ [])) }
        (fun _ => tlvrecord_t.zero)
      = (rsgte.success,
          some { rec_hash := { hashID := 0x01, len := 32, data := some (List.replicate 32 0x22) },
                 left_link :=
                   { level_corr := 0x00,
                     sib_hash :=
                       { hashID := 0x01, len := 32, data := some (List.replicate 32 0x33) } },
                 right_link :=
                   { level_corr := 0x05,
                     sib_hash :=
                       { hashID := 0x01, len := 32, data := some (List.replicate 32 0x44) } } }) ∧
    (32 = sha256DigestLen 0x01 ∧ 32 = sha256DigestLen 0x01 ∧ 32 = sha256DigestLen 0x01) :=
  ⟨by decide,
   tlvDecodeHASH_CHAIN_imprint_lengths FLAG_TLV16 sha256DigestLen
    { tlvtype := 0x0907, tlvlen := 115, hdr0 := 0x89, hdr1 := 0x07, hdr2 := 0x00,
      hdr3 := 0x73, lenHdr := 4,
      data := (0x01 :: 0x21 :: 0x01 :: List.replicate 32 0x22)
        ++ ((0x02 :: 0x26 :: ([0x01, 0x01, 0x00]
              ++ (0x02 :: 0x21 :: 0x01 :: List.replicate 32 0x33)))
        ++ ((0x03 :: 0x26 :: ([0x01, 0x01, 0x05]
              ++ (0x02 :: 0x21 :: 0x01 :: List.replicate 32 0x44)))
        ++ [])) }
    (fun _ => tlvrecord_t.zero)
    { rec_hash := { hashID := 0x01, len := 32, data := some (List.replicate 32 0x22) },
      left_link :=
        { level_corr := 0x00,
          sib_hash := { hashID := 0x01, len := 32, data := some (List.replicate 32 0x33) } },
      right_link :=
        { level_corr := 0x05,
          sib_hash := { hashID := 0x01, len := 32, data := some (List.replicate 32 0x44) } } }
    (by decide)⟩

/-- C15 (hash-chain child types), at the failing inputs.  The payload of a
0x0907 record starts with a well-formed record hash (type 0x01) and two further
TLVs of any types `t2` and `t3`, each of them holding a TLV `(tl, pl)`, a TLV
`(ts, a || d)` and further octets `x`.  `rsksi_tlvDecodeHASH_CHAIN` accepts the
record exactly when each of the two holds a 0x01 level correction of one octet
and a 0x02 sibling imprint of the digest length of its algorithm and nothing
more: the types `t2` and `t3` of the steps themselves are not looked at, so
they need not be 0x02 and 0x03.  In every other case the call returns neither
`RSGTE_INVLTYP` nor another code: `rsksi_tlvDecodeHASH_STEP` calls `free` on a
member of the chain on its failure path, and the outcome is `rsgte.aborted`. -/
theorem tlvDecodeHASH_CHAIN_step_types_unchecked (dl : Byte → Nat) (rec : tlvrecord_t)
    (stack : Nat → tlvrecord_t) (e1 e2 e3 rest : List Byte)
    (a1 : Byte) (d1 : List Byte)
    (t2 : Nat) (l2 s2 x2 : List Byte) (tl2 : Nat) (pl2 : List Byte) (ts2 : Nat) (a2 : Byte)
    (d2 : List Byte)
    (t3 : Nat) (l3 s3 x3 : List Byte) (tl3 : Nat) (pl3 : List Byte) (ts3 : Nat) (a3 : Byte)
    (d3 : List Byte)
    (h1 : isTlv e1 0x01 (a1 :: d1) = true) (hd1 : d1.length = dl a1)
    (h2 : isTlv e2 t2 (l2 ++ (s2 ++ x2)) = true) (hl2 : isTlv l2 tl2 pl2 = true)
    (hs2 : isTlv s2 ts2 (a2 :: d2) = true)
    (h3 : isTlv e3 t3 (l3 ++ (s3 ++ x3)) = true) (hl3 : isTlv l3 tl3 pl3 = true)
    (hs3 : isTlv s3 ts3 (a3 :: d3) = true)
    (hd : rec.data = e1 ++ (e2 ++ (e3 ++ rest)))
    (hlen : e1.length + e2.length + e3.length ≤ rec.tlvlen)
    (hl : rec.tlvlen < 2 ^ 16) :
    (rsksi_tlvDecodeHASH_CHAIN FLAG_TLV16 dl rec stack).1
      = (if (tl2 = 0x01 ∧ pl2.length = 1 ∧ ts2 = 0x02 ∧ d2.length = dl a2 ∧ x2 = []) ∧
            (tl3 = 0x01 ∧ pl3.length = 1 ∧ ts3 = 0x02 ∧ d3.length = dl a3 ∧ x3 = [])
         then rsgte.success else rsgte.aborted) :=
  tlvDecodeHASH_CHAIN_steps dl rec stack e1 e2 e3 rest a1 d1 t2 l2 s2 x2 tl2 pl2 ts2 a2 d2
    t3 l3 s3 x3 tl3 pl3 ts3 a3 d3 h1 hd1 h2 hl2 hs2 h3 hl3 hs3 hd hlen hl

theorem tlvDecodeHASH_CHAIN_step_types_unchecked_witness :
    (rsksi_tlvDecodeHASH_CHAIN FLAG_TLV16 sha256DigestLen sampleSwappedSteps
        (fun _ => tlvrecord_t.zero)).1 = rsgte.success ∧
    (rsksi_tlvDecodeHASH_CHAIN FLAG_TLV16 sha256DigestLen sampleBadSibling
        (fun _ => tlvrecord_t.zero)).1 = rsgte.aborted :=
  ⟨(tlvDecodeHASH_CHAIN_step_types_unchecked sha256DigestLen sampleSwappedSteps
      (fun _ => tlvrecord_t.zero)
      (0x01 :: 0x21 :: 0x01 :: List.replicate 32 0x22)
      (0x03 :: 0x26 :: ([0x01, 0x01, 0x00]
        ++ ((0x02 :: 0x21 :: 0x01 :: List.replicate 32 0x33) ++ [])))
      (0x02 :: 0x26 :: ([0x01, 0x01, 0x00]
        ++ ((0x02 :: 0x21 :: 0x01 :: List.replicate 32 0x44) ++ [])))
      [] 0x01 (List.replicate 32 0x22)
      0x03 [0x01, 0x01, 0x00] (0x02 :: 0x21 :: 0x01 :: List.replicate 32 0x33) [] 0x01 [0x00]
      0x02 0x01 (List.replicate 32 0x33)
      0x02 [0x01, 0x01, 0x00] (0x02 :: 0x21 :: 0x01 :: List.replicate 32 0x44) [] 0x01 [0x00]
      0x02 0x01 (List.replicate 32 0x44)
      (by decide) (by decide) (by decide) (by decide) (by decide) (by decide) (by decide)
      (by decide) rfl (by decide) (by decide)).trans (by decide),
   (tlvDecodeHASH_CHAIN_step_types_unchecked sha256DigestLen sampleBadSibling
      (fun _ => tlvrecord_t.zero)
      (0x01 :: 0x21 :: 0x01 :: List.replicate 32 0x22)
      (0x02 :: 0x26 :: ([0x01, 0x01, 0x00]
        ++ ((0x02 :: 0x21 :: 0x01 :: List.replicate 32 0x33) ++ [])))
      (0x03 :: 0x26 :: ([0x01, 0x01, 0x00]
        ++ ((0x04 :: 0x21 :: 0x01 :: List.replicate 32 0x44) ++ [])))
      [] 0x01 (List.replicate 32 0x22)
      0x02 [0x01, 0x01, 0x00] (0x02 :: 0x21 :: 0x01 :: List.replicate 32 0x33) [] 0x01 [0x00]
      0x02 0x01 (List.replicate 32 0x33)
      0x03 [0x01, 0x01, 0x00] (0x04 :: 0x21 :: 0x01 :: List.replicate 32 0x44) [] 0x01 [0x00]
      0x04 0x01 (List.replicate 32 0x44)
      (by decide) (by decide) (by decide) (by decide) (by decide) (by decide) (by decide)
      (by decide) rfl (by decide) (by decide)).trans (by decide)⟩

/-- C16 (block-header child types), counterexample.  In this 0x0901 record the
first child has type 0x05 instead of 0x01; the three children are well-formed
TLVs.  `rsksi_tlvDecodeBLOCK_HDR` fails with `RSGTE_FMT`, which is not
`RSGTE_INVLTYP`. -/
theorem tlvDecodeBLOCK_HDR_first_child_fmt :
    (rsksi_tlvDecodeBLOCK_HDR FLAG_TLV16 sha256DigestLen
        { tlvtype := 0x0901, tlvlen := 72, hdr0 := 0x89, hdr1 := 0x01, hdr2 := 0, hdr3 := 72,
          lenHdr := 4,
          data := [0x05, 0x01, 0x01] ++ ((0x02 :: 0x20 :: List.replicate 32 0xFF)
            ++ (0x03 :: 0x21 :: 0x01 :: List.replicate 32 0x00)) }
        (fun _ => tlvrecord_t.zero)).1 = rsgte.fmt ∧
    rsgte.fmt ≠ rsgte.invltyp := by
  decide

/-- C16 (block-header child types), amended.  For every 0x0901 record whose
payload starts with three well-formed TLVs `(t1, p1)`, `(t2, p2)`, `(t3, p3)`:
`rsksi_tlvDecodeBLOCK_HDR` returns `RSGTE_FMT` when the first child is not a 0x01
child of one octet; otherwise `RSGTE_INVLTYP` when the second child's type is not
0x02; otherwise `RSGTE_INVLTYP` when the third child's type is not 0x03. -/
theorem tlvDecodeBLOCK_HDR_child_types (dl : Byte → Nat) (rec : tlvrecord_t)
    (stack : Nat → tlvrecord_t) (e1 e2 e3 rest : List Byte) (t1 t2 t3 : Nat)
    (p1 p2 p3 : List Byte)
    (h1 : isTlv e1 t1 p1 = true) (h2 : isTlv e2 t2 p2 = true) (h3 : isTlv e3 t3 p3 = true)
    (hd : rec.data = e1 ++ (e2 ++ (e3 ++ rest)))
    (hlen : e1.length + e2.length + e3.length ≤ rec.tlvlen)
    (hl : rec.tlvlen < 2 ^ 16) :
    (¬ (t1 = 0x01 ∧ p1.length = 1) →
      (rsksi_tlvDecodeBLOCK_HDR FLAG_TLV16 dl rec stack).1 = rsgte.fmt) ∧
    (t1 = 0x01 ∧ p1.length = 1 → t2 ≠ 0x02 →
      (rsksi_tlvDecodeBLOCK_HDR FLAG_TLV16 dl rec stack).1 = rsgte.invltyp) ∧
    (t1 = 0x01 ∧ p1.length = 1 → t2 = 0x02 → t3 ≠ 0x03 →
      (rsksi_tlvDecodeBLOCK_HDR FLAG_TLV16 dl rec stack).1 = rsgte.invltyp) :=
  tlvDecodeBLOCK_HDR_types dl rec stack e1 e2 e3 rest t1 t2 t3 p1 p2 p3 h1 h2 h3 hd hlen hl

theorem tlvDecodeBLOCK_HDR_child_types_witness :
    (rsksi_tlvDecodeBLOCK_HDR FLAG_TLV16 sha256DigestLen
        { tlvtype := 0x0901, tlvlen := 72, hdr0 := 0x89, hdr1 := 0x01, hdr2 := 0, hdr3 := 72,
          lenHdr := 4,
          data := [0x01, 0x01, 0x01] ++ ((0x02 :: 0x20 :: List.replicate 32 0xFF)
            ++ ((0x04 :: 0x21 :: 0x01 :: List.replicate 32 0x00) ++ [])) }
        (fun _ => tlvrecord_t.zero)).1 = rsgte.invltyp :=
  (tlvDecodeBLOCK_HDR_child_types sha256DigestLen _ (fun _ => tlvrecord_t.zero)
    [0x01, 0x01, 0x01] (0x02 :: 0x20 :: List.replicate 32 0xFF)
    (0x04 :: 0x21 :: 0x01 :: List.replicate 32 0x00) [] 0x01 0x02 0x04 [0x01]
    (List.replicate 32 0xFF) (0x01 :: List.replicate 32 0x00)
    (by decide) (by decide) (by decide) rfl (by decide) (by decide)).2.2
    (by decide) rfl (by decide)

/-- C17 (end of input), counterexample.  On the one-octet stream `02` the header
octet is read, the stream ends before the length octet, and `rsksi_tlvRecRead`
returns `RSGTE_EOF`, not `RSGTE_IO`; the same on `02 02 aa`, where the stream
ends inside the payload. -/
theorem tlvRecRead_eof_mid_record :
    (rsksi_tlvRecRead FLAG_TLV16 { content := [0x02], pos := 0, eof := false }
        tlvrecord_t.zero).1 = rsgte.eof ∧
    (rsksi_tlvRecRead FLAG_TLV16 { content := [0x02], pos := 0, eof := false }
        tlvrecord_t.zero).2.1.pos = 1 ∧
    (rsksi_tlvRecRead FLAG_TLV16 { content := [0x02, 0x02, 0xAA], pos := 0, eof := false }
        tlvrecord_t.zero).1 = rsgte.eof ∧
    (rsksi_tlvRecRead FLAG_TLV16 { content := [0x02, 0x02, 0xAA], pos := 0, eof := false }
        tlvrecord_t.zero).2.1.pos = 3 := by
  decide

/-- C17 (end of input), amended.  Let `lenHdr` be 4 or 2 by the long-form flag of
the first octet and `declared` the length the header declares.  Whenever the
stream holds fewer than `lenHdr` octets, or the declared length is not zero and
fewer than `declared` octets follow the header, `rsksi_tlvRecRead` returns
`RSGTE_EOF`: at the record boundary and inside the record alike.  Conversely it
returns `RSGTE_EOF` only if the stream ends before the record is complete or the
declared length is zero. -/
theorem tlvRecRead_eof_classification (flag16 : Nat) (fp : FILE) (rec0 : tlvrecord_t)
    (lenHdr declared : Nat)
    (hh : lenHdr = if (fp.content.getD fp.pos 0).val &&& flag16 ≠ 0 then 4 else 2)
    (hdecl : declared = if (fp.content.getD fp.pos 0).val &&& flag16 ≠ 0 then
        256 * (fp.content.getD (fp.pos + 2) 0).val + (fp.content.getD (fp.pos + 3) 0).val
      else (fp.content.getD (fp.pos + 1) 0).val) :
    ((fp.content.length - fp.pos < lenHdr ∨
        (declared ≠ 0 ∧ fp.content.length - fp.pos - lenHdr < declared)) →
      (rsksi_tlvRecRead flag16 fp rec0).1 = rsgte.eof) ∧
    ((rsksi_tlvRecRead flag16 fp rec0).1 = rsgte.eof →
      (fp.content.length - fp.pos < lenHdr ∨ declared = 0 ∨
        fp.content.length - fp.pos - lenHdr < declared)) := by
  rw [tlvRecRead_code, ← hh, ← hdecl]
  constructor
  · rintro (h | ⟨h1, h2⟩)
    · rw [if_pos h]
    · by_cases h0 : fp.content.length - fp.pos < lenHdr
      · rw [if_pos h0]
      · rw [if_neg h0, if_neg h1, if_pos h2]
  · intro h
    by_cases h0 : fp.content.length - fp.pos < lenHdr
    · exact Or.inl h0
    · by_cases h1 : declared = 0
      · exact Or.inr (Or.inl h1)
      · by_cases h2 : fp.content.length - fp.pos - lenHdr < declared
        · exact Or.inr (Or.inr h2)
        · rw [if_neg h0, if_neg h1, if_neg h2] at h
          exact absurd h (by decide)

theorem tlvRecRead_eof_classification_witness :
    (rsksi_tlvRecRead FLAG_TLV16
        { content := [0x89, 0x02, 0x00, 0x21, 0x01, 0x11], pos := 0, eof := false }
        tlvrecord_t.zero).1 = rsgte.eof :=
  (tlvRecRead_eof_classification FLAG_TLV16
      { content := [0x89, 0x02, 0x00, 0x21, 0x01, 0x11], pos := 0, eof := false }
      tlvrecord_t.zero 4 33 (by decide) (by decide)).1
    (Or.inr ⟨by decide, by decide⟩)

/-- C18 (block pre-scan result).  For every stream that holds, from the current
position, a sequence `items` of well-formed 0x0901, 0x0902 and 0x0903 records
followed by a well-formed 0x0904 record (record count `cnt`, signature `sig`),
with fewer than 2^64 records of type 0x0902: `rsksi_getBlockParams` returns
`RSGTE_INVLD_RECCNT` if at least one 0x0902 record was seen and their number
differs from the record count of the signature, and success otherwise;
`bHasRecHashes` is 1 iff a 0x0902 record was seen, `bHasIntermedHashes` is 1 iff
a 0x0903 record was seen, `bs` is the decoded signature and `bh` the header
decoded from the last 0x0901 record. -/
theorem getBlockParams_prescan (dl : Byte → Nat) (stack : Nat → Nat → tlvrecord_t)
    (ksi : Option ksifile) (fp : FILE) (bRewind : Nat) (rec0 : tlvrecord_t)
    (obj0 : Option tlvobj) (items : List blockRec) (sigEnc e1 e2 cnt sig rest : List Byte)
    (hwf : ∀ it ∈ items, it.wf dl = true)
    (hsig : isTlv sigEnc 0x0904 (e1 ++ e2) = true)
    (h1 : isTlv e1 0x01 cnt = true) (hcnt : cnt.length ≤ 8) (h2 : isTlv e2 0x0905 sig = true)
    (hd : fp.content.drop fp.pos = encodeAll items ++ (sigEnc ++ rest))
    (hn : items.countP blockRec.isRecHash < 2 ^ 64) :
    ∃ st : scanState,
      rsksi_getBlockParams FLAG_TLV16 dl stack ksi fp bRewind rec0 obj0
        = some (if items.countP blockRec.isRecHash ≠ 0 ∧
                  items.countP blockRec.isRecHash ≠ beValue cnt
                then rsgte.invld_reccnt else rsgte.success, st) ∧
      st.bHasRecHashes = (if items.countP blockRec.isRecHash ≠ 0 then 1 else 0) ∧
      st.bHasIntermedHashes = (if items.countP blockRec.isTreeHash ≠ 0 then 1 else 0) ∧
      st.bs = some { sigID := SIGID_RFC3161, recCount := beValue cnt, der_len := sig.length,
                     der_data := some sig } ∧
      st.bh = lastHdr items none := by
  obtain ⟨st, hr, hrh, hih, hbs, hbh, _, _⟩ := getBlockParams_items dl stack ksi fp bRewind rec0
    obj0 items sigEnc e1 e2 cnt sig rest hwf hsig h1 hcnt h2 hd hn
  exact ⟨st, hr, hrh, hih, hbs, hbh⟩

theorem getBlockParams_prescan_witness :
    ∃ st : scanState,
      rsksi_getBlockParams FLAG_TLV16 sha256DigestLen (fun _ _ => tlvrecord_t.zero) none
          { content := ([0x89, 0x01, 0x00, 0x48] ++ ([0x01, 0x01, 0x01] ++ ((0x02 :: 0x20 ::
                List.replicate 32 0xFF) ++ (0x03 :: 0x21 :: 0x01 :: List.replicate 32 0x00))))
              ++ ((0x89 :: 0x02 :: 0x00 :: 0x21 :: 0x01 :: List.replicate 32 0x11)
              ++ ((0x89 :: 0x03 :: 0x00 :: 0x21 :: 0x01 :: List.replicate 32 0x12)
              ++ ([] ++ ([0x89, 0x04, 0x00, 0x08, 0x01, 0x01, 0x02, 0x89, 0x05, 0x00, 0x01, 0xAA]
              ++ [])))),
            pos := 0, eof := false }
          1 tlvrecord_t.zero none
        = some (rsgte.invld_reccnt, st) ∧
      st.bHasRecHashes = 1 ∧ st.bHasIntermedHashes = 1 ∧
      st.bs = some { sigID := SIGID_RFC3161, recCount := 2, der_len := 1,
                     der_data := some [0xAA] } ∧
      st.bh = some { hashID := 0x01, iv := some (List.replicate 32 0xFF),
                     lastHash := { hashID := 0x01, len := 32,
                                   data := some (List.replicate 32 0x00) } } :=
  getBlockParams_prescan sha256DigestLen (fun _ _ => tlvrecord_t.zero) none
    { content := ([0x89, 0x01, 0x00, 0x48] ++ ([0x01, 0x01, 0x01] ++ ((0x02 :: 0x20 ::
          List.replicate 32 0xFF) ++ (0x03 :: 0x21 :: 0x01 :: List.replicate 32 0x00))))
        ++ ((0x89 :: 0x02 :: 0x00 :: 0x21 :: 0x01 :: List.replicate 32 0x11)
        ++ ((0x89 :: 0x03 :: 0x00 :: 0x21 :: 0x01 :: List.replicate 32 0x12)
        ++ ([] ++ ([0x89, 0x04, 0x00, 0x08, 0x01, 0x01, 0x02, 0x89, 0x05, 0x00, 0x01, 0xAA]
        ++ [])))),
      pos := 0, eof := false }
    1 tlvrecord_t.zero none
    [blockRec.hdr
        ([0x89, 0x01, 0x00, 0x48] ++ ([0x01, 0x01, 0x01] ++ ((0x02 :: 0x20 ::
          List.replicate 32 0xFF) ++ (0x03 :: 0x21 :: 0x01 :: List.replicate 32 0x00))))
        [0x01, 0x01, 0x01] (0x02 :: 0x20 :: List.replicate 32 0xFF)
        (0x03 :: 0x21 :: 0x01 :: List.replicate 32 0x00) 0x01 (List.replicate 32 0xFF) 0x01
        (List.replicate 32 0x00),
     blockRec.recHash (0x89 :: 0x02 :: 0x00 :: 0x21 :: 0x01 :: List.replicate 32 0x11) 0x01
        (List.replicate 32 0x11),
     blockRec.treeHash (0x89 :: 0x03 :: 0x00 :: 0x21 :: 0x01 :: List.replicate 32 0x12) 0x01
        (List.replicate 32 0x12)]
    [0x89, 0x04, 0x00, 0x08, 0x01, 0x01, 0x02, 0x89, 0x05, 0x00, 0x01, 0xAA]
    [0x01, 0x01, 0x02] [0x89, 0x05, 0x00, 0x01, 0xAA] [0x02] [0xAA] []
    (by decide) (by decide) (by decide) (by decide) (by decide) (by decide) (by decide)

/-- C19 (unknown top-level types), at the failing input.  The stream
`89 01 00 48 <block header>  89 04 00 08 <block signature>` is accepted by
`rsksi_getBlockParams`.  With the well-formed record `89 00 00 01 00` (type
0x0900, one payload octet) inserted before the block signature the pre-scan
does not skip the record: `rsksi_tlvRecDecode` returns its initial value 1, the
pre-scan stops with that return code at position 81, right after the inserted
record, and `bs` is not set. -/
theorem getBlockParams_unknown_type_fails :
    (rsksi_getBlockParams FLAG_TLV16 sha256DigestLen (fun _ _ => tlvrecord_t.zero) none
        { content := ([0x89, 0x01, 0x00, 0x48, 0x01, 0x01, 0x01] ++ (0x02 :: 0x20 ::
              List.replicate 32 0xFF) ++ (0x03 :: 0x21 :: 0x01 :: List.replicate 32 0x00))
            ++ [0x89, 0x04, 0x00, 0x08, 0x01, 0x01, 0x00, 0x89, 0x05, 0x00, 0x01, 0xAA],
          pos := 0, eof := false }
        0 tlvrecord_t.zero none).map (fun p => (p.1, p.2.fp.pos, p.2.bs))
      = some (rsgte.success, 88,
          some { sigID := SIGID_RFC3161, recCount := 0, der_len := 1, der_data := some [0xAA] }) ∧
    (rsksi_getBlockParams FLAG_TLV16 sha256DigestLen (fun _ _ => tlvrecord_t.zero) none
        { content := ([0x89, 0x01, 0x00, 0x48, 0x01, 0x01, 0x01] ++ (0x02 :: 0x20 ::
              List.replicate 32 0xFF) ++ (0x03 :: 0x21 :: 0x01 :: List.replicate 32 0x00))
            ++ [0x89, 0x00, 0x00, 0x01, 0x00]
            ++ [0x89, 0x04, 0x00, 0x08, 0x01, 0x01, 0x00, 0x89, 0x05, 0x00, 0x01, 0xAA],
          pos := 0, eof := false }
        0 tlvrecord_t.zero none).map (fun p => (p.1, p.2.fp.pos, p.2.bs))
      = some (rsgte.literal1, 81, none) ∧
    rsgte.literal1 ≠ rsgte.success := by
  decide

/-- C20 (pre-scan rewind).  The loop bound of the model is enough for every
stream.  When `rsksi_getBlockParams` returns success the stream holds the same
octets as at entry.  With `bRewind != 0` the position equals the position at
entry.  With `bRewind == 0` the function has read, one after the other from the
position of entry, records of types other than 0x0904 (`types`) and then, from
the position `fpPrev.pos` that this leaves, a record of type 0x0904: the stream
on return is the stream that `rsksi_tlvRecRead` leaves after that record, which
is the record read last; its position is beyond the position of entry, it is
`fpPrev.pos` plus the length of that record (header and payload) and lies
inside the file, and the octets of the file from `fpPrev.pos` up to it are the
header and the payload of that record. -/
theorem getBlockParams_rewind (flag16 : Nat) (dl : Byte → Nat)
    (stack : Nat → Nat → tlvrecord_t) (ksi : Option ksifile) (fp : FILE) (bRewind : Nat)
    (rec0 : tlvrecord_t) (obj0 : Option tlvobj) :
    (∃ res, rsksi_getBlockParams flag16 dl stack ksi fp bRewind rec0 obj0 = some res) ∧
    ∀ st : scanState,
      rsksi_getBlockParams flag16 dl stack ksi fp bRewind rec0 obj0 = some (rsgte.success, st) →
      st.fp.content = fp.content ∧
      (bRewind ≠ 0 → st.fp.pos = fp.pos) ∧
      (bRewind = 0 →
        ∃ (types : List Nat) (fpPrev : FILE) (recPrev : tlvrecord_t),
          (∀ t ∈ types, t ≠ 0x0904) ∧ readsRecords flag16 types fp fpPrev ∧
          rsksi_tlvRecRead flag16 fpPrev recPrev = (rsgte.success, st.fp, st.tlvrec) ∧
          st.tlvrec.tlvtype = 0x0904 ∧
          fp.pos ≤ fpPrev.pos ∧ fpPrev.pos < st.fp.pos ∧
          st.fp.pos = fpPrev.pos + st.tlvrec.lenHdr + st.tlvrec.tlvlen ∧
          st.fp.pos ≤ fp.content.length ∧
          (fp.content.drop fpPrev.pos).take (st.tlvrec.lenHdr + st.tlvrec.tlvlen)
            = bufRead st.tlvrec.hdr st.tlvrec.lenHdr
                ++ bufRead st.tlvrec.data st.tlvrec.tlvlen) :=
  ⟨getBlockParams_total flag16 dl stack ksi fp bRewind rec0 obj0,
   fun st h => getBlockParams_success_reads flag16 dl stack ksi fp bRewind rec0 obj0 st h⟩

theorem getBlockParams_rewind_witness :
    (samplePrescanState 1).fp.pos = samplePrescanFile.pos ∧
    (∃ (types : List Nat) (fpPrev : FILE) (recPrev : tlvrecord_t),
      (∀ t ∈ types, t ≠ 0x0904) ∧ readsRecords FLAG_TLV16 types samplePrescanFile fpPrev ∧
      rsksi_tlvRecRead FLAG_TLV16 fpPrev recPrev
        = (rsgte.success, (samplePrescanState 0).fp, (samplePrescanState 0).tlvrec) ∧
      (samplePrescanState 0).tlvrec.tlvtype = 0x0904 ∧
      samplePrescanFile.pos ≤ fpPrev.pos ∧ fpPrev.pos < (samplePrescanState 0).fp.pos ∧
      (samplePrescanState 0).fp.pos
        = fpPrev.pos + (samplePrescanState 0).tlvrec.lenHdr
          + (samplePrescanState 0).tlvrec.tlvlen ∧
      (samplePrescanState 0).fp.pos ≤ samplePrescanFile.content.length ∧
      (samplePrescanFile.content.drop fpPrev.pos).take
          ((samplePrescanState 0).tlvrec.lenHdr + (samplePrescanState 0).tlvrec.tlvlen)
        = bufRead (samplePrescanState 0).tlvrec.hdr (samplePrescanState 0).tlvrec.lenHdr
            ++ bufRead (samplePrescanState 0).tlvrec.data
                (samplePrescanState 0).tlvrec.tlvlen) ∧
    (samplePrescanState 0).fp.pos = 53 ∧ samplePrescanFile.pos = 4 :=
  ⟨((getBlockParams_rewind FLAG_TLV16 sha256DigestLen (fun _ _ => tlvrecord_t.zero) none
      samplePrescanFile 1 tlvrecord_t.zero none).2 (samplePrescanState 1) (by decide)).2.1
      (by decide),
   ((getBlockParams_rewind FLAG_TLV16 sha256DigestLen (fun _ _ => tlvrecord_t.zero) none
      samplePrescanFile 0 tlvrecord_t.zero none).2 (samplePrescanState 0) (by decide)).2.2 rfl,
   by decide, by decide⟩

set_option maxRecDepth 100000 in
/-- C21 (excerpt pre-scan count), at the failing input.  On the stream
`89 05 00 01 AA` (excerpt signature) followed by one hash-chain record and the
end of the file, `rsksi_getExcerptBlockParams` with `bRewind = 1` returns
success, the record count of the returned signature is 1, and the stream is
back at position 5, right after the signature.  With a second excerpt
signature after the hash chain instead of the end of the file, the function
returns success as well, but the record count of the returned signature is 0
instead of 1 and the stream is left at position 129, after the second
signature: the jump `goto done2` of line 1262 skips both the copy of the count
(line 1265) and the rewind (lines 1268-1273) whenever the loop was not ended by
`RSGTE_EOF`. -/
theorem getExcerptBlockParams_count_lost_at_next_sig :
    (rsksi_getExcerptBlockParams FLAG_TLV16 sha256DigestLen (fun _ _ => tlvrecord_t.zero)
        { content := sampleExcerptSig ++ sampleHashChain, pos := 0, eof := false } 1
        tlvrecord_t.zero none).map
      (fun p => (p.1, p.2.bs.map (fun b => b.recCount), p.2.fp.pos))
      = some (rsgte.success, some 1, 5) ∧
    (rsksi_getExcerptBlockParams FLAG_TLV16 sha256DigestLen (fun _ _ => tlvrecord_t.zero)
        { content := sampleExcerptSig ++ sampleHashChain ++ sampleExcerptSig, pos := 0,
          eof := false } 1 tlvrecord_t.zero none).map
      (fun p => (p.1, p.2.bs.map (fun b => b.recCount), p.2.fp.pos))
      = some (rsgte.success, some 0, 129) := by
  constructor <;> decide

/-- C22 (record-hash check), at the failing input.  Record hashes are kept, tree
hashes are not; the signature stream holds the well-formed record hash
`89 02 00 21 01 EE...EE` with the block's algorithm id 1, whose digest differs
from the record hash computed from the log record `"a"`.
`rsksi_vrfy_nextRec` returns success and reports nothing: in
`rsksi_vrfy_chkRecHash` the `goto done` of line 1382 is not inside the `if` of
line 1380, so the comparisons of lines 1383-1396 are never made. -/
theorem vrfy_nextRec_accepts_wrong_rec_hash :
    (sampleApi.hash_r_ksi { ksifile.zero 4 with hashAlg := 1, bKeepRecordHashes := 1 }
        [0x61]).digest ≠ List.replicate 32 0xEE ∧
    sampleApi.hashIdentifierKSI 1 = 0x01 ∧
    (rsksi_vrfy_nextRec sampleApi FLAG_TLV16 0 4
        { sampleState ([0x89, 0x02, 0x00, 0x21, 0x01] ++ List.replicate 32 0xEE) with
          ksi := { ksifile.zero 4 with hashAlg := 1, bKeepRecordHashes := 1 } }
        [0x61] 0 (fun _ _ => tlvrecord_t.zero)).map (fun p => (p.1, p.2.sigfp.pos, p.2.ectx.fp))
      = some (rsgte.success, 37, some []) := by
  refine ⟨by decide, by decide, by decide⟩

/-- C23 (tree-hash check).  The signature stream holds at its position a
well-formed record of type 0x0903 with the imprint `alg || digest` (the digest
length is that of `alg`); the output stream, if there is one, has room for the
record; the computed node hash `h` has the digest length of the block's
algorithm.  Then `rsksi_vrfy_chkTreeHash` returns `RSGTE_INVLD_TREE_HASHID`
when `alg` differs from the block's algorithm id, `RSGTE_INVLD_TREE_HASH` when
the ids agree and the digests differ, and 0 otherwise; so it returns 0 iff id
and digest both match.  In every case the stream is right after the record. -/
theorem vrfy_chkTreeHash_spec (api : ksiapi) (debug : Nat) (ksi : ksifile) (sigfp : FILE)
    (nsigfp : Option OFILE) (h : KSI_DataHash) (ectx : ksierrctx_t)
    (rec0 : tlvrecord_t) (stack : Nat → tlvrecord_t)
    (enc rest : List Byte) (alg : Byte) (digest : List Byte)
    (henc : isTlv enc 0x0903 (alg :: digest) = true)
    (hdig : digest.length = api.hashOutputLengthOctetsKSI alg)
    (hd : sigfp.content.drop sigfp.pos = enc ++ rest)
    (hroom : ∀ o, nsigfp = some o → enc.length ≤ o.room)
    (hh : h.digest.length
      = api.hashOutputLengthOctetsKSI (api.hashIdentifierKSI ksi.hashAlg)) :
    (rsksi_vrfy_chkTreeHash api FLAG_TLV16 debug ksi sigfp nsigfp (some h) ectx rec0 stack).1
      = (if alg ≠ api.hashIdentifierKSI ksi.hashAlg then rsgte.invld_tree_hashid
         else if digest ≠ h.digest then rsgte.invld_tree_hash else rsgte.success) ∧
    ((rsksi_vrfy_chkTreeHash api FLAG_TLV16 debug ksi sigfp nsigfp (some h) ectx rec0 stack).1
        = rsgte.success ↔ alg = api.hashIdentifierKSI ksi.hashAlg ∧ digest = h.digest) ∧
    (rsksi_vrfy_chkTreeHash api FLAG_TLV16 debug ksi sigfp nsigfp (some h) ectx rec0 stack).2.1
      = { sigfp with pos := sigfp.pos + enc.length } := by
  obtain ⟨o1, e1, hr, _⟩ := vrfy_chkTreeHash_imprint api debug ksi sigfp nsigfp h ectx rec0 stack
    enc rest alg digest henc hdig hd hroom hh
  rw [hr]
  refine ⟨rfl, ?_, rfl⟩
  simp only []
  by_cases ha : alg = api.hashIdentifierKSI ksi.hashAlg
  · by_cases hg : digest = h.digest
    · simp [ha, hg]
    · simp [ha, hg]
  · simp [ha]

theorem vrfy_chkTreeHash_spec_witness :
    (rsksi_vrfy_chkTreeHash sampleApi FLAG_TLV16 0 (sampleState []).ksi
        { content := [0x89, 0x03, 0x00, 0x21, 0x01] ++ (List.replicate 31 0x07 ++ [0x08]),
          pos := 0, eof := false }
        none (some { algo := 1, digest := List.replicate 32 0x07 })
        (rsksi_errctxInit ksierrctx_t.zero)
        tlvrecord_t.zero (fun _ => tlvrecord_t.zero)).1 = rsgte.invld_tree_hash :=
  (vrfy_chkTreeHash_spec sampleApi 0 (sampleState []).ksi
      { content := [0x89, 0x03, 0x00, 0x21, 0x01] ++ (List.replicate 31 0x07 ++ [0x08]),
        pos := 0, eof := false }
      none { algo := 1, digest := List.replicate 32 0x07 } (rsksi_errctxInit ksierrctx_t.zero)
      tlvrecord_t.zero (fun _ => tlvrecord_t.zero)
      ([0x89, 0x03, 0x00, 0x21, 0x01] ++ (List.replicate 31 0x07 ++ [0x08])) [] 0x01
      (List.replicate 31 0x07 ++ [0x08]) (by decide) (by decide) (by decide)
      (fun _ hc => Option.noConfusion hc) (by decide)).1.trans (by decide)

/-- C24 (error context on hash mismatch), counterexample.  Tree hashes are kept;
the signature stream holds the tree hash of the leaf of the record `"a"` with
its last digest octet replaced by 0xFF.  `rsksi_vrfy_nextRec` returns
`RSGTE_INVLD_TREE_HASH`, and in the error context at the time of return
`computedHash` and `fileHash` are both `NULL`: line 1428 resets them right
after `reportError`. -/
theorem vrfy_nextRec_mismatch_fields_null :
    (rsksi_vrfy_nextRec sampleApi FLAG_TLV16 0 4
        (sampleState ([0x89, 0x03, 0x00, 0x21, 0x01] ++ (sampleLeafA.digest.take 31 ++ [0xFF])))
        [0x61] 0 (fun _ _ => tlvrecord_t.zero)).map
      (fun p => (p.1, p.2.ectx.computedHash, p.2.ectx.fileHash))
      = some (rsgte.invld_tree_hash, none, none) := by
  decide

/-- C24, amended.  The node hash is a function `H` of left hash, right hash and
level.  Whenever `rsksi_vrfy_nextRec` returns `RSGTE_INVLD_TREE_HASH`, the
fields `computedHash` and `fileHash` of the error context are `NULL` at the
time of return.  The function has read the record hash (if record hashes are
kept) and `lvl` tree hashes, one for the leaf and for each of the valid slots
`0 .. lvl - 2` that it has combined; the record at the stream position
`fpPrev` reached by this is a 0x0903 record, the stream on return is right
after it, and `imp` is the imprint that `rsksi_tlvDecodeIMPRINT` makes of it.
The computed hash is `carryHash ... lvl`: the leaf hash of the record for
`lvl = 0`, and for `lvl = j + 1` the node hash of slot `j` and the hash of level
`j`.  `imp` carries the algorithm id of the verifier and differs from the
computed hash in the octets compared.  When the error context has a report
stream, exactly one message was added to it, the message of `reportError` for
`RSGTE_INVLD_TREE_HASH` with `computedHash` set to the computed hash, `fileHash`
set to `imp` and the tree level `lvl`. -/
theorem vrfy_nextRec_mismatch_report (api : ksiapi) (flag16 debug M : Nat)
    (H : Option KSI_DataHash → Option KSI_DataHash → Nat → KSI_DataHash)
    (hH : ∀ k l r lv, api.hash_node_ksi k l r lv = H l r lv)
    (st st1 : vrfyState) (record : List Byte) (shc : Nat) (stack : Nat → Nat → tlvrecord_t)
    (h : rsksi_vrfy_nextRec api flag16 debug M st record shc stack
      = some (rsgte.invld_tree_hash, st1)) :
    st1.ectx.computedHash = none ∧ st1.ectx.fileHash = none ∧
    ∃ (lvl : Nat) (fpPrev : FILE) (rec0 rec : tlvrecord_t) (imp : imprint_t),
      (∀ i, i < lvl → st.ksi.roots_valid.getD i 0 ≠ 0) ∧
      readsRecords flag16
        ((if st.ksi.bKeepRecordHashes ≠ 0 then [0x0902] else [])
          ++ List.replicate lvl 0x0903) st.sigfp fpPrev ∧
      rsksi_tlvRecRead flag16 fpPrev rec0 = (rsgte.success, st1.sigfp, rec) ∧
      rec.tlvtype = 0x0903 ∧
      rsksi_tlvDecodeIMPRINT api.hashOutputLengthOctetsKSI rec = (rsgte.success, some imp) ∧
      imp.hashID = api.hashIdentifierKSI st.ksi.hashAlg ∧
      memcmp (imp.data.getD [])
        (carryHash H st.ksi.roots_hash (leafHash api st.ksi record) lvl).digest
        (api.hashOutputLengthOctetsKSI imp.hashID) ≠ 0 ∧
      ∀ log, st.ectx.fp = some log →
        ∃ rep : errReport,
          st1.ectx.fp = some (log ++ [rep]) ∧ rep.errcode = rsgte.invld_tree_hash ∧
          rep.computedHash
            = some (carryHash H st.ksi.roots_hash (leafHash api st.ksi record) lvl) ∧
          rep.fileHash = some imp ∧ rep.treeLevel = lvl := by
  obtain ⟨lvl, fpPrev, rec0, rec, imp, e0, a1, a2, a3, a4, a5, a6, a7, a8, a9, a10⟩ :=
    vrfy_nextRec_invld_read H hH h
  obtain ⟨b1, b2, b3⟩ := mismatch_context_level e0 st1.ectx _ imp a10
  refine ⟨b1, b2, lvl, fpPrev, rec0, rec, imp, a1, a2, a3, a4, a5, a6, a7, fun log hl => ?_⟩
  obtain ⟨rep, r1, r2, r3, r4, r5⟩ := b3 log (a8.trans hl)
  exact ⟨rep, r1, r2, r3, r4, r5.trans a9⟩

theorem vrfy_nextRec_mismatch_report_witness :
    ∃ (imp : imprint_t) (rep : errReport),
      sampleMismatchSecond.ectx.fp = some ([] ++ [rep]) ∧
      rep.errcode = rsgte.invld_tree_hash ∧
      rep.computedHash = some sampleNodeAB ∧ rep.fileHash = some imp ∧
      imp.data = some (sampleNodeAB.digest.take 31 ++ [0xFF]) ∧ rep.treeLevel = 1 := by
  obtain ⟨-, -, lvl, fpPrev, rec0, rec, imp, -, -, -, -, -, -, -, hrep⟩ :=
    vrfy_nextRec_mismatch_report sampleApi FLAG_TLV16 0 4
      (fun l r lv => sampleApi.hash_node_ksi (ksifile.zero 0) l r lv) (fun _ _ _ _ => rfl)
      sampleMismatchFirst sampleMismatchSecond [0x62] 0 (fun _ _ => tlvrecord_t.zero)
      (by decide)
  obtain ⟨rep, h1, h2, h3, h4, h5⟩ := hrep [] (by decide)
  have hfp : sampleMismatchSecond.ectx.fp
      = some [{ errcode := rsgte.invld_tree_hash, blkNum := 0, recNum := 0, recNumInFile := 0,
                computedHash := some sampleNodeAB,
                fileHash := some { hashID := 1, len := 32,
                                   data := some (sampleNodeAB.digest.take 31 ++ [0xFF]) },
                treeLevel := 1, lefthash := some sampleLeafA, righthash := some sampleLeafB,
                ksistate := 0 }] := by decide
  rw [hfp] at h1
  simp only [List.nil_append, Option.some.injEq, List.cons.injEq, and_true] at h1
  subst h1
  exact ⟨_, _, hfp, rfl, rfl, rfl, rfl, rfl⟩

/-- C25 (missing-hash errors).  `r` is a well-formed record of a known type
(0x0901, 0x0902, 0x0903, 0x0904, 0x0905 or 0x0907) and the octets `pre` followed
by `r` are next in the signature stream.  (1) Record hashes are kept, `pre` is
empty and `r` is not of type 0x0902: `rsksi_vrfy_nextRec` returns
`RSGTE_MISS_REC_HASH`.  (2) Tree hashes are kept, `r` is not of type 0x0903,
and either record hashes are not kept and `pre` is empty, or record hashes are
kept and `pre` is a well-formed record hash for which the output stream has
room: `rsksi_vrfy_nextRec` returns `RSGTE_MISS_TREE_HASH`.  (3) The same holds
for the tree hash of a carry: when the loop over the forest is at a valid
slot with tree hashes kept and `r` (not of type 0x0903) is next in the stream,
the loop ends with `RSGTE_MISS_TREE_HASH`, which `rsksi_vrfy_nextRec`
returns. -/
theorem vrfy_nextRec_missing_hash (api : ksiapi) (debug M : Nat) (st : vrfyState)
    (record : List Byte) (shc : Nat) (stack : Nat → Nat → tlvrecord_t)
    (r : sigRec) (pre rest : List Byte)
    (hwf : r.wf api.hashOutputLengthOctetsKSI = true)
    (hd : st.sigfp.content.drop st.sigfp.pos = pre ++ (r.enc ++ rest)) :
    (st.ksi.bKeepRecordHashes ≠ 0 → pre = [] → r.tlvtype ≠ 0x0902 →
      ∃ st1, rsksi_vrfy_nextRec api FLAG_TLV16 debug M st record shc stack
        = some (rsgte.miss_rec_hash, st1)) ∧
    (st.ksi.bKeepTreeHashes ≠ 0 → r.tlvtype ≠ 0x0903 →
      ((st.ksi.bKeepRecordHashes = 0 ∧ pre = []) ∨
       (st.ksi.bKeepRecordHashes ≠ 0 ∧
        (∃ alg digest, isTlv pre 0x0902 (alg :: digest) = true ∧
          digest.length = api.hashOutputLengthOctetsKSI alg) ∧
        ∀ o, st.nsigfp = some o → pre.length ≤ o.room)) →
      ∃ st1, rsksi_vrfy_nextRec api FLAG_TLV16 debug M st record shc stack
        = some (rsgte.miss_tree_hash, st1)) ∧
    (st.ksi.bKeepTreeHashes ≠ 0 → r.tlvtype ≠ 0x0903 → pre = [] →
      ∀ (fuel j : Nat) (tv : KSI_DataHash), st.ksi.roots_valid.getD j 0 ≠ 0 →
        (nextRecLoop api FLAG_TLV16 debug shc stack (fuel + 1) j (some tv) st).1
          = rsgte.miss_tree_hash) := by
  refine ⟨fun hb hp ht => ?_, fun hb ht hcase => ?_, fun hb ht hp fuel j tv hv => ?_⟩
  · subst hp
    rw [List.nil_append] at hd
    unfold rsksi_vrfy_nextRec
    simp only [hb, ne_eq, not_false_eq_true, if_true]
    rw [vrfy_chkRecHash_miss api st.ksi st.sigfp st.nsigfp _ st.ectx _ _ r rest hwf ht hd]
    exact ⟨_, rfl⟩
  · rcases hcase with ⟨hz, hp⟩ | ⟨hnz, ⟨alg, digest, henc, hdig⟩, hroom⟩
    · subst hp
      rw [List.nil_append] at hd
      unfold rsksi_vrfy_nextRec
      simp only [hz, ne_eq, not_true_eq_false, if_false, hb, not_false_eq_true, if_true]
      rw [vrfy_chkTreeHash_miss api debug st.ksi st.sigfp st.nsigfp _ _ _ _ r rest hwf ht hd]
      exact ⟨_, rfl⟩
    · obtain ⟨o1, h1⟩ := vrfy_chkRecHash_imprint api st.ksi st.sigfp st.nsigfp
        (some (api.hash_r_ksi st.ksi record)) st.ectx (stack 0 0) (fun k => stack 0 (k + 1))
        pre (r.enc ++ rest) alg digest henc hdig hd hroom
      have hd2 : ({ st.sigfp with pos := st.sigfp.pos + pre.length } : FILE).content.drop
          ({ st.sigfp with pos := st.sigfp.pos + pre.length } : FILE).pos = r.enc ++ rest := by
        show st.sigfp.content.drop (st.sigfp.pos + pre.length) = _
        rw [← List.drop_drop, hd, List.drop_left]
      unfold rsksi_vrfy_nextRec
      simp only [hnz, ne_eq, not_false_eq_true, if_true, hb]
      rw [h1]
      simp only []
      rw [vrfy_chkTreeHash_miss api debug st.ksi _ o1 _ _ _ _ r rest hwf ht hd2]
      exact ⟨_, rfl⟩
  · subst hp
    rw [List.nil_append] at hd
    unfold nextRecLoop
    rw [if_neg hv, if_pos (by simp)]
    have hk : ∀ k : ksifile,
        k = (if shc = 1 then
          { st.ksi with
            x_prevright :=
              api.rsksiImprintFromKSI_DataHash st.ksi (st.ksi.roots_hash.getD j none) }
          else st.ksi) →
        k.bKeepTreeHashes = st.ksi.bKeepTreeHashes := by
      intro k hk
      subst hk
      split <;> rfl
    generalize (if shc = 1 then
          { st.ksi with
            x_prevright :=
              api.rsksiImprintFromKSI_DataHash st.ksi (st.ksi.roots_hash.getD j none) }
          else st.ksi) = k1 at hk ⊢
    have hkt := hk k1 rfl
    dsimp only
    rw [if_pos (by rw [hkt]; exact hb),
      vrfy_chkTreeHash_miss api debug _ st.sigfp st.nsigfp _ _ _ _ r rest hwf ht hd]

theorem vrfy_nextRec_missing_hash_witness :
    ∃ st1, rsksi_vrfy_nextRec sampleApi FLAG_TLV16 0 4 (sampleState sampleExcerptSig) [0x61] 0
      (fun _ _ => tlvrecord_t.zero) = some (rsgte.miss_tree_hash, st1) :=
  (vrfy_nextRec_missing_hash sampleApi 0 4 (sampleState sampleExcerptSig) [0x61] 0
    (fun _ _ => tlvrecord_t.zero) (sigRec.excerptSig sampleExcerptSig [0xAA]) [] []
    (by decide) (by decide)).2.1 (by decide) (by decide) (Or.inl ⟨by decide, rfl⟩)

/-- C26 (stream/forest ordering), counterexample.  Tree hashes are kept, record
hashes are not, the forest is empty.  Appending the first record performs no
carry, and the successful call of `rsksi_vrfy_nextRec` has consumed one record
of type 0x0903 (the stream is at position 37, after the tree hash of the leaf).
Verifying the two records `"a"`, `"b"` consumes three records of type 0x0903
(the stream is at position 111): the two leaves and the node over them. -/
theorem vrfy_nextRec_leaf_tree_hash_consumed :
    carries (sampleState sampleTwoRecordStream).ksi = 0 ∧
    (rsksi_vrfy_nextRec sampleApi FLAG_TLV16 0 4 (sampleState sampleTwoRecordStream) [0x61] 0
        (fun _ _ => tlvrecord_t.zero)).map (fun p => (p.1, p.2.sigfp.pos))
      = some (rsgte.success, 37) ∧
    (rsksi_tlvRecRead FLAG_TLV16 (sampleState sampleTwoRecordStream).sigfp
        tlvrecord_t.zero).2.2.tlvtype = 0x0903 ∧
    (vrfyRecords sampleApi FLAG_TLV16 0 4 0 (fun _ _ _ => tlvrecord_t.zero) [[0x61], [0x62]]
        (sampleState sampleTwoRecordStream)).map (fun p => p.1.sigfp.pos) = some 111 ∧
    sampleTwoRecordStream.length = 111 := by
  refine ⟨by decide, by decide, by decide, by decide, by decide⟩

/-- C26, amended.  With tree hashes kept and a forest of at most as many slots
as the arrays hold, every successful call of `rsksi_vrfy_nextRec` reads from
the signature stream one record of type 0x0902 if record hashes are kept (none
otherwise) and then exactly `k + 1` records of type 0x0903, where `k` is the
number of carries performed while appending the record: the tree hash of the
new leaf and one tree hash for every carry.  In particular, verifying two
records starting from an empty forest, without record hashes, reads three
records of type 0x0903 in total. -/
theorem vrfy_nextRec_reads_records (api : ksiapi) (flag16 debug M : Nat) (st : vrfyState)
    (hb : st.ksi.bKeepTreeHashes ≠ 0) (hv : st.ksi.roots_valid.length = M)
    (hn : st.ksi.nRoots ≤ M) :
    (∀ (st1 : vrfyState) (record : List Byte) (shc : Nat) (stack : Nat → Nat → tlvrecord_t),
      rsksi_vrfy_nextRec api flag16 debug M st record shc stack = some (rsgte.success, st1) →
      readsRecords flag16
        ((if st.ksi.bKeepRecordHashes ≠ 0 then [0x0902] else [])
          ++ List.replicate (carries st.ksi + 1) 0x0903) st.sigfp st1.sigfp) ∧
    (∀ (st2 : vrfyState) (ra rb : List Byte) (leaves : List KSI_DataHash) (shc : Nat)
      (stack : Nat → Nat → Nat → tlvrecord_t),
      st.ksi.nRoots = 0 → st.ksi.bKeepRecordHashes = 0 →
      vrfyRecords api flag16 debug M shc stack [ra, rb] st = some (st2, leaves) →
      readsRecords flag16 [0x0903, 0x0903, 0x0903] st.sigfp st2.sigfp) := by
  refine ⟨fun st1 record shc stack h => vrfy_nextRec_reads h hb (by omega), ?_⟩
  intro st2 ra rb leaves shc stack hz hr h
  obtain ⟨st1, lv, hs1, hrest, _⟩ := vrfyRecords_cons h
  obtain ⟨st2b, lv2, hs2, hnil, _⟩ := vrfyRecords_cons hrest
  simp only [vrfyRecords, Option.some.injEq, Prod.mk.injEq] at hnil
  obtain ⟨hst, _⟩ := hnil
  subst hst
  obtain ⟨f1, _, f3, f4, _, f6⟩ := vrfy_nextRec_forest hs1 hv hn
  obtain ⟨g1, g2, _⟩ := vrfy_nextRec_flags hs1
  have hc0 : carries st.ksi = 0 := by
    unfold carries
    rw [hz]
    rfl
  have hn1 : st1.ksi.nRoots = 1 := by rw [f4, hc0, hz]; rfl
  have hc1 : carries st1.ksi = 1 := by
    unfold carries
    rw [hn1, carriesFrom, if_neg (by rw [f6 0, hc0]; simp)]
    rfl
  have r1 := vrfy_nextRec_reads hs1 hb (by omega)
  have r2 := vrfy_nextRec_reads hs2 (by rw [g2]; exact hb) (by omega)
  rw [if_neg (not_not.mpr hr), hc0] at r1
  rw [if_neg (not_not.mpr (g1.trans hr)), hc1] at r2
  exact readsRecords_append flag16 [0x0903] [0x0903, 0x0903] _ _ _ r1 r2

theorem vrfy_nextRec_reads_records_witness :
    readsRecords FLAG_TLV16 [0x0903] (sampleState sampleTwoRecordStream).sigfp
      { (sampleState sampleTwoRecordStream).sigfp with pos := 37 } :=
  (vrfy_nextRec_reads_records sampleApi FLAG_TLV16 0 4 (sampleState sampleTwoRecordStream)
    (by decide) (by decide) (by decide)).1
    ((rsksi_vrfy_nextRec sampleApi FLAG_TLV16 0 4 (sampleState sampleTwoRecordStream) [0x61] 0
      (fun _ _ => tlvrecord_t.zero)).getD (rsgte.io, sampleState [])).2
    [0x61] 0 (fun _ _ => tlvrecord_t.zero) (by decide)

/-- C27 (forest occupancy).  The forest has no valid slot, `nRoots` is 0 and the
array of valid flags has `MAX_ROOTS` entries.  After `k` successful calls of
`rsksi_vrfy_nextRec` (one for each of the `k` records), slot `j` is valid iff
bit `j` of `k` is 1, `nRoots` is the bit length of `k`, and the numbers
`2 ^ j` of the valid slots below `nRoots` sum to `k`. -/
theorem vrfyRecords_forest_occupancy (api : ksiapi) (flag16 debug M shc : Nat)
    (stack : Nat → Nat → Nat → tlvrecord_t) (records : List (List Byte))
    (st st1 : vrfyState) (leaves : List KSI_DataHash)
    (h : vrfyRecords api flag16 debug M shc stack records st = some (st1, leaves))
    (hv : st.ksi.roots_valid.length = M) (hz : ∀ j, st.ksi.roots_valid.getD j 0 = 0)
    (hn : st.ksi.nRoots = 0) :
    (∀ j, st1.ksi.roots_valid.getD j 0 ≠ 0 ↔ records.length.testBit j = true) ∧
    st1.ksi.nRoots = Nat.size records.length ∧
    ((List.range st1.ksi.nRoots).map
      (fun j => if st1.ksi.roots_valid.getD j 0 ≠ 0 then 2 ^ j else 0)).sum
      = records.length := by
  obtain ⟨_, a, b, c⟩ := vrfyRecords_occupancy api flag16 debug M shc stack records st st1
    leaves 0 h hv (by omega) (fun i => ⟨fun hc => absurd (hz i) hc, fun hc => by simp at hc⟩) (fun i _ => Nat.zero_testBit i)
    (fun hz0 => absurd hn hz0)
  rw [Nat.zero_add] at a b c
  have hsize : Nat.size records.length = st1.ksi.nRoots :=
    size_of_testBit records.length st1.ksi.nRoots b c
  refine ⟨a, hsize.symm, ?_⟩
  have hlt : records.length < 2 ^ st1.ksi.nRoots := by
    rw [← hsize]; exact Nat.lt_size_self _
  have hs := sum_testBit st1.ksi.nRoots records.length hlt
  rw [← hs]
  congr 1
  apply List.map_congr_left
  intro j _
  by_cases hj : records.length.testBit j = true
  · rw [if_pos ((a j).mpr hj), if_pos hj]
  · rw [if_neg (fun hc => hj ((a j).mp hc)), if_neg hj]

theorem vrfyRecords_forest_occupancy_witness :
    sampleTwoRecordRun.1.ksi.nRoots = Nat.size 2 :=
  (vrfyRecords_forest_occupancy sampleApi FLAG_TLV16 0 4 0 (fun _ _ _ => tlvrecord_t.zero)
    [[0x61], [0x62]] (sampleState sampleTwoRecordStream) sampleTwoRecordRun.1
    sampleTwoRecordRun.2 (by decide) (by decide)
    (fun j => by
      show ([0, 0, 0, 0] : List Nat).getD j 0 = 0
      rcases j with _ | _ | _ | _ | _ | j <;> rfl)
    (by decide)).2.1

/-- C28 (forest slot contents).  The node hash is a function `H` of left hash,
right hash and level (it does not depend on the verifier state).  The forest is
empty (`nRoots` is 0, no valid slot) and both arrays have `MAX_ROOTS` entries.
After successful calls of `rsksi_vrfy_nextRec` for records with the leaf hashes
`leaves` (in order), the slots `0 .. nRoots - 1` cover `leaves`: going from
slot 0 upwards, every valid slot `j` holds the hash of the perfect binary tree
over the last `2 ^ j` leaves not covered by a lower slot, a tree of height
`h + 1` being `H older newer (h + 2)` of its two subtrees of height `h`, and no
leaf is left over; so the valid slots from highest to lowest partition the
leaves in order.  For two leaves `La`, `Lb` slot 0 is not valid and slot 1
holds `H La Lb 2`. -/
theorem vrfyRecords_forest_contents (api : ksiapi) (flag16 debug M shc : Nat)
    (stack : Nat → Nat → Nat → tlvrecord_t)
    (H : KSI_DataHash → KSI_DataHash → Nat → KSI_DataHash)
    (hH : ∀ k l r lv, api.hash_node_ksi k (some l) (some r) lv = H l r lv)
    (records : List (List Byte)) (st st1 : vrfyState) (leaves : List KSI_DataHash)
    (h : vrfyRecords api flag16 debug M shc stack records st = some (st1, leaves))
    (hv : st.ksi.roots_valid.length = M) (hh : st.ksi.roots_hash.length = M)
    (hz : ∀ j, st.ksi.roots_valid.getD j 0 = 0) (hn : st.ksi.nRoots = 0) :
    leaves.length = records.length ∧
    coversUp H st1.ksi.roots_valid st1.ksi.roots_hash st1.ksi.nRoots 0 leaves = true ∧
    (∀ La Lb, leaves = [La, Lb] →
      st1.ksi.roots_valid.getD 0 0 = 0 ∧ st1.ksi.roots_valid.getD 1 0 ≠ 0 ∧
      st1.ksi.roots_hash.getD 1 none = some (H La Lb 2)) := by
  obtain ⟨hlen, a, b, c⟩ := vrfyRecords_occupancy api flag16 debug M shc stack records st st1
    leaves 0 h hv (by omega) (fun i => ⟨fun hc => absurd (hz i) hc, fun hc => by simp at hc⟩) (fun i _ => Nat.zero_testBit i)
    (fun hz0 => absurd hn hz0)
  rw [Nat.zero_add] at a b c
  have hc := vrfyRecords_covers api flag16 debug M shc stack H hH records st st1 leaves [] h hv
    hh (by omega) (by rw [hn]; rfl)
  rw [List.nil_append] at hc
  refine ⟨hlen, hc, ?_⟩
  intro La Lb hl
  have hk : records.length = 2 := by rw [← hlen, hl]; rfl
  rw [hk] at a b c
  have hn2 : st1.ksi.nRoots = 2 := by
    have h2 : ∀ i, 2 ≤ i → Nat.testBit 2 i = false := fun i hi =>
      Nat.testBit_lt_two_pow (by
        calc 2 < 2 ^ 2 := by decide
          _ ≤ 2 ^ i := Nat.pow_le_pow_right (by decide) hi)
    have hge : ¬ st1.ksi.nRoots ≤ 1 := fun hle => by
      have := b 1 hle
      exact absurd this (by decide)
    have hle : ¬ 3 ≤ st1.ksi.nRoots := fun hge3 => by
      have := c (by omega)
      rw [h2 _ (by omega)] at this
      simp at this
    omega
  have h0 : st1.ksi.roots_valid.getD 0 0 = 0 := by
    have := (a 0).not
    simpa using this
  have h1 : st1.ksi.roots_valid.getD 1 0 ≠ 0 := (a 1).mpr (by decide)
  refine ⟨h0, h1, ?_⟩
  rw [hn2, hl, coversUp, if_neg (not_not.mpr h0), coversUp, if_pos h1] at hc
  simp only [Bool.and_eq_true, decide_eq_true_eq] at hc
  rw [hc.1.2]
  rfl

theorem vrfyRecords_forest_contents_witness :
    sampleTwoRecordRun.1.ksi.roots_hash.getD 1 none = some sampleNodeAB :=
  ((vrfyRecords_forest_contents sampleApi FLAG_TLV16 0 4 0 (fun _ _ _ => tlvrecord_t.zero)
    (fun l r lv => sampleApi.hash_node_ksi (ksifile.zero 0) (some l) (some r) lv)
    (fun _ _ _ _ => rfl)
    [[0x61], [0x62]] (sampleState sampleTwoRecordStream) sampleTwoRecordRun.1
    sampleTwoRecordRun.2 (by decide) (by decide) (by decide)
    (fun j => by
      show ([0, 0, 0, 0] : List Nat).getD j 0 = 0
      rcases j with _ | _ | _ | _ | _ | j <;> rfl)
    (by decide)).2.2 sampleLeafA sampleLeafB (by decide)).2.2

/-- C29 (finalization).  The node hash is a function `H` of left hash, right
hash and level.  (1) For a verifier state with at least one record
(`nRecords != 0`) whose valid slots below `nRoots` hold a hash,
`verifySigblkFinish` returns success, `*pRoot` is the fold of the valid slots
from lowest to highest index (the lowest valid slot, then `H roots[j] root
(j + 2)` for every higher valid slot `j`; `NULL` if no slot is valid), the
valid flag of every slot below `nRoots` is cleared and `bInBlk` is 0.  (2) For
a single-record block (empty forest, `nRecords = 0`, one successful call of
`rsksi_vrfy_nextRec`) the root is the leaf hash of that record. -/
theorem verifySigblkFinish_spec (api : ksiapi)
    (H : Option KSI_DataHash → Option KSI_DataHash → Nat → KSI_DataHash)
    (hH : ∀ k l r lv, api.hash_node_ksi k l r lv = H l r lv) :
    (∀ (ksi : ksifile) (pRoot : Option KSI_DataHash) (r0 : rsgte),
      ksi.nRecords ≠ 0 →
      (∀ i, i < ksi.nRoots → ksi.roots_valid.getD i 0 ≠ 0 → ksi.roots_hash.getD i none ≠ none) →
      ∃ ksi1 : ksifile,
        verifySigblkFinish api ksi pRoot r0 = (rsgte.success, finishRoot H ksi, ksi1) ∧
        (∀ i, i < ksi.nRoots → ksi1.roots_valid.getD i 0 = 0) ∧ ksi1.bInBlk = 0) ∧
    (∀ (flag16 debug M : Nat) (st st1 : vrfyState) (record : List Byte) (shc : Nat)
      (stack : Nat → Nat → tlvrecord_t) (pRoot : Option KSI_DataHash) (r0 : rsgte),
      st.ksi.nRoots = 0 → st.ksi.nRecords = 0 →
      st.ksi.roots_valid.length = M → st.ksi.roots_hash.length = M →
      rsksi_vrfy_nextRec api flag16 debug M st record shc stack = some (rsgte.success, st1) →
      (verifySigblkFinish api st1.ksi pRoot r0).1 = rsgte.success ∧
      (verifySigblkFinish api st1.ksi pRoot r0).2.1 = some (leafHash api st.ksi record)) := by
  constructor
  · intro ksi pRoot r0 hrec hs
    obtain ⟨ksi1, h1, h2, h3, _⟩ := verifySigblkFinish_root api H hH ksi pRoot r0 hrec hs
    exact ⟨ksi1, h1, fun i hi => by rw [h2 i, if_pos hi], h3⟩
  · intro flag16 debug M st st1 record shc stack pRoot r0 hn hr hv hh hstep
    obtain ⟨f1, f2, f3, f4, f5, f6⟩ := vrfy_nextRec_forest hstep hv (by omega)
    have hc0 : carries st.ksi = 0 := by
      unfold carries
      rw [hn]
      rfl
    have hn1 : st1.ksi.nRoots = 1 := by rw [f4, hc0, hn]; rfl
    have hv0 : st1.ksi.roots_valid.getD 0 0 ≠ 0 := by rw [f6 0, hc0]; simp
    have hcov := vrfy_nextRec_covers (fun l r lv => H (some l) (some r) lv)
      (fun k l r lv => hH k (some l) (some r) lv) hstep hv hh (by omega) []
      (by rw [hn]; rfl)
    rw [hn1, List.nil_append, coversUp, if_pos hv0] at hcov
    simp only [Bool.and_eq_true, decide_eq_true_eq] at hcov
    have hh0 : st1.ksi.roots_hash.getD 0 none = some (leafHash api st.ksi record) := by
      rw [hcov.1.2]
      rfl
    have hrec : st1.ksi.nRecords ≠ 0 := by rw [f5, hr]; decide
    obtain ⟨ksi1, h1, _⟩ := verifySigblkFinish_root api H hH st1.ksi pRoot r0 hrec
      (fun i hi _ => by
        have : i = 0 := by omega
        subst this
        rw [hh0]
        simp)
    rw [h1]
    refine ⟨rfl, ?_⟩
    show finishRoot H st1.ksi = _
    unfold finishRoot
    rw [hn1]
    have hf : (List.range 1).filter (fun j => decide (st1.ksi.roots_valid.getD j 0 ≠ 0)) = [0] := by
      rw [show List.range 1 = [0] from rfl, List.filter_cons, if_pos (by simpa using hv0)]
      rfl
    rw [hf]
    exact hh0

theorem verifySigblkFinish_spec_witness :
    ∃ ksi1 : ksifile,
      verifySigblkFinish sampleApi sampleTwoRecordRun.1.ksi none rsgte.io
        = (rsgte.success, some sampleNodeAB, ksi1) := by
  have hf : finishRoot (fun l r lv => sampleApi.hash_node_ksi (ksifile.zero 0) l r lv)
      sampleTwoRecordRun.1.ksi = some sampleNodeAB := by decide
  obtain ⟨ksi1, h1, _⟩ := (verifySigblkFinish_spec sampleApi
      (fun l r lv => sampleApi.hash_node_ksi (ksifile.zero 0) l r lv)
      (fun _ _ _ _ => rfl)).1 sampleTwoRecordRun.1.ksi none rsgte.io (by decide)
      (fun i hi hv => by
        have h2 : sampleTwoRecordRun.1.ksi.nRoots = 2 := by decide
        rw [h2] at hi
        rcases i with _ | _ | i
        · exact absurd hv (by decide)
        · decide
        · omega)
  rw [hf] at h1
  exact ⟨ksi1, h1⟩

/-- C31 (excerpt verification steps).  The record hash and the node hash are
functions `R` and `H` of their data; `KSI_DataHash_fromDigest` makes the hash
with the algorithm and digest of a well-formed imprint, and
`KSI_DataHash_equals` returns 1 exactly for equal hashes.  The next record of
the stream is a well-formed hash chain with record hash `a1 || d1`, left step
`(lc2, a2 || d2)` and right step `(lc3, a3 || d3)`.  (1) If `a1` is the
algorithm id of the block, `rsksi_vrfy_nextHashChain` returns
`RSGTE_INVLD_REC_HASH` iff `H left R(rec) (lc2 + 1)` differs from the record
hash; otherwise its code is that of the signature engine (parse, verify,
verify the data hash), and the hash handed to `KSI_Signature_verifyDataHash` is
`H right (H left R(rec) (lc2 + 1)) lc3`.  (2) If `a1` is another algorithm id,
it returns `RSGTE_INVLD_REC_HASHID`.  (3) If the next record of a stream is a
well-formed record of another known type, it returns `RSGTE_INVLTYP`. -/
theorem vrfy_nextHashChain_steps (api : ksiapi) (lib : ksilib)
    (H : KSI_DataHash → KSI_DataHash → Nat → KSI_DataHash) (R : List Byte → KSI_DataHash)
    (bs : Option block_sig_t) (ksi : ksifile) (sigfp : FILE) (record : List Byte)
    (ectx : ksierrctx_t) (rec0 : tlvrecord_t) (obj0 : Option tlvobj) (stack : Nat → tlvrecord_t)
    (enc e1 e2 e3 rest : List Byte)
    (a1 : Byte) (d1 : List Byte) (l2 s2 : List Byte) (lc2 a2 : Byte) (d2 : List Byte)
    (l3 s3 : List Byte) (lc3 a3 : Byte) (d3 : List Byte)
    (hH : ∀ k l r lv, api.hash_node_ksi k (some l) (some r) lv = H l r lv)
    (hR : ∀ k rec, api.hash_r_ksi k rec = R rec)
    (hFD : ∀ (a : Byte) (d : List Byte), d.length = api.hashOutputLengthOctetsKSI a →
      lib.KSI_DataHash_fromDigest a (some d) d.length = some { algo := a.val, digest := d })
    (hEq : ∀ x y, lib.KSI_DataHash_equals (some x) (some y) = 1 ↔ x = y)
    (hwf : (sigRec.hashChain enc e1 e2 e3 a1 d1 l2 s2 lc2 a2 d2 l3 s3 lc3 a3 d3).wf
      api.hashOutputLengthOctetsKSI = true)
    (hd : sigfp.content.drop sigfp.pos = enc ++ rest) :
    (a1 = api.hashIdentifierKSI ksi.hashAlg →
      ((rsksi_vrfy_nextHashChain api lib FLAG_TLV16 bs ksi sigfp record ectx rec0 obj0 stack).1
          = rsgte.invld_rec_hash ↔
        H { algo := a2.val, digest := d2 } (R record) (lc2.val + 1)
          ≠ { algo := a1.val, digest := d1 }) ∧
      (H { algo := a2.val, digest := d2 } (R record) (lc2.val + 1)
          = { algo := a1.val, digest := d1 } →
        (rsksi_vrfy_nextHashChain api lib FLAG_TLV16 bs ksi sigfp record ectx rec0 obj0 stack).1
          = if (api.KSI_Signature_parse ((bs.getD block_sig_t.zero).der_data.getD [])
                (bs.getD block_sig_t.zero).der_len).1 ≠ KSI_OK then rsgte.invld_signature
            else if lib.KSI_Signature_verify
                (api.KSI_Signature_parse ((bs.getD block_sig_t.zero).der_data.getD [])
                  (bs.getD block_sig_t.zero).der_len).2 ≠ KSI_OK then rsgte.invld_signature
            else if api.KSI_Signature_verifyDataHash
                (api.KSI_Signature_parse ((bs.getD block_sig_t.zero).der_data.getD [])
                  (bs.getD block_sig_t.zero).der_len).2
                (some (H { algo := a3.val, digest := d3 }
                  (H { algo := a2.val, digest := d2 } (R record) (lc2.val + 1)) lc3.val))
                ≠ KSI_OK then rsgte.invld_signature
            else rsgte.success)) ∧
    (a1 ≠ api.hashIdentifierKSI ksi.hashAlg →
      (rsksi_vrfy_nextHashChain api lib FLAG_TLV16 bs ksi sigfp record ectx rec0 obj0 stack).1
        = rsgte.invld_rec_hashid) ∧
    (∀ (r : sigRec) (fp : FILE) (rest1 : List Byte),
      r.wf api.hashOutputLengthOctetsKSI = true → fp.content.drop fp.pos = r.enc ++ rest1 →
      r.tlvtype ≠ 0x0907 →
      (rsksi_vrfy_nextHashChain api lib FLAG_TLV16 bs ksi fp record ectx rec0 obj0 stack).1
        = rsgte.invltyp) := by
  have hw := hwf
  simp only [sigRec.wf, Bool.and_eq_true, decide_eq_true_eq] at hw
  obtain ⟨⟨⟨⟨⟨⟨⟨⟨⟨⟨-, -⟩, hd1⟩, -⟩, -⟩, -⟩, hd2⟩, -⟩, -⟩, -⟩, hd3⟩ := hw
  rcases hp : api.KSI_Signature_parse ((bs.getD block_sig_t.zero).der_data.getD [])
    (bs.getD block_sig_t.zero).der_len with ⟨ks, sig⟩
  have hcode := vrfy_nextHashChain_chain api lib bs ksi sigfp record ectx rec0 obj0 stack enc e1
    e2 e3 rest a1 d1 l2 s2 lc2 a2 d2 l3 s3 lc3 a3 d3 ks sig hwf hd hp
  rw [hFD a1 d1 hd1, hFD a2 d2 hd2, hFD a3 d3 hd3, hH, hH, hR] at hcode
  refine ⟨fun halg => ?_, fun halg => ?_, fun r fp rest1 hrw hrd hrt =>
    vrfy_nextHashChain_other api lib bs ksi fp record ectx rec0 obj0 stack r rest1 hrw hrd hrt⟩
  · rw [if_neg (not_not.mpr halg)] at hcode
    constructor
    · constructor
      · intro hc heq
        rw [if_neg (not_not.mpr ((hEq _ _).mpr heq))] at hcode
        rw [hcode] at hc
        split_ifs at hc
      · intro hne
        rw [hcode, if_pos (fun hc => hne ((hEq _ _).mp hc))]
    · intro heq
      rw [hcode, if_neg (not_not.mpr ((hEq _ _).mpr heq))]
  · rw [hcode, if_pos halg]

set_option maxRecDepth 100000 in
theorem vrfy_nextHashChain_steps_witness :
    (rsksi_vrfy_nextHashChain sampleApi sampleLib FLAG_TLV16
        (some { sigID := SIGID_RFC3161, recCount := 1, der_len := 1, der_data := some [0xAA] })
        (sampleState []).ksi { content := sampleHashChain, pos := 0, eof := false } [0x61]
        ksierrctx_t.zero tlvrecord_t.zero none (fun _ => tlvrecord_t.zero)).1
      = rsgte.invld_rec_hash :=
  ((vrfy_nextHashChain_steps sampleApi sampleLib sampleH sampleR
      (some { sigID := SIGID_RFC3161, recCount := 1, der_len := 1, der_data := some [0xAA] })
      (sampleState []).ksi { content := sampleHashChain, pos := 0, eof := false } [0x61]
      ksierrctx_t.zero tlvrecord_t.zero none (fun _ => tlvrecord_t.zero)
      sampleHashChain (0x01 :: 0x21 :: 0x01 :: List.replicate 32 0x22)
      (0x02 :: 0x26 :: ([0x01, 0x01, 0x00] ++ (0x02 :: 0x21 :: 0x01 :: List.replicate 32 0x33)))
      (0x03 :: 0x26 :: ([0x01, 0x01, 0x00] ++ (0x02 :: 0x21 :: 0x01 :: List.replicate 32 0x44)))
      [] 0x01 (List.replicate 32 0x22)
      [0x01, 0x01, 0x00] (0x02 :: 0x21 :: 0x01 :: List.replicate 32 0x33) 0x00 0x01
      (List.replicate 32 0x33)
      [0x01, 0x01, 0x00] (0x02 :: 0x21 :: 0x01 :: List.replicate 32 0x44) 0x00 0x01
      (List.replicate 32 0x44)
      (fun _ _ _ _ => rfl) (fun _ _ => rfl) (fun a d _ => sampleLib_fromDigest a d)
      sampleLib_equals (by decide) (by decide)).1 (by decide)).1.mpr (by decide)

/-- The record-hash link of the extractor in a state in which `x_prevright` is
set (after a record whose append has combined a forest root).  The record hash
and the node
hash are functions `R` and `H` of their data, the library converts the mask
hash `m` of the record and the leaf hash `H m R(rec) 1` to imprints and back
(`restoresHash`), and `KSI_DataHash_equals` returns 1 exactly for equal hashes.
`rsksi_vrfy_nextRec(rec, storehashchain = 1)` has returned success; in the
state it leaves, `x_prevright` is set (`rsksi_StartHashChain` reads its length)
and `nRoots < 256`, and the output stream has room.  Then
`rsksi_StartHashChain` returns success and appends the header of a 0x0907
record, the record hash `a1 || d1`, which is the imprint of `H m R(rec) 1`, and
a left step with level correction 0 and sibling `a2 || d2`, the imprint of `m`.
For every well-formed hash-chain record with this record hash and left step,
read by a verifier whose block algorithm is `a1`, `rsksi_vrfy_nextHashChain` on
the same record does not return `RSGTE_INVLD_REC_HASH`; and if `H` is injective
in its right argument and `R` is injective, it returns `RSGTE_INVLD_REC_HASH`
on every other record. -/
theorem extractor_record_hash_link (api : ksiapi) (lib : ksilib)
    (H : KSI_DataHash → KSI_DataHash → Nat → KSI_DataHash) (R : List Byte → KSI_DataHash)
    (flag16 debug M : Nat) (st st1 : vrfyState) (record : List Byte)
    (stack : Nat → Nat → tlvrecord_t) (out : OFILE) (n : Nat) (pr : imprint_t)
    (hH : ∀ k l r lv, api.hash_node_ksi k (some l) (some r) lv = H l r lv)
    (hR : ∀ k rec, api.hash_r_ksi k rec = R rec)
    (hm : restoresHash api lib (api.hash_m_ksi st.ksi))
    (hx : restoresHash api lib (H (api.hash_m_ksi st.ksi) (R record) 1))
    (hEq : ∀ x y, lib.KSI_DataHash_equals (some x) (some y) = 1 ↔ x = y)
    (hrun : rsksi_vrfy_nextRec api flag16 debug M st record 1 stack = some (rsgte.success, st1))
    (hpr : st1.ksi.x_prevright = some pr) (hroots : st1.ksi.nRoots < 256)
    (hlen : 515 + (6 + pr.len) * n < 2 ^ 16) (hroom : 515 ≤ out.room) :
    ∃ (a1 a2 : Byte) (d1 d2 : List Byte) (out1 : OFILE) (tl : Nat),
      lib.KSI_DataHash_fromDigest a1 (some d1) d1.length
        = some (H (api.hash_m_ksi st.ksi) (R record) 1) ∧
      lib.KSI_DataHash_fromDigest a2 (some d2) d2.length = some (api.hash_m_ksi st.ksi) ∧
      rsksi_StartHashChain FLAG_TLV16 out st1.ksi n = some (rsgte.success, out1) ∧
      out1.content = out.content
        ++ ([0x89, 0x07, toByte (tl >>> 8), toByte (tl &&& 0xff)]
          ++ (imprintChild 0x01 a1 d1 ++ hashStep 0x02 0 a2 d2)) ∧
      ∀ (enc e3 l3 s3 : List Byte) (lc3 a3 : Byte) (d3 rest : List Byte)
        (bs : Option block_sig_t) (ksiv : ksifile) (sigfp : FILE) (ectx : ksierrctx_t)
        (rec0 : tlvrecord_t) (obj0 : Option tlvobj) (stk : Nat → tlvrecord_t),
        (sigRec.hashChain enc (imprintChild 0x01 a1 d1) (hashStep 0x02 0 a2 d2) e3 a1 d1
          [0x01, 0x01, 0] (imprintChild 0x02 a2 d2) 0 a2 d2 l3 s3 lc3 a3 d3).wf
          api.hashOutputLengthOctetsKSI = true →
        sigfp.content.drop sigfp.pos = enc ++ rest →
        a1 = api.hashIdentifierKSI ksiv.hashAlg →
        (rsksi_vrfy_nextHashChain api lib FLAG_TLV16 bs ksiv sigfp record ectx rec0 obj0 stk).1
          ≠ rsgte.invld_rec_hash ∧
        ((∀ l r r2 lv, H l r lv = H l r2 lv → r = r2) → Function.Injective R →
          ∀ record2 : List Byte, record2 ≠ record →
            (rsksi_vrfy_nextHashChain api lib FLAG_TLV16 bs ksiv sigfp record2 ectx rec0 obj0
              stk).1 = rsgte.invld_rec_hash) := by
  obtain ⟨pl, px, -, -⟩ := vrfy_nextRec_prev_chain hrun
  have hleaf : leafHash api st.ksi record = H (api.hash_m_ksi st.ksi) (R record) 1 := by
    unfold leafHash
    rw [hH, hR]
  rw [hleaf] at px
  obtain ⟨a2, d2, i2, w2, b2, f2⟩ := hm st.ksi
  obtain ⟨a1, d1, i1, w1, b1, f1⟩ := hx
    { st.ksi with
      x_prevleft := api.rsksiImprintFromKSI_DataHash st.ksi (some (api.hash_m_ksi st.ksi)) }
  have hmul : (2 + 1 + 2 + 1 + pr.len) * n = (6 + pr.len) * n := by
    congr 1
  have hs := startHashChain_ok out st1.ksi n a1 a2 d1 d2 pr (px.trans i1) (pl.trans i2) hpr
    hroots (by rw [hmul]; omega) (by omega)
  refine ⟨a1, a2, d1, d2, _, _, f1, f2, hs, rfl, ?_⟩
  intro enc e3 l3 s3 lc3 a3 d3 rest bs ksiv sigfp ectx rec0 obj0 stk hwf hd halg
  rcases hp : api.KSI_Signature_parse ((bs.getD block_sig_t.zero).der_data.getD [])
    (bs.getD block_sig_t.zero).der_len with ⟨ks, sig⟩
  have hcode : ∀ rc : List Byte,
      (rsksi_vrfy_nextHashChain api lib FLAG_TLV16 bs ksiv sigfp rc ectx rec0 obj0 stk).1
        = if H (api.hash_m_ksi st.ksi) (R rc) 1 ≠ H (api.hash_m_ksi st.ksi) (R record) 1 then
            rsgte.invld_rec_hash
          else if ks ≠ KSI_OK then rsgte.invld_signature
          else if lib.KSI_Signature_verify sig ≠ KSI_OK then rsgte.invld_signature
          else if api.KSI_Signature_verifyDataHash sig
              (some (api.hash_node_ksi ksiv (lib.KSI_DataHash_fromDigest a3 (some d3) d3.length)
                (some (H (api.hash_m_ksi st.ksi) (R rc) 1)) lc3.val)) ≠ KSI_OK
            then rsgte.invld_signature
          else rsgte.success := by
    intro rc
    have hc := vrfy_nextHashChain_chain api lib bs ksiv sigfp rc ectx rec0 obj0 stk enc _ _ e3
      rest a1 d1 _ _ 0 a2 d2 l3 s3 lc3 a3 d3 ks sig hwf hd hp
    rw [f1, f2, hH, hR, if_neg (not_not.mpr halg)] at hc
    have hlv : (0 : Byte).val + 1 = 1 := rfl
    rw [hlv] at hc
    rw [hc]
    by_cases he : H (api.hash_m_ksi st.ksi) (R rc) 1 = H (api.hash_m_ksi st.ksi) (R record) 1
    · rw [if_neg (not_not.mpr ((hEq _ _).mpr he)), if_neg (not_not.mpr he)]
    · rw [if_pos (fun hc2 => he ((hEq _ _).mp hc2)), if_pos he]
  constructor
  · rw [hcode record, if_neg (not_not.mpr rfl)]
    split_ifs <;> simp
  · intro hinjH hinjR record2 hne
    rw [hcode record2, if_pos]
    intro hc
    exact hne (hinjR (hinjH _ _ _ _ hc))

theorem extractor_record_hash_link_witness :
    ∃ (a1 a2 : Byte) (d1 d2 : List Byte) (out1 : OFILE),
      sampleLib.KSI_DataHash_fromDigest a1 (some d1) d1.length
        = some (sampleH (sampleApi.hash_m_ksi sampleExtractFirst.ksi) (sampleR [0x62]) 1) ∧
      sampleLib.KSI_DataHash_fromDigest a2 (some d2) d2.length
        = some (sampleApi.hash_m_ksi sampleExtractFirst.ksi) ∧
      rsksi_StartHashChain FLAG_TLV16 { content := [], room := 600 } sampleExtractSecond.ksi 1
        = some (rsgte.success, out1) := by
  obtain ⟨a1, a2, d1, d2, out1, tl, h1, h2, h3, _⟩ :=
    extractor_record_hash_link sampleApi sampleLib sampleH sampleR FLAG_TLV16 0 4
      sampleExtractFirst sampleExtractSecond [0x62] (fun _ _ => tlvrecord_t.zero)
      { content := [], room := 600 } 1
      ((sampleExtractSecond.ksi.x_prevright).getD imprint_t.zero)
      (fun _ _ _ _ => rfl) (fun _ _ => rfl)
      (sample_restoresHash _ (by decide) (by decide))
      (sample_restoresHash _ (by decide) (by decide))
      sampleLib_equals (by decide) (by decide) (by decide) (by decide) (by decide)
  exact ⟨a1, a2, d1, d2, out1, h1, h2, h3⟩

/-- C32 (extractor soundness, record-hash link), at the failing input.  A
verifier whose `x_prevright` is `NULL`, as `rsksi_vrfyConstruct_gf` leaves it,
appends the first record of a block to an empty forest (`nRoots` is 0) with
`storehashchain = 1`, and `rsksi_vrfy_nextRec` returns success.  Then
`x_prevleft` is the imprint of the mask hash, but `x_prevright` is still `NULL`:
it is set only when a forest root is combined (lines 1512-1516).
`rsksi_StartHashChain` starts no chain for this record, whatever the output
stream and the number of right links are: it returns `RSGTE_EXTRACT_HASH` when
the library has made no imprint for `x_prevleft` or `x_prev`, and otherwise it
does not return, because line 2095 reads `ksi->x_prevright->len` without the
check for `NULL` that line 2085 makes for the other two imprints. -/
theorem StartHashChain_after_first_record (api : ksiapi) (flag16 debug M : Nat)
    (st st1 : vrfyState) (record : List Byte) (stack : Nat → Nat → tlvrecord_t)
    (h : rsksi_vrfy_nextRec api flag16 debug M st record 1 stack = some (rsgte.success, st1))
    (hn : st.ksi.nRoots = 0) (hpr : st.ksi.x_prevright = none) :
    st1.ksi.x_prevleft
      = api.rsksiImprintFromKSI_DataHash st.ksi (some (api.hash_m_ksi st.ksi)) ∧
    st1.ksi.x_prevright = none ∧
    ∀ (f16 : Nat) (out : OFILE) (n : Nat),
      rsksi_StartHashChain f16 out st1.ksi n
        = if st1.ksi.x_prevleft = none ∨ st1.ksi.x_prev = none then
            some (rsgte.extract_hash, out)
          else none :=
  startHashChain_first api flag16 debug M st st1 record stack h hn hpr

theorem StartHashChain_after_first_record_witness :
    sampleExtractFirstChain.ksi.x_prevright = none ∧
    rsksi_StartHashChain FLAG_TLV16 { content := [], room := 1000 }
      sampleExtractFirstChain.ksi 1 = none :=
  ⟨(StartHashChain_after_first_record sampleApi FLAG_TLV16 0 4 sampleExtractStart
      sampleExtractFirstChain [0x61] (fun _ _ => tlvrecord_t.zero) (by decide) (by decide)
      (by decide)).2.1,
   ((StartHashChain_after_first_record sampleApi FLAG_TLV16 0 4 sampleExtractStart
      sampleExtractFirstChain [0x61] (fun _ _ => tlvrecord_t.zero) (by decide) (by decide)
      (by decide)).2.2 FLAG_TLV16 { content := [], room := 1000 } 1).trans (by decide)⟩

/-- C33 (hash-chain round trip).  The extractor imprints `x_prev`, `x_prevleft`
and `x_prevright` are set to imprints whose digests have the length of their
algorithm (below 250 octets, so that the lengths of the children fit the one
length octet of the short form), `nRoots < 256`, the level correction `v` is
below 256, and the output stream has room.  Then `rsksi_StartHashChain` with
one right link and `rsksi_AddRightToHashChain(v)` return success, and the
octets they append are one long-form record of type 0x0907 whose declared
length is the number of payload octets written.  `rsksi_tlvRecRead` reads that
record back, and `rsksi_tlvDecodeHASH_CHAIN` decodes it to `rec_hash = x_prev`,
left link `(0, x_prevleft)` and right link `(v, x_prevright)`. -/
theorem hashChain_roundtrip (dl : Byte → Nat) (out : OFILE) (ksi : ksifile) (v : Nat)
    (a1 a2 a3 : Byte) (d1 d2 d3 : List Byte)
    (hp : ksi.x_prev = some { hashID := a1, len := d1.length, data := some d1 })
    (hl : ksi.x_prevleft = some { hashID := a2, len := d2.length, data := some d2 })
    (hr : ksi.x_prevright = some { hashID := a3, len := d3.length, data := some d3 })
    (h1 : d1.length = dl a1) (h2 : d2.length = dl a2) (h3 : d3.length = dl a3)
    (b1 : d1.length < 250) (b2 : d2.length < 250) (b3 : d3.length < 250)
    (hn : ksi.nRoots < 256) (hv : v < 256)
    (hroom : 4 + (3 + d1.length) + (8 + d2.length) + (8 + d3.length) ≤ out.room) :
    ∃ (out1 out2 : OFILE) (payload : List Byte),
      rsksi_StartHashChain FLAG_TLV16 out ksi 1 = some (rsgte.success, out1) ∧
      rsksi_AddRightToHashChain FLAG_TLV16 out1 ksi v = some (rsgte.success, out2) ∧
      out2.content = out.content ++ chainRecord payload ∧
      isTlv (chainRecord payload) 0x0907 payload = true ∧
      ∀ (rest : List Byte) (rec0 : tlvrecord_t) (stack : Nat → tlvrecord_t),
        ∃ (nr : tlvrecord_t) (fp1 : FILE),
          rsksi_tlvRecRead FLAG_TLV16
            { content := chainRecord payload ++ rest, pos := 0, eof := false } rec0
            = (rsgte.success, fp1, nr) ∧
          nr.tlvtype = 0x0907 ∧ nr.tlvlen = payload.length ∧
          rsksi_tlvDecodeHASH_CHAIN FLAG_TLV16 dl nr stack
            = (rsgte.success,
                some { rec_hash := { hashID := a1, len := d1.length, data := some d1 },
                       left_link :=
                         { level_corr := 0,
                           sib_hash := { hashID := a2, len := d2.length, data := some d2 } },
                       right_link :=
                         { level_corr := toByte v,
                           sib_hash := { hashID := a3, len := d3.length, data := some d3 } } }) := by
  obtain ⟨out1, out2, hs, ha, hc⟩ := hashChain_written out ksi v a1 a2 a3 d1 d2 d3 hp hl hr hn hv
    b1 b2 b3 hroom
  have hwf := chainRecord_wf dl a1 a2 a3 (toByte v) d1 d2 d3 h1 h2 h3 b1 b2 b3
  refine ⟨out1, out2, chainPayload a1 d1 a2 d2 (toByte v) a3 d3, hs, ha, hc, ?_, ?_⟩
  · simp only [sigRec.wf, Bool.and_eq_true, decide_eq_true_eq] at hwf
    exact hwf.1.1.1.1.1.1.1.1.1.1
  · intro rest rec0 stack
    obtain ⟨nr, -, ht, hlen, hrd, hdec⟩ := tlvrd_chain_obj dl
      { content := chainRecord (chainPayload a1 d1 a2 d2 (toByte v) a3 d3) ++ rest, pos := 0,
        eof := false } rec0 none stack _ _ _ _ rest a1 d1 _ _ 0 a2 d2 _ _ (toByte v) a3 d3 hwf
      (by simp only [List.drop_zero])
    exact ⟨nr, _, hrd, ht, hlen, hdec⟩

theorem hashChain_roundtrip_witness :
    ∃ (out1 out2 : OFILE) (payload : List Byte),
      rsksi_StartHashChain FLAG_TLV16 { content := [], room := 200 } sampleChainKsi 1
        = some (rsgte.success, out1) ∧
      rsksi_AddRightToHashChain FLAG_TLV16 out1 sampleChainKsi 2 = some (rsgte.success, out2) ∧
      out2.content = [] ++ chainRecord payload ∧
      isTlv (chainRecord payload) 0x0907 payload = true := by
  obtain ⟨out1, out2, payload, a, b, c, d, _⟩ := hashChain_roundtrip sha256DigestLen
    { content := [], room := 200 } sampleChainKsi 2 1 1 1 (List.replicate 32 0x22)
    (List.replicate 32 0x33) (List.replicate 32 0x44) rfl rfl rfl (by decide) (by decide)
    (by decide) (by decide) (by decide) (by decide) (by decide) (by decide) (by decide)
  exact ⟨out1, out2, payload, a, b, c, d⟩

/-- C34 (signature-extension rewrite).  The engine extends the signature and
serializes the extended signature to `der`; the payload of the record begins
with five well-formed sub-records `s1 .. s5`, and the new length is below
`2 ^ 16`.  Then `rsksi_extendSig` returns success and the record it leaves in
`*rec` has the payload `s1 ++ s2 ++ s3 ++ s4 ++ [0x89, 0x06, len(der) >> 8,
len(der) & 0xFF] ++ der`, `tlvlen` equal to the length of that payload, the
type and the first two header octets of the record passed in, header octets 2
and 3 equal to the new `tlvlen` in big-endian order, and `lenHdr` 4. -/
theorem extendSig_rewrite_spec (api : ksiapi) (sig ext : Option KSI_Signature)
    (rec : tlvrecord_t) (ectx : ksierrctx_t) (newrec0 subrec0 : tlvrecord_t)
    (s1 s2 s3 s4 s5 rest der : List Byte) (t1 t2 t3 t4 t5 : Nat) (p1 p2 p3 p4 p5 : List Byte)
    (he : api.KSI_extendSignature sig = (KSI_OK, ext))
    (hs : api.KSI_Signature_serialize ext = (KSI_OK, der))
    (h1 : isTlv s1 t1 p1 = true) (h2 : isTlv s2 t2 p2 = true) (h3 : isTlv s3 t3 p3 = true)
    (h4 : isTlv s4 t4 p4 = true) (h5 : isTlv s5 t5 p5 = true)
    (hd : rec.data = s1 ++ (s2 ++ (s3 ++ (s4 ++ (s5 ++ rest)))))
    (hlen : s1.length + s2.length + s3.length + s4.length + s5.length ≤ rec.tlvlen)
    (hl : rec.tlvlen < 2 ^ 16)
    (hnew : s1.length + s2.length + s3.length + s4.length + 4 + der.length < 2 ^ 16) :
    ∃ rec1 : tlvrecord_t,
      rsksi_extendSig api FLAG_TLV16 sig rec ectx newrec0 subrec0 = (rsgte.success, rec1, ectx) ∧
      bufRead rec1.data rec1.tlvlen
        = s1 ++ (s2 ++ (s3 ++ (s4 ++
            ([0x89, 0x06, toByte (der.length >>> 8), toByte (der.length &&& 0xff)] ++ der)))) ∧
      rec1.tlvlen = s1.length + s2.length + s3.length + s4.length + 4 + der.length ∧
      rec1.tlvtype = rec.tlvtype ∧ rec1.hdr0 = rec.hdr0 ∧ rec1.hdr1 = rec.hdr1 ∧
      rec1.hdr2 = toByte (rec1.tlvlen >>> 8) ∧ rec1.hdr3 = toByte (rec1.tlvlen &&& 0xff) ∧
      rec1.lenHdr = 4 := by
  obtain ⟨rec1, a, b, c, d, e, f, g, h, i⟩ := extendSig_rewrite api sig ext rec ectx newrec0
    subrec0 s1 s2 s3 s4 s5 rest der t1 t2 t3 t4 t5 p1 p2 p3 p4 p5 he hs h1 h2 h3 h4 h5 hd hlen
    hl hnew
  exact ⟨rec1, a, c, b, d, e, f, g, h, i⟩

theorem extendSig_rewrite_spec_witness :
    ∃ rec1 : tlvrecord_t,
      rsksi_extendSig sampleApi FLAG_TLV16 (some { der := [0xDE, 0xAD] }) sampleFiveSubrecs
        ksierrctx_t.zero tlvrecord_t.zero tlvrecord_t.zero = (rsgte.success, rec1, ksierrctx_t.zero) ∧
      bufRead rec1.data rec1.tlvlen
        = [0x01, 0x01, 0x01, 0x02, 0x01, 0xAA, 0x03, 0x02, 0x01, 0xBB, 0x04, 0x01, 0x05,
           0x89, 0x06, 0x00, 0x02, 0xDE, 0xAD] := by
  obtain ⟨rec1, a, b, _⟩ := extendSig_rewrite_spec sampleApi (some { der := [0xDE, 0xAD] })
    (some { der := [0xDE, 0xAD] }) sampleFiveSubrecs ksierrctx_t.zero tlvrecord_t.zero
    tlvrecord_t.zero [0x01, 0x01, 0x01] [0x02, 0x01, 0xAA] [0x03, 0x02, 0x01, 0xBB]
    [0x04, 0x01, 0x05] [0x05, 0x01, 0xCC] [] [0xDE, 0xAD] 0x01 0x02 0x03 0x04 0x05
    [0x01] [0xAA] [0x01, 0xBB] [0x05] [0xCC] rfl rfl (by decide) (by decide) (by decide)
    (by decide) (by decide) (by decide) (by decide) (by decide) (by decide)
  exact ⟨rec1, a, b⟩

/-- C35 (extension of a record of the current format).  The record is one that
`rsksi_tlvDecodeBLOCK_SIG` accepts (its payload is exactly a record-count child
followed by a signature child), and the engine extends and serializes the
signature.  Then the first two sub-record reads of `rsksi_extendSig` succeed,
the third returns `RSGTE_LEN`, and `rsksi_extendSig` returns `RSGTE_LEN` with
the record and the error context as they were passed in. -/
theorem extendSig_after_blockSig (api : ksiapi) (flag16 : Nat) (sig ext : Option KSI_Signature)
    (rec : tlvrecord_t) (ectx : ksierrctx_t) (newrec0 subrec0 : tlvrecord_t)
    (stack : Nat → tlvrecord_t) (bs : Option block_sig_t) (der : List Byte)
    (hacc : rsksi_tlvDecodeBLOCK_SIG flag16 rec stack = (rsgte.success, bs))
    (he : api.KSI_extendSignature sig = (KSI_OK, ext))
    (hs : api.KSI_Signature_serialize ext = (KSI_OK, der)) :
    (∃ (i1 i2 : Nat) (n1 n2 : tlvrecord_t),
      rsksi_tlvDecodeSUBREC flag16 rec 0 subrec0 = (rsgte.success, i1, n1) ∧
      rsksi_tlvDecodeSUBREC flag16 rec i1 n1 = (rsgte.success, i2, n2) ∧
      (rsksi_tlvDecodeSUBREC flag16 rec i2 n2).1 = rsgte.len) ∧
    rsksi_extendSig api flag16 sig rec ectx newrec0 subrec0 = (rsgte.len, rec, ectx) :=
  extendSig_blockSig api flag16 sig ext rec ectx newrec0 subrec0 stack bs der hacc he hs

theorem extendSig_after_blockSig_witness :
    rsksi_extendSig sampleApi FLAG_TLV16 (some { der := [0xAA] }) sampleBlockSigRec
        ksierrctx_t.zero tlvrecord_t.zero tlvrecord_t.zero
      = (rsgte.len, sampleBlockSigRec, ksierrctx_t.zero) :=
  (extendSig_after_blockSig sampleApi FLAG_TLV16 (some { der := [0xAA] })
    (some { der := [0xAA] }) sampleBlockSigRec ksierrctx_t.zero tlvrecord_t.zero
    tlvrecord_t.zero (fun _ => tlvrecord_t.zero)
    (some { sigID := SIGID_RFC3161, recCount := 2, der_len := 1, der_data := some [0xAA] })
    [0xAA] (by decide) rfl rfl).2

/-- C36 (zero-length records).  `fread` and `fwrite` of a zero-size item
transfer no item.  (1) When the next octets of the stream are a complete
short-form header whose length octet is 0, or a complete long-form header whose
two length octets are 0, `rsksi_tlvRecRead` returns `RSGTE_EOF` or `RSGTE_IO`
(the code of `feof(fp) ? RSGTE_EOF : RSGTE_IO`), which is not 0.
(2) `rsksi_tlvwrite` returns `RSGTE_IO` for every record with `tlvlen == 0`. -/
theorem zero_length_records :
    (∀ (flag16 : Nat) (fp : FILE) (rec0 : tlvrecord_t) (b0 b1 : Byte) (rest : List Byte),
      fp.content.drop fp.pos = b0 :: b1 :: rest → b0.val &&& flag16 = 0 → b1.val = 0 →
      (rsksi_tlvRecRead flag16 fp rec0).1 = eofOrIo fp ∧
      ((rsksi_tlvRecRead flag16 fp rec0).1 = rsgte.eof ∨
        (rsksi_tlvRecRead flag16 fp rec0).1 = rsgte.io)) ∧
    (∀ (flag16 : Nat) (fp : FILE) (rec0 : tlvrecord_t) (b0 b1 b2 b3 : Byte) (rest : List Byte),
      fp.content.drop fp.pos = b0 :: b1 :: b2 :: b3 :: rest → b0.val &&& flag16 ≠ 0 →
      b2.val = 0 → b3.val = 0 →
      (rsksi_tlvRecRead flag16 fp rec0).1 = eofOrIo fp ∧
      ((rsksi_tlvRecRead flag16 fp rec0).1 = rsgte.eof ∨
        (rsksi_tlvRecRead flag16 fp rec0).1 = rsgte.io)) ∧
    (∀ (o : OFILE) (rec : tlvrecord_t), rec.tlvlen = 0 →
      (rsksi_tlvwrite o rec).1 = rsgte.io) := by
  refine ⟨fun flag16 fp rec0 b0 b1 rest hd hs hl => ?_,
    fun flag16 fp rec0 b0 b1 b2 b3 rest hd hlg h2 h3 => ?_, fun o rec h => tlvwrite_zero o rec h⟩
  · have h := tlvRecRead_zero_short flag16 fp rec0 b0 b1 rest hd hs hl
    exact ⟨h, by rw [h]; exact eofOrIo_cases fp⟩
  · have h := tlvRecRead_zero_long flag16 fp rec0 b0 b1 b2 b3 rest hd hlg ⟨h2, h3⟩
    exact ⟨h, by rw [h]; exact eofOrIo_cases fp⟩

theorem zero_length_records_witness :
    (rsksi_tlvRecRead FLAG_TLV16 { content := [0x02, 0x00, 0x02, 0x01, 0xAA], pos := 0, eof := false }
        tlvrecord_t.zero).1 = rsgte.io ∧
    (rsksi_tlvwrite { content := [], room := 10 }
        { tlvrecord_t.zero with tlvtype := 0x02, hdr0 := 0x02, lenHdr := 2 }).1 = rsgte.io :=
  ⟨((zero_length_records.1 FLAG_TLV16
      { content := [0x02, 0x00, 0x02, 0x01, 0xAA], pos := 0, eof := false } tlvrecord_t.zero
      0x02 0x00 [0x02, 0x01, 0xAA] rfl (by decide) (by decide)).1).trans (by decide),
   zero_length_records.2.2 { content := [], room := 10 }
      { tlvrecord_t.zero with tlvtype := 0x02, hdr0 := 0x02, lenHdr := 2 } rfl⟩

/-- C37 (forest capacity).  `MAX_ROOTS` is positive, the forest is empty (no
valid slot, `nRoots` 0, `MAX_ROOTS` valid flags), and `k` calls of
`rsksi_vrfy_nextRec` (one for each of the `k` records) have returned success.
Then `k < 2 ^ (MAX_ROOTS - 1)` and `nRoots < MAX_ROOTS`, so every slot index
that an append writes (the slots below `nRoots`, and `nRoots` itself) is below
`MAX_ROOTS`.  Append number `k + 1` is not stopped by the assertion when
`k + 1 < 2 ^ (MAX_ROOTS - 1)`.  For `k + 1 = 2 ^ (MAX_ROOTS - 1)` it does not
return success: it can only fail a hash check or be stopped by the assertion,
and it is stopped by the assertion when the verifier checks no hashes. -/
theorem forest_capacity (api : ksiapi) (flag16 debug M shc : Nat)
    (stack : Nat → Nat → Nat → tlvrecord_t) (records : List (List Byte))
    (st st1 : vrfyState) (leaves : List KSI_DataHash)
    (h : vrfyRecords api flag16 debug M shc stack records st = some (st1, leaves))
    (hM : 0 < M) (hv : st.ksi.roots_valid.length = M)
    (hz : ∀ j, st.ksi.roots_valid.getD j 0 = 0) (hn : st.ksi.nRoots = 0) :
    st1.ksi.nRoots < M ∧ records.length < 2 ^ (M - 1) ∧
    (∀ (record : List Byte) (shc1 : Nat) (stk : Nat → Nat → tlvrecord_t),
      (records.length + 1 < 2 ^ (M - 1) →
        rsksi_vrfy_nextRec api flag16 debug M st1 record shc1 stk ≠ none) ∧
      (records.length + 1 = 2 ^ (M - 1) →
        (∀ st2, rsksi_vrfy_nextRec api flag16 debug M st1 record shc1 stk
          ≠ some (rsgte.success, st2)) ∧
        (st1.ksi.bKeepRecordHashes = 0 → st1.ksi.bKeepTreeHashes = 0 →
          rsksi_vrfy_nextRec api flag16 debug M st1 record shc1 stk = none))) :=
  vrfyRecords_capacity api flag16 debug M shc stack records st st1 leaves h hM hv hz hn

theorem forest_capacity_witness :
    rsksi_vrfy_nextRec sampleApi FLAG_TLV16 0 2 sampleSmallRun.1 [0x62] 0
      (fun _ _ => tlvrecord_t.zero) = none :=
  (((forest_capacity sampleApi FLAG_TLV16 0 2 0 (fun _ _ _ => tlvrecord_t.zero) [[0x61]]
    sampleSmallForest sampleSmallRun.1 sampleSmallRun.2 (by decide) (by decide) (by decide)
    (fun j => by
      show ([0, 0] : List Nat).getD j 0 = 0
      rcases j with _ | _ | _ | j <;> rfl)
    (by decide)).2.2 [0x62] 0 (fun _ _ => tlvrecord_t.zero)).2 (by decide)).2 (by decide)
    (by decide)

set_option maxRecDepth 100000 in
/-- C38 (the long-form flag after a conversion), at the failing inputs.  On
every input `rsksi_ConvertSigFile` returns with `RSKSI_FLAG_TLV16_RUNTIME` at
0x20, whatever the flag was on entry: line 1893 sets it to 0x20, line 1997 sets
it to 0x80 for the writes of one converted record, line 2033 sets it back to
0x20, and nothing restores the value of entry at the label `done`.  Entered
with the flag at 0x80, the conversion of an empty stream returns success with
the flag at 0x20, and so does the conversion of a stream that holds one old
block-signature record. -/
theorem ConvertSigFile_flag_not_restored :
    (∀ (api : ksiapi) (flag : Nat) (oldsigfp : FILE) (newsigfp : OFILE)
      (rec0 subrec0 : tlvrecord_t),
      ∃ (r : rsgte) (st1 : convState),
        rsksi_ConvertSigFile api flag oldsigfp newsigfp rec0 subrec0 = some (r, st1) ∧
        st1.flag = 0x20) ∧
    (rsksi_ConvertSigFile sampleApi 0x80 { content := [], pos := 0, eof := false }
        { content := [], room := 1000 } tlvrecord_t.zero tlvrecord_t.zero).map
      (fun x => (x.1, x.2.flag)) = some (rsgte.success, 0x20) ∧
    (rsksi_ConvertSigFile sampleApi 0x80 { content := sampleOldBlockSig, pos := 0, eof := false }
        { content := [], room := 1000 } tlvrecord_t.zero tlvrecord_t.zero).map
      (fun x => (x.1, x.2.flag, x.2.newsigfp.content.length)) = some (rsgte.success, 0x20, 88) :=
  ⟨ConvertSigFile_flag, by decide, by decide⟩

/-- C39 (extractor slots).  (1) When `storehashchain` is not 1, every call of
`rsksi_vrfy_nextRec` that returns leaves `x_prevleft` and `x_prevright` as they
were.  (2) When `storehashchain` is 1 and the call returns success, `x_prevleft`
is the imprint (made by `rsksiImprintFromKSI_DataHash` in the state of entry) of
the mask hash `m` of the record; `x_prevright` is unchanged if the append
combined no forest root, and otherwise it is the imprint (made in a state with
the same hash algorithm) of the root in the highest slot combined, which is
slot `carries - 1`. -/
theorem vrfy_nextRec_extractor_slots (api : ksiapi) (flag16 debug M : Nat) (st : vrfyState)
    (record : List Byte) (stack : Nat → Nat → tlvrecord_t) :
    (∀ (shc : Nat) (r : rsgte) (st1 : vrfyState), shc ≠ 1 →
      rsksi_vrfy_nextRec api flag16 debug M st record shc stack = some (r, st1) →
      st1.ksi.x_prevleft = st.ksi.x_prevleft ∧ st1.ksi.x_prevright = st.ksi.x_prevright) ∧
    (∀ st1 : vrfyState,
      rsksi_vrfy_nextRec api flag16 debug M st record 1 stack = some (rsgte.success, st1) →
      st1.ksi.x_prevleft
        = api.rsksiImprintFromKSI_DataHash st.ksi (some (api.hash_m_ksi st.ksi)) ∧
      (carries st.ksi = 0 → st1.ksi.x_prevright = st.ksi.x_prevright) ∧
      (carries st.ksi ≠ 0 →
        ∃ k : ksifile, k.hashAlg = st.ksi.hashAlg ∧
          st1.ksi.x_prevright = api.rsksiImprintFromKSI_DataHash k
            (st.ksi.roots_hash.getD (carries st.ksi - 1) none))) := by
  refine ⟨fun shc r st1 hs h => vrfy_nextRec_prev_other h hs, fun st1 h => ?_⟩
  obtain ⟨a, -, c, d⟩ := vrfy_nextRec_prev_chain h
  exact ⟨a, c, d⟩

theorem vrfy_nextRec_extractor_slots_witness :
    sampleExtractFirst.ksi.x_prevleft = none ∧
    sampleExtractSecond.ksi.x_prevleft
      = sampleApi.rsksiImprintFromKSI_DataHash sampleExtractFirst.ksi
          (some (sampleApi.hash_m_ksi sampleExtractFirst.ksi)) :=
  ⟨((vrfy_nextRec_extractor_slots sampleApi FLAG_TLV16 0 4 sampleExtractStart [0x61]
      (fun _ _ => tlvrecord_t.zero)).1 0 rsgte.success sampleExtractFirst (by decide)
      (by decide)).1,
   ((vrfy_nextRec_extractor_slots sampleApi FLAG_TLV16 0 4 sampleExtractFirst [0x62]
      (fun _ _ => tlvrecord_t.zero)).2 sampleExtractSecond (by decide)).1⟩

end Rsksi
